import Mathlib

/-!
# MagnetoSuture: closed-loop navigation controller

A shallow embedding of the navigation core of `MagnetoGUI_v0_03`:

* `point.h`: `Point`, `PathPtStruct`, `Point::computeEuclideanDist`;
* `controlmodule.cpp`: `ControlModule` with `setup_PathTraversal`, `discretize_Path`,
  `allow_NextTranslation`, `get_OperationProgress`, `reset_Data`;
* `ImageSegmentation.cpp`: `map_ToTrueCoordinates`, `unmap_FromTrueCoordinates`, and the
  calibration: `find_CoilsAruco`, `calibrate_CoilLocations`, `calibrate_Origin`,
  `calculate_DistancePerPixelAndFOV`, `reset_Calibration`, and the detection of the
  particle: `detect_Particle`, `receive_ParticleDetectionParams`;
* `Physics.cpp`: `set_Boost`, the four coil networks, `computeNextCommand_NN`, and the
  hardware dispatch: `moveRoboX`, `moveRoboY`, `motorsAvailable`, `translateParticle`.

Conventions of the embedding.

* C++ `double` is read as a real number (`ℝ`): `sqrt`, `cos`, `sin`, `tanh` are the real
  functions, `pow(x, 2.0)` is `x ^ 2`.  Rounding, NaN and infinities are outside the model.
* C++ `int` is `Int` (no wrap-around is modelled: signed overflow is undefined in C++).
* Qt signals emitted by a call are returned by the call as a list of `Signal`, in the order
  of emission.
* `std::vector::at` throws `std::out_of_range`; a call that throws is `Except.error
  Fault.out_of_range`.  The loops of `discretize_Path`, which need not terminate, take a
  fuel argument and give `Fault.out_of_fuel` when it runs out.
* The external libraries (the Roboclaw motor controllers, OpenCV) are parameters: what a
  controller answers to a command, the coil points that OpenCV finds in a frame, and
  the contours and bounding boxes that it finds for the detection of the particle.
-/

namespace MagnetoSuture

noncomputable section

/-! ## point.h -/

/-- The class `Point` of point.h (a `QPointF`): two `double` coordinates. -/
structure Point where
  x : ℝ
  y : ℝ

/-- Translation of `Point::computeEuclideanDist`:
`sqrt(pow((p1.x() - p2.x()), 2.0) + pow((p1.y() - p2.y()), 2.0))`. -/
def Point.computeEuclideanDist (p1 p2 : Point) : ℝ :=
  Real.sqrt ((p1.x - p2.x) ^ 2 + (p1.y - p2.y) ^ 2)

/-- The struct `PathPtStruct` of point.h; `isCheckpoint` has the default member
initialiser `false`. -/
structure PathPtStruct where
  pixelScreen : Point
  pixelNative : Point
  physical : Point
  isCheckpoint : Bool := false

/-- A `PathPointMarker` as far as the controller reads it: its public `data`.  The only
constructor (pathpointmarker.cpp, line 41) sets `data->isCheckpoint = true`, and no other
line of the repository writes that flag. -/
structure PathPointMarker where
  data : PathPtStruct
  isCheckpoint_data : data.isCheckpoint = true

/-! ## Results of a call -/

/-- Why a call produced no result. -/
inductive Fault where
  | out_of_range
  | out_of_fuel
  deriving DecidableEq

/-- The texts sent through `send_OperationLogMsg` by the control module. -/
inductive LogMsg where
  | pathNotDrawn
  | invalidDeviationTolerance (value : ℝ)
  | invalidInterpolationDistance (value : ℝ)
  | operationComplete
  | repeatedlyUnsuccessful

/-- The signals of `ControlModule` (ControlModule.h, lines 66 to 75). -/
inductive Signal where
  | send_OperationLogMsg (msg : LogMsg)
  | send_CheckpointPassed (checkpointIndex : Int)
  | send_StopOpPrompt

/-- Translation of `std::vector::at` called with an `int` cast to `unsigned long long`: a
negative index becomes a huge one and throws like any index past the end. -/
def vectorAt {α : Type} (v : List α) (i : Int) : Except Fault α :=
  if 0 ≤ i then
    match v[i.toNat]? with
    | some a => Except.ok a
    | none => Except.error Fault.out_of_range
  else Except.error Fault.out_of_range

/-! ## controlmodule.cpp -/

/-- The private members of `ControlModule` (ControlModule.h, lines 49 to 61). -/
structure ControlModule where
  deliveryPath : List PathPtStruct
  targetPathPtData : PathPtStruct
  currentPathCheckpoint : Int
  targetPathPtIndex : Int
  retryCounter : Int
  totalNumPathPts : Int
  interpolationDistance : ℝ
  deviationTolerance : ℝ
  actualDeviation : ℝ
  totalPathDistance : ℝ
  remainingPathDistance : ℝ

/-- The point assigned to `intermediatePt` in `discretize_Path` (lines 96 to 103): the
midpoint in the three coordinate representations; its `isCheckpoint` is never assigned and
keeps the default `false`. -/
def intermediatePt (currentPt previousPt : PathPtStruct) : PathPtStruct :=
  { pixelScreen := ⟨(currentPt.pixelScreen.x + previousPt.pixelScreen.x) / 2,
                    (currentPt.pixelScreen.y + previousPt.pixelScreen.y) / 2⟩
    pixelNative := ⟨(currentPt.pixelNative.x + previousPt.pixelNative.x) / 2,
                    (currentPt.pixelNative.y + previousPt.pixelNative.y) / 2⟩
    physical := ⟨(currentPt.physical.x + previousPt.physical.x) / 2,
                 (currentPt.physical.y + previousPt.physical.y) / 2⟩
    isCheckpoint := false }

/-- The `for` loop of `discretize_Path` (lines 88 to 109), entered at index `i` with the
current `deliveryPath`, `totalNumPathPts` and `fullyDiscretized`; one unit of fuel per
evaluation of the loop condition.  After an insertion the source does `i -= 1` and the
loop header `i++`, so the next iteration runs at the same `i`. -/
def discretize_For (interpolationDistance : ℝ) :
    Nat → List PathPtStruct → Int → Int → Bool →
      Except Fault (List PathPtStruct × Int × Bool)
  | 0, _, _, _, _ => Except.error Fault.out_of_fuel
  | fuel + 1, deliveryPath, i, totalNumPathPts, fullyDiscretized =>
    if i < totalNumPathPts then
      match vectorAt deliveryPath i, vectorAt deliveryPath (i - 1) with
      | Except.ok currentPt, Except.ok previousPt =>
        if Point.computeEuclideanDist currentPt.physical previousPt.physical
            > interpolationDistance then
          discretize_For interpolationDistance fuel
            (deliveryPath.insertIdx i.toNat (intermediatePt currentPt previousPt))
            (i - 1 + 1) (totalNumPathPts + 1) false
        else
          discretize_For interpolationDistance fuel deliveryPath (i + 1) totalNumPathPts
            fullyDiscretized
      | _, _ => Except.error Fault.out_of_range
    else Except.ok (deliveryPath, totalNumPathPts, fullyDiscretized)

/-- The `do ... while (!fullyDiscretized)` loop of `discretize_Path` (lines 85 to 111); one
unit of fuel per pass, and each pass hands its remaining fuel to the `for` loop. -/
def discretize_DoWhile (interpolationDistance : ℝ) :
    Nat → List PathPtStruct → Int → Except Fault (List PathPtStruct × Int)
  | 0, _, _ => Except.error Fault.out_of_fuel
  | fuel + 1, deliveryPath, totalNumPathPts =>
    match discretize_For interpolationDistance fuel deliveryPath 1 totalNumPathPts true with
    | Except.error e => Except.error e
    | Except.ok (deliveryPath', totalNumPathPts', fullyDiscretized) =>
      if fullyDiscretized then Except.ok (deliveryPath', totalNumPathPts')
      else discretize_DoWhile interpolationDistance fuel deliveryPath' totalNumPathPts'

/-- Translation of `ControlModule::discretize_Path` (lines 69 to 112). -/
def ControlModule.discretize_Path (fuel : Nat) (s : ControlModule) :
    Except Fault ControlModule :=
  match discretize_DoWhile s.interpolationDistance fuel s.deliveryPath
      (s.deliveryPath.length : Int) with
  | Except.error e => Except.error e
  | Except.ok (deliveryPath', totalNumPathPts') =>
    Except.ok { s with deliveryPath := deliveryPath', totalNumPathPts := totalNumPathPts' }

/-- The `for` loop of `setup_PathTraversal` (lines 44 to 46), entered at index `i`:
`deliveryPath.push_back(*pathCheckPoints.at(i)->data)` while `i < pathCheckPoints.size()`.
A negative `i` makes `at` throw. -/
def setup_For (pathCheckPoints : List PathPointMarker) (i : Int)
    (deliveryPath : List PathPtStruct) : Except Fault (List PathPtStruct) :=
  if i < (pathCheckPoints.length : Int) then
    match vectorAt pathCheckPoints i with
    | Except.ok marker => setup_For pathCheckPoints (i + 1) (deliveryPath ++ [marker.data])
    | Except.error e => Except.error e
  else Except.ok deliveryPath
termination_by ((pathCheckPoints.length : Int) - i).toNat
decreasing_by omega

/-- Translation of `ControlModule::setup_PathTraversal` (lines 18 to 62).  The result is
the returned `bool`, the state after the call and the signals emitted; `fuel` is the fuel
of the call of `discretize_Path` on line 60. -/
def ControlModule.setup_PathTraversal (fuel : Nat) (s : ControlModule)
    (pathCheckPoints : List PathPointMarker)
    (totalPathDistance deviationTolerance interpolationDistance : ℝ) :
    Except Fault (Bool × ControlModule × List Signal) :=
  if (pathCheckPoints.length : Int) = 0 then
    Except.ok (false, s, [Signal.send_OperationLogMsg LogMsg.pathNotDrawn])
  else if deviationTolerance ≤ 0 then
    Except.ok (false, s,
      [Signal.send_OperationLogMsg (LogMsg.invalidDeviationTolerance deviationTolerance)])
  else if interpolationDistance ≤ 0 then
    Except.ok (false, s,
      [Signal.send_OperationLogMsg (LogMsg.invalidInterpolationDistance interpolationDistance)])
  else
    let s1 : ControlModule :=
      { s with deviationTolerance := deviationTolerance
               interpolationDistance := interpolationDistance }
    -- if (!deliveryPath.empty()) {deliveryPath.clear();}
    let s2 : ControlModule := { s1 with deliveryPath := [] }
    match setup_For pathCheckPoints s2.currentPathCheckpoint s2.deliveryPath with
    | Except.error e => Except.error e
    | Except.ok deliveryPath =>
      let s3 : ControlModule := { s2 with deliveryPath := deliveryPath }
      match vectorAt s3.deliveryPath 0 with
      | Except.error e => Except.error e
      | Except.ok first =>
        let s4 : ControlModule :=
          { s3 with targetPathPtData := first
                    targetPathPtIndex := 0
                    totalPathDistance := totalPathDistance
                    remainingPathDistance :=
                      if s3.remainingPathDistance = 0 then totalPathDistance
                      else s3.remainingPathDistance
                    retryCounter := 0 }
        match s4.discretize_Path fuel with
        | Except.error e => Except.error e
        | Except.ok s5 => Except.ok (true, s5, [])

/-- The branch of `allow_NextTranslation` taken when the particle is within tolerance of a
target that is not the final one (lines 132 to 151): the state after it and the signals
it emits. -/
def ControlModule.advanceTarget (s : ControlModule) :
    Except Fault (ControlModule × List Signal) :=
  let passed : ControlModule × List Signal :=
    if s.targetPathPtData.isCheckpoint then
      ({ s with currentPathCheckpoint := s.currentPathCheckpoint + 1 },
        [Signal.send_CheckpointPassed s.currentPathCheckpoint])
    else (s, [])
  let s1 : ControlModule :=
    { passed.1 with targetPathPtIndex := passed.1.targetPathPtIndex + 1 }
  match vectorAt s1.deliveryPath s1.targetPathPtIndex with
  | Except.error e => Except.error e
  | Except.ok target =>
    let s2 : ControlModule := { s1 with targetPathPtData := target }
    match vectorAt s2.deliveryPath (s2.targetPathPtIndex - 1) with
    | Except.error e => Except.error e
    | Except.ok before =>
      let remaining : ℝ := s2.remainingPathDistance
        - Point.computeEuclideanDist s2.targetPathPtData.physical before.physical
      Except.ok
        ({ s2 with remainingPathDistance := if remaining < 0 then 0 else remaining
                   retryCounter := 0 },
          passed.2)

/-- Translation of `ControlModule::allow_NextTranslation` (lines 119 to 166).  The result
is the returned `bool`, the state after the call and the signals emitted, in order. -/
def ControlModule.allow_NextTranslation (s : ControlModule) (particleLoc : Point) :
    Except Fault (Bool × ControlModule × List Signal) :=
  let s1 : ControlModule :=
    { s with actualDeviation :=
        Point.computeEuclideanDist particleLoc s.targetPathPtData.physical }
  if s1.totalNumPathPts - s1.targetPathPtIndex - 1 ≤ 0
      ∧ s1.actualDeviation ≤ s1.deviationTolerance then
    Except.ok (false, s1,
      [Signal.send_StopOpPrompt, Signal.send_OperationLogMsg LogMsg.operationComplete])
  else
    let updated : Except Fault (ControlModule × List Signal) :=
      if s1.actualDeviation ≤ s1.deviationTolerance then s1.advanceTarget
      else Except.ok ({ s1 with retryCounter := s1.retryCounter + 1 }, [])
    match updated with
    | Except.error e => Except.error e
    | Except.ok (s2, signals) =>
      if s2.retryCounter ≥ 40 then
        Except.ok (false, s2,
          signals ++ [Signal.send_StopOpPrompt,
            Signal.send_OperationLogMsg LogMsg.repeatedlyUnsuccessful])
      else Except.ok (true, s2, signals)

/-- Translation of `ControlModule::get_OperationProgress` (lines 199 to 201).  In the
source a zero `totalPathDistance` gives an infinity or a NaN; here `x / 0 = 0`. -/
def ControlModule.get_OperationProgress (s : ControlModule) : ℝ :=
  100 * (1.0 - (s.remainingPathDistance / s.totalPathDistance))

/-- Translation of `ControlModule::reset_Data` (lines 208 to 220); `targetPathPtData` is
not touched. -/
def ControlModule.reset_Data (s : ControlModule) : ControlModule :=
  { s with deliveryPath := []
           currentPathCheckpoint := 0
           targetPathPtIndex := 0
           retryCounter := 0
           totalNumPathPts := 0
           interpolationDistance := 0.0
           deviationTolerance := 0.0
           actualDeviation := 0.0
           totalPathDistance := 0.0
           remainingPathDistance := 0.0 }

/-- A `ControlModule` as its constructor leaves it (the default member initialisers of
ControlModule.h, lines 49 to 61). -/
def ControlModule.init : ControlModule :=
  { deliveryPath := []
    targetPathPtData := ⟨⟨0, 0⟩, ⟨0, 0⟩, ⟨0, 0⟩, false⟩
    currentPathCheckpoint := 0
    targetPathPtIndex := 0
    retryCounter := 0
    totalNumPathPts := 0
    interpolationDistance := 0.0
    deviationTolerance := 0.0
    actualDeviation := 0.0
    totalPathDistance := 0.0
    remainingPathDistance := 0.0 }

/-- The control loop of `MainWindow::execute_TranslationCommand` as far as the control
module sees it: one call of `allow_NextTranslation` per tick, with the particle locations
`locs` in turn (also after a call has returned `false`).  The result is the final state
and, per tick, the returned `bool` with the signals of that call. -/
def ControlModule.ticks (s : ControlModule) :
    List Point → Except Fault (ControlModule × List (Bool × List Signal))
  | [] => Except.ok (s, [])
  | particleLoc :: locs =>
    match s.allow_NextTranslation particleLoc with
    | Except.error e => Except.error e
    | Except.ok (proceed, s', signals) =>
      match ControlModule.ticks s' locs with
      | Except.error e => Except.error e
      | Except.ok (s'', results) => Except.ok (s'', (proceed, signals) :: results)

/-! ## ImageSegmentation.cpp -/

/-- An OpenCV `cv::Point`: two `int` coordinates. -/
structure CvPoint where
  x : Int
  y : Int

/-- The members of `ImageSegmentation` that the coordinate mapping reads
(ImageSegmentation.h, lines 51, 60 and 64). -/
structure ImageSegmentation where
  origin : CvPoint
  calibrated : Bool
  angle_XAxis : ℝ

/-- The texts sent through `send_OperationLogMsg` by the coordinate mapping. -/
inductive MapLogMsg where
  | cannotMap
  | cannotUnmap

/-- Translation of `ImageSegmentation::map_ToTrueCoordinates` (lines 494 to 507): the
returned point and the log messages emitted.  Uncalibrated, it returns `cv::Point()`,
which is `(0, 0)`. -/
def ImageSegmentation.map_ToTrueCoordinates (s : ImageSegmentation) (unmappedPt : Point) :
    Point × List MapLogMsg :=
  if ¬ s.calibrated then (⟨0, 0⟩, [MapLogMsg.cannotMap])
  else
    let xPos_FromOrigin : ℝ := unmappedPt.x - s.origin.x
    let yPos_FromOrigin : ℝ := s.origin.y - unmappedPt.y
    let xPos_True : ℝ := xPos_FromOrigin * Real.cos s.angle_XAxis
      + yPos_FromOrigin * Real.sin s.angle_XAxis
    let yPos_True : ℝ := -xPos_FromOrigin * Real.sin s.angle_XAxis
      + yPos_FromOrigin * Real.cos s.angle_XAxis
    (⟨xPos_True, yPos_True⟩, [])

/-- Translation of `ImageSegmentation::unmap_FromTrueCoordinates` (lines 514 to 527). -/
def ImageSegmentation.unmap_FromTrueCoordinates (s : ImageSegmentation) (mappedPt : Point) :
    Point × List MapLogMsg :=
  if ¬ s.calibrated then (⟨0, 0⟩, [MapLogMsg.cannotUnmap])
  else
    let yPos_FromOrigin : ℝ := mappedPt.y * Real.cos s.angle_XAxis
      + mappedPt.x * Real.sin s.angle_XAxis
    let yPos_Image : ℝ := s.origin.y - yPos_FromOrigin
    let xPos_FromOrigin : ℝ := mappedPt.x * Real.cos s.angle_XAxis
      - mappedPt.y * Real.sin s.angle_XAxis
    let xPos_Image : ℝ := xPos_FromOrigin + s.origin.x
    (⟨xPos_Image, yPos_Image⟩, [])

/-! ## Physics.cpp -/

/-- The members of `Physics` that the actuation model reads and writes (Physics.h, lines
71 to 90), with their default member initialisers in `Physics.init`. -/
structure Physics where
  previousLoc : Point
  xDirectioninNeedOfBoost : String
  yDirectioninNeedOfBoost : String
  coilLocs : List Point
  commandArray : List Int
  boost_X : Int
  boost_Y : Int

/-- A `Physics` object as its constructors leave these members. -/
def Physics.init : Physics :=
  { previousLoc := ⟨-1, -1⟩
    xDirectioninNeedOfBoost := ""
    yDirectioninNeedOfBoost := ""
    coilLocs := []
    commandArray := [0, 0, 0, 0, 0, 0, 0, 0]
    boost_X := 0
    boost_Y := 0 }

/-- Translation of `Physics::setCoilLocs` (Physics.h, lines 186 to 188). -/
def Physics.setCoilLocs (s : Physics) (inputCoilLocs : List Point) : Physics :=
  { s with coilLocs := inputCoilLocs }

/-- Translation of `static_cast<int>` applied to a `double`: truncation toward zero. -/
def static_cast_int (v : ℝ) : Int :=
  if 0 ≤ v then ⌊v⌋ else ⌈v⌉

/-- Z-score constants of the four coils (Physics.h, lines 103 to 113). -/
def mean_XPlus : ℝ := 4.56106731428571
/-- See `mean_XPlus`. -/
def std_XPlus : ℝ := 14.6950071736071
/-- See `mean_XPlus`. -/
def mean_XMinus : ℝ := 9.47650655999994
/-- See `mean_XPlus`. -/
def std_XMinus : ℝ := 13.6815392879361
/-- See `mean_XPlus`. -/
def mean_YMinus : ℝ := 7.67926666666665
/-- See `mean_XPlus`. -/
def std_YMinus : ℝ := 12.6400463717554
/-- See `mean_XPlus`. -/
def mean_YPlus : ℝ := 4.36931255999999
/-- See `mean_XPlus`. -/
def std_YPlus : ℝ := 15.8091511002263

/-- The input weight matrix `W_I_XPlus` (10 rows of 5), as both constructors fill it. -/
def W_I_XPlus : List (List ℝ) :=
  [[-10.0072329209466, 6.45961981517493, 6.00950327985644, 5.99713897195693, -2.96668932147861],
   [31.9783667308638, -20.5550488832418, -48.3028921016451, 20.3941040224823, -16.2661185707276],
   [-19.9268238559750, 0.213538971710742, 16.5277403449790, 0.381798806637307, -0.394249007691107],
   [-11.1886848742689, -17.6343967857119, 6.78246245563282, -7.89701857279568, 10.2804772878987],
   [98.2077941548112, 111.665359478789, -34.5985782373730, -117.841853723082, -10.6408815189047],
   [-29.1035387607019, -6.97997327030342, -23.4500329495352, -9.63062781977193, 53.5774683633284],
   [-3.60393086248888, 10.5037734933914, -33.9959081704081, -11.8861542339878, -50.4471905960175],
   [-6.30037568443597, -2.63317467283980, 4.92120635281714, 2.78828487258481, -3.62265203361961],
   [17.1205444120117, -2.92964240311554, 6.26270954710731, 3.82606753788165, 18.7434771678560],
   [64.3540209647780, -38.2520434459882, 2.02601606618781, 10.5275626633884, 63.3194850577598]]

/-- The output weight row `W_HO_XPlus`. -/
def W_HO_XPlus : List ℝ :=
  [-4.47372110640185, -7.58799950280784, 13.3695849061267, -12.7340846842078, -8.66503516945277,
   35.0358521114079, -7.25208250979585, -13.3644095443510, 10.9398381660345, 3.90039171763157]

/-- The hidden-layer bias column `B_IH_XPlus`. -/
def B_IH_XPlus : List ℝ :=
  [-6.59047344633670, 20.6911421987972, -2.18141122961065, -2.89217820536681, 71.8020301076051,
   18.3152992947197, 72.5709736960152, 3.52656864572941, -25.6401970676584, -74.9152245144038]

/-- The output bias `B_HO_XPlus`. -/
def B_HO_XPlus : ℝ := 8.18620914518664

/-- The input weight matrix `W_I_XMinus` (10 rows of 5), as both constructors fill it. -/
def W_I_XMinus : List (List ℝ) :=
  [[-0.104567263820039, -1.67201600247932, 0.0956241175170325, -3.57233018138466, 5.06627697978426],
   [-0.0252595442203610, 6.74613628979724, 3.66721357401703, 4.59133818253040, -3.87142913342108],
   [-2.97750636266090, -0.109420236935314, 12.5532252666635, 2.03577742721907, -12.5817006060229],
   [-14.4882140102667, -9.53251512163983, 25.9808609122040, 9.54459492590719, -10.4143380092625],
   [-64.5192719930261, -56.8102828122074, 40.2208891085252, 39.5650386681443, -79.6435275797638],
   [-2.22815068593308, -0.170131439525163, 12.5748342392406, -5.63645990353431, -7.78528861267621],
   [-13.8118932471227, 6.17019958695816, 6.75254229628310, -5.99235013219578, 4.35311110534989],
   [-0.445432824636306, 6.01791064835767, -3.33789090212738, 7.72218667948090, -17.2397591318276],
   [0.941621800688702, 9.46241987071681, 0.0304155147431984, 9.96042122308498, -32.6895279544472],
   [-12.8375798294969, 8.48517582365008, 7.89518945680643, -8.57036826659216, 2.79593857352266]]

/-- The output weight row `W_HO_XMinus`. -/
def W_HO_XMinus : List ℝ :=
  [7.68535050255491, -3.30575998668349, -12.8943719848503, -16.5287397317440, -0.408825695631219,
   16.1392526433930, -57.6457303364764, -15.4232937884118, 17.7753760724261, 42.8408314019056]

/-- The hidden-layer bias column `B_IH_XMinus`. -/
def B_IH_XMinus : List ℝ :=
  [9.65811724965417, -0.447630813611959, -2.04161967949849, 21.6332667291042, 86.7116392780810,
   -5.74944021762798, -8.44980945732208, -5.45937913597017, -15.4112605734887, -4.36927500446279]

/-- The output bias `B_HO_XMinus`. -/
def B_HO_XMinus : ℝ := 9.10689246604076

/-- The input weight matrix `W_I_YMinus` (10 rows of 5), as both constructors fill it. -/
def W_I_YMinus : List (List ℝ) :=
  [[-1.53671532511793, 2.84563096966466, -0.164708133759789, 1.21939103714500, 9.15439718004281],
   [4.70099857643987, 6.20633650702055, -5.14094512881679, -5.28228627547089, 0.584182836423060],
   [0.538618037915664, -1.61925515000016, 4.56166942871436, 8.58506414848194, -7.38067282423193],
   [-3.06224055114101, -21.3330451344241, 1.81681089191324, 3.24868076343525, 13.0664440996960],
   [13.1160182330450, 1.05502203505818, -14.2668453471173, -3.09320644748330, -1.90173337945477],
   [-5.60962330311280, -10.4449702975363, 8.14530194565485, 3.23343812014166, 4.50932731533645],
   [0.511222826941135, 1.49163380368437, -0.686828115828473, -3.42157319789922, 4.52406221020561],
   [0.710638858586224, -23.5914927967346, -0.516576730482275, 20.9586700545040, 3.60905034366893],
   [2.37890513735993, -10.6040429182623, 4.84021042935092, -10.3146900307570, 10.1407117355226],
   [1.00910626906626, 0.186356950322858, 0.809415913652285, -0.755919698727421, 0.438530516329789]]

/-- The output weight row `W_HO_YMinus`. -/
def W_HO_YMinus : List ℝ :=
  [8.32302537743211, 17.5182082657585, 2.13698527045327, -18.9266387696311, -6.07400567020675,
   0.190083951986220, 4.38779360011961, -12.1647798225087, -0.412154283058505, 9.81280515360629]

/-- The hidden-layer bias column `B_IH_YMinus`. -/
def B_IH_YMinus : List ℝ :=
  [1.03007161719977, -1.79143532756681, -6.54189208917923, -27.5774189266603, -0.753252934184779,
   -8.61701101049892, 8.92951189091131, -6.37257244879880, 7.86398489897500, 9.10313931404435]

/-- The output bias `B_HO_YMinus`. -/
def B_HO_YMinus : ℝ := 14.7466728096038

/-- The input weight matrix `W_I_YPlus` (10 rows of 5), as both constructors fill it. -/
def W_I_YPlus : List (List ℝ) :=
  [[-3.69815671518051, 2.96616622177505, -1.10070059273999, 3.29336179619065, 13.8847070800275],
   [-1.85589936495146, 61.9631256728095, 2.45308488244810, -60.5523990148704, -1.05648954500539],
   [2.90665419432043, -10.1958489577114, -0.540045180378358, -2.18765646157206, 16.7537805056013],
   [-16.0844479413510, 0.313760966556854, -12.3834370495581, -14.0779358536358, 11.0900237310057],
   [-4.11789729188376, -0.173525104391563, -7.61757607230936, -5.56299450689437, 4.85956335400442],
   [1.22561531902346, -7.40233379523651, -0.569849468015292, 4.30182581233177, -5.31797672874703],
   [9.15102176799354, -26.2582650202954, -9.34883124331713, 18.2953764726282, -0.291835426913627],
   [1.34320756848034, -7.97201444829793, -4.44006637114823, 7.20380837228370, 23.0513083494877],
   [0.731824281825986, -0.399190952014102, 2.04458001301020, -1.71747484883555, 2.30029336068137],
   [-13.9689101681997, 23.6059727142377, -11.5786738976342, 34.3349320468021, 28.8593355800426]]

/-- The output weight row `W_HO_YPlus`. -/
def W_HO_YPlus : List ℝ :=
  [18.9018052016238, -14.4606734119977, 1.42221914167345, -2.71999341980663, 3.30157387099858,
   -19.0380944996092, 18.0705074972269, -1.33867918301334, -0.517245961794046, -2.89443600728884]

/-- The hidden-layer bias column `B_IH_YPlus`. -/
def B_IH_YPlus : List ℝ :=
  [22.0072085991892, 5.17244915738741, 10.9808556287992, -13.3584119697046, 2.43063379042153,
   5.35983858509506, -5.92252816034240, 20.8729398264778, 7.92334600987591, -29.2202354004244]

/-- The output bias `B_HO_YPlus`. -/
def B_HO_YPlus : ℝ := 4.09488038895835
/-- Translation of `Physics::norm` (lines 687 to 697): the normalised 5 by 1 input. -/
def Physics.norm (init_X init_Y final_X final_Y dist_to_coil mean std : ℝ) : List ℝ :=
  [(init_X - mean) / std, (init_Y - mean) / std, (final_X - mean) / std,
   (final_Y - mean) / std, (dist_to_coil - mean) / std]

/-- The product of a row with a column. -/
def dotProduct (row column : List ℝ) : ℝ :=
  (List.zipWith (fun a b => a * b) row column).sum

/-- The network shared by the four `move...` functions (lines 703 to 772):
`output = B_HO + W_HO * tanh(B_IH + W_I * input)`, read at `output(0, 0)`. -/
def networkOutput (W_I : List (List ℝ)) (B_IH W_HO : List ℝ) (B_HO : ℝ)
    (input : List ℝ) : ℝ :=
  let O_H : List ℝ :=
    (List.zipWith (fun row bias => dotProduct row input + bias) W_I B_IH).map Real.tanh
  dotProduct W_HO O_H + B_HO

/-- Translation of `Physics::movePlusX` (lines 703 to 716). -/
def Physics.movePlusX (init_X init_Y final_X final_Y dist_to_PlusX : ℝ) : Int :=
  static_cast_int (networkOutput W_I_XPlus B_IH_XPlus W_HO_XPlus B_HO_XPlus
    (Physics.norm init_X init_Y final_X final_Y dist_to_PlusX mean_XPlus std_XPlus))

/-- Translation of `Physics::moveMinusX` (lines 722 to 734). -/
def Physics.moveMinusX (init_X init_Y final_X final_Y dist_to_PlusX : ℝ) : Int :=
  static_cast_int (networkOutput W_I_XMinus B_IH_XMinus W_HO_XMinus B_HO_XMinus
    (Physics.norm init_X init_Y final_X final_Y dist_to_PlusX mean_XMinus std_XMinus))

/-- Translation of `Physics::moveMinusY` (lines 740 to 752). -/
def Physics.moveMinusY (init_X init_Y final_X final_Y dist_to_PlusX : ℝ) : Int :=
  static_cast_int (networkOutput W_I_YMinus B_IH_YMinus W_HO_YMinus B_HO_YMinus
    (Physics.norm init_X init_Y final_X final_Y dist_to_PlusX mean_YMinus std_YMinus))

/-- Translation of `Physics::movePlusY` (lines 759 to 772). -/
def Physics.movePlusY (init_X init_Y final_X final_Y dist_to_PlusX : ℝ) : Int :=
  static_cast_int (networkOutput W_I_YPlus B_IH_YPlus W_HO_YPlus B_HO_YPlus
    (Physics.norm init_X init_Y final_X final_Y dist_to_PlusX mean_YPlus std_YPlus))

/-- Translation of `coilLocs[k]`.  `operator[]` past the end is undefined in C++; the
model then reads `(0, 0)`, and no theorem depends on that value. -/
def Physics.coilLoc (s : Physics) (k : Nat) : Point :=
  s.coilLocs.getD k ⟨0, 0⟩

/-- Lines 797 and 798 of `set_Boost`: the X direction that may need a boost. -/
def Physics.chooseXDirection (s : Physics) (distanceToTravel_inX : ℝ) : Physics :=
  if distanceToTravel_inX > 0 then { s with xDirectioninNeedOfBoost := "+X" }
  else if distanceToTravel_inX < 0 then { s with xDirectioninNeedOfBoost := "-X" }
  else s

/-- Lines 800 and 801 of `set_Boost`: the Y direction that may need a boost. -/
def Physics.chooseYDirection (s : Physics) (distanceToTravel_inY : ℝ) : Physics :=
  if distanceToTravel_inY > 0 then { s with yDirectioninNeedOfBoost := "+Y" }
  else if distanceToTravel_inY < 0 then { s with yDirectioninNeedOfBoost := "-Y" }
  else s

/-- Translation of `Physics::set_Boost` (lines 778 to 839).  `previousLoc == Point(-1,-1)`
is Qt's comparison of two `QPointF`, read here as equality of the coordinates; `abs` is
the absolute value of a `double`. -/
def Physics.set_Boost (s : Physics) (currentLoc targetLoc : Point) : Physics :=
  if s.previousLoc.x = -1 ∧ s.previousLoc.y = -1 then
    { s with previousLoc := currentLoc, boost_X := 0, boost_Y := 0 }
  else
    let distanceTraveled_inX : ℝ := |s.previousLoc.y - currentLoc.y|
    let distanceTraveled_inY : ℝ := |s.previousLoc.x - currentLoc.x|
    let distanceToTravel_inX : ℝ := targetLoc.x - currentLoc.x
    let distanceToTravel_inY : ℝ := targetLoc.y - currentLoc.y
    let s1 : Physics := s.chooseXDirection distanceToTravel_inX
    let s2 : Physics := s1.chooseYDirection distanceToTravel_inY
    let s3 : Physics :=
      if |distanceToTravel_inX| ≥ 1.5 ∧ distanceTraveled_inX ≤ 0.2 then
        { s2 with boost_X := s2.boost_X + 3 }
      else { s2 with boost_X := 0, xDirectioninNeedOfBoost := "" }
    let s4 : Physics :=
      if |distanceToTravel_inY| ≥ 1.5 ∧ distanceTraveled_inY ≤ 0.2 then
        { s3 with boost_Y := s3.boost_Y + 3 }
      else { s3 with boost_Y := 0, yDirectioninNeedOfBoost := "" }
    let s5 : Physics :=
      if distanceTraveled_inX ≤ 0.1 ∧ distanceToTravel_inX ≥ 0.5
          ∧ distanceTraveled_inY ≤ 0.1 ∧ distanceToTravel_inY ≥ 0.5 then
        { s4 with boost_X := 3, boost_Y := 3 }
      else s4
    { s5 with previousLoc := currentLoc }

/-- The X half of `computeNextCommand_NN` (lines 606 to 637): current scale and duration
of the plus X coil, then of the minus X coil. -/
def Physics.commandX (s : Physics) (currentLoc nextLoc : Point) : Int × Int × Int × Int :=
  let xDistanceToTravel : ℝ := nextLoc.x - currentLoc.x
  let minCurrentScale : Int := 7
  if xDistanceToTravel > 0 then
    let distToCoil : ℝ := Point.computeEuclideanDist currentLoc (s.coilLoc 0)
    let currentScaleXPlus : Int :=
      max (Physics.movePlusX currentLoc.x currentLoc.y nextLoc.x nextLoc.y distToCoil)
        minCurrentScale
    let currentScaleXPlus : Int :=
      if s.xDirectioninNeedOfBoost = "+X" then currentScaleXPlus + s.boost_X
      else currentScaleXPlus
    (currentScaleXPlus, 100, 0, 0)
  else if xDistanceToTravel < 0 then
    let distToCoil : ℝ := Point.computeEuclideanDist currentLoc (s.coilLoc 1)
    let currentScaleXMinus : Int :=
      max (Physics.moveMinusX currentLoc.x currentLoc.y nextLoc.x nextLoc.y distToCoil)
        minCurrentScale
    let currentScaleXMinus : Int :=
      if s.xDirectioninNeedOfBoost = "-X" then currentScaleXMinus + s.boost_X
      else currentScaleXMinus
    (0, 0, currentScaleXMinus, 100)
  else (0, 0, 0, 0)

/-- The Y half of `computeNextCommand_NN` (lines 641 to 676): current scale and duration
of the plus Y coil, then of the minus Y coil. -/
def Physics.commandY (s : Physics) (currentLoc nextLoc : Point) : Int × Int × Int × Int :=
  let yDistanceToTravel : ℝ := nextLoc.y - currentLoc.y
  let minCurrentScale : Int := 7
  if yDistanceToTravel > 0 then
    let distToCoil : ℝ := Point.computeEuclideanDist currentLoc (s.coilLoc 2)
    let currentScaleYPlus : Int :=
      max (Physics.movePlusY currentLoc.x currentLoc.y nextLoc.x nextLoc.y distToCoil)
        minCurrentScale
    let currentScaleYPlus : Int :=
      if s.yDirectioninNeedOfBoost = "+Y" then currentScaleYPlus + s.boost_Y
      else currentScaleYPlus
    (currentScaleYPlus, 100, 0, 0)
  else if yDistanceToTravel < 0 then
    let distToCoil : ℝ := Point.computeEuclideanDist currentLoc (s.coilLoc 3)
    let currentScaleYMinus : Int :=
      max (Physics.moveMinusY currentLoc.x currentLoc.y nextLoc.x nextLoc.y distToCoil)
        minCurrentScale
    let currentScaleYMinus : Int :=
      if s.yDirectioninNeedOfBoost = "-Y" then currentScaleYMinus + s.boost_Y
      else currentScaleYMinus
    (0, 0, currentScaleYMinus, 100)
  else (0, 0, 0, 0)

/-- Translation of `Physics::computeNextCommand_NN` (lines 582 to 682): the command array
is `{scale +X, duration +X, scale -X, duration -X, scale +Y, duration +Y, scale -Y,
duration -Y}`. -/
def Physics.computeNextCommand_NN (s : Physics) (currentLoc nextLoc : Point) : Physics :=
  let cx := s.commandX currentLoc nextLoc
  let cy := s.commandY currentLoc nextLoc
  { s with commandArray :=
      [cx.1, cx.2.1, cx.2.2.1, cx.2.2.2, cy.1, cy.2.1, cy.2.2.1, cy.2.2.2] }

/-! ## Predicates used in the statements -/

/-- Two path points are no farther apart, in physical distance, than `D`. -/
def withinInterpolation (D : ℝ) (a b : PathPtStruct) : Prop :=
  Point.computeEuclideanDist a.physical b.physical ≤ D

/-- The list `l'` is `l` with further points inserted, each of them a non-checkpoint:
the points of `l` are kept, unchanged and in order. -/
inductive OnlyInserts : List PathPtStruct → List PathPtStruct → Prop where
  | nil : OnlyInserts [] []
  | keep (p : PathPtStruct) {l l' : List PathPtStruct} :
      OnlyInserts l l' → OnlyInserts (p :: l) (p :: l')
  | insert (p : PathPtStruct) {l l' : List PathPtStruct} :
      p.isCheckpoint = false → OnlyInserts l l' → OnlyInserts l (p :: l')

/-- What the `for` loop does with the gap between `prev` (index `i - 1`) and `cur`
(index `i`): it inserts the points `ins`, all of them non-checkpoints, leaves every gap
from `prev` to `cur` within `D`, and continues at the index after `cur`. -/
def SegmentDone (D : ℝ) (pre : List PathPtStruct) (prev cur : PathPtStruct)
    (rest : List PathPtStruct) (total : Int) (n : Nat) (ins : List PathPtStruct) : Prop :=
  (∀ p ∈ ins, p.isCheckpoint = false) ∧
  List.Chain (withinInterpolation D) prev (ins ++ [cur]) ∧
  ∀ (fuel : Nat) (full : Bool), ∃ full' : Bool,
    discretize_For D (fuel + n) (pre ++ prev :: cur :: rest) ((pre.length : Int) + 1)
        total full
      = discretize_For D fuel (pre ++ prev :: (ins ++ cur :: rest))
          ((pre.length : Int) + 1 + ins.length + 1) (total + ins.length) full'


/-- The states a control module can be in after `s0`: those reached by any sequence of
calls of `allow_NextTranslation`, with any particle locations. -/
inductive ControlModule.ReachableFrom (s0 : ControlModule) : ControlModule → Prop where
  | start : ControlModule.ReachableFrom s0 s0
  | step {s s' : ControlModule} (particleLoc : Point) (proceed : Bool)
      (signals : List Signal) :
      ControlModule.ReachableFrom s0 s →
      s.allow_NextTranslation particleLoc = Except.ok (proceed, s', signals) →
      ControlModule.ReachableFrom s0 s'

/-- The states of the actuation model that the program can reach: from the constructed
object by calls of `setCoilLocs`, `set_Boost` and `computeNextCommand_NN`. -/
inductive Physics.Reachable : Physics → Prop where
  | init : Physics.Reachable Physics.init
  | setCoilLocs {s : Physics} (inputCoilLocs : List Point) :
      Physics.Reachable s → Physics.Reachable (s.setCoilLocs inputCoilLocs)
  | set_Boost {s : Physics} (currentLoc targetLoc : Point) :
      Physics.Reachable s → Physics.Reachable (s.set_Boost currentLoc targetLoc)
  | computeNextCommand_NN {s : Physics} (currentLoc nextLoc : Point) :
      Physics.Reachable s → Physics.Reachable (s.computeNextCommand_NN currentLoc nextLoc)

/-- The checkpoint-passed indices among the signals of a call, in order. -/
def checkpointEvents : List Signal → List Int
  | [] => []
  | Signal.send_CheckpointPassed k :: rest => k :: checkpointEvents rest
  | _ :: rest => checkpointEvents rest

/-- The number of stop prompts among the signals of a call. -/
def stopEvents : List Signal → Nat
  | [] => 0
  | Signal.send_StopOpPrompt :: rest => stopEvents rest + 1
  | _ :: rest => stopEvents rest

/-- The state that a successful `setup_PathTraversal` leaves, given the first point
`first` of the delivery path and the discretized path `out`. -/
def ControlModule.afterSetup (s : ControlModule) (first : PathPtStruct)
    (out : List PathPtStruct) (totalPathDistance deviationTolerance
      interpolationDistance : ℝ) : ControlModule :=
  { deliveryPath := out
    targetPathPtData := first
    currentPathCheckpoint := s.currentPathCheckpoint
    targetPathPtIndex := 0
    retryCounter := 0
    totalNumPathPts := (out.length : Int)
    interpolationDistance := interpolationDistance
    deviationTolerance := deviationTolerance
    actualDeviation := s.actualDeviation
    totalPathDistance := totalPathDistance
    remainingPathDistance :=
      if s.remainingPathDistance = 0 then totalPathDistance else s.remainingPathDistance }

/-- The points that `setup_PathTraversal` copies into the delivery path: the data of the
checkpoints from index `currentPathCheckpoint` on. -/
def ControlModule.pendingCheckpoints (s : ControlModule)
    (pathCheckPoints : List PathPointMarker) : List PathPtStruct :=
  (pathCheckPoints.drop s.currentPathCheckpoint.toNat).map (fun m => m.data)

/-! ## Concrete inputs -/

/-- A path point at the physical point `(x, y)`, the pixel representations set to the
same numbers. -/
def pathPtAt (x y : ℝ) (isCheckpoint : Bool) : PathPtStruct :=
  { pixelScreen := ⟨x, y⟩, pixelNative := ⟨x, y⟩, physical := ⟨x, y⟩,
    isCheckpoint := isCheckpoint }

/-- A path marker at the physical point `(x, y)`. -/
def markerAt (x y : ℝ) : PathPointMarker :=
  ⟨pathPtAt x y true, rfl⟩

/-- A control module in the middle of an operation: two checkpoints `(0, 0)` and `(1, 0)`,
interpolation distance 2, tolerance 0.5, target at index `targetPathPtIndex` with
coordinates `(x, 0)`. -/
def exampleControl (targetPathPtIndex : Int) (x : ℝ) : ControlModule :=
  { deliveryPath := [pathPtAt 0 0 true, pathPtAt 1 0 true]
    targetPathPtData := pathPtAt x 0 true
    currentPathCheckpoint := targetPathPtIndex
    targetPathPtIndex := targetPathPtIndex
    retryCounter := 0
    totalNumPathPts := 2
    interpolationDistance := 2
    deviationTolerance := 0.5
    actualDeviation := 0
    totalPathDistance := 1
    remainingPathDistance := 1 }

/-- The state after setting up the single checkpoint `(0, 0)` on a fresh control module,
with tolerance 0.5 and interpolation distance 2. -/
def exampleSetup : ControlModule :=
  ControlModule.init.afterSetup (pathPtAt 0 0 true) [pathPtAt 0 0 true] 0 0.5 2

/-- The pairs (current scale, duration) of the four coils in a command array, in the
order +X, -X, +Y, -Y. -/
def coilCommands (commandArray : List Int) : List (Int × Int) :=
  [(commandArray.getD 0 0, commandArray.getD 1 0),
   (commandArray.getD 2 0, commandArray.getD 3 0),
   (commandArray.getD 4 0, commandArray.getD 5 0),
   (commandArray.getD 6 0, commandArray.getD 7 0)]

/-- The target-index invariant of the control module: `totalNumPathPts` is the length of
the delivery path, the target index is inside the path, and the stored target point is
the point of the path at that index. -/
def ControlModule.TargetInRange (s : ControlModule) : Prop :=
  s.totalNumPathPts = (s.deliveryPath.length : Int) ∧
  0 ≤ s.targetPathPtIndex ∧
  s.targetPathPtIndex < (s.deliveryPath.length : Int) ∧
  vectorAt s.deliveryPath s.targetPathPtIndex = Except.ok s.targetPathPtData

/-- The number of checkpoints among the points of the delivery path before the target. -/
def ControlModule.checkpointsBeforeTarget (s : ControlModule) : Nat :=
  (s.deliveryPath.take s.targetPathPtIndex.toNat).countP (fun p => p.isCheckpoint)

/-- The state after setting up the two checkpoints `(0, 0)` and `(1, 0)` on a fresh
control module, with path length 1, tolerance 0.5 and interpolation distance 2 (no point
is inserted). -/
def exampleSetupTwo : ControlModule :=
  ControlModule.init.afterSetup (pathPtAt 0 0 true)
    [pathPtAt 0 0 true, pathPtAt 1 0 true] 1 0.5 2

/-! ## Recursive bisection and path length -/

/-- The points that recursive bisection, at most `depth` levels deep, puts strictly
between `previousPt` and `currentPt`: none if the two are within `D`, else those between
`previousPt` and the midpoint, the midpoint, and those between the midpoint and
`currentPt`. -/
def bisectBetween (D : ℝ) : Nat → PathPtStruct → PathPtStruct → List PathPtStruct
  | 0, _, _ => []
  | depth + 1, currentPt, previousPt =>
    if Point.computeEuclideanDist currentPt.physical previousPt.physical > D then
      bisectBetween D depth (intermediatePt currentPt previousPt) previousPt
        ++ intermediatePt currentPt previousPt
          :: bisectBetween D depth currentPt (intermediatePt currentPt previousPt)
    else []

/-- The part after `previousPt` of the path obtained by bisecting every gap of
`previousPt :: tail`. -/
def bisectFrom (D : ℝ) (depth : Nat) : PathPtStruct → List PathPtStruct → List PathPtStruct
  | _, [] => []
  | previousPt, currentPt :: rest =>
    bisectBetween D depth currentPt previousPt ++ currentPt :: bisectFrom D depth currentPt rest

/-- Every gap of `previousPt :: tail` is at most `B` long. -/
def gapsWithin (B : ℝ) : PathPtStruct → List PathPtStruct → Prop
  | _, [] => True
  | previousPt, currentPt :: rest =>
    Point.computeEuclideanDist currentPt.physical previousPt.physical ≤ B
      ∧ gapsWithin B currentPt rest

/-- The sum of the physical distances between consecutive points of a path (what
`MainWindow::update_CurrentPathDistance` computes for the path markers). -/
def pathLength : List PathPtStruct → ℝ
  | [] => 0
  | [_] => 0
  | a :: b :: rest => Point.computeEuclideanDist b.physical a.physical + pathLength (b :: rest)

/-! ## The straight-line scenario -/

/-- The checkpoints `(0, 0)` and `(10, 0)` of the straight-line scenario. -/
def straightLineMarkers : List PathPointMarker :=
  [markerAt 0 0, markerAt 10 0]

/-- The bisection of the straight line from `(0, 0)` to `(10, 0)` with interpolation
distance 2: nine points, 1.25 apart, the two ends checkpoints. -/
def straightLinePath : List PathPtStruct :=
  [pathPtAt 0 0 true, pathPtAt 1.25 0 false, pathPtAt 2.5 0 false, pathPtAt 3.75 0 false,
   pathPtAt 5 0 false, pathPtAt 6.25 0 false, pathPtAt 7.5 0 false, pathPtAt 8.75 0 false,
   pathPtAt 10 0 true]

/-- The coordinates that the straight-line scenario of the specification expects: six
points, 2.0 apart. -/
def straightLineExpectedCoordinates : List (ℝ × ℝ) :=
  [(0, 0), (2, 0), (4, 0), (6, 0), (8, 0), (10, 0)]

/-- The particle locations `locs`, fed one per tick, track the target: at every tick the
location fed is within tolerance of the target of that tick. -/
def ControlModule.Tracking : ControlModule → List Point → Prop
  | _, [] => True
  | s, particleLoc :: locs =>
    Point.computeEuclideanDist particleLoc s.targetPathPtData.physical
        ≤ s.deviationTolerance ∧
      ∀ (proceed : Bool) (s' : ControlModule) (signals : List Signal),
        s.allow_NextTranslation particleLoc = Except.ok (proceed, s', signals) →
        ControlModule.Tracking s' locs

/-! ## Hardware dispatch (`Physics.cpp`, lines 17 to 88 and 520 to 562)

The `Roboclaw` class belongs to the external motor-controller library.  Of a controller
the dispatcher uses three things: `isAvailable()`, `ForwardM1` and `ForwardM2`.  What the
library answers is not decided by this program, so it is a parameter of the model. -/

/-- What one controller is sent, in order; the pause of the sending thread between two
commands is recorded too. -/
inductive RoboEvent where
  | ForwardM1 (address speed : Nat)
  | ForwardM2 (address speed : Nat)
  | sleep_for (milliseconds : Int)
  deriving DecidableEq

/-- A `Roboclaw` object as the dispatcher sees it: the value of `isAvailable()`, the
answer of the library to a command given everything sent so far (the command included),
and everything sent so far. -/
structure Roboclaw where
  isAvailable : Bool
  reply : List RoboEvent → Bool
  sent : List RoboEvent

/-- The call `robo->ForwardM1(address, speed)`: the command is sent and the library
answers whether it went through. -/
def Roboclaw.ForwardM1 (r : Roboclaw) (address speed : Nat) : Bool × Roboclaw :=
  (r.reply (r.sent ++ [RoboEvent.ForwardM1 address speed]),
   { r with sent := r.sent ++ [RoboEvent.ForwardM1 address speed] })

/-- The call `robo->ForwardM2(address, speed)`. -/
def Roboclaw.ForwardM2 (r : Roboclaw) (address speed : Nat) : Bool × Roboclaw :=
  (r.reply (r.sent ++ [RoboEvent.ForwardM2 address speed]),
   { r with sent := r.sent ++ [RoboEvent.ForwardM2 address speed] })

/-- The call `std::this_thread::sleep_for(std::chrono::milliseconds(d))` of the thread
that drives this controller. -/
def Roboclaw.sleep_for (r : Roboclaw) (milliseconds : Int) : Roboclaw :=
  { r with sent := r.sent ++ [RoboEvent.sleep_for milliseconds] }

/-- The two controllers held by `Physics` (`Physics.h`, lines 42 and 43). -/
structure Hardware where
  robo_x : Roboclaw
  robo_y : Roboclaw

/-- `ROBO_X_ADDRESS` (`Physics.h`, line 23). -/
def ROBO_X_ADDRESS : Nat := 128

/-- `ROBO_Y_ADDRESS` (`Physics.h`, line 24). -/
def ROBO_Y_ADDRESS : Nat := 129

/-- Translation of `Physics::moveRoboX` (lines 17 to 52).  The scales are `uint8_t`, the
reference parameter `isDone` is passed in and returned; `|=` and `&=` on `bool` are the
Boolean or and and. -/
def Physics.moveRoboX (hw : Hardware) (current_scale_plusx : Nat) (duration_plusx : Int)
    (current_scale_minusx : Nat) (duration_minusx : Int) (isDone : Bool) :
    Hardware × Bool :=
  if current_scale_plusx ≠ 0 then
    let activate := hw.robo_x.ForwardM1 ROBO_X_ADDRESS current_scale_plusx
    let isDone := isDone || activate.1
    let stop := (activate.2.sleep_for duration_plusx).ForwardM1 ROBO_X_ADDRESS 0
    ({ hw with robo_x := stop.2 }, isDone && stop.1)
  else if current_scale_minusx ≠ 0 then
    let activate := hw.robo_x.ForwardM2 ROBO_X_ADDRESS current_scale_minusx
    let isDone := isDone || activate.1
    let stop := (activate.2.sleep_for duration_minusx).ForwardM2 ROBO_X_ADDRESS 0
    ({ hw with robo_x := stop.2 }, isDone && stop.1)
  else if current_scale_plusx = 0 ∨ current_scale_minusx = 0 then
    let connect := hw.robo_x.ForwardM2 ROBO_X_ADDRESS current_scale_plusx
    ({ hw with robo_x := connect.2 }, isDone || connect.1)
  else (hw, isDone)

/-- Translation of `Physics::moveRoboY` (lines 59 to 77). -/
def Physics.moveRoboY (hw : Hardware) (current_scale_plusy : Nat) (duration_plusy : Int)
    (current_scale_minusy : Nat) (duration_minusy : Int) (isDone : Bool) :
    Hardware × Bool :=
  if current_scale_plusy ≠ 0 then
    let activate := hw.robo_y.ForwardM1 ROBO_Y_ADDRESS current_scale_plusy
    let isDone := isDone || activate.1
    let stop := (activate.2.sleep_for duration_plusy).ForwardM1 ROBO_Y_ADDRESS 0
    ({ hw with robo_y := stop.2 }, isDone && stop.1)
  else if current_scale_minusy ≠ 0 then
    let activate := hw.robo_y.ForwardM2 ROBO_Y_ADDRESS current_scale_minusy
    let isDone := isDone || activate.1
    let stop := (activate.2.sleep_for duration_minusy).ForwardM2 ROBO_Y_ADDRESS 0
    ({ hw with robo_y := stop.2 }, isDone && stop.1)
  else if current_scale_plusy = 0 ∨ current_scale_minusy = 0 then
    let connect := hw.robo_y.ForwardM2 ROBO_Y_ADDRESS current_scale_plusy
    ({ hw with robo_y := connect.2 }, isDone || connect.1)
  else (hw, isDone)

/-- Translation of `Physics::motorsAvailable` (lines 83 to 88):
`return robo_x->isAvailable() && robo_x->isAvailable();`. -/
def Physics.motorsAvailable (hw : Hardware) : Bool :=
  hw.robo_x.isAvailable && hw.robo_x.isAvailable

/-- Translation of `Physics::translateParticle` with eight arguments (lines 535 to 562).
The two threads are joined before the result is read; the X thread touches only `robo_x`
and `movedX`, the Y thread only `robo_y` and `movedY`, so what each controller is sent
and both flags are the same in every interleaving, and the model runs X, then Y. -/
def Physics.translateParticle (hw : Hardware)
    (current_scale_plusx : Nat) (duration_plusx : Int)
    (current_scale_minusx : Nat) (duration_minusx : Int)
    (current_scale_plusy : Nat) (duration_plusy : Int)
    (current_scale_minusy : Nat) (duration_minusy : Int) : Bool × Hardware :=
  if ¬ Physics.motorsAvailable hw then (false, hw)
  else
    let movedX : Bool := false
    let movedY : Bool := false
    let moveinX := Physics.moveRoboX hw current_scale_plusx duration_plusx
      current_scale_minusx duration_minusx movedX
    let moveinY := Physics.moveRoboY moveinX.1 current_scale_plusy duration_plusy
      current_scale_minusy duration_minusy movedY
    (moveinX.2 && moveinY.2, moveinY.1)

/-- The conversion `static_cast<unsigned char>(v)` of an `int`: the value modulo 256. -/
def static_cast_unsigned_char (v : Int) : Nat :=
  (v % 256).toNat

/-- Translation of `Physics::translateParticle` without arguments (lines 520 to 530): the
stored command array is sent, the four scales converted to `unsigned char`. -/
def Physics.translateParticle_commandArray (s : Physics) (hw : Hardware) : Bool × Hardware :=
  Physics.translateParticle hw
    (static_cast_unsigned_char (s.commandArray.getD 0 0)) (s.commandArray.getD 1 0)
    (static_cast_unsigned_char (s.commandArray.getD 2 0)) (s.commandArray.getD 3 0)
    (static_cast_unsigned_char (s.commandArray.getD 4 0)) (s.commandArray.getD 5 0)
    (static_cast_unsigned_char (s.commandArray.getD 6 0)) (s.commandArray.getD 7 0)

/-- A controller that has been sent nothing yet and answers every command with the given
value. -/
def roboclawAnswering (isAvailable answer : Bool) : Roboclaw :=
  { isAvailable := isAvailable, reply := fun _ => answer, sent := [] }

/-- The X controller is connected, the Y controller is not. -/
def onlyXConnected : Hardware :=
  { robo_x := roboclawAnswering true true, robo_y := roboclawAnswering false false }

/-- Both controllers are connected and answer every command with success. -/
def bothConnected : Hardware :=
  { robo_x := roboclawAnswering true true, robo_y := roboclawAnswering true true }

/-- The state after `n` calls `set_Boost(currentLoc, targetLoc)` in a row, all with the
same measured location and the same target: the particle does not move. -/
def Physics.set_Boost_repeat (s : Physics) (currentLoc targetLoc : Point) : Nat → Physics
  | 0 => s
  | n + 1 => (Physics.set_Boost_repeat s currentLoc targetLoc n).set_Boost currentLoc targetLoc

/-- A constructed actuation model with the four coils on the axes, 26.5 from the centre
(the order is +X, -X, +Y, -Y). -/
def exampleCoils : Physics :=
  Physics.init.setCoilLocs [⟨26.5, 0⟩, ⟨-26.5, 0⟩, ⟨0, 26.5⟩, ⟨0, -26.5⟩]

/-! ## ImageSegmentation.cpp: the calibration of the coordinate system

OpenCV is an external library.  What it hands to this code is an input of the model: the
four coil points of a frame as `find_CoilsAruco` stores them on lines 157 and 160 (lines
77 to 154 compute them from the markers that `cv::aruco::detectMarkers` finds, and
OpenCV converts them to integer points when they are stored), and the size of the frame.
Of the images `cleanImage` and `cleanSubImage` the model keeps whether they are empty. -/

/-- An OpenCV `cv::Rect`. -/
structure CvRect where
  x : Int
  y : Int
  width : Int
  height : Int

/-- The OpenCV constructor `cv::Rect(pt1, pt2)` from two corners. -/
def CvRect.ofCorners (pt1 pt2 : CvPoint) : CvRect :=
  { x := min pt1.x pt2.x
    y := min pt1.y pt2.y
    width := max pt1.x pt2.x - min pt1.x pt2.x
    height := max pt1.y pt2.y - min pt1.y pt2.y }

/-- The texts sent through `send_OperationLogMsg` by the calibration. -/
inductive CalibrationLogMsg where
  | calibrationNotFinished
  | coilLocationsNotSet
  | calibrationResetSuccessful
  deriving DecidableEq

/-- The signals emitted by the calibration functions modelled here (ImageSegmentation.h,
lines 122 to 136). -/
inductive CalibrationSignal where
  | send_OperationLogMsg (msg : CalibrationLogMsg)
  | send_UpdatedFOV (width_FOV height_FOV : ℝ)

/-- The calibration members of `ImageSegmentation` (ImageSegmentation.h, lines 41 to 78),
added to the members that the coordinate mapping reads. -/
structure Calibration extends ImageSegmentation where
  calibrationPoints : List (List CvPoint)
  coilLocs : List CvPoint
  FOV : List ℝ
  boundingROI : CvRect
  calibrationStep : Int
  distancePerPixel : ℝ
  synthesizeImageCounter : Int
  cleanImageIsSet : Bool
  startedParticleDetectionCalibration : Bool
  cleanImage_empty : Bool
  cleanSubImage_empty : Bool

/-- The member `calibrationStepLimit` (ImageSegmentation.h, line 55); it is never
assigned after its initialiser. -/
def calibrationStepLimit : Int := 20

/-- The member `distanceBetweenCoilPair` (ImageSegmentation.h, line 62); it is never
assigned after its initialiser. -/
def distanceBetweenCoilPair : ℝ := 53.0

/-- An `ImageSegmentation` object as its constructor leaves it (the default member
initialisers of ImageSegmentation.h, lines 41 to 78, and lines 18 to 22 of
ImageSegmentation.cpp): `calibrationPoints` holds `calibrationStepLimit` empty vectors,
`coilLocs` four points `(0, 0)`. -/
def Calibration.init : Calibration :=
  { origin := ⟨0, 0⟩
    calibrated := false
    angle_XAxis := 0
    calibrationPoints := List.replicate calibrationStepLimit.toNat []
    coilLocs := List.replicate 4 ⟨0, 0⟩
    FOV := []
    boundingROI := ⟨0, 0, 0, 0⟩
    calibrationStep := 0
    distancePerPixel := 1.0
    synthesizeImageCounter := 0
    cleanImageIsSet := false
    startedParticleDetectionCalibration := false
    cleanImage_empty := true
    cleanSubImage_empty := true }

/-- Translation of an assignment `v.at(i) = a` with an `int` index cast to
`unsigned long long`. -/
def vectorAssignAt {α : Type} (v : List α) (i : Int) (a : α) : Except Fault (List α) :=
  if 0 ≤ i ∧ i.toNat < v.length then Except.ok (v.set i.toNat a)
  else Except.error Fault.out_of_range

/-- Translation of `coilLocs[k]`.  `operator[]` past the end is undefined in C++; the
model then reads `(0, 0)`. -/
def Calibration.coilLoc (s : Calibration) (k : Nat) : CvPoint :=
  s.coilLocs.getD k ⟨0, 0⟩

/-- The inner loop of `calibrate_CoilLocations` (lines 394 to 397) for the coil `i`, with
`n` iterations left, at index `j`: the sums of the X and of the Y coordinates. -/
def sumCoilPoints (calibrationPoints : List (List CvPoint)) (i : Int) :
    Nat → Int → Int → Int → Except Fault (Int × Int)
  | 0, _, averageX, averageY => Except.ok (averageX, averageY)
  | n + 1, j, averageX, averageY =>
    match vectorAt calibrationPoints j with
    | Except.error e => Except.error e
    | Except.ok frame =>
      match vectorAt frame i with
      | Except.error e => Except.error e
      | Except.ok p =>
        sumCoilPoints calibrationPoints i n (j + 1) (averageX + p.x) (averageY + p.y)

/-- The outer loop of `calibrate_CoilLocations` (lines 389 to 427), with `n` iterations
left, at the coil `i`, on `coilLocs`, `boundingBoxTopLeft` and `boundingBoxBottomRight`.
The division of two `int` truncates toward zero; `coilLocs.at(i)` read after the
assignment is the point just assigned. -/
def coilLocationsLoop (calibrationPoints : List (List CvPoint)) :
    Nat → Int → List CvPoint → CvPoint → CvPoint →
      Except Fault (List CvPoint × CvPoint × CvPoint)
  | 0, _, coilLocs, boundingBoxTopLeft, boundingBoxBottomRight =>
    Except.ok (coilLocs, boundingBoxTopLeft, boundingBoxBottomRight)
  | n + 1, i, coilLocs, boundingBoxTopLeft, boundingBoxBottomRight =>
    match sumCoilPoints calibrationPoints i calibrationStepLimit.toNat 0 0 0 with
    | Except.error e => Except.error e
    | Except.ok sums =>
      let averageX : Int := Int.tdiv sums.1 calibrationStepLimit
      let averageY : Int := Int.tdiv sums.2 calibrationStepLimit
      match vectorAssignAt coilLocs i ⟨averageX, averageY⟩ with
      | Except.error e => Except.error e
      | Except.ok coilLocs =>
        if i = 0 then
          coilLocationsLoop calibrationPoints n (i + 1) coilLocs ⟨averageX, averageY⟩
            ⟨averageX, averageY⟩
        else
          let leftX : Int :=
            if averageX < boundingBoxTopLeft.x then averageX else boundingBoxTopLeft.x
          let rightX : Int :=
            if averageX < boundingBoxTopLeft.x then boundingBoxBottomRight.x
            else if averageX > boundingBoxBottomRight.x then averageX
            else boundingBoxBottomRight.x
          let topY : Int :=
            if averageY < boundingBoxTopLeft.y then averageY else boundingBoxTopLeft.y
          let bottomY : Int :=
            if averageY < boundingBoxTopLeft.y then boundingBoxBottomRight.y
            else if averageY > boundingBoxBottomRight.y then averageY
            else boundingBoxBottomRight.y
          coilLocationsLoop calibrationPoints n (i + 1) coilLocs ⟨leftX, topY⟩
            ⟨rightX, bottomY⟩

/-- Translation of `ImageSegmentation::calibrate_CoilLocations` (lines 376 to 432). -/
def Calibration.calibrate_CoilLocations (s : Calibration) :
    Except Fault (Calibration × List CalibrationSignal) :=
  if ¬ s.calibrated then
    Except.ok (s, [CalibrationSignal.send_OperationLogMsg
      CalibrationLogMsg.calibrationNotFinished])
  else
    match coilLocationsLoop s.calibrationPoints 4 0 s.coilLocs ⟨-1, -1⟩ ⟨-1, -1⟩ with
    | Except.error e => Except.error e
    | Except.ok result =>
      Except.ok ({ s with coilLocs := result.1
                          boundingROI := CvRect.ofCorners result.2.1 result.2.2 }, [])

/-- The determinant `a1 * b2 - a2 * b1` of `calibrate_Origin` (lines 353 to 363) for four
coil points. -/
def originDeterminant (coil0 coil1 coil2 coil3 : CvPoint) : ℝ :=
  let a1 : ℝ := ((coil1.y - coil0.y : Int) : ℝ)
  let b1 : ℝ := ((coil0.x - coil1.x : Int) : ℝ)
  let a2 : ℝ := ((coil3.y - coil2.y : Int) : ℝ)
  let b2 : ℝ := ((coil2.x - coil3.x : Int) : ℝ)
  a1 * b2 - a2 * b1

/-- Translation of `ImageSegmentation::calibrate_Origin` (lines 350 to 368).  With a zero
determinant the two quotients are infinities or NaN, and the conversion of such a value
to `int` is undefined in C++: the model then takes the two converted values from the
parameter `undefinedCast`, so that nothing is assumed about them. -/
def Calibration.calibrate_Origin (s : Calibration) (undefinedCast : Int × Int) : Calibration :=
  let a1 : ℝ := (((s.coilLoc 1).y - (s.coilLoc 0).y : Int) : ℝ)
  let b1 : ℝ := (((s.coilLoc 0).x - (s.coilLoc 1).x : Int) : ℝ)
  let c1 : ℝ := a1 * ((s.coilLoc 0).x : ℝ) + b1 * ((s.coilLoc 0).y : ℝ)
  let a2 : ℝ := (((s.coilLoc 3).y - (s.coilLoc 2).y : Int) : ℝ)
  let b2 : ℝ := (((s.coilLoc 2).x - (s.coilLoc 3).x : Int) : ℝ)
  let c2 : ℝ := a2 * ((s.coilLoc 2).x : ℝ) + b2 * ((s.coilLoc 2).y : ℝ)
  let determinant : ℝ := a1 * b2 - a2 * b1
  let x : Int :=
    if determinant = 0 then undefinedCast.1 else ⌊(b2 * c1 - b1 * c2) / determinant⌋
  let y : Int :=
    if determinant = 0 then undefinedCast.2 else ⌊(a1 * c2 - a2 * c1) / determinant⌋
  { s with origin := ⟨x, y⟩ }

/-- Translation of `ImageSegmentation::calculate_DistancePerPixelAndFOV` (lines 438 to
456).  With the two Y coils at the same pixel the source divides by zero; here
`x / 0 = 0`. -/
def Calibration.calculate_DistancePerPixelAndFOV (s : Calibration) (imgWidth imgHeight : Int) :
    Calibration × List CalibrationSignal :=
  if ¬ s.calibrated then
    (s, [CalibrationSignal.send_OperationLogMsg CalibrationLogMsg.coilLocationsNotSet])
  else
    let numPixelsBetweenCoilPair : ℝ :=
      Real.sqrt ((((s.coilLoc 2).x - (s.coilLoc 3).x : Int) : ℝ) ^ 2
        + (((s.coilLoc 2).y - (s.coilLoc 3).y : Int) : ℝ) ^ 2)
    let distancePerPixel : ℝ := distanceBetweenCoilPair / numPixelsBetweenCoilPair
    let FOV : List ℝ :=
      s.FOV ++ [(imgWidth : ℝ) * distancePerPixel, (imgHeight : ℝ) * distancePerPixel]
    ({ s with distancePerPixel := distancePerPixel, FOV := FOV },
      [CalibrationSignal.send_UpdatedFOV (FOV.getD 0 0) (FOV.getD 1 0)])

/-- Translation of `ImageSegmentation::find_CoilsAruco` from line 157 on, after the early
return of line 76: the four coil points of the frame are stored, and on the last
calibration step the calibration is completed.  `cols` and `rows` are the size of the
frame.  With the plus X coil on the origin the source divides by zero in the angle; here
`x / 0 = 0`. -/
def Calibration.find_CoilsAruco (s : Calibration)
    (plusXCoil minusXCoil plusYCoil minusYCoil : CvPoint) (cols rows : Int)
    (undefinedCast : Int × Int) : Except Fault (Calibration × List CalibrationSignal) :=
  if s.calibrated then Except.ok (s, [])
  else
    match vectorAssignAt s.calibrationPoints s.calibrationStep
        [plusXCoil, minusXCoil, plusYCoil, minusYCoil] with
    | Except.error e => Except.error e
    | Except.ok calibrationPoints =>
      let s1 : Calibration :=
        { s with calibrationPoints := calibrationPoints
                 coilLocs := [plusXCoil, minusXCoil, plusYCoil, minusYCoil] }
      if s1.calibrationStep ≥ calibrationStepLimit - 1 then
        let s2 : Calibration := { s1 with calibrated := true }
        match s2.calibrate_CoilLocations with
        | Except.error e => Except.error e
        | Except.ok (s3, signals3) =>
          let s4 : Calibration := s3.calibrate_Origin undefinedCast
          let s5 := s4.calculate_DistancePerPixelAndFOV cols rows
          match vectorAt s5.1.coilLocs 0 with
          | Except.error e => Except.error e
          | Except.ok coil0 =>
            let adjacent : ℝ := ((|coil0.x - s5.1.origin.x| : Int) : ℝ)
            let hypontenuse : ℝ :=
              Real.sqrt (((coil0.x - s5.1.origin.x : Int) : ℝ) ^ 2
                + ((coil0.y - s5.1.origin.y : Int) : ℝ) ^ 2)
            Except.ok ({ s5.1 with angle_XAxis := Real.arccos (adjacent / hypontenuse) },
              signals3 ++ s5.2)
      else Except.ok ({ s1 with calibrationStep := s1.calibrationStep + 1 }, [])

/-- Translation of `ImageSegmentation::isCalibrated` (lines 318 to 320). -/
def Calibration.isCalibrated (s : Calibration) : Bool :=
  s.calibrated && s.cleanImageIsSet

/-- Translation of `ImageSegmentation::reset_Calibration` (lines 326 to 340).  The
conversion of the released `cleanImage` on line 337 leaves it empty. -/
def Calibration.reset_Calibration (s : Calibration) : Calibration × List CalibrationSignal :=
  ({ s with calibrated := false
            calibrationStep := 0
            distancePerPixel := 0.0
            FOV := []
            cleanImageIsSet := false
            startedParticleDetectionCalibration := false
            synthesizeImageCounter := 0
            cleanImage_empty := true
            cleanSubImage_empty := true },
    [CalibrationSignal.send_OperationLogMsg CalibrationLogMsg.calibrationResetSuccessful])

/-- The calls of `find_CoilsAruco` on `n` frames in a row that all show the four coil
points at the same pixels. -/
def Calibration.find_CoilsAruco_frames (s : Calibration)
    (plusXCoil minusXCoil plusYCoil minusYCoil : CvPoint) (cols rows : Int)
    (undefinedCast : Int × Int) : Nat → Except Fault (Calibration × List CalibrationSignal)
  | 0 => Except.ok (s, [])
  | n + 1 =>
    match Calibration.find_CoilsAruco_frames s plusXCoil minusXCoil plusYCoil minusYCoil
        cols rows undefinedCast n with
    | Except.error e => Except.error e
    | Except.ok (s1, signals1) =>
      match s1.find_CoilsAruco plusXCoil minusXCoil plusYCoil minusYCoil cols rows
          undefinedCast with
      | Except.error e => Except.error e
      | Except.ok (s2, signals2) => Except.ok (s2, signals1 ++ signals2)

/-- The checkpoint-passed indices emitted over the calls of a run, in order. -/
def runCheckpointEvents : List (Bool × List Signal) → List Int
  | [] => []
  | result :: results => checkpointEvents result.2 ++ runCheckpointEvents results

/-! ## Recursive bisection, as the specification words it

These three definitions follow the words of the specification, not the code: they are
what `discretize_Path` is compared with. -/

/-- The specification's midpoint `m` of `a` and `b`, in all three coordinate
representations; a point made by the discretization is not a checkpoint. -/
def specMidpoint (a b : PathPtStruct) : PathPtStruct :=
  { pixelScreen := ⟨(a.pixelScreen.x + b.pixelScreen.x) / 2,
                    (a.pixelScreen.y + b.pixelScreen.y) / 2⟩
    pixelNative := ⟨(a.pixelNative.x + b.pixelNative.x) / 2,
                    (a.pixelNative.y + b.pixelNative.y) / 2⟩
    physical := ⟨(a.physical.x + b.physical.x) / 2, (a.physical.y + b.physical.y) / 2⟩
    isCheckpoint := false }

/-- The specification's `bisect(a, b)`, as the relation between `a`, `b` and the
resulting list: `[a]` if `dist(a, b) <= D`, and `bisect(a, m) ++ bisect(m, b)`
otherwise. -/
inductive SpecBisect (D : ℝ) : PathPtStruct → PathPtStruct → List PathPtStruct → Prop where
  | within (a b : PathPtStruct) :
      Point.computeEuclideanDist a.physical b.physical ≤ D → SpecBisect D a b [a]
  | split (a b : PathPtStruct) (l1 l2 : List PathPtStruct) :
      ¬ Point.computeEuclideanDist a.physical b.physical ≤ D →
      SpecBisect D a (specMidpoint a b) l1 → SpecBisect D (specMidpoint a b) b l2 →
      SpecBisect D a b (l1 ++ l2)

/-- The specification's `bisect(p0, p1) ++ ... ++ bisect(p(n-1), pn) ++ [pn]` for the
path `p0 .. pn`. -/
inductive SpecBisectPath (D : ℝ) : List PathPtStruct → List PathPtStruct → Prop where
  | last (p : PathPtStruct) : SpecBisectPath D [p] [p]
  | cons (a b : PathPtStruct) (rest l out : List PathPtStruct) :
      SpecBisect D a b l → SpecBisectPath D (b :: rest) out →
      SpecBisectPath D (a :: b :: rest) (l ++ out)

/-- A control module holding the two ends of the straight-line scenario as its delivery
path, with interpolation distance 2, before `discretize_Path`. -/
def straightLineControl : ControlModule :=
  { exampleControl 0 0 with deliveryPath := [pathPtAt 0 0 true, pathPtAt 10 0 true] }

/-! ## The two lines of `calibrate_Origin` -/

/-- The coefficients `a`, `b`, `c` of the line `a * x + b * y = c` through the coil
points `p` and `q`, as `calibrate_Origin` computes them (lines 353 to 360). -/
def lineCoefficients (p q : CvPoint) : ℝ × ℝ × ℝ :=
  let a : ℝ := ((q.y - p.y : Int) : ℝ)
  let b : ℝ := ((p.x - q.x : Int) : ℝ)
  (a, b, a * (p.x : ℝ) + b * (p.y : ℝ))

/-- The two quotients of lines 364 and 365 of `calibrate_Origin`, before `std::floor`
and the conversion to `int`. -/
def lineIntersection (coil0 coil1 coil2 coil3 : CvPoint) : ℝ × ℝ :=
  let a1 : ℝ := (lineCoefficients coil0 coil1).1
  let b1 : ℝ := (lineCoefficients coil0 coil1).2.1
  let c1 : ℝ := (lineCoefficients coil0 coil1).2.2
  let a2 : ℝ := (lineCoefficients coil2 coil3).1
  let b2 : ℝ := (lineCoefficients coil2 coil3).2.1
  let c2 : ℝ := (lineCoefficients coil2 coil3).2.2
  let determinant : ℝ := a1 * b2 - a2 * b1
  ((b2 * c1 - b1 * c2) / determinant, (a1 * c2 - a2 * c1) / determinant)

/-- A calibrated object holding the given averaged coil points, everything else as the
constructor leaves it. -/
def calibrationWithCoils (coilLocs : List CvPoint) : Calibration :=
  { Calibration.init with coilLocs := coilLocs, calibrated := true }

/-- The constructor `Point(cv::Point cvPt) : QPointF(cvPt.x, cvPt.y)` of point.h, line 38. -/
def Point.ofCvPoint (cvPt : CvPoint) : Point :=
  ⟨(cvPt.x : ℝ), (cvPt.y : ℝ)⟩

/-! ## ImageSegmentation.cpp: the detection of the particle

The image processing of `detect_Particle` (lines 249 to 276) is done by OpenCV, an
external library.  What it hands to this code is an input of the model: whether the
frame is empty, the contours that `cv::findContours` returns (each one a vector of
points), the function `cv::boundingRect`, and whether the crop `cleanImage(boundingROI)`
is empty. -/

/-- The OpenCV method `cv::Rect::area`: `width * height`. -/
def CvRect.area (r : CvRect) : Int :=
  r.width * r.height

/-- The OpenCV method `cv::Rect::tl`, the top left corner. -/
def CvRect.tl (r : CvRect) : CvPoint :=
  ⟨r.x, r.y⟩

/-- The OpenCV method `cv::Rect::br`, the bottom right corner. -/
def CvRect.br (r : CvRect) : CvPoint :=
  ⟨r.x + r.width, r.y + r.height⟩

/-- The sum of two `cv::Point`. -/
def CvPoint.add (p q : CvPoint) : CvPoint :=
  ⟨p.x + q.x, p.y + q.y⟩

/-- The members of `ImageSegmentation` that the detection of the particle reads and
writes (ImageSegmentation.h, lines 94 and 102 to 104), added to those of the
calibration. -/
structure ParticleDetection extends Calibration where
  currentParticleLoc_Pixel : CvPoint
  filterThreshold : Int
  particleSizeMin : Int
  particleSizeMax : Int

/-- The default member initialisers of ImageSegmentation.h, lines 94 and 102 to 104. -/
def ParticleDetection.init : ParticleDetection :=
  { toCalibration := Calibration.init
    currentParticleLoc_Pixel := ⟨-1, -1⟩
    filterThreshold := 70
    particleSizeMin := 20
    particleSizeMax := 100 }

/-- Translation of `ImageSegmentation::receive_ParticleDetectionParams` (lines 552 to
556). -/
def ParticleDetection.receive_ParticleDetectionParams (s : ParticleDetection)
    (filterThreshold minSize maxSize : Int) : ParticleDetection :=
  { s with filterThreshold := filterThreshold
           particleSizeMin := minSize
           particleSizeMax := maxSize }

/-- The text sent through `send_OperationLogMsg` by `detect_Particle` (line 234). -/
inductive DetectionLogMsg where
  | cannotDetectParticle
  deriving DecidableEq

/-- The loop of `detect_Particle` over the contours (lines 278 to 293), on the variable
`particleBox`.  `contour.size()` is the number of points of the contour. -/
def particleBoxLoop (boundingRect : List CvPoint → CvRect)
    (particleSizeMin particleSizeMax : Int) : List (List CvPoint) → CvRect → CvRect
  | [], particleBox => particleBox
  | contour :: contours, particleBox =>
    let contourBox : CvRect := boundingRect contour
    if (contour.length : Int) > particleSizeMin ∧ (contour.length : Int) < particleSizeMax then
      if contourBox.area > particleBox.area then
        particleBoxLoop boundingRect particleSizeMin particleSizeMax contours contourBox
      else particleBoxLoop boundingRect particleSizeMin particleSizeMax contours particleBox
    else particleBoxLoop boundingRect particleSizeMin particleSizeMax contours particleBox

/-- Translation of `ImageSegmentation::detect_Particle` (lines 232 to 313): the object
afterwards and the log messages emitted.  `particleBox` starts as `cv::Rect()`, which is
`(0, 0, 0, 0)`; the division of two `int` truncates toward zero.  The drawing on the
returned image (lines 303 to 308) is not modelled. -/
def ParticleDetection.detect_Particle (s : ParticleDetection)
    (boundingRect : List CvPoint → CvRect) (particleImage_empty : Bool)
    (cleanCrop_empty : Bool) (contours : List (List CvPoint)) :
    ParticleDetection × List DetectionLogMsg :=
  if s.cleanImage_empty || particleImage_empty then
    (s, [DetectionLogMsg.cannotDetectParticle])
  else
    let s1 : ParticleDetection :=
      if s.cleanSubImage_empty then { s with cleanSubImage_empty := cleanCrop_empty } else s
    let particleBox0 : CvRect :=
      particleBoxLoop boundingRect s1.particleSizeMin s1.particleSizeMax contours ⟨0, 0, 0, 0⟩
    let particleBox : CvRect :=
      CvRect.ofCorners (particleBox0.tl.add s1.boundingROI.tl)
        (particleBox0.br.add s1.boundingROI.tl)
    if particleBox.area ≠ 0 then
      ({ s1 with currentParticleLoc_Pixel :=
          ⟨particleBox.x + Int.tdiv particleBox.width 2,
           particleBox.y + Int.tdiv particleBox.height 2⟩ }, [])
    else (s1, [])

/-- Translation of `ImageSegmentation::get_CurrentParticleLoc_Pixel` (lines 641 to
643). -/
def ParticleDetection.get_CurrentParticleLoc_Pixel (s : ParticleDetection) : Point :=
  ⟨(s.currentParticleLoc_Pixel.x : ℝ), (s.currentParticleLoc_Pixel.y : ℝ)⟩

/-- The upright bounding rectangle of a set of pixels, as the OpenCV documentation
describes the result of `cv::boundingRect`: from the least to the greatest coordinate,
both included.  It stands for `cv::boundingRect` in the examples. -/
def uprightBoundingRect : List CvPoint → CvRect
  | [] => ⟨0, 0, 0, 0⟩
  | p :: ps =>
    let xMin : Int := (ps.map (fun q => q.x)).foldl min p.x
    let xMax : Int := (ps.map (fun q => q.x)).foldl max p.x
    let yMin : Int := (ps.map (fun q => q.y)).foldl min p.y
    let yMax : Int := (ps.map (fun q => q.y)).foldl max p.y
    ⟨xMin, yMin, xMax - xMin + 1, yMax - yMin + 1⟩

/-- A contour of 20 points: the border of the square of pixels from `(10, 10)` to
`(15, 15)`, walked clockwise on the screen. -/
def squareContour : List CvPoint :=
  [⟨10, 10⟩, ⟨11, 10⟩, ⟨12, 10⟩, ⟨13, 10⟩, ⟨14, 10⟩, ⟨15, 10⟩,
   ⟨15, 11⟩, ⟨15, 12⟩, ⟨15, 13⟩, ⟨15, 14⟩, ⟨15, 15⟩,
   ⟨14, 15⟩, ⟨13, 15⟩, ⟨12, 15⟩, ⟨11, 15⟩, ⟨10, 15⟩,
   ⟨10, 14⟩, ⟨10, 13⟩, ⟨10, 12⟩, ⟨10, 11⟩]

/-- An object ready for the detection: as constructed, then with a non-empty clean image
and the operating area `(100, 100, 200, 200)`. -/
def readyDetection : ParticleDetection :=
  { ParticleDetection.init with
    cleanImage_empty := false
    boundingROI := ⟨100, 100, 200, 200⟩ }

/-! # Theorems -/

/-! ## Lemmas: distances -/

theorem computeEuclideanDist_comm (p q : Point) :
    Point.computeEuclideanDist p q = Point.computeEuclideanDist q p := by
  unfold Point.computeEuclideanDist
  congr 1
  ring

theorem computeEuclideanDist_nonneg (p q : Point) :
    0 ≤ Point.computeEuclideanDist p q := Real.sqrt_nonneg _

theorem computeEuclideanDist_self (p : Point) : Point.computeEuclideanDist p p = 0 := by
  simp [Point.computeEuclideanDist]

/-- The midpoint is at half the distance from the previous point. -/
theorem dist_intermediatePt_previous (c p : PathPtStruct) :
    Point.computeEuclideanDist (intermediatePt c p).physical p.physical
      = Point.computeEuclideanDist c.physical p.physical / 2 := by
  unfold Point.computeEuclideanDist intermediatePt
  have h : ((c.physical.x + p.physical.x) / 2 - p.physical.x) ^ 2
      + ((c.physical.y + p.physical.y) / 2 - p.physical.y) ^ 2
      = ((c.physical.x - p.physical.x) ^ 2 + (c.physical.y - p.physical.y) ^ 2) / 2 ^ 2 := by
    ring
  simp only [h]
  rw [Real.sqrt_div' _ (by positivity), Real.sqrt_sq (by norm_num)]

/-- The midpoint is at half the distance from the current point. -/
theorem dist_current_intermediatePt (c p : PathPtStruct) :
    Point.computeEuclideanDist c.physical (intermediatePt c p).physical
      = Point.computeEuclideanDist c.physical p.physical / 2 := by
  unfold Point.computeEuclideanDist intermediatePt
  have h : (c.physical.x - (c.physical.x + p.physical.x) / 2) ^ 2
      + (c.physical.y - (c.physical.y + p.physical.y) / 2) ^ 2
      = ((c.physical.x - p.physical.x) ^ 2 + (c.physical.y - p.physical.y) ^ 2) / 2 ^ 2 := by
    ring
  simp only [h]
  rw [Real.sqrt_div' _ (by positivity), Real.sqrt_sq (by norm_num)]

/-! ## Lemmas: indexing -/

theorem vectorAt_append_cons {α : Type} (pre : List α) (a : α) (rest : List α) :
    vectorAt (pre ++ a :: rest) (pre.length : Int) = Except.ok a := by
  have h : (pre ++ a :: rest)[pre.length]? = some a := by
    rw [List.getElem?_append_right (le_refl _)]
    simp
  simp only [vectorAt, Int.toNat_ofNat, h]
  simp

theorem vectorAt_append_cons_succ {α : Type} (pre : List α) (a b : α) (rest : List α) :
    vectorAt (pre ++ a :: b :: rest) ((pre.length : Int) + 1) = Except.ok b := by
  have h : ((pre.length : Int) + 1).toNat = pre.length + 1 := by omega
  have h0 : (0 : Int) ≤ (pre.length : Int) + 1 := by omega
  have h1 : (pre ++ a :: b :: rest)[pre.length + 1]? = some b := by
    rw [List.getElem?_append_right (Nat.le_succ _)]
    simp
  simp only [vectorAt, h, h0, h1]
  simp

theorem insertIdx_append_cons {α : Type} (pre : List α) (a m : α) (rest : List α) :
    (pre ++ a :: rest).insertIdx (pre.length + 1) m = pre ++ a :: m :: rest := by
  induction pre with
  | nil => simp [List.insertIdx_succ_cons, List.insertIdx_zero]
  | cons x xs ih => simpa [List.insertIdx_succ_cons] using ih

/-! ## Lemmas: one iteration of the `for` loop -/

theorem discretize_For_insert (D : ℝ) (fuel : Nat) (pre : List PathPtStruct)
    (prev cur : PathPtStruct) (rest : List PathPtStruct) (i total : Int) (full : Bool)
    (hi : i = (pre.length : Int) + 1) (ht : i < total)
    (h : Point.computeEuclideanDist cur.physical prev.physical > D) :
    discretize_For D (fuel + 1) (pre ++ prev :: cur :: rest) i total full
      = discretize_For D fuel (pre ++ prev :: intermediatePt cur prev :: cur :: rest) i
          (total + 1) false := by
  subst hi
  have h1 : ((pre.length : Int) + 1).toNat = pre.length + 1 := by omega
  rw [discretize_For]
  simp only [ht, if_true, vectorAt_append_cons_succ, add_sub_cancel_right,
    vectorAt_append_cons, h, h1, insertIdx_append_cons]

theorem discretize_For_advance (D : ℝ) (fuel : Nat) (pre : List PathPtStruct)
    (prev cur : PathPtStruct) (rest : List PathPtStruct) (i total : Int) (full : Bool)
    (hi : i = (pre.length : Int) + 1) (ht : i < total)
    (h : Point.computeEuclideanDist cur.physical prev.physical ≤ D) :
    discretize_For D (fuel + 1) (pre ++ prev :: cur :: rest) i total full
      = discretize_For D fuel (pre ++ prev :: cur :: rest) (i + 1) total full := by
  subst hi
  rw [discretize_For]
  simp only [ht, if_true, vectorAt_append_cons_succ, add_sub_cancel_right,
    vectorAt_append_cons, gt_iff_lt, not_lt.mpr h, if_false]

theorem discretize_For_exit (D : ℝ) (fuel : Nat) (path : List PathPtStruct)
    (i total : Int) (full : Bool) (ht : total ≤ i) :
    discretize_For D (fuel + 1) path i total full = Except.ok (path, total, full) := by
  rw [discretize_For]
  simp [not_lt.mpr ht]

/-! ## Lemmas: the `for` loop subdivides one gap completely -/

theorem segmentDone_of_le (D : ℝ) (pre : List PathPtStruct) (prev cur : PathPtStruct)
    (rest : List PathPtStruct) (total : Int) (ht : (pre.length : Int) + 1 < total)
    (hd : Point.computeEuclideanDist cur.physical prev.physical ≤ D) :
    SegmentDone D pre prev cur rest total 1 [] := by
  refine ⟨by simp, ?_, fun fuel full => ⟨full, ?_⟩⟩
  · simpa [withinInterpolation, computeEuclideanDist_comm] using hd
  · rw [discretize_For_advance D fuel pre prev cur rest _ total full rfl ht hd]
    simp

theorem discretize_For_segment (D : ℝ) (k : Nat) :
    ∀ (pre : List PathPtStruct) (prev cur : PathPtStruct) (rest : List PathPtStruct)
      (total : Int), (pre.length : Int) + 1 < total →
      Point.computeEuclideanDist cur.physical prev.physical ≤ 2 ^ k * D →
      ∃ (n : Nat) (ins : List PathPtStruct), SegmentDone D pre prev cur rest total n ins := by
  induction k with
  | zero =>
    intro pre prev cur rest total ht hd
    exact ⟨1, [], segmentDone_of_le D pre prev cur rest total ht (by simpa using hd)⟩
  | succ k ih =>
    intro pre prev cur rest total ht hd
    by_cases hle : Point.computeEuclideanDist cur.physical prev.physical ≤ D
    · exact ⟨1, [], segmentDone_of_le D pre prev cur rest total ht hle⟩
    · have hgt : Point.computeEuclideanDist cur.physical prev.physical > D := not_le.mp hle
      have hhalf : Point.computeEuclideanDist cur.physical prev.physical / 2 ≤ 2 ^ k * D := by
        rw [pow_succ] at hd
        linarith
      have hm1 : Point.computeEuclideanDist (intermediatePt cur prev).physical prev.physical
          ≤ 2 ^ k * D := by
        rw [dist_intermediatePt_previous]; exact hhalf
      have hm2 : Point.computeEuclideanDist cur.physical (intermediatePt cur prev).physical
          ≤ 2 ^ k * D := by
        rw [dist_current_intermediatePt]; exact hhalf
      obtain ⟨n1, ins1, hc1, hch1, hrun1⟩ :=
        ih pre prev (intermediatePt cur prev) (cur :: rest) (total + 1) (by omega) hm1
      obtain ⟨n2, ins2, hc2, hch2, hrun2⟩ :=
        ih (pre ++ prev :: ins1) (intermediatePt cur prev) cur rest
          (total + 1 + ins1.length) (by simp only [List.length_append, List.length_cons]
                                        push_cast
                                        omega) hm2
      refine ⟨n2 + n1 + 1, ins1 ++ intermediatePt cur prev :: ins2, ?_, ?_, ?_⟩
      · intro p hp
        rcases List.mem_append.mp hp with h | h
        · exact hc1 p h
        · rcases List.mem_cons.mp h with h | h
          · subst h; rfl
          · exact hc2 p h
      · have : (ins1 ++ intermediatePt cur prev :: ins2) ++ [cur]
            = ins1 ++ intermediatePt cur prev :: (ins2 ++ [cur]) := by simp
        rw [this, List.chain_split]
        exact ⟨hch1, hch2⟩
      · intro fuel full
        obtain ⟨f1, e1⟩ := hrun1 (fuel + n2) false
        obtain ⟨f2, e2⟩ := hrun2 fuel f1
        refine ⟨f2, ?_⟩
        have a1 : fuel + (n2 + n1 + 1) = (fuel + n2 + n1) + 1 := by omega
        rw [a1, discretize_For_insert D _ pre prev cur rest _ total full rfl ht hgt, e1]
        have l1 : pre ++ prev :: (ins1 ++ intermediatePt cur prev :: cur :: rest)
            = (pre ++ prev :: ins1) ++ intermediatePt cur prev :: cur :: rest := by simp
        have l2 : (pre ++ prev :: ins1) ++ intermediatePt cur prev :: (ins2 ++ cur :: rest)
            = pre ++ prev :: ((ins1 ++ intermediatePt cur prev :: ins2) ++ cur :: rest) := by
          simp
        have i1 : (pre.length : Int) + 1 + ins1.length + 1
            = ((pre ++ prev :: ins1).length : Int) + 1 := by
          simp only [List.length_append, List.length_cons]
          push_cast
          ring
        have i2 : ((pre ++ prev :: ins1).length : Int) + 1 + ins2.length + 1
            = (pre.length : Int) + 1
                + ((ins1 ++ intermediatePt cur prev :: ins2).length : Int) + 1 := by
          simp only [List.length_append, List.length_cons]
          push_cast
          ring
        have t2 : total + 1 + (ins1.length : Int) + (ins2.length : Int)
            = total + ((ins1 ++ intermediatePt cur prev :: ins2).length : Int) := by
          simp only [List.length_append, List.length_cons]
          push_cast
          ring
        rw [l1, i1, e2, l2, i2, t2]

/-! ## Lemmas: one pass of the `for` loop -/

theorem exists_pow_bound (D : ℝ) (hD : 0 < D) (L : ℝ) : ∃ k : Nat, L ≤ 2 ^ k * D := by
  obtain ⟨k, hk⟩ := pow_unbounded_of_one_lt (L / D) (one_lt_two : (1 : ℝ) < 2)
  refine ⟨k, ?_⟩
  have := (div_lt_iff₀ hD).mp hk
  linarith

theorem onlyInserts_refl (l : List PathPtStruct) : OnlyInserts l l := by
  induction l with
  | nil => exact OnlyInserts.nil
  | cons p l ih => exact OnlyInserts.keep p ih

theorem onlyInserts_append_left (ins : List PathPtStruct)
    (h : ∀ p ∈ ins, p.isCheckpoint = false) {l l' : List PathPtStruct}
    (hl : OnlyInserts l l') : OnlyInserts l (ins ++ l') := by
  induction ins with
  | nil => simpa using hl
  | cons p ps ih =>
    exact OnlyInserts.insert p (h p (List.mem_cons_self _ _))
      (ih (fun q hq => h q (List.mem_cons_of_mem _ hq)))

/-- One pass of the `for` loop, entered at the index after `prev`, terminates when the
interpolation distance is positive: it returns the path with non-checkpoints inserted
into the part after `prev`, all gaps after `prev` within `D`, the last point kept. -/
theorem discretize_For_path (D : ℝ) (hD : 0 < D) :
    ∀ (tail pre : List PathPtStruct) (prev : PathPtStruct) (total : Int),
      total = ((pre ++ prev :: tail).length : Int) →
      ∃ (n : Nat) (out : List PathPtStruct),
        OnlyInserts tail out ∧ List.Chain (withinInterpolation D) prev out ∧
        (prev :: out).getLast? = (prev :: tail).getLast? ∧
        ∀ (fuel : Nat) (full : Bool), ∃ full' : Bool,
          discretize_For D (fuel + n) (pre ++ prev :: tail) ((pre.length : Int) + 1)
              total full
            = Except.ok (pre ++ prev :: out, ((pre ++ prev :: out).length : Int), full') := by
  intro tail
  induction tail with
  | nil =>
    intro pre prev total ht
    refine ⟨1, [], OnlyInserts.nil, List.Chain.nil, rfl, fun fuel full => ⟨full, ?_⟩⟩
    rw [discretize_For_exit D fuel _ _ total full (by simp [ht]), ht]
  | cons cur rest ih =>
    intro pre prev total ht
    obtain ⟨k, hk⟩ := exists_pow_bound D hD
      (Point.computeEuclideanDist cur.physical prev.physical)
    have hlt : (pre.length : Int) + 1 < total := by
      rw [ht]
      simp only [List.length_append, List.length_cons]
      push_cast
      omega
    obtain ⟨n1, ins, hc, hch, hrun1⟩ :=
      discretize_For_segment D k pre prev cur rest total hlt hk
    have l1 : pre ++ prev :: (ins ++ cur :: rest) = (pre ++ prev :: ins) ++ cur :: rest := by
      simp
    obtain ⟨n2, out2, ho2, hch2, hlast2, hrun2⟩ :=
      ih (pre ++ prev :: ins) cur (total + ins.length) (by
        rw [ht]
        simp only [List.length_append, List.length_cons]
        push_cast
        ring)
    refine ⟨n2 + n1, ins ++ cur :: out2, ?_, ?_, ?_, ?_⟩
    · exact onlyInserts_append_left ins hc (OnlyInserts.keep cur ho2)
    · rw [List.chain_split]
      exact ⟨hch, hch2⟩
    · have e1 : prev :: (ins ++ cur :: out2) = (prev :: ins) ++ (cur :: out2) := by simp
      rw [e1, List.getLast?_append_of_ne_nil _ (by simp), hlast2]
      simp [List.getLast?_cons_cons]
    · intro fuel full
      obtain ⟨f1, e1⟩ := hrun1 (fuel + n2) full
      obtain ⟨f2, e2⟩ := hrun2 fuel f1
      refine ⟨f2, ?_⟩
      have a1 : fuel + (n2 + n1) = fuel + n2 + n1 := by omega
      have i1 : (pre.length : Int) + 1 + ins.length + 1
          = ((pre ++ prev :: ins).length : Int) + 1 := by
        simp only [List.length_append, List.length_cons]
        push_cast
        ring
      have l2 : (pre ++ prev :: ins) ++ cur :: out2 = pre ++ prev :: (ins ++ cur :: out2) := by
        simp
      rw [a1, e1, l1, i1, e2, l2]

/-- A pass over a path whose gaps are all within `D` changes nothing. -/
theorem discretize_For_noop (D : ℝ) :
    ∀ (tail pre : List PathPtStruct) (prev : PathPtStruct) (total : Int) (full : Bool)
      (fuel : Nat), total = ((pre ++ prev :: tail).length : Int) →
      List.Chain (withinInterpolation D) prev tail →
      discretize_For D (fuel + (tail.length + 1)) (pre ++ prev :: tail)
          ((pre.length : Int) + 1) total full
        = Except.ok (pre ++ prev :: tail, total, full) := by
  intro tail
  induction tail with
  | nil =>
    intro pre prev total full fuel ht _
    exact discretize_For_exit D fuel _ _ total full (by simp [ht])
  | cons cur rest ih =>
    intro pre prev total full fuel ht hch
    rw [List.chain_cons] at hch
    have hlt : (pre.length : Int) + 1 < total := by
      rw [ht]
      simp only [List.length_append, List.length_cons]
      push_cast
      omega
    have hd : Point.computeEuclideanDist cur.physical prev.physical ≤ D := by
      rw [computeEuclideanDist_comm]; exact hch.1
    have a1 : fuel + ((cur :: rest).length + 1) = (fuel + (rest.length + 1)) + 1 := by
      simp only [List.length_cons]
      omega
    have l1 : pre ++ prev :: cur :: rest = (pre ++ [prev]) ++ cur :: rest := by simp
    have i1 : (pre.length : Int) + 1 + 1 = ((pre ++ [prev]).length : Int) + 1 := by
      simp
    rw [a1, discretize_For_advance D _ pre prev cur rest _ total full rfl hlt hd, l1, i1,
      ih (pre ++ [prev]) cur total full fuel (by rw [ht, l1]) hch.2]

/-! ## Lemmas: the whole of `discretize_Path` -/

/-- With a positive interpolation distance the `do ... while` loop terminates (after at
most two passes): every fuel from `n` on gives the same result `out`. -/
theorem discretize_DoWhile_terminates (D : ℝ) (hD : 0 < D) (path : List PathPtStruct) :
    ∃ (n : Nat) (out : List PathPtStruct),
      OnlyInserts path out ∧ List.Chain' (withinInterpolation D) out ∧
      out.head? = path.head? ∧ out.getLast? = path.getLast? ∧
      ∀ fuel : Nat, discretize_DoWhile D (fuel + n) path (path.length : Int)
        = Except.ok (out, (out.length : Int)) := by
  cases path with
  | nil =>
    refine ⟨2, [], OnlyInserts.nil, List.chain'_nil, rfl, rfl, fun fuel => ?_⟩
    have a : fuel + 2 = (fuel + 1) + 1 := rfl
    rw [a, discretize_DoWhile, discretize_For_exit D fuel _ _ _ _ (by simp)]
    simp
  | cons prev tail =>
    obtain ⟨n1, out, ho, hch, hlast, hrun⟩ :=
      discretize_For_path D hD tail [] prev ((prev :: tail).length : Int) (by simp)
    refine ⟨n1 + out.length + 3, prev :: out, OnlyInserts.keep prev ho, hch, rfl, hlast,
      fun fuel => ?_⟩
    obtain ⟨f1, e1⟩ := hrun (fuel + out.length + 2) true
    have a1 : fuel + (n1 + out.length + 3) = (fuel + out.length + 2 + n1) + 1 := by omega
    simp only [List.nil_append, List.length_nil, Nat.cast_zero, zero_add] at e1
    rw [a1, discretize_DoWhile, e1]
    cases f1 with
    | true => simp
    | false =>
      have a2 : fuel + out.length + 2 + n1 = (fuel + n1 + (out.length + 1)) + 1 := by omega
      have e2 := discretize_For_noop D out [] prev ((prev :: out).length : Int) true
        (fuel + n1) (by simp) hch
      simp only [List.nil_append, List.length_nil, Nat.cast_zero, zero_add] at e2
      simp only [Bool.false_eq_true, if_false]
      rw [a2, discretize_DoWhile, e2]
      simp

/-! ## Lemmas: a result does not depend on the fuel -/

theorem discretize_For_fuel_succ (D : ℝ) :
    ∀ (fuel : Nat) (path : List PathPtStruct) (i total : Int) (full : Bool)
      (r : List PathPtStruct × Int × Bool),
      discretize_For D fuel path i total full = Except.ok r →
      discretize_For D (fuel + 1) path i total full = Except.ok r := by
  intro fuel
  induction fuel with
  | zero =>
    intro path i total full r h
    simp [discretize_For] at h
  | succ fuel ih =>
    intro path i total full r h
    rw [discretize_For] at h ⊢
    by_cases h1 : i < total
    · simp only [h1, if_true] at h ⊢
      cases hc : vectorAt path i with
      | error e => simp [hc] at h
      | ok c =>
        cases hp : vectorAt path (i - 1) with
        | error e => simp [hc, hp] at h
        | ok p =>
          simp only [hc, hp] at h ⊢
          by_cases h2 : Point.computeEuclideanDist c.physical p.physical > D
          · simp only [h2, if_true] at h ⊢
            exact ih _ _ _ _ _ h
          · simp only [h2, if_false] at h ⊢
            exact ih _ _ _ _ _ h
    · simp only [h1, if_false] at h ⊢
      exact h

theorem discretize_For_fuel_le (D : ℝ) (fuel fuel' : Nat) (hle : fuel ≤ fuel')
    (path : List PathPtStruct) (i total : Int) (full : Bool)
    (r : List PathPtStruct × Int × Bool)
    (h : discretize_For D fuel path i total full = Except.ok r) :
    discretize_For D fuel' path i total full = Except.ok r := by
  induction hle with
  | refl => exact h
  | step _ ih => exact discretize_For_fuel_succ D _ _ _ _ _ _ ih

theorem discretize_DoWhile_fuel_succ (D : ℝ) :
    ∀ (fuel : Nat) (path : List PathPtStruct) (total : Int) (r : List PathPtStruct × Int),
      discretize_DoWhile D fuel path total = Except.ok r →
      discretize_DoWhile D (fuel + 1) path total = Except.ok r := by
  intro fuel
  induction fuel with
  | zero =>
    intro path total r h
    simp [discretize_DoWhile] at h
  | succ fuel ih =>
    intro path total r h
    rw [discretize_DoWhile] at h ⊢
    split at h
    · simp at h
    · rename_i p t f hf
      rw [discretize_For_fuel_succ D _ _ _ _ _ _ hf]
      cases f with
      | true => simpa using h
      | false =>
        simp only [Bool.false_eq_true, if_false] at h ⊢
        exact ih _ _ _ h

theorem discretize_DoWhile_fuel_le (D : ℝ) (fuel fuel' : Nat) (hle : fuel ≤ fuel')
    (path : List PathPtStruct) (total : Int) (r : List PathPtStruct × Int)
    (h : discretize_DoWhile D fuel path total = Except.ok r) :
    discretize_DoWhile D fuel' path total = Except.ok r := by
  induction hle with
  | refl => exact h
  | step _ ih => exact discretize_DoWhile_fuel_succ D _ _ _ _ ih

/-! ## Lemmas: `discretize_Path` -/

/-- Whatever fuel made the `do ... while` loop return, the result is the discretization:
the input with non-checkpoints inserted, all gaps within `D`, first and last point kept. -/
theorem discretize_DoWhile_result (D : ℝ) (hD : 0 < D) (fuel : Nat)
    (path out : List PathPtStruct) (t : Int)
    (h : discretize_DoWhile D fuel path (path.length : Int) = Except.ok (out, t)) :
    t = (out.length : Int) ∧ OnlyInserts path out ∧
      List.Chain' (withinInterpolation D) out ∧
      out.head? = path.head? ∧ out.getLast? = path.getLast? := by
  obtain ⟨n, out', ho, hch, hh, hl, hrun⟩ := discretize_DoWhile_terminates D hD path
  have h1 := discretize_DoWhile_fuel_le D fuel (fuel + n) (Nat.le_add_right _ _) _ _ _ h
  rw [hrun fuel] at h1
  injection h1 with h1
  injection h1 with h2 h3
  subst h2
  subst h3
  exact ⟨rfl, ho, hch, hh, hl⟩

/-! ## Lemmas: `setup_PathTraversal` -/

theorem setup_For_of_nonneg (pathCheckPoints : List PathPointMarker) :
    ∀ (n : Nat) (i : Int) (deliveryPath : List PathPtStruct), 0 ≤ i →
      ((pathCheckPoints.length : Int) - i).toNat = n →
      setup_For pathCheckPoints i deliveryPath
        = Except.ok (deliveryPath ++ (pathCheckPoints.drop i.toNat).map (fun m => m.data)) := by
  intro n
  induction n with
  | zero =>
    intro i acc hi hn
    have hge : (pathCheckPoints.length : Int) ≤ i := by omega
    rw [setup_For]
    have hd : pathCheckPoints.drop i.toNat = [] := by
      apply List.drop_eq_nil_of_le
      omega
    simp [not_lt.mpr hge, hd]
  | succ n ih =>
    intro i acc hi hn
    have hlt : i < (pathCheckPoints.length : Int) := by omega
    have hlt' : i.toNat < pathCheckPoints.length := by omega
    rw [setup_For]
    have hat : vectorAt pathCheckPoints i = Except.ok (pathCheckPoints[i.toNat]) := by
      simp [vectorAt, hi, List.getElem?_eq_getElem hlt']
    have hn' : ((pathCheckPoints.length : Int) - (i + 1)).toNat = n := by omega
    have hs : (i + 1).toNat = i.toNat + 1 := by omega
    simp only [hlt, if_true, hat]
    rw [ih (i + 1) _ (by omega) hn', hs, List.append_assoc]
    congr 2
    rw [List.singleton_append, List.drop_eq_getElem_cons hlt', List.map_cons]

theorem setup_For_of_neg (pathCheckPoints : List PathPointMarker) (i : Int)
    (deliveryPath : List PathPtStruct) (hi : i < 0) :
    setup_For pathCheckPoints i deliveryPath = Except.error Fault.out_of_range := by
  rw [setup_For]
  have hlt : i < (pathCheckPoints.length : Int) := by omega
  simp [hlt, vectorAt, not_le.mpr hi]

theorem pendingCheckpoints_cons (s : ControlModule) (pathCheckPoints : List PathPointMarker)
    (h0 : 0 ≤ s.currentPathCheckpoint)
    (hlt : s.currentPathCheckpoint < (pathCheckPoints.length : Int)) :
    ∃ (first : PathPointMarker) (rest : List PathPointMarker),
      pathCheckPoints.drop s.currentPathCheckpoint.toNat = first :: rest ∧
      s.pendingCheckpoints pathCheckPoints = first.data :: rest.map (fun m => m.data) := by
  have hlt' : s.currentPathCheckpoint.toNat < pathCheckPoints.length := by omega
  refine ⟨pathCheckPoints[s.currentPathCheckpoint.toNat], _,
    List.drop_eq_getElem_cons hlt', ?_⟩
  unfold ControlModule.pendingCheckpoints
  rw [List.drop_eq_getElem_cons hlt', List.map_cons]

/-- The call of `setup_PathTraversal` with valid arguments and a checkpoint counter inside
the checkpoint list: it fails exactly as `discretize_Path` fails, and otherwise returns
`true` with the state `afterSetup`. -/
theorem setup_PathTraversal_valid (fuel : Nat) (s : ControlModule)
    (pathCheckPoints : List PathPointMarker) (td tol D : ℝ)
    (htol : 0 < tol) (hD : 0 < D) (h0 : 0 ≤ s.currentPathCheckpoint)
    (hlt : s.currentPathCheckpoint < (pathCheckPoints.length : Int))
    (first : PathPtStruct) (rest : List PathPtStruct)
    (hp : s.pendingCheckpoints pathCheckPoints = first :: rest) :
    (∀ e, discretize_DoWhile D fuel (first :: rest) ((first :: rest).length : Int)
        = Except.error e →
      s.setup_PathTraversal fuel pathCheckPoints td tol D = Except.error e) ∧
    (∀ out t, discretize_DoWhile D fuel (first :: rest) ((first :: rest).length : Int)
        = Except.ok (out, t) →
      s.setup_PathTraversal fuel pathCheckPoints td tol D
        = Except.ok (true, s.afterSetup first out td tol D, [])) := by
  have hlen : ¬ ((pathCheckPoints.length : Int) = 0) := by omega
  have hfor : setup_For pathCheckPoints s.currentPathCheckpoint []
      = Except.ok (first :: rest) := by
    rw [setup_For_of_nonneg pathCheckPoints _ _ _ h0 rfl]
    simpa [ControlModule.pendingCheckpoints] using hp
  have hat : vectorAt (first :: rest) 0 = Except.ok first := by simp [vectorAt]
  constructor
  · intro e he
    simp only [ControlModule.setup_PathTraversal, hlen, if_false, not_le.mpr htol,
      not_le.mpr hD, hfor, hat, ControlModule.discretize_Path, he]
  · intro out t he
    obtain ⟨ht, -⟩ := discretize_DoWhile_result D hD fuel _ _ _ he
    subst ht
    simp only [ControlModule.setup_PathTraversal, hlen, if_false, not_le.mpr htol,
      not_le.mpr hD, hfor, hat, ControlModule.discretize_Path, he,
      ControlModule.afterSetup]

/-- The call of `setup_PathTraversal` with valid arguments but a checkpoint counter outside
the checkpoint list throws `std::out_of_range`. -/
theorem setup_PathTraversal_throws (fuel : Nat) (s : ControlModule)
    (pathCheckPoints : List PathPointMarker) (td tol D : ℝ)
    (hne : pathCheckPoints ≠ []) (htol : 0 < tol) (hD : 0 < D)
    (hc : s.currentPathCheckpoint < 0
      ∨ (pathCheckPoints.length : Int) ≤ s.currentPathCheckpoint) :
    s.setup_PathTraversal fuel pathCheckPoints td tol D
      = Except.error Fault.out_of_range := by
  have hlen : ¬ ((pathCheckPoints.length : Int) = 0) := by
    have := List.length_pos.mpr hne
    omega
  rcases hc with hc | hc
  · simp only [ControlModule.setup_PathTraversal, hlen, if_false, not_le.mpr htol,
      not_le.mpr hD, setup_For_of_neg _ _ _ hc]
  · have h0 : 0 ≤ s.currentPathCheckpoint := by omega
    have hd : pathCheckPoints.drop s.currentPathCheckpoint.toNat = [] := by
      apply List.drop_eq_nil_of_le
      omega
    have hfor : setup_For pathCheckPoints s.currentPathCheckpoint [] = Except.ok [] := by
      rw [setup_For_of_nonneg pathCheckPoints _ _ _ h0 rfl]
      simp [hd]
    have hat : vectorAt ([] : List PathPtStruct) 0 = Except.error Fault.out_of_range := by
      simp [vectorAt]
    simp only [ControlModule.setup_PathTraversal, hlen, if_false, not_le.mpr htol,
      not_le.mpr hD, hfor, hat]

/-- The call of `setup_PathTraversal` with an invalid argument returns `false`, leaves
the state as it was and sends one log message. -/
theorem setup_PathTraversal_invalid (fuel : Nat) (s : ControlModule)
    (pathCheckPoints : List PathPointMarker) (td tol D : ℝ)
    (h : pathCheckPoints = [] ∨ tol ≤ 0 ∨ D ≤ 0) :
    ∃ msg, s.setup_PathTraversal fuel pathCheckPoints td tol D
      = Except.ok (false, s, [Signal.send_OperationLogMsg msg]) := by
  unfold ControlModule.setup_PathTraversal
  by_cases h1 : (pathCheckPoints.length : Int) = 0
  · refine ⟨LogMsg.pathNotDrawn, ?_⟩
    simp only [h1, if_true]
  · by_cases h2 : tol ≤ 0
    · refine ⟨LogMsg.invalidDeviationTolerance tol, ?_⟩
      simp only [h1, if_false, h2, if_true]
    · by_cases h3 : D ≤ 0
      · refine ⟨LogMsg.invalidInterpolationDistance D, ?_⟩
        simp only [h1, if_false, h2, h3, if_true]
      · exfalso
        rcases h with h | h | h
        · exact h1 (by simp [h])
        · exact h2 h
        · exact h3 h

/-- What a successful `setup_PathTraversal` tells: the arguments were valid, the checkpoint
counter was inside the list, no signal was sent, and the state is `afterSetup` of the
discretization `out` of the pending checkpoints. -/
theorem setup_PathTraversal_ok_inv (fuel : Nat) (s s1 : ControlModule)
    (pathCheckPoints : List PathPointMarker) (td tol D : ℝ) (signals : List Signal)
    (h : s.setup_PathTraversal fuel pathCheckPoints td tol D
      = Except.ok (true, s1, signals)) :
    0 < tol ∧ 0 < D ∧ 0 ≤ s.currentPathCheckpoint ∧
    s.currentPathCheckpoint < (pathCheckPoints.length : Int) ∧ signals = [] ∧
    ∃ (first : PathPtStruct) (rest out : List PathPtStruct),
      s.pendingCheckpoints pathCheckPoints = first :: rest ∧
      s1 = s.afterSetup first out td tol D ∧
      OnlyInserts (first :: rest) out ∧
      List.Chain' (withinInterpolation D) out ∧
      out.head? = some first ∧ out.getLast? = (first :: rest).getLast? := by
  by_cases hv : pathCheckPoints = [] ∨ tol ≤ 0 ∨ D ≤ 0
  · obtain ⟨msg, hm⟩ := setup_PathTraversal_invalid fuel s pathCheckPoints td tol D hv
    rw [hm] at h
    simp at h
  · push_neg at hv
    obtain ⟨hne, htol, hD⟩ := hv
    by_cases hc : s.currentPathCheckpoint < 0
        ∨ (pathCheckPoints.length : Int) ≤ s.currentPathCheckpoint
    · rw [setup_PathTraversal_throws fuel s pathCheckPoints td tol D hne htol hD hc] at h
      simp at h
    · push_neg at hc
      obtain ⟨h0, hlt⟩ := hc
      obtain ⟨first, rest, -, hp⟩ := pendingCheckpoints_cons s pathCheckPoints h0 hlt
      obtain ⟨herr, hok⟩ := setup_PathTraversal_valid fuel s pathCheckPoints td tol D
        htol hD h0 hlt first.data (rest.map (fun m => m.data)) hp
      cases hdw : discretize_DoWhile D fuel (first.data :: rest.map (fun m => m.data))
          (((first.data :: rest.map (fun m => m.data)).length : Nat) : Int) with
      | error e =>
        rw [herr e hdw] at h
        simp at h
      | ok r =>
        obtain ⟨out, t⟩ := r
        rw [hok out t hdw] at h
        obtain ⟨-, ho, hch, hh, hl⟩ := discretize_DoWhile_result D hD fuel _ _ _ hdw
        injection h with h
        injection h with _ h
        injection h with h1 h2
        exact ⟨htol, hD, h0, hlt, h2.symm, first.data, _, out, hp, h1.symm, ho, hch,
          by simpa using hh, hl⟩

/-! ## Lemmas: the three branches of `allow_NextTranslation` -/

/-- Completion branch (lines 125 to 129). -/
theorem allow_NextTranslation_complete (s : ControlModule) (particleLoc : Point)
    (hfinal : s.totalNumPathPts - s.targetPathPtIndex - 1 ≤ 0)
    (hdev : Point.computeEuclideanDist particleLoc s.targetPathPtData.physical
      ≤ s.deviationTolerance) :
    s.allow_NextTranslation particleLoc
      = Except.ok (false,
          { s with actualDeviation :=
              Point.computeEuclideanDist particleLoc s.targetPathPtData.physical },
          [Signal.send_StopOpPrompt, Signal.send_OperationLogMsg LogMsg.operationComplete]) := by
  simp only [ControlModule.allow_NextTranslation, hfinal, hdev, and_self, if_true]

/-- Failure branch (lines 153 to 163): the retry counter goes up by one, and the call
stops the operation exactly when the counter has reached 40. -/
theorem allow_NextTranslation_retry (s : ControlModule) (particleLoc : Point)
    (hdev : Point.computeEuclideanDist particleLoc s.targetPathPtData.physical
      > s.deviationTolerance) :
    s.allow_NextTranslation particleLoc
      = if s.retryCounter + 1 ≥ 40 then
          Except.ok (false,
            { s with actualDeviation :=
                Point.computeEuclideanDist particleLoc s.targetPathPtData.physical
                     retryCounter := s.retryCounter + 1 },
            [Signal.send_StopOpPrompt,
              Signal.send_OperationLogMsg LogMsg.repeatedlyUnsuccessful])
        else
          Except.ok (true,
            { s with actualDeviation :=
                Point.computeEuclideanDist particleLoc s.targetPathPtData.physical
                     retryCounter := s.retryCounter + 1 },
            []) := by
  have h : ¬ (Point.computeEuclideanDist particleLoc s.targetPathPtData.physical
      ≤ s.deviationTolerance) := not_le.mpr hdev
  simp only [ControlModule.allow_NextTranslation, h, and_false, if_false, List.nil_append]

/-- Advancement branch (lines 132 to 151), when the two indexed points exist. -/
theorem allow_NextTranslation_advance (s : ControlModule) (particleLoc : Point)
    (target before : PathPtStruct)
    (hnotfinal : ¬ (s.totalNumPathPts - s.targetPathPtIndex - 1 ≤ 0))
    (hdev : Point.computeEuclideanDist particleLoc s.targetPathPtData.physical
      ≤ s.deviationTolerance)
    (htarget : vectorAt s.deliveryPath (s.targetPathPtIndex + 1) = Except.ok target)
    (hbefore : vectorAt s.deliveryPath s.targetPathPtIndex = Except.ok before) :
    s.allow_NextTranslation particleLoc
      = Except.ok (true,
          { s with
              actualDeviation :=
                Point.computeEuclideanDist particleLoc s.targetPathPtData.physical
              currentPathCheckpoint :=
                if s.targetPathPtData.isCheckpoint then s.currentPathCheckpoint + 1
                else s.currentPathCheckpoint
              targetPathPtIndex := s.targetPathPtIndex + 1
              targetPathPtData := target
              remainingPathDistance :=
                if s.remainingPathDistance
                    - Point.computeEuclideanDist target.physical before.physical < 0 then 0
                else s.remainingPathDistance
                    - Point.computeEuclideanDist target.physical before.physical
              retryCounter := 0 },
          if s.targetPathPtData.isCheckpoint then
            [Signal.send_CheckpointPassed s.currentPathCheckpoint]
          else []) := by
  cases hc : s.targetPathPtData.isCheckpoint <;>
    simp [ControlModule.allow_NextTranslation, ControlModule.advanceTarget, hnotfinal,
      hdev, htarget, hbefore, hc]

/-! ## C9 and C10: completion, advancement and retry -/

/-- C9 (completion).  Whenever the current target is the final point of the delivery path
(the test of the source, `totalNumPathPts - targetPathPtIndex - 1 <= 0`) and the particle
is within tolerance of it, `allow_NextTranslation` returns `false`, its signals are the
stop prompt followed by the message "Operation complete!" (so exactly one stop prompt and
no checkpoint event), and target index, checkpoint counter, retry count, remaining
distance, target point and delivery path are unchanged. -/
theorem C9_completion_stops_and_keeps_state (s : ControlModule) (particleLoc : Point)
    (hfinal : s.totalNumPathPts - s.targetPathPtIndex - 1 ≤ 0)
    (hdev : Point.computeEuclideanDist particleLoc s.targetPathPtData.physical
      ≤ s.deviationTolerance) :
    ∃ (s' : ControlModule) (signals : List Signal),
      s.allow_NextTranslation particleLoc = Except.ok (false, s', signals) ∧
      signals = [Signal.send_StopOpPrompt,
        Signal.send_OperationLogMsg LogMsg.operationComplete] ∧
      stopEvents signals = 1 ∧ checkpointEvents signals = [] ∧
      s'.targetPathPtIndex = s.targetPathPtIndex ∧
      s'.currentPathCheckpoint = s.currentPathCheckpoint ∧
      s'.retryCounter = s.retryCounter ∧
      s'.remainingPathDistance = s.remainingPathDistance ∧
      s'.targetPathPtData = s.targetPathPtData ∧
      s'.deliveryPath = s.deliveryPath := by
  refine ⟨_, _, allow_NextTranslation_complete s particleLoc hfinal hdev, rfl, rfl, rfl,
    rfl, rfl, rfl, rfl, rfl, rfl⟩

theorem exampleControl_final_on_target :
    Point.computeEuclideanDist ⟨1, 0⟩ (exampleControl 1 1).targetPathPtData.physical
      ≤ (exampleControl 1 1).deviationTolerance := by
  simp only [exampleControl, pathPtAt, computeEuclideanDist_self]
  norm_num

/-- Witness of C9: the controller of `exampleControl` at its final target `(1, 0)`, with
the particle on the target. -/
theorem C9_completion_witness :
    ∃ (s' : ControlModule) (signals : List Signal),
      (exampleControl 1 1).allow_NextTranslation ⟨1, 0⟩ = Except.ok (false, s', signals) ∧
      signals = [Signal.send_StopOpPrompt,
        Signal.send_OperationLogMsg LogMsg.operationComplete] ∧
      stopEvents signals = 1 ∧ checkpointEvents signals = [] ∧
      s'.targetPathPtIndex = (exampleControl 1 1).targetPathPtIndex ∧
      s'.currentPathCheckpoint = (exampleControl 1 1).currentPathCheckpoint ∧
      s'.retryCounter = (exampleControl 1 1).retryCounter ∧
      s'.remainingPathDistance = (exampleControl 1 1).remainingPathDistance ∧
      s'.targetPathPtData = (exampleControl 1 1).targetPathPtData ∧
      s'.deliveryPath = (exampleControl 1 1).deliveryPath :=
  C9_completion_stops_and_keeps_state (exampleControl 1 1) ⟨1, 0⟩
    (by simp [exampleControl]) exampleControl_final_on_target

/-- C10 (advancement and retry).  Let the current target have index `i`, not the final
one: `deliveryPath[i] = a`, `deliveryPath[i+1] = b`, and `totalNumPathPts` is the length of
the path.  If the deviation is within tolerance, `allow_NextTranslation` returns `true`
and the new state has target index `i + 1`, target point `b`, retry count 0 and remaining
distance `max 0 (remaining - dist a b)`.  If the deviation exceeds the tolerance, the
retry count goes up by exactly one and target index, checkpoint counter and remaining
distance are unchanged. -/
theorem C10_advance_or_retry (s : ControlModule) (particleLoc : Point) (i : Nat)
    (a b : PathPtStruct)
    (htotal : s.totalNumPathPts = (s.deliveryPath.length : Int))
    (hidx : s.targetPathPtIndex = (i : Int))
    (ha : s.deliveryPath[i]? = some a) (hb : s.deliveryPath[i + 1]? = some b) :
    (Point.computeEuclideanDist particleLoc s.targetPathPtData.physical
        ≤ s.deviationTolerance →
      ∃ (s' : ControlModule) (signals : List Signal),
        s.allow_NextTranslation particleLoc = Except.ok (true, s', signals) ∧
        s'.targetPathPtIndex = (i : Int) + 1 ∧ s'.targetPathPtData = b ∧
        s'.retryCounter = 0 ∧
        s'.remainingPathDistance
          = max 0 (s.remainingPathDistance
              - Point.computeEuclideanDist a.physical b.physical)) ∧
    (Point.computeEuclideanDist particleLoc s.targetPathPtData.physical
        > s.deviationTolerance →
      ∃ (proceed : Bool) (s' : ControlModule) (signals : List Signal),
        s.allow_NextTranslation particleLoc = Except.ok (proceed, s', signals) ∧
        s'.retryCounter = s.retryCounter + 1 ∧
        s'.targetPathPtIndex = s.targetPathPtIndex ∧
        s'.currentPathCheckpoint = s.currentPathCheckpoint ∧
        s'.remainingPathDistance = s.remainingPathDistance) := by
  constructor
  · intro hdev
    have hlen : i + 1 < s.deliveryPath.length := by
      rcases Nat.lt_or_ge (i + 1) s.deliveryPath.length with h | h
      · exact h
      · rw [List.getElem?_eq_none h] at hb
        simp at hb
    have hnotfinal : ¬ (s.totalNumPathPts - s.targetPathPtIndex - 1 ≤ 0) := by
      rw [htotal, hidx]
      omega
    have htarget : vectorAt s.deliveryPath (s.targetPathPtIndex + 1) = Except.ok b := by
      have h1 : ((i : Int) + 1).toNat = i + 1 := by omega
      have h0 : (0 : Int) ≤ (i : Int) + 1 := by omega
      simp only [vectorAt, hidx, h0, if_true, h1, hb]
    have hbefore : vectorAt s.deliveryPath s.targetPathPtIndex = Except.ok a := by
      simp only [vectorAt, hidx, Int.toNat_ofNat, ha]
      simp
    refine ⟨_, _, allow_NextTranslation_advance s particleLoc b a hnotfinal hdev htarget
      hbefore, by simp [hidx], rfl, rfl, ?_⟩
    simp only
    rw [computeEuclideanDist_comm b.physical a.physical]
    split
    · rename_i h
      rw [max_eq_left (le_of_lt h)]
    · rename_i h
      rw [max_eq_right (not_lt.mp h)]
  · intro hdev
    rw [allow_NextTranslation_retry s particleLoc hdev]
    split
    · exact ⟨_, _, _, rfl, rfl, rfl, rfl, rfl⟩
    · exact ⟨_, _, _, rfl, rfl, rfl, rfl, rfl⟩

/-- Witness of C10: the controller of `exampleControl` at its first target `(0, 0)`, with
the particle on the target, advances to the point `(1, 0)`. -/
theorem C10_advance_or_retry_witness :
    ∃ (s' : ControlModule) (signals : List Signal),
      (exampleControl 0 0).allow_NextTranslation ⟨0, 0⟩ = Except.ok (true, s', signals) ∧
      s'.targetPathPtIndex = ((0 : Nat) : Int) + 1 ∧
      s'.targetPathPtData = pathPtAt 1 0 true ∧
      s'.retryCounter = 0 ∧
      s'.remainingPathDistance
        = max 0 ((exampleControl 0 0).remainingPathDistance
            - Point.computeEuclideanDist (pathPtAt 0 0 true).physical
                (pathPtAt 1 0 true).physical) :=
  (C10_advance_or_retry (exampleControl 0 0) ⟨0, 0⟩ 0 (pathPtAt 0 0 true)
    (pathPtAt 1 0 true) (by simp [exampleControl]) (by simp [exampleControl])
    (by simp [exampleControl]) (by simp [exampleControl])).1
    (by simp only [exampleControl, pathPtAt, computeEuclideanDist_self]
        norm_num)

/-! ## C2: the retry cap -/

/-- Ticks that all miss the target, as many as bring the retry counter to 40: every tick
but the last returns `true` without a signal, the last returns `false` with the stop
prompt and the safety message. -/
theorem ticks_until_retry_cap :
    ∀ (locs : List Point) (s : ControlModule), locs ≠ [] →
      s.retryCounter + (locs.length : Int) = 40 →
      (∀ loc ∈ locs, Point.computeEuclideanDist loc s.targetPathPtData.physical
        > s.deviationTolerance) →
      ∃ s' : ControlModule,
        s.ticks locs = Except.ok (s',
          List.replicate (locs.length - 1) (true, []) ++
            [(false, [Signal.send_StopOpPrompt,
              Signal.send_OperationLogMsg LogMsg.repeatedlyUnsuccessful])]) := by
  intro locs
  induction locs with
  | nil => intro s h; exact absurd rfl h
  | cons loc rest ih =>
    intro s _ hlen hdev
    have hloc := hdev loc (List.mem_cons_self _ _)
    rw [ControlModule.ticks, allow_NextTranslation_retry s loc hloc]
    cases rest with
    | nil =>
      have h40 : s.retryCounter + 1 ≥ 40 := by
        simp only [List.length_cons, List.length_nil] at hlen
        omega
      simp only [h40, if_true, ControlModule.ticks]
      exact ⟨_, rfl⟩
    | cons loc2 rest2 =>
      have h40 : ¬ (s.retryCounter + 1 ≥ 40) := by
        simp only [List.length_cons] at hlen
        push_cast at hlen
        omega
      simp only [h40, if_false]
      obtain ⟨s', hs'⟩ := ih
        { s with actualDeviation :=
            Point.computeEuclideanDist loc s.targetPathPtData.physical
                 retryCounter := s.retryCounter + 1 }
        (List.cons_ne_nil _ _)
        (by simp only [List.length_cons] at hlen ⊢
            push_cast at hlen ⊢
            omega)
        (fun l hl => hdev l (List.mem_cons_of_mem _ hl))
      rw [hs']
      exact ⟨s', by simp [List.replicate_succ]⟩

/-- C2 (retry cap).  After a successful `setup_PathTraversal`, 40 consecutive calls of
`allow_NextTranslation` with particle locations whose deviation from the target exceeds
the tolerance give: `true` (and no signal) on each of the calls 1 to 39, and on the 40th
call `false` together with the stop prompt and the safety message. -/
theorem C2_retry_cap_stops_on_40th_call (fuel : Nat) (s0 s1 : ControlModule)
    (pathCheckPoints : List PathPointMarker) (td tol D : ℝ) (signals : List Signal)
    (hsetup : s0.setup_PathTraversal fuel pathCheckPoints td tol D
      = Except.ok (true, s1, signals))
    (locs : List Point) (hlen : locs.length = 40)
    (hdev : ∀ loc ∈ locs, Point.computeEuclideanDist loc s1.targetPathPtData.physical
      > s1.deviationTolerance) :
    s1.retryCounter = 0 ∧
    ∃ s' : ControlModule,
      s1.ticks locs = Except.ok (s',
        List.replicate 39 (true, []) ++
          [(false, [Signal.send_StopOpPrompt,
            Signal.send_OperationLogMsg LogMsg.repeatedlyUnsuccessful])]) := by
  obtain ⟨-, -, -, -, -, first, rest, out, -, hs1, -⟩ :=
    setup_PathTraversal_ok_inv fuel s0 s1 pathCheckPoints td tol D signals hsetup
  have hr : s1.retryCounter = 0 := by rw [hs1]; rfl
  refine ⟨hr, ?_⟩
  have hne : locs ≠ [] := by
    intro h
    rw [h] at hlen
    simp at hlen
  obtain ⟨s', hs'⟩ := ticks_until_retry_cap locs s1 hne (by rw [hr, hlen]; norm_num) hdev
  rw [hlen] at hs'
  exact ⟨s', hs'⟩

/-! ## C3: the coordinate round trip -/

/-- C3 (coordinate round trip).  In a calibrated state, whatever the origin and the axis
angle, `unmap_FromTrueCoordinates` after `map_ToTrueCoordinates` gives back the point, and
so does `map_ToTrueCoordinates` after `unmap_FromTrueCoordinates`, exactly over the
reals. -/
theorem C3_map_unmap_inverse (s : ImageSegmentation) (hcal : s.calibrated = true)
    (P Q : Point) :
    (s.unmap_FromTrueCoordinates (s.map_ToTrueCoordinates P).1).1 = P ∧
    (s.map_ToTrueCoordinates (s.unmap_FromTrueCoordinates Q).1).1 = Q := by
  have hsc := Real.sin_sq_add_cos_sq s.angle_XAxis
  obtain ⟨px, py⟩ := P
  obtain ⟨qx, qy⟩ := Q
  constructor
  · simp only [ImageSegmentation.map_ToTrueCoordinates,
      ImageSegmentation.unmap_FromTrueCoordinates, hcal, not_true_eq_false, if_false]
    congr 1
    · linear_combination (px - (s.origin.x : ℝ)) * hsc
    · linear_combination (py - (s.origin.y : ℝ)) * hsc
  · simp only [ImageSegmentation.map_ToTrueCoordinates,
      ImageSegmentation.unmap_FromTrueCoordinates, hcal, not_true_eq_false, if_false]
    congr 1
    · linear_combination qx * hsc
    · linear_combination qy * hsc

/-- Witness of C3: origin `(320, 240)`, axis angle 0.3. -/
theorem C3_map_unmap_inverse_witness :
    ((ImageSegmentation.mk ⟨320, 240⟩ true 0.3).unmap_FromTrueCoordinates
        ((ImageSegmentation.mk ⟨320, 240⟩ true 0.3).map_ToTrueCoordinates ⟨100, 50⟩).1).1
      = ⟨100, 50⟩ ∧
    ((ImageSegmentation.mk ⟨320, 240⟩ true 0.3).map_ToTrueCoordinates
        ((ImageSegmentation.mk ⟨320, 240⟩ true 0.3).unmap_FromTrueCoordinates ⟨3, -4⟩).1).1
      = ⟨3, -4⟩ :=
  C3_map_unmap_inverse (ImageSegmentation.mk ⟨320, 240⟩ true 0.3) rfl ⟨100, 50⟩ ⟨3, -4⟩

theorem exampleSetup_is_setup :
    ControlModule.init.setup_PathTraversal 5 [markerAt 0 0] 0 0.5 2
      = Except.ok (true, exampleSetup, []) := by
  have hp : ControlModule.init.pendingCheckpoints [markerAt 0 0] = [pathPtAt 0 0 true] := by
    simp [ControlModule.pendingCheckpoints, ControlModule.init, markerAt]
  refine (setup_PathTraversal_valid 5 ControlModule.init [markerAt 0 0] 0 0.5 2
    (by norm_num) (by norm_num) (by simp [ControlModule.init])
    (by simp [ControlModule.init]) (pathPtAt 0 0 true) [] hp).2 _ 1 ?_
  simp [discretize_DoWhile, discretize_For]

theorem exampleSetup_misses (loc : Point) (h : loc ∈ List.replicate 40 (Point.mk 5 0)) :
    Point.computeEuclideanDist loc exampleSetup.targetPathPtData.physical
      > exampleSetup.deviationTolerance := by
  rw [List.eq_of_mem_replicate h]
  simp only [exampleSetup, ControlModule.afterSetup, pathPtAt, Point.computeEuclideanDist,
    gt_iff_lt]
  rw [Real.lt_sqrt (by norm_num)]
  norm_num

/-- Witness of C2: a fresh controller set up on the single checkpoint `(0, 0)` with
tolerance 0.5, and the particle held at `(5, 0)` for 40 ticks. -/
theorem C2_retry_cap_witness :
    exampleSetup.retryCounter = 0 ∧
    ∃ s' : ControlModule,
      exampleSetup.ticks (List.replicate 40 (Point.mk 5 0)) = Except.ok (s',
        List.replicate 39 (true, []) ++
          [(false, [Signal.send_StopOpPrompt,
            Signal.send_OperationLogMsg LogMsg.repeatedlyUnsuccessful])]) :=
  C2_retry_cap_stops_on_40th_call 5 ControlModule.init exampleSetup [markerAt 0 0] 0 0.5 2 []
    exampleSetup_is_setup (List.replicate 40 (Point.mk 5 0)) (List.length_replicate _ _)
    exampleSetup_misses

/-! ## C4: the minimum clamp of the actuation model -/

theorem chooseXDirection_boost (s : Physics) (d : ℝ) :
    (s.chooseXDirection d).boost_X = s.boost_X ∧ (s.chooseXDirection d).boost_Y = s.boost_Y := by
  unfold Physics.chooseXDirection
  split_ifs <;> exact ⟨rfl, rfl⟩

theorem chooseYDirection_boost (s : Physics) (d : ℝ) :
    (s.chooseYDirection d).boost_X = s.boost_X ∧ (s.chooseYDirection d).boost_Y = s.boost_Y := by
  unfold Physics.chooseYDirection
  split_ifs <;> exact ⟨rfl, rfl⟩

/-- After `set_Boost` each boost is 0, or 3, or 3 more than before. -/
theorem set_Boost_boost_cases (s : Physics) (currentLoc targetLoc : Point) :
    ((s.set_Boost currentLoc targetLoc).boost_X = 0
      ∨ (s.set_Boost currentLoc targetLoc).boost_X = 3
      ∨ (s.set_Boost currentLoc targetLoc).boost_X = s.boost_X + 3) ∧
    ((s.set_Boost currentLoc targetLoc).boost_Y = 0
      ∨ (s.set_Boost currentLoc targetLoc).boost_Y = 3
      ∨ (s.set_Boost currentLoc targetLoc).boost_Y = s.boost_Y + 3) := by
  unfold Physics.set_Boost
  by_cases h0 : s.previousLoc.x = -1 ∧ s.previousLoc.y = -1
  · simp [h0]
  · simp only [h0, if_false, apply_ite Physics.boost_X, apply_ite Physics.boost_Y,
      (chooseXDirection_boost _ _).1, (chooseXDirection_boost _ _).2,
      (chooseYDirection_boost _ _).1, (chooseYDirection_boost _ _).2]
    split_ifs <;> simp

/-- In every reachable state of the actuation model both boosts are non-negative. -/
theorem boost_nonneg_of_reachable (s : Physics) (h : s.Reachable) :
    0 ≤ s.boost_X ∧ 0 ≤ s.boost_Y := by
  induction h with
  | init => simp [Physics.init]
  | setCoilLocs coils _ ih => exact ih
  | computeNextCommand_NN c n _ ih => exact ih
  | @set_Boost s c t _ ih =>
    obtain ⟨hx, hy⟩ := ih
    obtain ⟨h1, h2⟩ := set_Boost_boost_cases s c t
    constructor
    · rcases h1 with h | h | h <;> rw [h] <;> omega
    · rcases h2 with h | h | h <;> rw [h] <;> omega

theorem commandX_fired_min (s : Physics) (currentLoc nextLoc : Point) (hb : 0 ≤ s.boost_X) :
    ((s.commandX currentLoc nextLoc).2.1 ≠ 0 → 7 ≤ (s.commandX currentLoc nextLoc).1) ∧
    ((s.commandX currentLoc nextLoc).2.2.2 ≠ 0
      → 7 ≤ (s.commandX currentLoc nextLoc).2.2.1) := by
  unfold Physics.commandX
  have hp := le_max_right
    (Physics.movePlusX currentLoc.x currentLoc.y nextLoc.x nextLoc.y
      (Point.computeEuclideanDist currentLoc (s.coilLoc 0))) 7
  have hm := le_max_right
    (Physics.moveMinusX currentLoc.x currentLoc.y nextLoc.x nextLoc.y
      (Point.computeEuclideanDist currentLoc (s.coilLoc 1))) 7
  by_cases h1 : nextLoc.x - currentLoc.x > 0
  · simp only [h1, if_true]
    refine ⟨fun _ => ?_, fun h => absurd rfl h⟩
    by_cases hf : s.xDirectioninNeedOfBoost = "+X"
    · simp only [hf, if_true]
      omega
    · simp only [hf, if_false]
      exact hp
  · by_cases h2 : nextLoc.x - currentLoc.x < 0
    · simp only [h1, if_false, h2, if_true]
      refine ⟨fun h => absurd rfl h, fun _ => ?_⟩
      by_cases hf : s.xDirectioninNeedOfBoost = "-X"
      · simp only [hf, if_true]
        omega
      · simp only [hf, if_false]
        exact hm
    · simp only [h1, h2, if_false]
      exact ⟨fun h => absurd rfl h, fun h => absurd rfl h⟩

theorem commandY_fired_min (s : Physics) (currentLoc nextLoc : Point) (hb : 0 ≤ s.boost_Y) :
    ((s.commandY currentLoc nextLoc).2.1 ≠ 0 → 7 ≤ (s.commandY currentLoc nextLoc).1) ∧
    ((s.commandY currentLoc nextLoc).2.2.2 ≠ 0
      → 7 ≤ (s.commandY currentLoc nextLoc).2.2.1) := by
  unfold Physics.commandY
  have hp := le_max_right
    (Physics.movePlusY currentLoc.x currentLoc.y nextLoc.x nextLoc.y
      (Point.computeEuclideanDist currentLoc (s.coilLoc 2))) 7
  have hm := le_max_right
    (Physics.moveMinusY currentLoc.x currentLoc.y nextLoc.x nextLoc.y
      (Point.computeEuclideanDist currentLoc (s.coilLoc 3))) 7
  by_cases h1 : nextLoc.y - currentLoc.y > 0
  · simp only [h1, if_true]
    refine ⟨fun _ => ?_, fun h => absurd rfl h⟩
    by_cases hf : s.yDirectioninNeedOfBoost = "+Y"
    · simp only [hf, if_true]
      omega
    · simp only [hf, if_false]
      exact hp
  · by_cases h2 : nextLoc.y - currentLoc.y < 0
    · simp only [h1, if_false, h2, if_true]
      refine ⟨fun h => absurd rfl h, fun _ => ?_⟩
      by_cases hf : s.yDirectioninNeedOfBoost = "-Y"
      · simp only [hf, if_true]
        omega
      · simp only [hf, if_false]
        exact hm
    · simp only [h1, h2, if_false]
      exact ⟨fun h => absurd rfl h, fun h => absurd rfl h⟩

/-- C4 (actuation minimum clamp).  In every state that the actuation model can reach (any
coil locations, any history of `set_Boost` calls), for every current and target location,
the command array written by `computeNextCommand_NN` has eight entries and every coil in
it with a non-zero duration has a current scale of at least 7. -/
theorem C4_fired_coil_scale_at_least_minimum (s : Physics) (hs : s.Reachable)
    (currentLoc nextLoc : Point) :
    (s.computeNextCommand_NN currentLoc nextLoc).commandArray.length = 8 ∧
    ∀ c ∈ coilCommands (s.computeNextCommand_NN currentLoc nextLoc).commandArray,
      c.2 ≠ 0 → 7 ≤ c.1 := by
  obtain ⟨hx, hy⟩ := boost_nonneg_of_reachable s hs
  obtain ⟨x1, x2⟩ := commandX_fired_min s currentLoc nextLoc hx
  obtain ⟨y1, y2⟩ := commandY_fired_min s currentLoc nextLoc hy
  refine ⟨rfl, ?_⟩
  intro c hc
  simp only [Physics.computeNextCommand_NN, coilCommands, List.getD_cons_zero,
    List.getD_cons_succ, List.mem_cons, List.mem_singleton, List.not_mem_nil, or_false] at hc
  rcases hc with h | h | h | h <;> subst h
  · exact x1
  · exact x2
  · exact y1
  · exact y2

/-- Witness of C4: the constructed object after one `setCoilLocs` and two `set_Boost`
calls, asked for a move from `(0, 0)` to `(3, -2)`. -/
theorem C4_fired_coil_witness :
    ((((Physics.init.setCoilLocs [⟨26, 0⟩, ⟨-26, 0⟩, ⟨0, 26⟩, ⟨0, -26⟩]).set_Boost
        ⟨0, 0⟩ ⟨3, -2⟩).set_Boost ⟨0, 0⟩ ⟨3, -2⟩).computeNextCommand_NN
          ⟨0, 0⟩ ⟨3, -2⟩).commandArray.length = 8 ∧
    ∀ c ∈ coilCommands ((((Physics.init.setCoilLocs
        [⟨26, 0⟩, ⟨-26, 0⟩, ⟨0, 26⟩, ⟨0, -26⟩]).set_Boost
        ⟨0, 0⟩ ⟨3, -2⟩).set_Boost ⟨0, 0⟩ ⟨3, -2⟩).computeNextCommand_NN
          ⟨0, 0⟩ ⟨3, -2⟩).commandArray,
      c.2 ≠ 0 → 7 ≤ c.1 :=
  C4_fired_coil_scale_at_least_minimum _
    (Physics.Reachable.set_Boost _ _ (Physics.Reachable.set_Boost _ _
      (Physics.Reachable.setCoilLocs _ Physics.Reachable.init))) ⟨0, 0⟩ ⟨3, -2⟩

/-! ## C8: the target-index invariant -/

theorem targetInRange_afterSetup (s : ControlModule) (first : PathPtStruct)
    (out : List PathPtStruct) (td tol D : ℝ) (hh : out.head? = some first) :
    (s.afterSetup first out td tol D).TargetInRange := by
  cases out with
  | nil => simp at hh
  | cons p ps =>
    simp only [List.head?_cons, Option.some.injEq] at hh
    subst hh
    refine ⟨rfl, le_refl _, ?_, ?_⟩
    · simp only [ControlModule.afterSetup, List.length_cons]
      push_cast
      omega
    · simp [ControlModule.afterSetup, vectorAt]

/-- With the invariant, `allow_NextTranslation` never indexes out of range, keeps the
invariant, and leaves path, tolerance and point count as they are. -/
theorem targetInRange_step (s : ControlModule) (hs : s.TargetInRange) (particleLoc : Point) :
    ∃ (proceed : Bool) (s' : ControlModule) (signals : List Signal),
      s.allow_NextTranslation particleLoc = Except.ok (proceed, s', signals) ∧
      s'.TargetInRange ∧ s'.deliveryPath = s.deliveryPath ∧
      s'.deviationTolerance = s.deviationTolerance := by
  obtain ⟨h1, h2, h3, h4⟩ := hs
  by_cases hdev : Point.computeEuclideanDist particleLoc s.targetPathPtData.physical
      ≤ s.deviationTolerance
  · by_cases hfinal : s.totalNumPathPts - s.targetPathPtIndex - 1 ≤ 0
    · exact ⟨_, _, _, allow_NextTranslation_complete s particleLoc hfinal hdev,
        ⟨h1, h2, h3, h4⟩, rfl, rfl⟩
    · have hlt : (s.targetPathPtIndex + 1).toNat < s.deliveryPath.length := by omega
      have h0 : 0 ≤ s.targetPathPtIndex + 1 := by omega
      have htarget : vectorAt s.deliveryPath (s.targetPathPtIndex + 1)
          = Except.ok (s.deliveryPath[(s.targetPathPtIndex + 1).toNat]) := by
        simp [vectorAt, h0, List.getElem?_eq_getElem hlt]
      refine ⟨_, _, _, allow_NextTranslation_advance s particleLoc _ _ hfinal hdev
        htarget h4, ⟨h1, h0, ?_, htarget⟩, rfl, rfl⟩
      show s.targetPathPtIndex + 1 < (s.deliveryPath.length : Int)
      omega
  · rw [allow_NextTranslation_retry s particleLoc (not_le.mp hdev)]
    split
    · exact ⟨_, _, _, rfl, ⟨h1, h2, h3, h4⟩, rfl, rfl⟩
    · exact ⟨_, _, _, rfl, ⟨h1, h2, h3, h4⟩, rfl, rfl⟩

theorem targetInRange_of_reachable (s1 s : ControlModule) (h1 : s1.TargetInRange)
    (hr : ControlModule.ReachableFrom s1 s) :
    s.TargetInRange ∧ s.deliveryPath = s1.deliveryPath
      ∧ s.deviationTolerance = s1.deviationTolerance := by
  induction hr with
  | start => exact ⟨h1, rfl, rfl⟩
  | step loc proceed signals _ hstep ih =>
    obtain ⟨hin, hp, ht⟩ := ih
    obtain ⟨p', s'', sig', he, hin', hp', ht'⟩ := targetInRange_step _ hin loc
    rw [he] at hstep
    injection hstep with hstep
    injection hstep with _ hstep
    injection hstep with hstep _
    subst hstep
    exact ⟨hin', hp'.trans hp, ht'.trans ht⟩

/-- C8 (target-index invariant).  In every state reached from a successful
`setup_PathTraversal` by any sequence of `allow_NextTranslation` calls:
`0 <= targetPathPtIndex < length of the delivery path`, `totalNumPathPts` is that length,
the stored target point is `deliveryPath[targetPathPtIndex]`, and the next call of
`allow_NextTranslation`, whatever the particle location, returns a result (it does not
index out of range). -/
theorem C8_target_index_in_range (fuel : Nat) (s0 s1 : ControlModule)
    (pathCheckPoints : List PathPointMarker) (td tol D : ℝ) (signals : List Signal)
    (hsetup : s0.setup_PathTraversal fuel pathCheckPoints td tol D
      = Except.ok (true, s1, signals))
    (s : ControlModule) (hreach : ControlModule.ReachableFrom s1 s) :
    0 ≤ s.targetPathPtIndex ∧
    s.targetPathPtIndex < (s.deliveryPath.length : Int) ∧
    s.totalNumPathPts = (s.deliveryPath.length : Int) ∧
    s.deliveryPath[s.targetPathPtIndex.toNat]? = some s.targetPathPtData ∧
    ∀ particleLoc : Point, ∃ (proceed : Bool) (s' : ControlModule) (signals' : List Signal),
      s.allow_NextTranslation particleLoc = Except.ok (proceed, s', signals') := by
  obtain ⟨-, -, -, -, -, first, rest, out, -, hs1, -, -, hh, -⟩ :=
    setup_PathTraversal_ok_inv fuel s0 s1 pathCheckPoints td tol D signals hsetup
  have h1 : s1.TargetInRange := by
    rw [hs1]
    exact targetInRange_afterSetup s0 first out td tol D hh
  obtain ⟨hin, -, -⟩ := targetInRange_of_reachable s1 s h1 hreach
  obtain ⟨a, b, c, d⟩ := hin
  refine ⟨b, c, a, ?_, fun loc => ?_⟩
  · have hlt : s.targetPathPtIndex.toNat < s.deliveryPath.length := by omega
    simp only [vectorAt, b, if_true, List.getElem?_eq_getElem hlt] at d
    rw [List.getElem?_eq_getElem hlt]
    injection d with d
    rw [d]
  · obtain ⟨p, s', sig, he, -⟩ := targetInRange_step s ⟨a, b, c, d⟩ loc
    exact ⟨p, s', sig, he⟩

/-- Witness of C8: the state right after setting up the single checkpoint `(0, 0)`. -/
theorem C8_target_index_witness :
    0 ≤ exampleSetup.targetPathPtIndex ∧
    exampleSetup.targetPathPtIndex < (exampleSetup.deliveryPath.length : Int) ∧
    exampleSetup.totalNumPathPts = (exampleSetup.deliveryPath.length : Int) ∧
    exampleSetup.deliveryPath[exampleSetup.targetPathPtIndex.toNat]?
      = some exampleSetup.targetPathPtData ∧
    ∀ particleLoc : Point, ∃ (proceed : Bool) (s' : ControlModule) (signals' : List Signal),
      exampleSetup.allow_NextTranslation particleLoc = Except.ok (proceed, s', signals') :=
  C8_target_index_in_range 5 ControlModule.init exampleSetup [markerAt 0 0] 0 0.5 2 []
    exampleSetup_is_setup exampleSetup ControlModule.ReachableFrom.start

/-! ## C5: checkpoint signalling -/

theorem filter_getElem?_countP {α : Type} (p : α → Bool) :
    ∀ (l : List α) (i : Nat) (a : α), l[i]? = some a → p a = true →
      (l.filter p)[(l.take i).countP p]? = some a := by
  intro l
  induction l with
  | nil => intro i a h; simp at h
  | cons x xs ih =>
    intro i a h hp
    cases i with
    | zero =>
      simp only [List.getElem?_cons_zero, Option.some.injEq] at h
      subst h
      simp [List.filter_cons, hp]
    | succ i =>
      simp only [List.getElem?_cons_succ] at h
      have := ih i a h hp
      cases hx : p x
      · simpa [List.filter_cons, hx, List.countP_cons] using this
      · simpa [List.filter_cons, hx, List.countP_cons] using this

/-- The checkpoints of a discretized path are the points it was made from, when those
are all checkpoints. -/
theorem filter_isCheckpoint_of_onlyInserts {base out : List PathPtStruct}
    (h : OnlyInserts base out) (hb : ∀ p ∈ base, p.isCheckpoint = true) :
    out.filter (fun p => p.isCheckpoint) = base := by
  induction h with
  | nil => rfl
  | keep p _ ih =>
    have hp := hb p (List.mem_cons_self _ _)
    simp only [List.filter_cons, hp, if_true]
    rw [ih (fun q hq => hb q (List.mem_cons_of_mem _ hq))]
  | insert p hp _ ih =>
    simp only [List.filter_cons, hp]
    exact ih hb

theorem pendingCheckpoints_isCheckpoint (s : ControlModule)
    (pathCheckPoints : List PathPointMarker) :
    ∀ p ∈ s.pendingCheckpoints pathCheckPoints, p.isCheckpoint = true := by
  intro p hp
  simp only [ControlModule.pendingCheckpoints, List.mem_map] at hp
  obtain ⟨m, -, rfl⟩ := hp
  exact m.isCheckpoint_data

/-- With the target-index invariant, one call of `allow_NextTranslation` moves the
checkpoint counter by exactly the number of checkpoints that the target index passes. -/
theorem checkpoint_count_step (s : ControlModule) (hs : s.TargetInRange)
    (particleLoc : Point) (proceed : Bool) (s' : ControlModule) (signals : List Signal)
    (h : s.allow_NextTranslation particleLoc = Except.ok (proceed, s', signals)) :
    s'.currentPathCheckpoint - (s'.checkpointsBeforeTarget : Int)
      = s.currentPathCheckpoint - (s.checkpointsBeforeTarget : Int) := by
  obtain ⟨h1, h2, h3, h4⟩ := hs
  by_cases hdev : Point.computeEuclideanDist particleLoc s.targetPathPtData.physical
      ≤ s.deviationTolerance
  · by_cases hfinal : s.totalNumPathPts - s.targetPathPtIndex - 1 ≤ 0
    · rw [allow_NextTranslation_complete s particleLoc hfinal hdev] at h
      injection h with h
      injection h with _ h
      injection h with h _
      subst h
      rfl
    · have hlt : (s.targetPathPtIndex + 1).toNat < s.deliveryPath.length := by omega
      have h0 : 0 ≤ s.targetPathPtIndex + 1 := by omega
      have htarget : vectorAt s.deliveryPath (s.targetPathPtIndex + 1)
          = Except.ok (s.deliveryPath[(s.targetPathPtIndex + 1).toNat]) := by
        simp [vectorAt, h0, List.getElem?_eq_getElem hlt]
      rw [allow_NextTranslation_advance s particleLoc _ _ hfinal hdev htarget h4] at h
      injection h with h
      injection h with _ h
      injection h with h _
      subst h
      have hlt' : s.targetPathPtIndex.toNat < s.deliveryPath.length := by omega
      have hget : s.deliveryPath[s.targetPathPtIndex.toNat] = s.targetPathPtData := by
        simp only [vectorAt, h2, if_true, List.getElem?_eq_getElem hlt'] at h4
        injection h4
      have hnat : (s.targetPathPtIndex + 1).toNat = s.targetPathPtIndex.toNat + 1 := by omega
      simp only [ControlModule.checkpointsBeforeTarget, hnat]
      rw [List.take_succ, List.getElem?_eq_getElem hlt', hget, List.countP_append]
      cases hc : s.targetPathPtData.isCheckpoint
      · simp [hc]
      · simp [hc]
  · rw [allow_NextTranslation_retry s particleLoc (not_le.mp hdev)] at h
    split at h
    · injection h with h
      injection h with _ h
      injection h with h _
      subst h
      rfl
    · injection h with h
      injection h with _ h
      injection h with h _
      subst h
      rfl

theorem checkpoint_count_of_reachable (s1 s : ControlModule) (h1 : s1.TargetInRange)
    (hr : ControlModule.ReachableFrom s1 s) :
    s.currentPathCheckpoint - (s.checkpointsBeforeTarget : Int)
      = s1.currentPathCheckpoint - (s1.checkpointsBeforeTarget : Int) := by
  induction hr with
  | start => rfl
  | step loc proceed signals hprev hstep ih =>
    obtain ⟨hin, -, -⟩ := targetInRange_of_reachable s1 _ h1 hprev
    rw [checkpoint_count_step _ hin loc proceed _ signals hstep, ih]

theorem exampleSetupTwo_is_setup :
    ControlModule.init.setup_PathTraversal 5 [markerAt 0 0, markerAt 1 0] 1 0.5 2
      = Except.ok (true, exampleSetupTwo, []) := by
  have hp : ControlModule.init.pendingCheckpoints [markerAt 0 0, markerAt 1 0]
      = [pathPtAt 0 0 true, pathPtAt 1 0 true] := by
    simp [ControlModule.pendingCheckpoints, ControlModule.init, markerAt]
  refine (setup_PathTraversal_valid 5 ControlModule.init [markerAt 0 0, markerAt 1 0] 1 0.5 2
    (by norm_num) (by norm_num) (by simp [ControlModule.init])
    (by simp [ControlModule.init]) (pathPtAt 0 0 true) [pathPtAt 1 0 true] hp).2 _ 2 ?_
  have hd : ¬ (Point.computeEuclideanDist (pathPtAt 1 0 true).physical
      (pathPtAt 0 0 true).physical > 2) := by
    simp only [Point.computeEuclideanDist, pathPtAt, gt_iff_lt, not_lt]
    norm_num
  have e1 := discretize_For_advance 2 3 [] (pathPtAt 0 0 true) (pathPtAt 1 0 true) [] 1 2
    true (by simp) (by norm_num) (not_lt.mp hd)
  have e2 := discretize_For_exit 2 2 [pathPtAt 0 0 true, pathPtAt 1 0 true] (1 + 1) 2 true
    (by norm_num)
  simp only [List.nil_append] at e1
  rw [discretize_DoWhile]
  simp only [List.length_cons, List.length_nil, Nat.reduceAdd, Nat.cast_ofNat]
  rw [e1, e2]
  rfl

/-- C5 (checkpoint signalling).  Take any state reached from a successful
`setup_PathTraversal` on the checkpoint list `pathCheckPoints`, and a call of
`allow_NextTranslation` that advances the target (target not final, deviation within
tolerance).  The call returns `true` and moves the target index by one.  If the point
being passed is a checkpoint, the call emits exactly one checkpoint event, carrying the
checkpoint counter, the counter goes up by one, and the counter is the index of that
point in `pathCheckPoints`: the point is `pathCheckPoints[counter]`, the checkpoints of
the delivery path are in order the checkpoints of the list from the counter at setup on,
and the counter is the counter at setup plus the number of checkpoints before the target.
If the point being passed is not a checkpoint, no checkpoint event is emitted and the
counter is unchanged. -/
theorem C5_checkpoint_event_carries_list_index (fuel : Nat) (s0 s1 : ControlModule)
    (pathCheckPoints : List PathPointMarker) (td tol D : ℝ) (signals0 : List Signal)
    (hsetup : s0.setup_PathTraversal fuel pathCheckPoints td tol D
      = Except.ok (true, s1, signals0))
    (s : ControlModule) (hreach : ControlModule.ReachableFrom s1 s) (particleLoc : Point)
    (hnotfinal : ¬ (s.totalNumPathPts - s.targetPathPtIndex - 1 ≤ 0))
    (hdev : Point.computeEuclideanDist particleLoc s.targetPathPtData.physical
      ≤ s.deviationTolerance) :
    ∃ (s' : ControlModule) (signals : List Signal),
      s.allow_NextTranslation particleLoc = Except.ok (true, s', signals) ∧
      s'.targetPathPtIndex = s.targetPathPtIndex + 1 ∧
      s.deliveryPath.filter (fun p => p.isCheckpoint)
        = s0.pendingCheckpoints pathCheckPoints ∧
      s.currentPathCheckpoint
        = s0.currentPathCheckpoint + (s.checkpointsBeforeTarget : Int) ∧
      (s.targetPathPtData.isCheckpoint = true →
        signals = [Signal.send_CheckpointPassed s.currentPathCheckpoint] ∧
        checkpointEvents signals = [s.currentPathCheckpoint] ∧
        s'.currentPathCheckpoint = s.currentPathCheckpoint + 1 ∧
        vectorAt (pathCheckPoints.map (fun m => m.data)) s.currentPathCheckpoint
          = Except.ok s.targetPathPtData) ∧
      (s.targetPathPtData.isCheckpoint = false →
        signals = [] ∧ checkpointEvents signals = [] ∧
        s'.currentPathCheckpoint = s.currentPathCheckpoint) := by
  obtain ⟨-, -, hc0, -, -, first, rest, out, hp, hs1, ho, -, hh, -⟩ :=
    setup_PathTraversal_ok_inv fuel s0 s1 pathCheckPoints td tol D signals0 hsetup
  have h1 : s1.TargetInRange := by
    rw [hs1]
    exact targetInRange_afterSetup s0 first out td tol D hh
  obtain ⟨hin, hpath, -⟩ := targetInRange_of_reachable s1 s h1 hreach
  have hcount := checkpoint_count_of_reachable s1 s h1 hreach
  have hs1c : s1.currentPathCheckpoint = s0.currentPathCheckpoint := by rw [hs1]; rfl
  have hs1b : s1.checkpointsBeforeTarget = 0 := by
    rw [hs1]
    simp [ControlModule.checkpointsBeforeTarget, ControlModule.afterSetup]
  have hs1p : s1.deliveryPath = out := by rw [hs1]; rfl
  have hcpc : s.currentPathCheckpoint
      = s0.currentPathCheckpoint + (s.checkpointsBeforeTarget : Int) := by
    rw [hs1c, hs1b] at hcount
    simp only [Nat.cast_zero, sub_zero] at hcount
    omega
  have hfilter : s.deliveryPath.filter (fun p => p.isCheckpoint)
      = s0.pendingCheckpoints pathCheckPoints := by
    rw [hpath, hs1p, hp]
    apply filter_isCheckpoint_of_onlyInserts ho
    rw [← hp]
    exact pendingCheckpoints_isCheckpoint s0 pathCheckPoints
  obtain ⟨a, b, c, d⟩ := hin
  have hlt : (s.targetPathPtIndex + 1).toNat < s.deliveryPath.length := by omega
  have h0 : 0 ≤ s.targetPathPtIndex + 1 := by omega
  have htarget : vectorAt s.deliveryPath (s.targetPathPtIndex + 1)
      = Except.ok (s.deliveryPath[(s.targetPathPtIndex + 1).toNat]) := by
    simp [vectorAt, h0, List.getElem?_eq_getElem hlt]
  refine ⟨_, _, allow_NextTranslation_advance s particleLoc _ _ hnotfinal hdev htarget d,
    rfl, hfilter, hcpc, ?_, ?_⟩
  · intro hck
    refine ⟨by simp [hck], by simp [hck, checkpointEvents], by simp [hck], ?_⟩
    have hlt' : s.targetPathPtIndex.toNat < s.deliveryPath.length := by omega
    have hget : s.deliveryPath[s.targetPathPtIndex.toNat]? = some s.targetPathPtData := by
      simp only [vectorAt, b, if_true, List.getElem?_eq_getElem hlt'] at d
      rw [List.getElem?_eq_getElem hlt']
      injection d with d
      rw [d]
    have hix := filter_getElem?_countP (fun p : PathPtStruct => p.isCheckpoint)
      s.deliveryPath s.targetPathPtIndex.toNat s.targetPathPtData hget hck
    rw [hfilter] at hix
    have hnn : 0 ≤ s.currentPathCheckpoint := by omega
    have hnat : s.currentPathCheckpoint.toNat
        = s0.currentPathCheckpoint.toNat + s.checkpointsBeforeTarget := by omega
    simp only [ControlModule.pendingCheckpoints, List.map_drop, List.getElem?_drop] at hix
    simp only [vectorAt, hnn, if_true, hnat, ControlModule.checkpointsBeforeTarget]
    rw [hix]
  · intro hck
    exact ⟨by simp [hck], by simp [hck, checkpointEvents], by simp [hck]⟩

/-! ## C6: discretization only inserts (any interpolation distance) -/

theorem onlyInserts_nil_right {a : List PathPtStruct} (h : OnlyInserts a []) : a = [] := by
  cases h
  rfl

theorem onlyInserts_trans {b c : List PathPtStruct} (h2 : OnlyInserts b c) :
    ∀ {a : List PathPtStruct}, OnlyInserts a b → OnlyInserts a c := by
  induction h2 with
  | nil =>
    intro a h1
    rw [onlyInserts_nil_right h1]
    exact OnlyInserts.nil
  | keep p _ ih =>
    intro a h1
    cases h1 with
    | keep _ h1' => exact OnlyInserts.keep p (ih h1')
    | insert _ hp h1' => exact OnlyInserts.insert p hp (ih h1')
  | insert p hp _ ih =>
    intro a h1
    exact OnlyInserts.insert p hp (ih h1)

theorem onlyInserts_sublist {a b : List PathPtStruct} (h : OnlyInserts a b) :
    List.Sublist a b := by
  induction h with
  | nil => exact List.Sublist.slnil
  | keep p _ ih => exact List.Sublist.cons₂ p ih
  | insert p _ _ ih => exact List.Sublist.cons p ih

theorem onlyInserts_insertIdx (p : PathPtStruct) (hp : p.isCheckpoint = false) :
    ∀ (l : List PathPtStruct) (n : Nat), OnlyInserts l (l.insertIdx n p) := by
  intro l
  induction l with
  | nil =>
    intro n
    cases n with
    | zero => exact OnlyInserts.insert p hp OnlyInserts.nil
    | succ n => exact OnlyInserts.nil
  | cons x xs ih =>
    intro n
    cases n with
    | zero => exact OnlyInserts.insert p hp (onlyInserts_refl _)
    | succ n =>
      rw [List.insertIdx_succ_cons]
      exact OnlyInserts.keep x (ih n)

theorem head?_insertIdx_succ (p : PathPtStruct) (l : List PathPtStruct) (n : Nat)
    (hn : n + 1 ≤ l.length) : (l.insertIdx (n + 1) p).head? = l.head? := by
  cases l with
  | nil => simp at hn
  | cons x xs => rw [List.insertIdx_succ_cons]; rfl

theorem getLast?_insertIdx (p : PathPtStruct) :
    ∀ (l : List PathPtStruct) (n : Nat), n < l.length →
      (l.insertIdx n p).getLast? = l.getLast? := by
  intro l
  induction l with
  | nil => intro n hn; simp at hn
  | cons x xs ih =>
    intro n hn
    cases n with
    | zero => simp [List.insertIdx_zero, List.getLast?_cons_cons]
    | succ n =>
      have hn' : n < xs.length := by simpa using hn
      rw [List.insertIdx_succ_cons]
      cases xs with
      | nil => simp at hn'
      | cons y ys =>
        have hne : (y :: ys).insertIdx n p ≠ [] := by
          intro h
          have := congrArg List.length h
          rw [List.length_insertIdx _ _ (Nat.le_of_lt hn')] at this
          simp at this
        obtain ⟨z, zs, hz⟩ := List.exists_cons_of_ne_nil hne
        rw [hz, List.getLast?_cons_cons, ← hz, ih n hn', List.getLast?_cons_cons]

/-- What any returned result of the `for` loop satisfies, whatever the interpolation
distance: it is the input with non-checkpoints inserted, first and last point kept, and
the point count is its length. -/
theorem discretize_For_inserts_only (D : ℝ) :
    ∀ (fuel : Nat) (path : List PathPtStruct) (i total : Int) (full : Bool)
      (out : List PathPtStruct) (t : Int) (f : Bool), 1 ≤ i →
      total = (path.length : Int) →
      discretize_For D fuel path i total full = Except.ok (out, t, f) →
      t = (out.length : Int) ∧ OnlyInserts path out ∧ out.head? = path.head? ∧
        out.getLast? = path.getLast? := by
  intro fuel
  induction fuel with
  | zero =>
    intro path i total full out t f _ _ h
    simp [discretize_For] at h
  | succ fuel ih =>
    intro path i total full out t f hi ht h
    rw [discretize_For] at h
    by_cases h1 : i < total
    · simp only [h1, if_true] at h
      cases hc : vectorAt path i with
      | error e => simp [hc] at h
      | ok c =>
        cases hp : vectorAt path (i - 1) with
        | error e => simp [hc, hp] at h
        | ok p =>
          simp only [hc, hp] at h
          by_cases h2 : Point.computeEuclideanDist c.physical p.physical > D
          · simp only [h2, if_true] at h
            have hlt : i.toNat < path.length := by omega
            have hlen : ((path.insertIdx i.toNat (intermediatePt c p)).length : Int)
                = total + 1 := by
              rw [List.length_insertIdx _ _ (Nat.le_of_lt hlt), ht]
              push_cast
              ring
            obtain ⟨e1, e2, e3, e4⟩ := ih _ _ _ _ _ _ _ (by omega) hlen.symm h
            have hsucc : i.toNat = (i.toNat - 1) + 1 := by omega
            refine ⟨e1, onlyInserts_trans e2 (onlyInserts_insertIdx _ rfl _ _), ?_, ?_⟩
            · rw [e3, hsucc, head?_insertIdx_succ _ _ _ (by omega)]
            · rw [e4, getLast?_insertIdx _ _ _ hlt]
          · simp only [h2, if_false] at h
            exact ih _ _ _ _ _ _ _ (by omega) ht h
    · simp only [h1, if_false] at h
      injection h with h
      injection h with h3 h
      injection h with h4 h5
      subst h3
      subst h4
      exact ⟨ht, onlyInserts_refl _, rfl, rfl⟩

/-- What any returned result of the `do ... while` loop satisfies, whatever the
interpolation distance. -/
theorem discretize_DoWhile_inserts_only (D : ℝ) :
    ∀ (fuel : Nat) (path : List PathPtStruct) (total : Int) (out : List PathPtStruct)
      (t : Int), total = (path.length : Int) →
      discretize_DoWhile D fuel path total = Except.ok (out, t) →
      t = (out.length : Int) ∧ OnlyInserts path out ∧ out.head? = path.head? ∧
        out.getLast? = path.getLast? := by
  intro fuel
  induction fuel with
  | zero =>
    intro path total out t _ h
    simp [discretize_DoWhile] at h
  | succ fuel ih =>
    intro path total out t ht h
    rw [discretize_DoWhile] at h
    cases hf : discretize_For D fuel path 1 total true with
    | error e => simp [hf] at h
    | ok r =>
      obtain ⟨path', total', f⟩ := r
      obtain ⟨e1, e2, e3, e4⟩ :=
        discretize_For_inserts_only D fuel path 1 total true path' total' f (le_refl _) ht hf
      simp only [hf] at h
      cases f with
      | true =>
        simp only [if_true] at h
        injection h with h
        injection h with h3 h4
        subst h3
        subst h4
        exact ⟨e1, e2, e3, e4⟩
      | false =>
        simp only [Bool.false_eq_true, if_false] at h
        obtain ⟨g1, g2, g3, g4⟩ := ih _ _ _ _ e1 h
        exact ⟨g1, onlyInserts_trans g2 e2, g3.trans e3, g4.trans e4⟩

/-! ## C1 and C6: `discretize_Path` -/

/-- With a positive interpolation distance `discretize_Path` terminates: from some fuel on
it returns one and the same state, and no fuel gives another result; that state is the
old one with the discretized path and its length. -/
theorem discretize_Path_terminates (s : ControlModule) (hD : 0 < s.interpolationDistance) :
    ∃ (n : Nat) (out : List PathPtStruct),
      (∀ fuel, n ≤ fuel → s.discretize_Path fuel
        = Except.ok { s with deliveryPath := out, totalNumPathPts := (out.length : Int) }) ∧
      (∀ fuel r, s.discretize_Path fuel = Except.ok r →
        r = { s with deliveryPath := out, totalNumPathPts := (out.length : Int) }) ∧
      OnlyInserts s.deliveryPath out ∧
      List.Chain' (withinInterpolation s.interpolationDistance) out := by
  obtain ⟨n, out, ho, hch, -, -, hrun⟩ :=
    discretize_DoWhile_terminates s.interpolationDistance hD s.deliveryPath
  refine ⟨n, out, ?_, ?_, ho, hch⟩
  · intro fuel hle
    have h := hrun (fuel - n)
    rw [Nat.sub_add_cancel hle] at h
    simp only [ControlModule.discretize_Path, h]
  · intro fuel r hr
    unfold ControlModule.discretize_Path at hr
    cases hdw : discretize_DoWhile s.interpolationDistance fuel s.deliveryPath
        (s.deliveryPath.length : Int) with
    | error e => simp [hdw] at hr
    | ok res =>
      obtain ⟨o, t⟩ := res
      have h1 := discretize_DoWhile_fuel_le _ fuel (fuel + n) (Nat.le_add_right _ _) _ _ _ hdw
      rw [hrun fuel] at h1
      injection h1 with h1
      injection h1 with h2 h3
      simp only [hdw] at hr
      injection hr with hr
      rw [← hr, ← h2, ← h3]

/-- C6 (discretization only inserts).  Whatever the interpolation distance, every state
that `discretize_Path` returns has a delivery path that is the input path with points
inserted, each inserted point with `isCheckpoint = false`: the input points are kept
unchanged and in order (the input is a sublist of the output), and the first and the last
point are kept.  With a positive interpolation distance a state is returned. -/
theorem C6_discretize_Path_only_inserts_non_checkpoints (s : ControlModule) :
    (∀ (fuel : Nat) (s' : ControlModule), s.discretize_Path fuel = Except.ok s' →
      OnlyInserts s.deliveryPath s'.deliveryPath ∧
      List.Sublist s.deliveryPath s'.deliveryPath ∧
      s'.deliveryPath.head? = s.deliveryPath.head? ∧
      s'.deliveryPath.getLast? = s.deliveryPath.getLast?) ∧
    (0 < s.interpolationDistance →
      ∃ (n : Nat) (s' : ControlModule),
        ∀ fuel, n ≤ fuel → s.discretize_Path fuel = Except.ok s') := by
  constructor
  · intro fuel s' h
    unfold ControlModule.discretize_Path at h
    cases hdw : discretize_DoWhile s.interpolationDistance fuel s.deliveryPath
        (s.deliveryPath.length : Int) with
    | error e => simp [hdw] at h
    | ok res =>
      obtain ⟨o, t⟩ := res
      obtain ⟨-, e2, e3, e4⟩ :=
        discretize_DoWhile_inserts_only _ fuel _ _ o t rfl hdw
      simp only [hdw] at h
      injection h with h
      subst h
      exact ⟨e2, onlyInserts_sublist e2, e3, e4⟩
  · intro hD
    obtain ⟨n, out, h1, -⟩ := discretize_Path_terminates s hD
    exact ⟨n, _, h1⟩

theorem exampleSetupTwo_on_target :
    Point.computeEuclideanDist ⟨0, 0⟩ exampleSetupTwo.targetPathPtData.physical
      ≤ exampleSetupTwo.deviationTolerance := by
  simp only [exampleSetupTwo, ControlModule.afterSetup, pathPtAt,
    computeEuclideanDist_self]
  norm_num

/-- Witness of C5: right after setting up the checkpoints `(0, 0)` and `(1, 0)`, with the
particle on the first of them. -/
theorem C5_checkpoint_event_witness :
    ∃ (s' : ControlModule) (signals : List Signal),
      exampleSetupTwo.allow_NextTranslation ⟨0, 0⟩ = Except.ok (true, s', signals) ∧
      s'.targetPathPtIndex = exampleSetupTwo.targetPathPtIndex + 1 ∧
      exampleSetupTwo.deliveryPath.filter (fun p => p.isCheckpoint)
        = ControlModule.init.pendingCheckpoints [markerAt 0 0, markerAt 1 0] ∧
      exampleSetupTwo.currentPathCheckpoint
        = ControlModule.init.currentPathCheckpoint
          + (exampleSetupTwo.checkpointsBeforeTarget : Int) ∧
      (exampleSetupTwo.targetPathPtData.isCheckpoint = true →
        signals = [Signal.send_CheckpointPassed exampleSetupTwo.currentPathCheckpoint] ∧
        checkpointEvents signals = [exampleSetupTwo.currentPathCheckpoint] ∧
        s'.currentPathCheckpoint = exampleSetupTwo.currentPathCheckpoint + 1 ∧
        vectorAt ([markerAt 0 0, markerAt 1 0].map (fun m => m.data))
            exampleSetupTwo.currentPathCheckpoint
          = Except.ok exampleSetupTwo.targetPathPtData) ∧
      (exampleSetupTwo.targetPathPtData.isCheckpoint = false →
        signals = [] ∧ checkpointEvents signals = [] ∧
        s'.currentPathCheckpoint = exampleSetupTwo.currentPathCheckpoint) :=
  C5_checkpoint_event_carries_list_index 5 ControlModule.init exampleSetupTwo
    [markerAt 0 0, markerAt 1 0] 1 0.5 2 [] exampleSetupTwo_is_setup exampleSetupTwo
    ControlModule.ReachableFrom.start ⟨0, 0⟩
    (by simp [exampleSetupTwo, ControlModule.afterSetup])
    exampleSetupTwo_on_target

/-! ## C7: validation in `setup_PathTraversal` -/

/-- The part of C7 that the code keeps: in every state and for all arguments,
`setup_PathTraversal` returns `false` exactly when the checkpoint list is empty, or the
tolerance is not positive, or the interpolation distance is not positive; and then the
state is left as it was. -/
theorem setup_PathTraversal_false_iff (fuel : Nat) (s : ControlModule)
    (pathCheckPoints : List PathPointMarker) (td tol D : ℝ) :
    ((∃ (s' : ControlModule) (signals : List Signal),
        s.setup_PathTraversal fuel pathCheckPoints td tol D
          = Except.ok (false, s', signals))
      ↔ (pathCheckPoints = [] ∨ tol ≤ 0 ∨ D ≤ 0)) ∧
    (∀ (s' : ControlModule) (signals : List Signal),
      s.setup_PathTraversal fuel pathCheckPoints td tol D = Except.ok (false, s', signals)
        → s' = s) := by
  have key : ∀ (s' : ControlModule) (signals : List Signal),
      s.setup_PathTraversal fuel pathCheckPoints td tol D = Except.ok (false, s', signals)
        → (pathCheckPoints = [] ∨ tol ≤ 0 ∨ D ≤ 0) ∧ s' = s := by
    intro s' signals h
    by_cases hv : pathCheckPoints = [] ∨ tol ≤ 0 ∨ D ≤ 0
    · obtain ⟨msg, hm⟩ := setup_PathTraversal_invalid fuel s pathCheckPoints td tol D hv
      rw [hm] at h
      injection h with h
      injection h with _ h
      injection h with h _
      exact ⟨hv, h.symm⟩
    · exfalso
      push_neg at hv
      obtain ⟨hne, htol, hD⟩ := hv
      by_cases hc : s.currentPathCheckpoint < 0
          ∨ (pathCheckPoints.length : Int) ≤ s.currentPathCheckpoint
      · rw [setup_PathTraversal_throws fuel s pathCheckPoints td tol D hne htol hD hc] at h
        simp at h
      · push_neg at hc
        obtain ⟨h0, hlt⟩ := hc
        obtain ⟨first, rest, -, hp⟩ := pendingCheckpoints_cons s pathCheckPoints h0 hlt
        obtain ⟨herr, hok⟩ := setup_PathTraversal_valid fuel s pathCheckPoints td tol D
          htol hD h0 hlt first.data (rest.map (fun m => m.data)) hp
        cases hdw : discretize_DoWhile D fuel (first.data :: rest.map (fun m => m.data))
            (((first.data :: rest.map (fun m => m.data)).length : Nat) : Int) with
        | error e =>
          rw [herr e hdw] at h
          simp at h
        | ok r =>
          obtain ⟨out, t⟩ := r
          rw [hok out t hdw] at h
          simp at h
  refine ⟨⟨fun ⟨s', signals, h⟩ => (key s' signals h).1, fun hv => ?_⟩,
    fun s' signals h => (key s' signals h).2⟩
  obtain ⟨msg, hm⟩ := setup_PathTraversal_invalid fuel s pathCheckPoints td tol D hv
  exact ⟨s, _, hm⟩

/-- The part of C7 that holds under a further condition: with a non-empty list, positive
tolerance and positive interpolation distance, `setup_PathTraversal` returns `true` (from
some fuel on) when the checkpoint counter of the state is inside the list. -/
theorem setup_PathTraversal_succeeds (s : ControlModule)
    (pathCheckPoints : List PathPointMarker) (td tol D : ℝ) (htol : 0 < tol) (hD : 0 < D)
    (h0 : 0 ≤ s.currentPathCheckpoint)
    (hlt : s.currentPathCheckpoint < (pathCheckPoints.length : Int)) :
    ∃ (n : Nat) (s' : ControlModule), ∀ fuel, n ≤ fuel →
      s.setup_PathTraversal fuel pathCheckPoints td tol D = Except.ok (true, s', []) := by
  obtain ⟨first, rest, -, hp⟩ := pendingCheckpoints_cons s pathCheckPoints h0 hlt
  obtain ⟨n, out, -, -, -, -, hrun⟩ :=
    discretize_DoWhile_terminates D hD (first.data :: rest.map (fun m => m.data))
  refine ⟨n, s.afterSetup first.data out td tol D, fun fuel hle => ?_⟩
  have h := hrun (fuel - n)
  rw [Nat.sub_add_cancel hle] at h
  exact (setup_PathTraversal_valid fuel s pathCheckPoints td tol D htol hD h0 hlt
    first.data (rest.map (fun m => m.data)) hp).2 out _ h

/-- C7 at its failing input.  A fresh controller is set up on the two checkpoints `(0, 0)`
and `(1, 0)` and the particle passes the first of them, so the checkpoint counter is 1;
the operation is paused and the path redrawn with the single checkpoint `(5, 5)`.  The
next `setup_PathTraversal`, on a non-empty list with tolerance 0.5 and interpolation
distance 2, does not return `true`: with every fuel it throws `std::out_of_range`. -/
theorem C7_setup_throws_on_shorter_redrawn_path :
    ∃ sB : ControlModule,
      ControlModule.init.setup_PathTraversal 5 [markerAt 0 0, markerAt 1 0] 1 0.5 2
        = Except.ok (true, exampleSetupTwo, []) ∧
      exampleSetupTwo.allow_NextTranslation ⟨0, 0⟩
        = Except.ok (true, sB, [Signal.send_CheckpointPassed 0]) ∧
      sB.currentPathCheckpoint = 1 ∧
      ∀ fuel : Nat, sB.setup_PathTraversal fuel [markerAt 5 5] 1 0.5 2
        = Except.error Fault.out_of_range := by
  have hadv := allow_NextTranslation_advance exampleSetupTwo ⟨0, 0⟩ (pathPtAt 1 0 true)
    (pathPtAt 0 0 true) (by simp [exampleSetupTwo, ControlModule.afterSetup])
    exampleSetupTwo_on_target
    (by simp [exampleSetupTwo, ControlModule.afterSetup, vectorAt])
    (by simp [exampleSetupTwo, ControlModule.afterSetup, vectorAt])
  have hck : exampleSetupTwo.targetPathPtData.isCheckpoint = true := rfl
  have hcp : exampleSetupTwo.currentPathCheckpoint = 0 := rfl
  simp only [hck, if_true, hcp] at hadv
  refine ⟨_, exampleSetupTwo_is_setup, hadv, by norm_num, fun fuel => ?_⟩
  exact setup_PathTraversal_throws fuel _ [markerAt 5 5] 1 0.5 2 (by simp) (by norm_num)
    (by norm_num) (Or.inr (by simp))

/-! ## The loop of `discretize_Path` computes recursive bisection -/

/-- The `for` loop turns the gap from `prev` to `cur` into its bisection, when `depth`
halvings are enough for it. -/
theorem discretize_For_segment_bisect (D : ℝ) (k : Nat) :
    ∀ (pre : List PathPtStruct) (prev cur : PathPtStruct) (rest : List PathPtStruct)
      (total : Int), (pre.length : Int) + 1 < total →
      Point.computeEuclideanDist cur.physical prev.physical ≤ 2 ^ k * D →
      ∃ n : Nat, SegmentDone D pre prev cur rest total n (bisectBetween D k cur prev) := by
  induction k with
  | zero =>
    intro pre prev cur rest total ht hd
    exact ⟨1, segmentDone_of_le D pre prev cur rest total ht (by simpa using hd)⟩
  | succ k ih =>
    intro pre prev cur rest total ht hd
    by_cases hle : Point.computeEuclideanDist cur.physical prev.physical ≤ D
    · refine ⟨1, ?_⟩
      have hb : bisectBetween D (k + 1) cur prev = [] := by
        simp [bisectBetween, not_lt.mpr hle]
      rw [hb]
      exact segmentDone_of_le D pre prev cur rest total ht hle
    · have hgt : Point.computeEuclideanDist cur.physical prev.physical > D := not_le.mp hle
      have hb : bisectBetween D (k + 1) cur prev
          = bisectBetween D k (intermediatePt cur prev) prev
            ++ intermediatePt cur prev :: bisectBetween D k cur (intermediatePt cur prev) := by
        simp [bisectBetween, hgt]
      have hhalf : Point.computeEuclideanDist cur.physical prev.physical / 2 ≤ 2 ^ k * D := by
        rw [pow_succ] at hd
        linarith
      have hm1 : Point.computeEuclideanDist (intermediatePt cur prev).physical prev.physical
          ≤ 2 ^ k * D := by
        rw [dist_intermediatePt_previous]; exact hhalf
      have hm2 : Point.computeEuclideanDist cur.physical (intermediatePt cur prev).physical
          ≤ 2 ^ k * D := by
        rw [dist_current_intermediatePt]; exact hhalf
      obtain ⟨n1, hc1, hch1, hrun1⟩ :=
        ih pre prev (intermediatePt cur prev) (cur :: rest) (total + 1) (by omega) hm1
      generalize bisectBetween D k (intermediatePt cur prev) prev = ins1 at hb hc1 hch1 hrun1
      obtain ⟨n2, hc2, hch2, hrun2⟩ :=
        ih (pre ++ prev :: ins1) (intermediatePt cur prev) cur rest
          (total + 1 + ins1.length) (by simp only [List.length_append, List.length_cons]
                                        push_cast
                                        omega) hm2
      generalize bisectBetween D k cur (intermediatePt cur prev) = ins2 at hb hc2 hch2 hrun2
      rw [hb]
      refine ⟨n2 + n1 + 1, ?_, ?_, ?_⟩
      · intro p hp
        rcases List.mem_append.mp hp with h | h
        · exact hc1 p h
        · rcases List.mem_cons.mp h with h | h
          · subst h; rfl
          · exact hc2 p h
      · have : (ins1 ++ intermediatePt cur prev :: ins2) ++ [cur]
            = ins1 ++ intermediatePt cur prev :: (ins2 ++ [cur]) := by simp
        rw [this, List.chain_split]
        exact ⟨hch1, hch2⟩
      · intro fuel full
        obtain ⟨f1, e1⟩ := hrun1 (fuel + n2) false
        obtain ⟨f2, e2⟩ := hrun2 fuel f1
        refine ⟨f2, ?_⟩
        have a1 : fuel + (n2 + n1 + 1) = (fuel + n2 + n1) + 1 := by omega
        rw [a1, discretize_For_insert D _ pre prev cur rest _ total full rfl ht hgt, e1]
        have l1 : pre ++ prev :: (ins1 ++ intermediatePt cur prev :: cur :: rest)
            = (pre ++ prev :: ins1) ++ intermediatePt cur prev :: cur :: rest := by simp
        have l2 : (pre ++ prev :: ins1) ++ intermediatePt cur prev :: (ins2 ++ cur :: rest)
            = pre ++ prev :: ((ins1 ++ intermediatePt cur prev :: ins2) ++ cur :: rest) := by
          simp
        have i1 : (pre.length : Int) + 1 + ins1.length + 1
            = ((pre ++ prev :: ins1).length : Int) + 1 := by
          simp only [List.length_append, List.length_cons]
          push_cast
          ring
        have i2 : ((pre ++ prev :: ins1).length : Int) + 1 + ins2.length + 1
            = (pre.length : Int) + 1
                + ((ins1 ++ intermediatePt cur prev :: ins2).length : Int) + 1 := by
          simp only [List.length_append, List.length_cons]
          push_cast
          ring
        have t2 : total + 1 + (ins1.length : Int) + (ins2.length : Int)
            = total + ((ins1 ++ intermediatePt cur prev :: ins2).length : Int) := by
          simp only [List.length_append, List.length_cons]
          push_cast
          ring
        rw [l1, i1, e2, l2, i2, t2]

/-- One pass of the `for` loop, entered at the index after `prev`, returns the bisection
of every gap after `prev`, when `k` halvings are enough for each gap. -/
theorem discretize_For_path_bisect (D : ℝ) (k : Nat) :
    ∀ (tail pre : List PathPtStruct) (prev : PathPtStruct) (total : Int),
      total = ((pre ++ prev :: tail).length : Int) →
      gapsWithin (2 ^ k * D) prev tail →
      List.Chain (withinInterpolation D) prev (bisectFrom D k prev tail) ∧
      ∃ n : Nat, ∀ (fuel : Nat) (full : Bool), ∃ full' : Bool,
        discretize_For D (fuel + n) (pre ++ prev :: tail) ((pre.length : Int) + 1)
            total full
          = Except.ok (pre ++ prev :: bisectFrom D k prev tail,
              ((pre ++ prev :: bisectFrom D k prev tail).length : Int), full') := by
  intro tail
  induction tail with
  | nil =>
    intro pre prev total ht _
    refine ⟨List.Chain.nil, 1, fun fuel full => ⟨full, ?_⟩⟩
    rw [discretize_For_exit D fuel _ _ total full (by simp [ht]), ht]
    rfl
  | cons cur rest ih =>
    intro pre prev total ht hg
    obtain ⟨hk, hg'⟩ := hg
    have hlt : (pre.length : Int) + 1 < total := by
      rw [ht]
      simp only [List.length_append, List.length_cons]
      push_cast
      omega
    obtain ⟨n1, hc, hch, hrun1⟩ :=
      discretize_For_segment_bisect D k pre prev cur rest total hlt hk
    have hbf : bisectFrom D k prev (cur :: rest)
        = bisectBetween D k cur prev ++ cur :: bisectFrom D k cur rest := rfl
    rw [hbf]
    generalize bisectBetween D k cur prev = ins at hc hch hrun1
    have l1 : pre ++ prev :: (ins ++ cur :: rest) = (pre ++ prev :: ins) ++ cur :: rest := by
      simp
    obtain ⟨hch2, n2, hrun2⟩ :=
      ih (pre ++ prev :: ins) cur (total + ins.length) (by
        rw [ht]
        simp only [List.length_append, List.length_cons]
        push_cast
        ring) hg'
    refine ⟨?_, n2 + n1, ?_⟩
    · rw [List.chain_split]
      exact ⟨hch, hch2⟩
    · intro fuel full
      obtain ⟨f1, e1⟩ := hrun1 (fuel + n2) full
      obtain ⟨f2, e2⟩ := hrun2 fuel f1
      refine ⟨f2, ?_⟩
      have a1 : fuel + (n2 + n1) = fuel + n2 + n1 := by omega
      have i1 : (pre.length : Int) + 1 + ins.length + 1
          = ((pre ++ prev :: ins).length : Int) + 1 := by
        simp only [List.length_append, List.length_cons]
        push_cast
        ring
      have l2 : (pre ++ prev :: ins) ++ cur :: bisectFrom D k cur rest
          = pre ++ prev :: (ins ++ cur :: bisectFrom D k cur rest) := by
        simp
      rw [a1, e1, l1, i1, e2, l2]

/-- The `do ... while` loop returns the bisection of every gap of the path. -/
theorem discretize_DoWhile_bisect (D : ℝ) (k : Nat) (prev : PathPtStruct)
    (tail : List PathPtStruct) (hg : gapsWithin (2 ^ k * D) prev tail) :
    ∃ n : Nat, ∀ fuel : Nat,
      discretize_DoWhile D (fuel + n) (prev :: tail) ((prev :: tail).length : Int)
        = Except.ok (prev :: bisectFrom D k prev tail,
            ((prev :: bisectFrom D k prev tail).length : Int)) := by
  obtain ⟨hch, n1, hrun⟩ :=
    discretize_For_path_bisect D k tail [] prev ((prev :: tail).length : Int) (by simp) hg
  generalize bisectFrom D k prev tail = out at hch hrun
  refine ⟨n1 + out.length + 3, fun fuel => ?_⟩
  obtain ⟨f1, e1⟩ := hrun (fuel + out.length + 2) true
  have a1 : fuel + (n1 + out.length + 3) = (fuel + out.length + 2 + n1) + 1 := by omega
  simp only [List.nil_append, List.length_nil, Nat.cast_zero, zero_add] at e1
  rw [a1, discretize_DoWhile, e1]
  cases f1 with
  | true => simp
  | false =>
    have a2 : fuel + out.length + 2 + n1 = (fuel + n1 + (out.length + 1)) + 1 := by omega
    have e2 := discretize_For_noop D out [] prev ((prev :: out).length : Int) true
      (fuel + n1) (by simp) hch
    simp only [List.nil_append, List.length_nil, Nat.cast_zero, zero_add] at e2
    simp only [Bool.false_eq_true, if_false]
    rw [a2, discretize_DoWhile, e2]
    simp

/-- Whatever fuel made the `do ... while` loop return, it returned the bisection. -/
theorem discretize_DoWhile_eq_bisect (D : ℝ) (k : Nat) (prev : PathPtStruct)
    (tail : List PathPtStruct) (hg : gapsWithin (2 ^ k * D) prev tail) (fuel : Nat)
    (out : List PathPtStruct) (t : Int)
    (h : discretize_DoWhile D fuel (prev :: tail) ((prev :: tail).length : Int)
      = Except.ok (out, t)) :
    out = prev :: bisectFrom D k prev tail := by
  obtain ⟨n, hrun⟩ := discretize_DoWhile_bisect D k prev tail hg
  have h1 := discretize_DoWhile_fuel_le D fuel (fuel + n) (Nat.le_add_right _ _) _ _ _ h
  rw [hrun fuel] at h1
  injection h1 with h1
  injection h1 with h2 _
  exact h2.symm

theorem gapsWithin_mono {B B' : ℝ} (hB : B ≤ B') :
    ∀ (tail : List PathPtStruct) (prev : PathPtStruct),
      gapsWithin B prev tail → gapsWithin B' prev tail := by
  intro tail
  induction tail with
  | nil => intro _ _; trivial
  | cons cur rest ih =>
    intro prev h
    exact ⟨le_trans h.1 hB, ih cur h.2⟩

/-- With a positive `D`, some number of halvings is enough for every gap of a path. -/
theorem exists_gapsWithin (D : ℝ) (hD : 0 < D) :
    ∀ (tail : List PathPtStruct) (prev : PathPtStruct),
      ∃ k : Nat, gapsWithin (2 ^ k * D) prev tail := by
  intro tail
  induction tail with
  | nil => intro _; exact ⟨0, trivial⟩
  | cons cur rest ih =>
    intro prev
    obtain ⟨k1, h1⟩ := exists_pow_bound D hD
      (Point.computeEuclideanDist cur.physical prev.physical)
    obtain ⟨k2, h2⟩ := ih cur
    have hmono : ∀ a b : Nat, a ≤ b → (2 : ℝ) ^ a * D ≤ 2 ^ b * D := by
      intro a b hab
      apply mul_le_mul_of_nonneg_right _ (le_of_lt hD)
      exact pow_le_pow_right₀ (by norm_num) hab
    refine ⟨max k1 k2, le_trans h1 (hmono _ _ (le_max_left _ _)), ?_⟩
    exact gapsWithin_mono (hmono _ _ (le_max_right _ _)) rest cur h2

/-! ## Path length is kept by bisection -/

theorem pathLength_nonneg : ∀ l : List PathPtStruct, 0 ≤ pathLength l := by
  intro l
  induction l with
  | nil => simp [pathLength]
  | cons a l ih =>
    cases l with
    | nil => simp [pathLength]
    | cons b rest =>
      simp only [pathLength]
      exact add_nonneg (computeEuclideanDist_nonneg _ _) ih

theorem computeEuclideanDist_on_axis (a b : ℝ) :
    Point.computeEuclideanDist ⟨a, 0⟩ ⟨b, 0⟩ = |a - b| := by
  simp only [Point.computeEuclideanDist, sub_self]
  rw [show (a - b) ^ 2 + (0 : ℝ) ^ 2 = (a - b) ^ 2 by ring, Real.sqrt_sq_eq_abs]

theorem intermediatePt_on_axis (a b : ℝ) (ca cb : Bool) :
    intermediatePt (pathPtAt a 0 ca) (pathPtAt b 0 cb) = pathPtAt ((a + b) / 2) 0 false := by
  simp [intermediatePt, pathPtAt]

theorem dist_pathPtAt_on_axis (a b : ℝ) (ca cb : Bool) :
    Point.computeEuclideanDist (pathPtAt a 0 ca).physical (pathPtAt b 0 cb).physical
      = |a - b| :=
  computeEuclideanDist_on_axis a b

theorem bisectFrom_straightLine :
    pathPtAt 0 0 true :: bisectFrom 2 3 (pathPtAt 0 0 true) [pathPtAt 10 0 true]
      = straightLinePath := by
  simp only [bisectFrom, bisectBetween, dist_pathPtAt_on_axis, intermediatePt_on_axis,
    straightLinePath]
  have h : (2 : ℝ) < |5 / 2| := by
    rw [abs_of_pos (by norm_num)]
    norm_num
  norm_num [h]

/-- A successful `setup_PathTraversal` leaves the bisection of the pending checkpoints as
delivery path. -/
theorem setup_PathTraversal_ok_bisect (fuel : Nat) (s s1 : ControlModule)
    (pathCheckPoints : List PathPointMarker) (td tol D : ℝ) (signals : List Signal)
    (h : s.setup_PathTraversal fuel pathCheckPoints td tol D
      = Except.ok (true, s1, signals)) :
    0 < tol ∧ 0 < D ∧ signals = [] ∧
    ∃ (first : PathPtStruct) (rest : List PathPtStruct),
      s.pendingCheckpoints pathCheckPoints = first :: rest ∧
      ∀ k : Nat, gapsWithin (2 ^ k * D) first rest →
        s1 = s.afterSetup first (first :: bisectFrom D k first rest) td tol D := by
  obtain ⟨htol, hD, h0, hlt, hsig, -⟩ :=
    setup_PathTraversal_ok_inv fuel s s1 pathCheckPoints td tol D signals h
  obtain ⟨first, rest, -, hp⟩ := pendingCheckpoints_cons s pathCheckPoints h0 hlt
  refine ⟨htol, hD, hsig, first.data, rest.map (fun m => m.data), hp, fun k hk => ?_⟩
  obtain ⟨herr, hok⟩ := setup_PathTraversal_valid fuel s pathCheckPoints td tol D
    htol hD h0 hlt first.data (rest.map (fun m => m.data)) hp
  cases hdw : discretize_DoWhile D fuel (first.data :: rest.map (fun m => m.data))
      (((first.data :: rest.map (fun m => m.data)).length : Nat) : Int) with
  | error e =>
    rw [herr e hdw] at h
    simp at h
  | ok r =>
    obtain ⟨out, t⟩ := r
    rw [hok out t hdw] at h
    have ho := discretize_DoWhile_eq_bisect D k _ _ hk fuel out t hdw
    injection h with h
    injection h with _ h
    injection h with h1 _
    rw [← h1, ho]

/-- From some fuel on, `setup_PathTraversal` with valid arguments and a checkpoint counter
inside the list returns `true` with the bisection of the pending checkpoints. -/
theorem setup_PathTraversal_bisect (s : ControlModule)
    (pathCheckPoints : List PathPointMarker) (td tol D : ℝ) (htol : 0 < tol) (hD : 0 < D)
    (h0 : 0 ≤ s.currentPathCheckpoint)
    (hlt : s.currentPathCheckpoint < (pathCheckPoints.length : Int))
    (first : PathPtStruct) (rest : List PathPtStruct)
    (hp : s.pendingCheckpoints pathCheckPoints = first :: rest)
    (k : Nat) (hk : gapsWithin (2 ^ k * D) first rest) :
    ∃ n : Nat, ∀ fuel, n ≤ fuel →
      s.setup_PathTraversal fuel pathCheckPoints td tol D
        = Except.ok (true,
            s.afterSetup first (first :: bisectFrom D k first rest) td tol D, []) := by
  obtain ⟨n, hrun⟩ := discretize_DoWhile_bisect D k first rest hk
  refine ⟨n, fun fuel hle => ?_⟩
  have h := hrun (fuel - n)
  rw [Nat.sub_add_cancel hle] at h
  exact (setup_PathTraversal_valid fuel s pathCheckPoints td tol D htol hD h0 hlt
    first rest hp).2 _ _ h

theorem pendingCheckpoints_straightLine :
    ControlModule.init.pendingCheckpoints straightLineMarkers
      = [pathPtAt 0 0 true, pathPtAt 10 0 true] := by
  simp [ControlModule.pendingCheckpoints, ControlModule.init, straightLineMarkers, markerAt]

theorem gapsWithin_straightLine :
    gapsWithin (2 ^ 3 * 2) (pathPtAt 0 0 true) [pathPtAt 10 0 true] := by
  refine ⟨?_, trivial⟩
  rw [dist_pathPtAt_on_axis, abs_of_pos (by norm_num)]
  norm_num

/-- C11 as the code has it.  Setting up the checkpoints `(0, 0)` and `(10, 0)` on a fresh
controller with tolerance 0.5 and interpolation distance 2.0 returns `true` (from some
fuel on) and yields, whatever the fuel, the delivery path of exactly 9 points, 1.25
apart, at x = 0, 1.25, 2.5, 3.75, 5, 6.25, 7.5, 8.75, 10 (y = 0): the gap of length 10
is halved three times. -/
theorem C11_straight_line_yields_nine_points :
    (∃ n : Nat, ∀ fuel, n ≤ fuel →
      ControlModule.init.setup_PathTraversal fuel straightLineMarkers 10 0.5 2
        = Except.ok (true,
            ControlModule.init.afterSetup (pathPtAt 0 0 true) straightLinePath 10 0.5 2,
            [])) ∧
    (∀ (fuel : Nat) (s1 : ControlModule) (signals : List Signal),
      ControlModule.init.setup_PathTraversal fuel straightLineMarkers 10 0.5 2
        = Except.ok (true, s1, signals) → s1.deliveryPath = straightLinePath) ∧
    straightLinePath.length = 9 ∧
    straightLinePath.map (fun p => (p.physical.x, p.physical.y))
      = [(0, 0), (1.25, 0), (2.5, 0), (3.75, 0), (5, 0), (6.25, 0), (7.5, 0), (8.75, 0),
         (10, 0)] ∧
    List.Chain' (fun a b => Point.computeEuclideanDist a.physical b.physical = 1.25)
      straightLinePath := by
  refine ⟨?_, ?_, rfl, by simp [straightLinePath, pathPtAt], ?_⟩
  · have h := setup_PathTraversal_bisect ControlModule.init straightLineMarkers 10 0.5 2
      (by norm_num) (by norm_num) (by simp [ControlModule.init])
      (by simp [ControlModule.init, straightLineMarkers])
      (pathPtAt 0 0 true) [pathPtAt 10 0 true] pendingCheckpoints_straightLine 3
      gapsWithin_straightLine
    rw [bisectFrom_straightLine] at h
    exact h
  · intro fuel s1 signals h
    obtain ⟨-, -, -, first, rest, hp, hk⟩ :=
      setup_PathTraversal_ok_bisect fuel _ s1 _ _ _ _ signals h
    rw [pendingCheckpoints_straightLine] at hp
    injection hp with h1 h2
    subst h1
    subst h2
    rw [hk 3 gapsWithin_straightLine, bisectFrom_straightLine]
    rfl
  · simp only [straightLinePath, List.chain'_cons, dist_pathPtAt_on_axis, List.chain'_singleton,
      and_true]
    norm_num [abs_of_neg]

/-- Counterexample to C11 as stated: the set-up of the straight-line scenario succeeds and
gives a delivery path of 9 points, and with no fuel does it give the six points at
x = 0, 2, 4, 6, 8, 10. -/
theorem C11_straight_line_not_six_points :
    (∃ (fuel : Nat) (s1 : ControlModule),
      ControlModule.init.setup_PathTraversal fuel straightLineMarkers 10 0.5 2
        = Except.ok (true, s1, []) ∧ s1.deliveryPath.length = 9) ∧
    ¬ ∃ (fuel : Nat) (s1 : ControlModule) (signals : List Signal),
      ControlModule.init.setup_PathTraversal fuel straightLineMarkers 10 0.5 2
        = Except.ok (true, s1, signals) ∧
      s1.deliveryPath.map (fun p => (p.physical.x, p.physical.y))
        = straightLineExpectedCoordinates := by
  have hrun := setup_PathTraversal_bisect ControlModule.init straightLineMarkers 10 0.5 2
    (by norm_num) (by norm_num) (by simp [ControlModule.init])
    (by simp [ControlModule.init, straightLineMarkers])
    (pathPtAt 0 0 true) [pathPtAt 10 0 true] pendingCheckpoints_straightLine 3
    gapsWithin_straightLine
  rw [bisectFrom_straightLine] at hrun
  obtain ⟨n, hn⟩ := hrun
  refine ⟨⟨n, _, hn n (le_refl _), rfl⟩, ?_⟩
  rintro ⟨fuel, s1, signals, h, hsix⟩
  obtain ⟨-, -, -, first, rest, hp, hk⟩ :=
    setup_PathTraversal_ok_bisect fuel _ s1 _ _ _ _ signals h
  rw [pendingCheckpoints_straightLine] at hp
  injection hp with h1 h2
  subst h1
  subst h2
  rw [hk 3 gapsWithin_straightLine, bisectFrom_straightLine] at hsix
  have hlen := congrArg List.length hsix
  simp [ControlModule.afterSetup, straightLinePath, straightLineExpectedCoordinates] at hlen

/-! ## C12: traversal to completion -/

/-- The advancement branch, as facts about the new state. -/
theorem allow_NextTranslation_advance_facts (s : ControlModule) (particleLoc : Point)
    (pre : List PathPtStruct) (p q : PathPtStruct) (rest : List PathPtStruct)
    (hpath : s.deliveryPath = pre ++ p :: q :: rest)
    (hidx : s.targetPathPtIndex = (pre.length : Int))
    (htotal : s.totalNumPathPts = ((pre ++ p :: q :: rest).length : Int))
    (hrem : s.remainingPathDistance = pathLength (p :: q :: rest))
    (hdev : Point.computeEuclideanDist particleLoc s.targetPathPtData.physical
      ≤ s.deviationTolerance) :
    ∃ (s' : ControlModule) (signals : List Signal),
      s.allow_NextTranslation particleLoc = Except.ok (true, s', signals) ∧
      s'.deliveryPath = s.deliveryPath ∧
      s'.targetPathPtIndex = (pre.length : Int) + 1 ∧
      s'.targetPathPtData = q ∧
      s'.totalNumPathPts = s.totalNumPathPts ∧
      s'.remainingPathDistance = pathLength (q :: rest) ∧
      s'.totalPathDistance = s.totalPathDistance := by
  have hnotfinal : ¬ (s.totalNumPathPts - s.targetPathPtIndex - 1 ≤ 0) := by
    rw [htotal, hidx]
    simp only [List.length_append, List.length_cons]
    push_cast
    omega
  have htarget : vectorAt s.deliveryPath (s.targetPathPtIndex + 1) = Except.ok q := by
    rw [hpath, hidx]
    exact vectorAt_append_cons_succ pre p q rest
  have hbefore : vectorAt s.deliveryPath s.targetPathPtIndex = Except.ok p := by
    rw [hpath, hidx]
    exact vectorAt_append_cons pre p (q :: rest)
  refine ⟨_, _, allow_NextTranslation_advance s particleLoc q p hnotfinal hdev htarget
    hbefore, rfl, by simp [hidx], rfl, rfl, ?_, rfl⟩
  have hnn : ¬ (s.remainingPathDistance
      - Point.computeEuclideanDist q.physical p.physical < 0) := by
    rw [hrem]
    simp only [pathLength, add_sub_cancel_left, not_lt]
    exact pathLength_nonneg _
  simp only [hrem, pathLength, add_sub_cancel_left]
  rw [if_neg (not_lt.mpr (pathLength_nonneg _))]

/-- A controller whose target is the point `p` of its path, with the rest of the path
`rest` still to go and the remaining distance equal to the length of `p :: rest`, fed one
tracking location per point: every tick but the last returns `true` and moves the target
index by one, the last tick returns `false` with the completion signals, and the
remaining distance ends at 0. -/
theorem ticks_tracking_to_completion :
    ∀ (rest pre : List PathPtStruct) (p : PathPtStruct) (s : ControlModule)
      (locs : List Point),
      s.deliveryPath = pre ++ p :: rest →
      s.targetPathPtIndex = (pre.length : Int) →
      s.targetPathPtData = p →
      s.totalNumPathPts = ((pre ++ p :: rest).length : Int) →
      s.remainingPathDistance = pathLength (p :: rest) →
      locs.length = rest.length + 1 →
      s.Tracking locs →
      ∃ (s' : ControlModule) (results : List (Bool × List Signal)),
        s.ticks locs = Except.ok (s', results) ∧
        results.map (fun r => r.1) = List.replicate rest.length true ++ [false] ∧
        results.getLast?.map (fun r => r.2)
          = some [Signal.send_StopOpPrompt,
              Signal.send_OperationLogMsg LogMsg.operationComplete] ∧
        s'.targetPathPtIndex = (pre.length : Int) + (rest.length : Int) ∧
        s'.remainingPathDistance = 0 ∧
        s'.totalPathDistance = s.totalPathDistance ∧
        ∀ j : Nat, j ≤ rest.length →
          ∃ (sj : ControlModule) (rj : List (Bool × List Signal)),
            s.ticks (locs.take j) = Except.ok (sj, rj) ∧
            sj.targetPathPtIndex = (pre.length : Int) + (j : Int) := by
  intro rest
  induction rest with
  | nil =>
    intro pre p s locs hpath hidx htar htotal hrem hlen htrack
    match locs, hlen, htrack with
    | [loc], _, htrack =>
      have hfinal : s.totalNumPathPts - s.targetPathPtIndex - 1 ≤ 0 := by
        rw [htotal, hidx]
        simp only [List.length_append, List.length_cons, List.length_nil]
        push_cast
        omega
      have hc := allow_NextTranslation_complete s loc hfinal htrack.1
      refine ⟨{ s with actualDeviation :=
            Point.computeEuclideanDist loc s.targetPathPtData.physical },
        [(false, [Signal.send_StopOpPrompt,
          Signal.send_OperationLogMsg LogMsg.operationComplete])],
        by rw [ControlModule.ticks, hc]; rfl, rfl, rfl, by simp [hidx], ?_, rfl, ?_⟩
      · simpa [pathLength] using hrem
      · intro j hj
        have hj0 : j = 0 := by simpa using hj
        subst hj0
        exact ⟨s, [], rfl, by simp [hidx]⟩
  | cons q rest' ih =>
    intro pre p s locs hpath hidx htar htotal hrem hlen htrack
    match locs, hlen, htrack with
    | loc :: locs', hlen, htrack =>
      obtain ⟨s1, sig1, hadv, hp1, hi1, ht1, hn1, hr1, htd1⟩ :=
        allow_NextTranslation_advance_facts s loc pre p q rest' hpath hidx htotal hrem
          htrack.1
      have hl : pre ++ p :: q :: rest' = (pre ++ [p]) ++ q :: rest' := by simp
      obtain ⟨s', results, hrun, hbools, hlast, hidx', hrem', htd', hsteps⟩ :=
        ih (pre ++ [p]) q s1 locs' (by rw [hp1, hpath, hl]) (by rw [hi1]; simp) ht1
          (by rw [hn1, htotal, hl]) hr1 (by simpa using hlen) (htrack.2 _ _ _ hadv)
      refine ⟨s', (true, sig1) :: results, ?_, ?_, ?_, ?_, hrem', htd'.trans htd1, ?_⟩
      · rw [ControlModule.ticks, hadv]
        simp only [hrun]
      · simp [hbools, List.replicate_succ]
      · cases results with
        | nil => simp at hbools
        | cons r rs =>
          rw [List.getLast?_cons_cons]
          exact hlast
      · rw [hidx']
        simp only [List.length_append, List.length_cons, List.length_nil]
        push_cast
        ring
      · intro j hj
        cases j with
        | zero => exact ⟨s, [], rfl, by simp [hidx]⟩
        | succ j =>
          obtain ⟨sj, rj, hj1, hj2⟩ := hsteps j (by simpa using hj)
          refine ⟨sj, (true, sig1) :: rj, ?_, ?_⟩
          · rw [List.take_succ_cons, ControlModule.ticks, hadv]
            simp only [hj1]
          · rw [hj2]
            simp only [List.length_append, List.length_cons, List.length_nil]
            push_cast
            ring

theorem exampleSetupTwo_is_setup_after_reset :
    ControlModule.init.reset_Data.setup_PathTraversal 5 [markerAt 0 0, markerAt 1 0]
        (pathLength ([markerAt 0 0, markerAt 1 0].map (fun m => m.data))) 0.5 2
      = Except.ok (true, exampleSetupTwo, []) := by
  have h1 : ControlModule.init.reset_Data = ControlModule.init := rfl
  have h2 : pathLength ([markerAt 0 0, markerAt 1 0].map (fun m => m.data)) = 1 := by
    simp only [List.map, markerAt, pathLength, dist_pathPtAt_on_axis]
    norm_num
  rw [h1, h2]
  exact exampleSetupTwo_is_setup

theorem exampleSetupTwo_tracking :
    exampleSetupTwo.Tracking [⟨0, 0⟩, ⟨1, 0⟩] := by
  refine ⟨exampleSetupTwo_on_target, fun proceed s' signals h => ?_⟩
  have hadv := allow_NextTranslation_advance exampleSetupTwo ⟨0, 0⟩ (pathPtAt 1 0 true)
    (pathPtAt 0 0 true) (by simp [exampleSetupTwo, ControlModule.afterSetup])
    exampleSetupTwo_on_target
    (by simp [exampleSetupTwo, ControlModule.afterSetup, vectorAt])
    (by simp [exampleSetupTwo, ControlModule.afterSetup, vectorAt])
  rw [hadv] at h
  injection h with h
  injection h with _ h
  injection h with h _
  subst h
  refine ⟨?_, fun _ _ _ _ => trivial⟩
  simp only [exampleSetupTwo, ControlModule.afterSetup, pathPtAt, computeEuclideanDist_self]
  norm_num

theorem translateParticle_unavailable_X (hw : Hardware) (hx : hw.robo_x.isAvailable = false)
    (px : Nat) (dpx : Int) (mx : Nat) (dmx : Int) (py : Nat) (dpy : Int) (my : Nat)
    (dmy : Int) :
    Physics.translateParticle hw px dpx mx dmx py dpy my dmy = (false, hw) := by
  simp [Physics.translateParticle, Physics.motorsAvailable, hx]

theorem moveRoboX_robo_y (hw : Hardware) (px : Nat) (dpx : Int) (mx : Nat) (dmx : Int)
    (isDone : Bool) : (Physics.moveRoboX hw px dpx mx dmx isDone).1.robo_y = hw.robo_y := by
  unfold Physics.moveRoboX
  split_ifs <;> rfl

theorem moveRoboY_robo_x (hw : Hardware) (py : Nat) (dpy : Int) (my : Nat) (dmy : Int)
    (isDone : Bool) : (Physics.moveRoboY hw py dpy my dmy isDone).1.robo_x = hw.robo_x := by
  unfold Physics.moveRoboY
  split_ifs <;> rfl

/-- C13, the failing input.  With the X controller connected and the Y controller not,
`motorsAvailable` is `true` (it asks the X controller twice), and `translateParticle`
with a plus X and a plus Y coil of scale 10 for 100 ms sends the activate and the stop
command to both controllers, the unavailable Y controller included; with the X
controller disconnected instead, nothing is sent and the result is `false`. -/
theorem C13_unavailable_Y_controller_is_commanded :
    onlyXConnected.robo_y.isAvailable = false ∧
    Physics.motorsAvailable onlyXConnected = true ∧
    (Physics.translateParticle onlyXConnected 10 100 0 0 10 100 0 0).2.robo_x.sent
      = [RoboEvent.ForwardM1 128 10, RoboEvent.sleep_for 100, RoboEvent.ForwardM1 128 0] ∧
    (Physics.translateParticle onlyXConnected 10 100 0 0 10 100 0 0).2.robo_y.sent
      = [RoboEvent.ForwardM1 129 10, RoboEvent.sleep_for 100, RoboEvent.ForwardM1 129 0] ∧
    (∀ (hw : Hardware) (px : Nat) (dpx : Int) (mx : Nat) (dmx : Int) (py : Nat) (dpy : Int)
      (my : Nat) (dmy : Int), hw.robo_x.isAvailable = false →
      Physics.translateParticle hw px dpx mx dmx py dpy my dmy = (false, hw)) ∧
    (∀ hw : Hardware, Physics.motorsAvailable hw = hw.robo_x.isAvailable) := by
  refine ⟨rfl, rfl, ?_, ?_, ?_, ?_⟩
  · simp [Physics.translateParticle, Physics.motorsAvailable, Physics.moveRoboX,
      Physics.moveRoboY, onlyXConnected, roboclawAnswering, Roboclaw.ForwardM1,
      Roboclaw.sleep_for, ROBO_X_ADDRESS]
  · simp [Physics.translateParticle, Physics.motorsAvailable, Physics.moveRoboX,
      Physics.moveRoboY, onlyXConnected, roboclawAnswering, Roboclaw.ForwardM1,
      Roboclaw.sleep_for, ROBO_Y_ADDRESS]
  · intro hw px dpx mx dmx py dpy my dmy hx
    exact translateParticle_unavailable_X hw hx px dpx mx dmx py dpy my dmy
  · intro hw
    simp [Physics.motorsAvailable]

theorem moveRoboY_flag_congr (hw1 hw2 : Hardware) (h : hw1.robo_y = hw2.robo_y) (py : Nat)
    (dpy : Int) (my : Nat) (dmy : Int) (isDone : Bool) :
    (Physics.moveRoboY hw1 py dpy my dmy isDone).2
        = (Physics.moveRoboY hw2 py dpy my dmy isDone).2 ∧
      (Physics.moveRoboY hw1 py dpy my dmy isDone).1.robo_y
        = (Physics.moveRoboY hw2 py dpy my dmy isDone).1.robo_y := by
  unfold Physics.moveRoboY
  rw [h]
  split_ifs <;> first | exact ⟨rfl, rfl⟩ | exact ⟨rfl, h⟩

/-- C19.  With the X controller available (the only availability `translateParticle`
asks for, so in particular with both available): on an axis with a non-zero plus scale
the task sends the activate command on channel 1, sleeps for the duration and sends the
zero-scale stop command on channel 1, and its flag is the answer to the activate command
and the answer to the stop command; with a zero plus scale and a non-zero minus scale the
same holds on channel 2; `translateParticle` leaves the controllers as the two tasks leave
them and returns `true` exactly when both flags are `true`. -/
theorem C19_axis_flag_is_activate_and_stop (hw : Hardware)
    (hx : hw.robo_x.isAvailable = true)
    (px : Nat) (dpx : Int) (mx : Nat) (dmx : Int) (py : Nat) (dpy : Int) (my : Nat)
    (dmy : Int) :
    (px ≠ 0 →
      ((Physics.moveRoboX hw px dpx mx dmx false).1.robo_x.sent
          = hw.robo_x.sent ++ [RoboEvent.ForwardM1 128 px, RoboEvent.sleep_for dpx,
              RoboEvent.ForwardM1 128 0] ∧
        (Physics.moveRoboX hw px dpx mx dmx false).2
          = (hw.robo_x.reply (hw.robo_x.sent ++ [RoboEvent.ForwardM1 128 px]) &&
             hw.robo_x.reply (hw.robo_x.sent ++ [RoboEvent.ForwardM1 128 px,
               RoboEvent.sleep_for dpx, RoboEvent.ForwardM1 128 0])))) ∧
    (px = 0 → mx ≠ 0 →
      ((Physics.moveRoboX hw px dpx mx dmx false).1.robo_x.sent
          = hw.robo_x.sent ++ [RoboEvent.ForwardM2 128 mx, RoboEvent.sleep_for dmx,
              RoboEvent.ForwardM2 128 0] ∧
        (Physics.moveRoboX hw px dpx mx dmx false).2
          = (hw.robo_x.reply (hw.robo_x.sent ++ [RoboEvent.ForwardM2 128 mx]) &&
             hw.robo_x.reply (hw.robo_x.sent ++ [RoboEvent.ForwardM2 128 mx,
               RoboEvent.sleep_for dmx, RoboEvent.ForwardM2 128 0])))) ∧
    (py ≠ 0 →
      ((Physics.moveRoboY hw py dpy my dmy false).1.robo_y.sent
          = hw.robo_y.sent ++ [RoboEvent.ForwardM1 129 py, RoboEvent.sleep_for dpy,
              RoboEvent.ForwardM1 129 0] ∧
        (Physics.moveRoboY hw py dpy my dmy false).2
          = (hw.robo_y.reply (hw.robo_y.sent ++ [RoboEvent.ForwardM1 129 py]) &&
             hw.robo_y.reply (hw.robo_y.sent ++ [RoboEvent.ForwardM1 129 py,
               RoboEvent.sleep_for dpy, RoboEvent.ForwardM1 129 0])))) ∧
    (py = 0 → my ≠ 0 →
      ((Physics.moveRoboY hw py dpy my dmy false).1.robo_y.sent
          = hw.robo_y.sent ++ [RoboEvent.ForwardM2 129 my, RoboEvent.sleep_for dmy,
              RoboEvent.ForwardM2 129 0] ∧
        (Physics.moveRoboY hw py dpy my dmy false).2
          = (hw.robo_y.reply (hw.robo_y.sent ++ [RoboEvent.ForwardM2 129 my]) &&
             hw.robo_y.reply (hw.robo_y.sent ++ [RoboEvent.ForwardM2 129 my,
               RoboEvent.sleep_for dmy, RoboEvent.ForwardM2 129 0])))) ∧
    ((Physics.translateParticle hw px dpx mx dmx py dpy my dmy).2.robo_x
        = (Physics.moveRoboX hw px dpx mx dmx false).1.robo_x) ∧
    ((Physics.translateParticle hw px dpx mx dmx py dpy my dmy).2.robo_y
        = (Physics.moveRoboY hw py dpy my dmy false).1.robo_y) ∧
    ((Physics.translateParticle hw px dpx mx dmx py dpy my dmy).1 = true ↔
      (Physics.moveRoboX hw px dpx mx dmx false).2 = true ∧
        (Physics.moveRoboY hw py dpy my dmy false).2 = true) := by
  have hav : Physics.motorsAvailable hw = true := by simp [Physics.motorsAvailable, hx]
  have hcong := moveRoboY_flag_congr (Physics.moveRoboX hw px dpx mx dmx false).1 hw
    (moveRoboX_robo_y hw px dpx mx dmx false) py dpy my dmy false
  refine ⟨?_, ?_, ?_, ?_, ?_, ?_, ?_⟩
  · intro h
    simp [Physics.moveRoboX, h, Roboclaw.ForwardM1, Roboclaw.sleep_for, ROBO_X_ADDRESS]
  · intro h0 h
    simp [Physics.moveRoboX, h0, h, Roboclaw.ForwardM2, Roboclaw.sleep_for, ROBO_X_ADDRESS]
  · intro h
    simp [Physics.moveRoboY, h, Roboclaw.ForwardM1, Roboclaw.sleep_for, ROBO_Y_ADDRESS]
  · intro h0 h
    simp [Physics.moveRoboY, h0, h, Roboclaw.ForwardM2, Roboclaw.sleep_for, ROBO_Y_ADDRESS]
  · simp only [Physics.translateParticle, hav, not_true_eq_false, if_false]
    exact moveRoboY_robo_x _ py dpy my dmy false
  · simp only [Physics.translateParticle, hav, not_true_eq_false, if_false]
    exact hcong.2
  · simp only [Physics.translateParticle, hav, not_true_eq_false, if_false]
    rw [hcong.1, Bool.and_eq_true]

/-- C19 on the two connected controllers that answer every command with success, plus X
and minus Y fired. -/
theorem C19_axis_flag_witness :
    (Physics.translateParticle bothConnected 10 100 0 0 0 0 12 100).2.robo_y.sent
        = [RoboEvent.ForwardM2 129 12, RoboEvent.sleep_for 100, RoboEvent.ForwardM2 129 0] ∧
    (Physics.translateParticle bothConnected 10 100 0 0 0 0 12 100).1 = true := by
  have h := C19_axis_flag_is_activate_and_stop bothConnected rfl 10 100 0 0 0 0 12 100
  obtain ⟨hxp, -, -, hym, -, hy, hres⟩ := h
  refine ⟨?_, ?_⟩
  · rw [hy, (hym rfl (by decide)).1]
    rfl
  · rw [hres, (hxp (by decide)).2, (hym rfl (by decide)).2]
    exact ⟨rfl, rfl⟩

/-! ## Coil selection by sign -/

theorem commandX_sign (s : Physics) (currentLoc nextLoc : Point) :
    (nextLoc.x - currentLoc.x > 0 →
      (s.commandX currentLoc nextLoc).2.1 = 100 ∧ (s.commandX currentLoc nextLoc).2.2.1 = 0 ∧
        (s.commandX currentLoc nextLoc).2.2.2 = 0) ∧
    (nextLoc.x - currentLoc.x < 0 →
      (s.commandX currentLoc nextLoc).2.2.2 = 100 ∧ (s.commandX currentLoc nextLoc).1 = 0 ∧
        (s.commandX currentLoc nextLoc).2.1 = 0) ∧
    (nextLoc.x - currentLoc.x = 0 → s.commandX currentLoc nextLoc = (0, 0, 0, 0)) := by
  unfold Physics.commandX
  refine ⟨fun h => ?_, fun h => ?_, fun h => ?_⟩
  · simp only [h, if_true, and_self]
  · simp only [not_lt.mpr (le_of_lt h), gt_iff_lt, h, if_true, if_false, and_self]
  · simp only [h, gt_iff_lt, lt_irrefl, if_false]

theorem commandY_sign (s : Physics) (currentLoc nextLoc : Point) :
    (nextLoc.y - currentLoc.y > 0 →
      (s.commandY currentLoc nextLoc).2.1 = 100 ∧ (s.commandY currentLoc nextLoc).2.2.1 = 0 ∧
        (s.commandY currentLoc nextLoc).2.2.2 = 0) ∧
    (nextLoc.y - currentLoc.y < 0 →
      (s.commandY currentLoc nextLoc).2.2.2 = 100 ∧ (s.commandY currentLoc nextLoc).1 = 0 ∧
        (s.commandY currentLoc nextLoc).2.1 = 0) ∧
    (nextLoc.y - currentLoc.y = 0 → s.commandY currentLoc nextLoc = (0, 0, 0, 0)) := by
  unfold Physics.commandY
  refine ⟨fun h => ?_, fun h => ?_, fun h => ?_⟩
  · simp only [h, if_true, and_self]
  · simp only [not_lt.mpr (le_of_lt h), gt_iff_lt, h, if_true, if_false, and_self]
  · simp only [h, gt_iff_lt, lt_irrefl, if_false]

/-- What C14 says of the two coils of one axis, for the signed distance `d` to travel and
the scales and durations of the plus and of the minus coil. -/
theorem axis_selection (d : ℝ) (c : Int × Int × Int × Int)
    (hpos : d > 0 → c.2.1 = 100 ∧ c.2.2.1 = 0 ∧ c.2.2.2 = 0)
    (hneg : d < 0 → c.2.2.2 = 100 ∧ c.1 = 0 ∧ c.2.1 = 0)
    (hzero : d = 0 → c = (0, 0, 0, 0))
    (hp : c.2.1 ≠ 0 → 7 ≤ c.1) (hm : c.2.2.2 ≠ 0 → 7 ≤ c.2.2.1) :
    (c.2.1 = 0 ∨ c.2.2.2 = 0) ∧ (c.1 = 0 ↔ c.2.1 = 0) ∧ (c.2.2.1 = 0 ↔ c.2.2.2 = 0) := by
  rcases lt_trichotomy d 0 with h | h | h
  · obtain ⟨h1, h2, h3⟩ := hneg h
    have := hm (by omega)
    refine ⟨Or.inl h3, ⟨fun _ => h3, fun _ => h2⟩, ⟨fun _ => by omega, fun _ => by omega⟩⟩
  · rw [hzero h]
    simp
  · obtain ⟨h1, h2, h3⟩ := hpos h
    have := hp (by omega)
    refine ⟨Or.inr h3, ⟨fun _ => by omega, fun _ => by omega⟩, ⟨fun _ => h3, fun _ => h2⟩⟩

/-- C14 (coil selection by sign).  In every state that the actuation model can reach, for
every current and target location, the command array written by `computeNextCommand_NN`
is `[sxp, dxp, sxm, dxm, syp, dyp, sym, dym]` (scale and duration of +X, -X, +Y, -Y) with,
on each axis: a positive signed distance gives the plus coil duration 100 and the minus
coil scale 0 and duration 0; a negative one gives the minus coil duration 100 and the
plus coil scale 0 and duration 0; a zero one gives both coils scale 0 and duration 0.
At most one coil per axis has a non-zero duration, and a coil has scale 0 exactly when it
has duration 0. -/
theorem C14_coil_selection_by_sign (s : Physics) (hs : s.Reachable)
    (currentLoc nextLoc : Point) :
    ∃ sxp dxp sxm dxm syp dyp sym dym : Int,
      (s.computeNextCommand_NN currentLoc nextLoc).commandArray
        = [sxp, dxp, sxm, dxm, syp, dyp, sym, dym] ∧
      (nextLoc.x - currentLoc.x > 0 → dxp = 100 ∧ sxm = 0 ∧ dxm = 0) ∧
      (nextLoc.x - currentLoc.x < 0 → dxm = 100 ∧ sxp = 0 ∧ dxp = 0) ∧
      (nextLoc.x - currentLoc.x = 0 → sxp = 0 ∧ dxp = 0 ∧ sxm = 0 ∧ dxm = 0) ∧
      (nextLoc.y - currentLoc.y > 0 → dyp = 100 ∧ sym = 0 ∧ dym = 0) ∧
      (nextLoc.y - currentLoc.y < 0 → dym = 100 ∧ syp = 0 ∧ dyp = 0) ∧
      (nextLoc.y - currentLoc.y = 0 → syp = 0 ∧ dyp = 0 ∧ sym = 0 ∧ dym = 0) ∧
      (dxp = 0 ∨ dxm = 0) ∧ (dyp = 0 ∨ dym = 0) ∧
      (sxp = 0 ↔ dxp = 0) ∧ (sxm = 0 ↔ dxm = 0) ∧
      (syp = 0 ↔ dyp = 0) ∧ (sym = 0 ↔ dym = 0) := by
  obtain ⟨hbx, hby⟩ := boost_nonneg_of_reachable s hs
  obtain ⟨xp, xn, xz⟩ := commandX_sign s currentLoc nextLoc
  obtain ⟨yp, yn, yz⟩ := commandY_sign s currentLoc nextLoc
  obtain ⟨x1, x2⟩ := commandX_fired_min s currentLoc nextLoc hbx
  obtain ⟨y1, y2⟩ := commandY_fired_min s currentLoc nextLoc hby
  obtain ⟨ax, bx, cx⟩ := axis_selection _ _ xp xn xz x1 x2
  obtain ⟨ay, by1, cy⟩ := axis_selection _ _ yp yn yz y1 y2
  refine ⟨_, _, _, _, _, _, _, _, rfl, xp, xn, ?_, yp, yn, ?_, ax, ay, bx, cx, by1, cy⟩
  · intro h
    rw [xz h]
    exact ⟨rfl, rfl, rfl, rfl⟩
  · intro h
    rw [yz h]
    exact ⟨rfl, rfl, rfl, rfl⟩

/-- Witness of C14: the constructed object after `setCoilLocs` and two `set_Boost` calls,
asked for a move from `(0, 0)` to `(3, -2)`. -/
theorem C14_coil_selection_witness :
    ∃ sxp dxp sxm dxm syp dyp sym dym : Int,
      ((((Physics.init.setCoilLocs [⟨26, 0⟩, ⟨-26, 0⟩, ⟨0, 26⟩, ⟨0, -26⟩]).set_Boost
        ⟨0, 0⟩ ⟨3, -2⟩).set_Boost ⟨0, 0⟩ ⟨3, -2⟩).computeNextCommand_NN
          ⟨0, 0⟩ ⟨3, -2⟩).commandArray = [sxp, dxp, sxm, dxm, syp, dyp, sym, dym] ∧
      dxp = 100 ∧ sxm = 0 ∧ dxm = 0 ∧ dym = 100 ∧ syp = 0 ∧ dyp = 0 ∧
      sxp ≠ 0 ∧ sym ≠ 0 := by
  obtain ⟨sxp, dxp, sxm, dxm, syp, dyp, sym, dym, harr, hxp, -, -, -, hyn, -, -, -, ex, -,
      -, ey⟩ :=
    C14_coil_selection_by_sign _
      (Physics.Reachable.set_Boost ⟨0, 0⟩ ⟨3, -2⟩ (Physics.Reachable.set_Boost ⟨0, 0⟩ ⟨3, -2⟩
        (Physics.Reachable.setCoilLocs [⟨26, 0⟩, ⟨-26, 0⟩, ⟨0, 26⟩, ⟨0, -26⟩]
          Physics.Reachable.init))) ⟨0, 0⟩ ⟨3, -2⟩
  have h1 := hxp (by norm_num)
  have h2 := hyn (by norm_num)
  refine ⟨sxp, dxp, sxm, dxm, syp, dyp, sym, dym, harr, h1.1, h1.2.1, h1.2.2, h2.1, h2.2.1,
    h2.2.2, ?_, ?_⟩
  · intro h
    have := ex.mp h
    omega
  · intro h
    have := ey.mp h
    omega

/-! ## Reset -/

theorem afterSetup_reset_Data (s1 s2 : ControlModule) (first : PathPtStruct)
    (out : List PathPtStruct) (td tol D : ℝ) :
    s1.reset_Data.afterSetup first out td tol D
      = s2.reset_Data.afterSetup first out td tol D := rfl

/-- C16 (reset leaves no state behind).  After `reset_Data` the delivery path is empty and
the checkpoint index, target index, retry count, point count, tolerance, interpolation
distance, deviation, total and remaining distance are zero, whatever the state was; and
if `setup_PathTraversal` after `reset_Data` succeeds from a state `s1` with a result
state `r`, then with the same arguments it succeeds after `reset_Data` from any other
state `s2` with the very same result state `r` (every field, the target point
included) and the same signals. -/
theorem C16_reset_leaves_no_state (s1 s2 : ControlModule) (fuel : Nat)
    (pathCheckPoints : List PathPointMarker) (td tol D : ℝ) (r : ControlModule)
    (signals : List Signal)
    (h : s1.reset_Data.setup_PathTraversal fuel pathCheckPoints td tol D
      = Except.ok (true, r, signals)) :
    (∀ s : ControlModule,
      s.reset_Data.deliveryPath = [] ∧ s.reset_Data.currentPathCheckpoint = 0 ∧
      s.reset_Data.targetPathPtIndex = 0 ∧ s.reset_Data.retryCounter = 0 ∧
      s.reset_Data.totalNumPathPts = 0 ∧ s.reset_Data.deviationTolerance = 0 ∧
      s.reset_Data.interpolationDistance = 0 ∧ s.reset_Data.actualDeviation = 0 ∧
      s.reset_Data.totalPathDistance = 0 ∧ s.reset_Data.remainingPathDistance = 0) ∧
    s2.reset_Data.setup_PathTraversal fuel pathCheckPoints td tol D
      = Except.ok (true, r, signals) := by
  refine ⟨fun s => ?_, ?_⟩
  · simp only [ControlModule.reset_Data]
    norm_num
  · obtain ⟨htol, hD, h0, hlt, -, first, rest, -, hp, -, -, -, -⟩ :=
      setup_PathTraversal_ok_inv fuel _ r pathCheckPoints td tol D signals h
    have hp2 : s2.reset_Data.pendingCheckpoints pathCheckPoints = first :: rest := hp
    obtain ⟨e1, o1⟩ := setup_PathTraversal_valid fuel s1.reset_Data pathCheckPoints td tol D
      htol hD h0 hlt first rest hp
    obtain ⟨-, o2⟩ := setup_PathTraversal_valid fuel s2.reset_Data pathCheckPoints td tol D
      htol hD h0 hlt first rest hp2
    cases hrun : discretize_DoWhile D fuel (first :: rest) ((first :: rest).length : Int) with
    | error e =>
      rw [e1 e hrun] at h
      simp at h
    | ok res =>
      obtain ⟨out, t⟩ := res
      rw [o2 out t hrun, ← afterSetup_reset_Data s1 s2, ← o1 out t hrun, h]

/-- Witness of C16: a controller left in the middle of an operation (checkpoint counter
and target index 1, distances 1) and a fresh controller; after `reset_Data` the set-up of
the checkpoints `(0, 0)` and `(1, 0)` gives the same state from both. -/
theorem C16_reset_witness :
    (exampleControl 1 1).reset_Data.setup_PathTraversal 5 [markerAt 0 0, markerAt 1 0]
        1 0.5 2 = Except.ok (true, exampleSetupTwo, []) :=
  (C16_reset_leaves_no_state ControlModule.init (exampleControl 1 1) 5
    [markerAt 0 0, markerAt 1 0] 1 0.5 2 exampleSetupTwo []
    (by
      have h1 : ControlModule.init.reset_Data = ControlModule.init := rfl
      rw [h1]
      exact exampleSetupTwo_is_setup)).2

/-! ## Bounds on the coil networks -/

theorem abs_tanh_le_one (z : ℝ) : |Real.tanh z| ≤ 1 := by
  rw [Real.tanh_eq_sinh_div_cosh, abs_div, abs_of_pos (Real.cosh_pos z)]
  rw [div_le_one (Real.cosh_pos z), abs_le]
  constructor
  · have h := Real.sinh_lt_cosh (-z)
    rw [Real.sinh_neg, Real.cosh_neg] at h
    linarith
  · exact le_of_lt (Real.sinh_lt_cosh z)

theorem tanh_ge_of_ge (c z : ℝ) (hc : 0 ≤ c) (hz : c ≤ z) : c / (1 + c) ≤ Real.tanh z := by
  have hexp : 1 + 2 * z ≤ Real.exp (2 * z) := by
    have := Real.add_one_le_exp (2 * z)
    linarith
  have hpos : 0 < Real.exp (2 * z) + 1 := by positivity
  have htanh : Real.tanh z = (Real.exp (2 * z) - 1) / (Real.exp (2 * z) + 1) := by
    rw [Real.tanh_eq_sinh_div_cosh, Real.sinh_eq, Real.cosh_eq]
    have h2 : Real.exp (2 * z) = Real.exp z * Real.exp z := by
      rw [← Real.exp_add]
      ring_nf
    have h3 : Real.exp (-z) = (Real.exp z)⁻¹ := Real.exp_neg z
    have hz0 : Real.exp z ≠ 0 := (Real.exp_pos z).ne.symm
    rw [h2, h3]
    field_simp
  rw [htanh, div_le_div_iff₀ (by linarith) hpos]
  nlinarith

theorem tanh_le_of_le (c z : ℝ) (hc : 0 ≤ c) (hz : z ≤ -c) :
    Real.tanh z ≤ -(c / (1 + c)) := by
  have h := tanh_ge_of_ge c (-z) hc (by linarith)
  rw [Real.tanh_neg] at h
  linarith

theorem dotProduct_tanh_abs_le (row : List ℝ) (column : List ℝ) :
    |dotProduct row (column.map Real.tanh)| ≤ (row.map (fun w => |w|)).sum := by
  unfold dotProduct
  induction row generalizing column with
  | nil => simp
  | cons w row ih =>
    cases column with
    | nil =>
      simp only [List.map_nil, List.zipWith_nil_right, List.sum_nil, abs_zero, List.map_cons,
        List.sum_cons]
      have h1 := abs_nonneg w
      have h2 : 0 ≤ (row.map (fun w => |w|)).sum := by
        have := ih []
        simp only [List.map_nil, List.zipWith_nil_right, List.sum_nil, abs_zero] at this
        exact this
      linarith
    | cons z column =>
      simp only [List.map_cons, List.zipWith_cons_cons, List.sum_cons]
      have h1 : |w * Real.tanh z| ≤ |w| := by
        rw [abs_mul]
        exact mul_le_of_le_one_right (abs_nonneg w) (abs_tanh_le_one z)
      have h2 := ih column
      have h3 := abs_add (w * Real.tanh z)
        (List.zipWith (fun a b => a * b) row (column.map Real.tanh)).sum
      linarith

/-- The raw output of a coil network is bounded by the absolute output bias plus the sum
of the absolute output weights, because `|tanh| ≤ 1`. -/
theorem networkOutput_abs_le (W_I : List (List ℝ)) (B_IH W_HO : List ℝ) (B_HO : ℝ)
    (input : List ℝ) :
    |networkOutput W_I B_IH W_HO B_HO input| ≤ (W_HO.map (fun w => |w|)).sum + |B_HO| := by
  unfold networkOutput
  have h1 := dotProduct_tanh_abs_le W_HO
    (List.zipWith (fun row bias => dotProduct row input + bias) W_I B_IH)
  have h2 := abs_add (dotProduct W_HO
    ((List.zipWith (fun row bias => dotProduct row input + bias) W_I B_IH).map Real.tanh)) B_HO
  linarith

theorem static_cast_int_le (v : ℝ) (n : Int) (hn : 0 ≤ n) (h : v < n + 1) :
    static_cast_int v ≤ n := by
  unfold static_cast_int
  split_ifs with h0
  · have : ⌊v⌋ < n + 1 := by
      rw [Int.floor_lt]
      exact_mod_cast h
    omega
  · have : ⌈v⌉ ≤ 0 := by
      rw [Int.ceil_le]
      push_neg at h0
      exact_mod_cast le_of_lt h0
    omega

theorem static_cast_int_le_of_le (v : ℝ) (n : Int) (h : v ≤ n) : static_cast_int v ≤ n := by
  unfold static_cast_int
  split_ifs with h0
  · exact le_trans (Int.floor_le_floor h) (le_of_eq (Int.floor_intCast n))
  · rw [Int.ceil_le]
    exact h

theorem movePlusX_le (a b c d e : ℝ) : Physics.movePlusX a b c d e ≤ 199 := by
  unfold Physics.movePlusX
  refine static_cast_int_le _ 199 (by norm_num) ?_
  have h := networkOutput_abs_le W_I_XPlus B_IH_XPlus W_HO_XPlus B_HO_XPlus
    (Physics.norm a b c d e mean_XPlus std_XPlus)
  have hb : (W_HO_XPlus.map (fun w => |w|)).sum + |B_HO_XPlus| < 200 := by
    simp only [W_HO_XPlus, B_HO_XPlus, List.map_cons, List.map_nil, List.sum_cons,
      List.sum_nil]
    norm_num [abs_of_pos, abs_of_neg]
  have := le_abs_self (networkOutput W_I_XPlus B_IH_XPlus W_HO_XPlus B_HO_XPlus
    (Physics.norm a b c d e mean_XPlus std_XPlus))
  push_cast
  linarith

theorem moveMinusX_le (a b c d e : ℝ) : Physics.moveMinusX a b c d e ≤ 199 := by
  unfold Physics.moveMinusX
  refine static_cast_int_le _ 199 (by norm_num) ?_
  have h := networkOutput_abs_le W_I_XMinus B_IH_XMinus W_HO_XMinus B_HO_XMinus
    (Physics.norm a b c d e mean_XMinus std_XMinus)
  have hb : (W_HO_XMinus.map (fun w => |w|)).sum + |B_HO_XMinus| < 200 := by
    simp only [W_HO_XMinus, B_HO_XMinus, List.map_cons, List.map_nil, List.sum_cons,
      List.sum_nil]
    norm_num [abs_of_pos, abs_of_neg]
  have := le_abs_self (networkOutput W_I_XMinus B_IH_XMinus W_HO_XMinus B_HO_XMinus
    (Physics.norm a b c d e mean_XMinus std_XMinus))
  push_cast
  linarith

theorem movePlusY_le (a b c d e : ℝ) : Physics.movePlusY a b c d e ≤ 199 := by
  unfold Physics.movePlusY
  refine static_cast_int_le _ 199 (by norm_num) ?_
  have h := networkOutput_abs_le W_I_YPlus B_IH_YPlus W_HO_YPlus B_HO_YPlus
    (Physics.norm a b c d e mean_YPlus std_YPlus)
  have hb : (W_HO_YPlus.map (fun w => |w|)).sum + |B_HO_YPlus| < 200 := by
    simp only [W_HO_YPlus, B_HO_YPlus, List.map_cons, List.map_nil, List.sum_cons,
      List.sum_nil]
    norm_num [abs_of_pos, abs_of_neg]
  have := le_abs_self (networkOutput W_I_YPlus B_IH_YPlus W_HO_YPlus B_HO_YPlus
    (Physics.norm a b c d e mean_YPlus std_YPlus))
  push_cast
  linarith

theorem moveMinusY_le (a b c d e : ℝ) : Physics.moveMinusY a b c d e ≤ 199 := by
  unfold Physics.moveMinusY
  refine static_cast_int_le _ 199 (by norm_num) ?_
  have h := networkOutput_abs_le W_I_YMinus B_IH_YMinus W_HO_YMinus B_HO_YMinus
    (Physics.norm a b c d e mean_YMinus std_YMinus)
  have hb : (W_HO_YMinus.map (fun w => |w|)).sum + |B_HO_YMinus| < 200 := by
    simp only [W_HO_YMinus, B_HO_YMinus, List.map_cons, List.map_nil, List.sum_cons,
      List.sum_nil]
    norm_num [abs_of_pos, abs_of_neg]
  have := le_abs_self (networkOutput W_I_YMinus B_IH_YMinus W_HO_YMinus B_HO_YMinus
    (Physics.norm a b c d e mean_YMinus std_YMinus))
  push_cast
  linarith

/-! ## The plus X network at a concrete input -/

theorem plusX_output_combination (t0 t1 t2 t3 t4 t5 t6 t7 t8 t9 : ℝ)
    (h0 : -1 ≤ t0) (h1 : -1 ≤ t1) (h2 : t2 ≤ -((2 : ℝ) / (1 + 2))) (h3 : (1 : ℝ) / (1 + 1) ≤ t3)
    (h4 : (100 : ℝ) / (1 + 100) ≤ t4) (h5 : t5 ≤ -((40 : ℝ) / (1 + 40)))
    (h6 : (20 : ℝ) / (1 + 20) ≤ t6) (h7 : (2 : ℝ) / (1 + 2) ≤ t7) (h8 : t8 ≤ 1) (h9 : t9 ≤ 1) :
    dotProduct W_HO_XPlus [t0, t1, t2, t3, t4, t5, t6, t7, t8, t9] + B_HO_XPlus ≤ 6 := by
  simp only [dotProduct, W_HO_XPlus, B_HO_XPlus, List.zipWith_cons_cons, List.zipWith_nil_right,
    List.sum_cons, List.sum_nil]
  norm_num at h2 h3 h4 h5 h6 h7 ⊢
  linarith

/-- At the particle location `(22, 0)`, target `(25, 0)` and distance 4.5 to the plus X
coil, the plus X network gives less than the minimum current scale (its output is about
-52.9). -/
theorem movePlusX_example : Physics.movePlusX 22 0 25 0 4.5 ≤ 6 := by
  unfold Physics.movePlusX
  refine static_cast_int_le_of_le _ 6 ?_
  simp only [networkOutput, Physics.norm, W_I_XPlus, B_IH_XPlus, List.zipWith_cons_cons,
    List.zipWith_nil_right, List.map_cons, List.map_nil]
  push_cast
  refine plusX_output_combination _ _ _ _ _ _ _ _ _ _ ?_ ?_ ?_ ?_ ?_ ?_ ?_ ?_ ?_ ?_
  · exact (abs_le.mp (abs_tanh_le_one _)).1
  · exact (abs_le.mp (abs_tanh_le_one _)).1
  · refine tanh_le_of_le 2 _ (by norm_num) ?_
    simp only [dotProduct, mean_XPlus, std_XPlus, List.zipWith_cons_cons,
      List.zipWith_nil_right, List.sum_cons, List.sum_nil]
    norm_num
  · refine tanh_ge_of_ge 1 _ (by norm_num) ?_
    simp only [dotProduct, mean_XPlus, std_XPlus, List.zipWith_cons_cons,
      List.zipWith_nil_right, List.sum_cons, List.sum_nil]
    norm_num
  · refine tanh_ge_of_ge 100 _ (by norm_num) ?_
    simp only [dotProduct, mean_XPlus, std_XPlus, List.zipWith_cons_cons,
      List.zipWith_nil_right, List.sum_cons, List.sum_nil]
    norm_num
  · refine tanh_le_of_le 40 _ (by norm_num) ?_
    simp only [dotProduct, mean_XPlus, std_XPlus, List.zipWith_cons_cons,
      List.zipWith_nil_right, List.sum_cons, List.sum_nil]
    norm_num
  · refine tanh_ge_of_ge 20 _ (by norm_num) ?_
    simp only [dotProduct, mean_XPlus, std_XPlus, List.zipWith_cons_cons,
      List.zipWith_nil_right, List.sum_cons, List.sum_nil]
    norm_num
  · refine tanh_ge_of_ge 2 _ (by norm_num) ?_
    simp only [dotProduct, mean_XPlus, std_XPlus, List.zipWith_cons_cons,
      List.zipWith_nil_right, List.sum_cons, List.sum_nil]
    norm_num
  · exact (abs_le.mp (abs_tanh_le_one _)).2
  · exact (abs_le.mp (abs_tanh_le_one _)).2

/-! ## The stagnation boost -/

theorem set_Boost_initial (s : Physics) (currentLoc targetLoc : Point)
    (h : s.previousLoc.x = -1 ∧ s.previousLoc.y = -1) :
    s.set_Boost currentLoc targetLoc
      = { s with previousLoc := currentLoc, boost_X := 0, boost_Y := 0 } := by
  unfold Physics.set_Boost
  rw [if_pos h]

/-- A stagnant tick in plus X on which the both-axes override does not apply: the boost
of the X axis grows by 3 and the plus X direction is marked. -/
theorem set_Boost_stagnant_plusX (s : Physics) (currentLoc targetLoc : Point)
    (h0 : ¬ (s.previousLoc.x = -1 ∧ s.previousLoc.y = -1))
    (hreq : 1.5 ≤ targetLoc.x - currentLoc.x)
    (hmov : |s.previousLoc.y - currentLoc.y| ≤ 0.2)
    (hy : targetLoc.y - currentLoc.y < 0.5) :
    (s.set_Boost currentLoc targetLoc).boost_X = s.boost_X + 3 ∧
    (s.set_Boost currentLoc targetLoc).xDirectioninNeedOfBoost = "+X" ∧
    (s.set_Boost currentLoc targetLoc).previousLoc = currentLoc ∧
    (s.set_Boost currentLoc targetLoc).coilLocs = s.coilLocs := by
  have hpos : targetLoc.x - currentLoc.x > 0 := by
    have : (0 : ℝ) < 1.5 := by norm_num
    linarith
  have habs : |targetLoc.x - currentLoc.x| ≥ 1.5 := by
    rw [abs_of_pos hpos]
    exact hreq
  have hov : ¬ (|s.previousLoc.y - currentLoc.y| ≤ 0.1 ∧ targetLoc.x - currentLoc.x ≥ 0.5
      ∧ |s.previousLoc.x - currentLoc.x| ≤ 0.1 ∧ targetLoc.y - currentLoc.y ≥ 0.5) := by
    intro h
    linarith [h.2.2.2]
  unfold Physics.set_Boost Physics.chooseXDirection Physics.chooseYDirection
  simp only [h0, if_false, hpos, if_true, habs, hmov, and_self, hov]
  split_ifs <;> simp

/-- A tick on which less than 1.5 is required in X and the both-axes override does not
apply: the boost of the X axis is reset. -/
theorem set_Boost_reset_X (s : Physics) (currentLoc targetLoc : Point)
    (h0 : ¬ (s.previousLoc.x = -1 ∧ s.previousLoc.y = -1))
    (hreq : |targetLoc.x - currentLoc.x| < 1.5)
    (hy : targetLoc.y - currentLoc.y < 0.5) :
    (s.set_Boost currentLoc targetLoc).boost_X = 0 ∧
    (s.set_Boost currentLoc targetLoc).xDirectioninNeedOfBoost = "" := by
  have habs : ¬ (|targetLoc.x - currentLoc.x| ≥ 1.5) := not_le.mpr hreq
  have hov : ¬ (|s.previousLoc.y - currentLoc.y| ≤ 0.1 ∧ targetLoc.x - currentLoc.x ≥ 0.5
      ∧ |s.previousLoc.x - currentLoc.x| ≤ 0.1 ∧ targetLoc.y - currentLoc.y ≥ 0.5) := by
    intro h
    linarith [h.2.2.2]
  unfold Physics.set_Boost Physics.chooseXDirection Physics.chooseYDirection
  simp only [h0, if_false, habs, false_and, hov]
  split_ifs <;> simp

/-- The scale of the plus X coil when plus X is required and marked for a boost. -/
theorem commandX_plus_boosted (s : Physics) (currentLoc nextLoc : Point)
    (hpos : nextLoc.x - currentLoc.x > 0) (hdir : s.xDirectioninNeedOfBoost = "+X") :
    s.commandX currentLoc nextLoc
      = (max (Physics.movePlusX currentLoc.x currentLoc.y nextLoc.x nextLoc.y
            (Point.computeEuclideanDist currentLoc (s.coilLoc 0))) 7 + s.boost_X,
          100, 0, 0) := by
  unfold Physics.commandX
  simp only [hpos, if_true, hdir]

theorem computeNextCommand_NN_plusX (s : Physics) (currentLoc nextLoc : Point) :
    (s.computeNextCommand_NN currentLoc nextLoc).commandArray.getD 0 0
      = (s.commandX currentLoc nextLoc).1 := rfl

theorem abs_sub_y_le_computeEuclideanDist (p q : Point) :
    |p.y - q.y| ≤ Point.computeEuclideanDist p q := by
  unfold Point.computeEuclideanDist
  rw [← Real.sqrt_sq_eq_abs]
  exact Real.sqrt_le_sqrt (by nlinarith [sq_nonneg (p.x - q.x)])

/-- The both-axes override: the particle is still in both coordinates and at least 0.5 is
required in plus X and in plus Y. -/
theorem set_Boost_override (s : Physics) (currentLoc targetLoc : Point)
    (h0 : ¬ (s.previousLoc.x = -1 ∧ s.previousLoc.y = -1))
    (hov : |s.previousLoc.y - currentLoc.y| ≤ 0.1 ∧ targetLoc.x - currentLoc.x ≥ 0.5
      ∧ |s.previousLoc.x - currentLoc.x| ≤ 0.1 ∧ targetLoc.y - currentLoc.y ≥ 0.5) :
    (s.set_Boost currentLoc targetLoc).boost_X = 3 ∧
    (s.set_Boost currentLoc targetLoc).boost_Y = 3 ∧
    (s.set_Boost currentLoc targetLoc).previousLoc = currentLoc := by
  unfold Physics.set_Boost
  simp only [h0, if_false, hov, and_self, if_true]

theorem exampleCoils_start : exampleCoils.previousLoc.x = -1 ∧ exampleCoils.previousLoc.y = -1 :=
  ⟨rfl, rfl⟩

theorem exampleCoils_coilLoc : exampleCoils.coilLoc 0 = ⟨26.5, 0⟩ := rfl

/-- The particle held at `(22, 0)` with the target at `(25, 0)`: after the initial call
and `n` further calls the boost of the X axis is `3 * n`. -/
theorem exampleCoils_stagnant (n : Nat) :
    (exampleCoils.set_Boost_repeat ⟨22, 0⟩ ⟨25, 0⟩ (n + 1)).previousLoc = ⟨22, 0⟩ ∧
    (exampleCoils.set_Boost_repeat ⟨22, 0⟩ ⟨25, 0⟩ (n + 1)).boost_X = 3 * (n : Int) ∧
    (exampleCoils.set_Boost_repeat ⟨22, 0⟩ ⟨25, 0⟩ (n + 1)).coilLocs = exampleCoils.coilLocs ∧
    (1 ≤ n → (exampleCoils.set_Boost_repeat ⟨22, 0⟩ ⟨25, 0⟩ (n + 1)).xDirectioninNeedOfBoost
      = "+X") ∧
    (exampleCoils.set_Boost_repeat ⟨22, 0⟩ ⟨25, 0⟩ (n + 1)).Reachable := by
  induction n with
  | zero =>
    have h : exampleCoils.set_Boost_repeat ⟨22, 0⟩ ⟨25, 0⟩ 1
        = exampleCoils.set_Boost ⟨22, 0⟩ ⟨25, 0⟩ := rfl
    rw [h, set_Boost_initial _ _ _ exampleCoils_start]
    refine ⟨rfl, rfl, rfl, fun h => absurd h (by decide), ?_⟩
    rw [← set_Boost_initial _ ⟨22, 0⟩ ⟨25, 0⟩ exampleCoils_start]
    exact Physics.Reachable.set_Boost _ _
      (Physics.Reachable.setCoilLocs _ Physics.Reachable.init)
  | succ n ih =>
    obtain ⟨hprev, hboost, hcoils, -, hreach⟩ := ih
    have h : exampleCoils.set_Boost_repeat ⟨22, 0⟩ ⟨25, 0⟩ (n + 1 + 1)
        = (exampleCoils.set_Boost_repeat ⟨22, 0⟩ ⟨25, 0⟩ (n + 1)).set_Boost ⟨22, 0⟩ ⟨25, 0⟩ :=
      rfl
    obtain ⟨h1, h2, h3, h4⟩ := set_Boost_stagnant_plusX
      (exampleCoils.set_Boost_repeat ⟨22, 0⟩ ⟨25, 0⟩ (n + 1)) ⟨22, 0⟩ ⟨25, 0⟩
      (by rw [hprev]; norm_num) (by norm_num) (by rw [hprev]; norm_num) (by norm_num)
    rw [h]
    refine ⟨h3, ?_, h4.trans hcoils, fun _ => h2, Physics.Reachable.set_Boost _ _ hreach⟩
    rw [h1, hboost]
    push_cast
    ring

/-- The plus X scale commanded for the particle held at `(22, 0)` with the target at
`(25, 0)`, after the initial call and `n ≥ 1` further calls of `set_Boost`: the network
output is below the minimum, so the scale is `7 + 3 * n`. -/
theorem exampleCoils_stagnant_scale (n : Nat) (hn : 1 ≤ n) :
    ((exampleCoils.set_Boost_repeat ⟨22, 0⟩ ⟨25, 0⟩ (n + 1)).computeNextCommand_NN
      ⟨22, 0⟩ ⟨25, 0⟩).commandArray.getD 0 0 = 7 + 3 * (n : Int) := by
  obtain ⟨-, hboost, hcoils, hdir, -⟩ := exampleCoils_stagnant n
  rw [computeNextCommand_NN_plusX, commandX_plus_boosted _ _ _ (by norm_num) (hdir hn), hboost]
  have hc : (exampleCoils.set_Boost_repeat ⟨22, 0⟩ ⟨25, 0⟩ (n + 1)).coilLoc 0 = ⟨26.5, 0⟩ := by
    unfold Physics.coilLoc
    rw [hcoils]
    rfl
  have hd : Point.computeEuclideanDist ⟨22, 0⟩ ⟨26.5, 0⟩ = 4.5 := by
    rw [computeEuclideanDist_on_axis, abs_of_neg (by norm_num)]
    norm_num
  rw [hc, hd, max_eq_right (le_trans movePlusX_example (by norm_num))]

/-! ## C15: the stagnation-boost scenario -/

/-- C15 as the code has it.  From the start of an operation (`previousLoc` is
`(-1, -1)`): after the initial `set_Boost` call at `l0`, on two consecutive ticks at `l1`
and `l2` on which the target is 3 further in X, the particle is at most 0.2 from where it
was on the tick before, and less than 0.5 is required in plus Y (so the both-axes
override does not apply), `boost_X` becomes 3 and then 6, and on each of these ticks the
commanded scale of the plus X coil is the larger of the plus X network output and the
minimum 7, plus `boost_X`; on a following tick at `l3` on which the required X travel is
below 1.5 in magnitude (and less than 0.5 is required in plus Y) `boost_X` is reset
to 0.  No measured location is the marker `(-1, -1)` of the start. -/
theorem C15_stagnation_boost_added_to_clamped_output (s0 : Physics)
    (l0 t0 l1 t1 l2 t2 l3 t3 : Point)
    (hstart : s0.previousLoc.x = -1 ∧ s0.previousLoc.y = -1)
    (hl0 : ¬ (l0.x = -1 ∧ l0.y = -1)) (hl1 : ¬ (l1.x = -1 ∧ l1.y = -1))
    (hl2 : ¬ (l2.x = -1 ∧ l2.y = -1))
    (hreq1 : t1.x - l1.x = 3) (hreq2 : t2.x - l2.x = 3)
    (hmov1 : Point.computeEuclideanDist l0 l1 ≤ 0.2)
    (hmov2 : Point.computeEuclideanDist l1 l2 ≤ 0.2)
    (hy1 : t1.y - l1.y < 0.5) (hy2 : t2.y - l2.y < 0.5)
    (hreq3 : |t3.x - l3.x| < 1.5) (hy3 : t3.y - l3.y < 0.5) :
    (s0.set_Boost l0 t0).boost_X = 0 ∧
    ((s0.set_Boost l0 t0).set_Boost l1 t1).boost_X = 3 ∧
    (((s0.set_Boost l0 t0).set_Boost l1 t1).computeNextCommand_NN l1 t1).commandArray.getD 0 0
      = max (Physics.movePlusX l1.x l1.y t1.x t1.y
          (Point.computeEuclideanDist l1 (s0.coilLoc 0))) 7 + 3 ∧
    (((s0.set_Boost l0 t0).set_Boost l1 t1).set_Boost l2 t2).boost_X = 6 ∧
    ((((s0.set_Boost l0 t0).set_Boost l1 t1).set_Boost l2 t2).computeNextCommand_NN
        l2 t2).commandArray.getD 0 0
      = max (Physics.movePlusX l2.x l2.y t2.x t2.y
          (Point.computeEuclideanDist l2 (s0.coilLoc 0))) 7 + 6 ∧
    ((((s0.set_Boost l0 t0).set_Boost l1 t1).set_Boost l2 t2).set_Boost l3 t3).boost_X = 0 := by
  have e1 := set_Boost_initial s0 l0 t0 hstart
  have p1 : (s0.set_Boost l0 t0).previousLoc = l0 := by rw [e1]
  have b1 : (s0.set_Boost l0 t0).boost_X = 0 := by rw [e1]
  have c1 : (s0.set_Boost l0 t0).coilLocs = s0.coilLocs := by rw [e1]
  obtain ⟨b2, d2, p2, c2⟩ := set_Boost_stagnant_plusX (s0.set_Boost l0 t0) l1 t1
    (by rw [p1]; exact hl0) (by rw [hreq1]; norm_num)
    (by rw [p1]; exact le_trans (abs_sub_y_le_computeEuclideanDist l0 l1) hmov1) hy1
  obtain ⟨b3, d3, p3, c3⟩ := set_Boost_stagnant_plusX ((s0.set_Boost l0 t0).set_Boost l1 t1)
    l2 t2 (by rw [p2]; exact hl1) (by rw [hreq2]; norm_num)
    (by rw [p2]; exact le_trans (abs_sub_y_le_computeEuclideanDist l1 l2) hmov2) hy2
  obtain ⟨b4, -⟩ := set_Boost_reset_X
    (((s0.set_Boost l0 t0).set_Boost l1 t1).set_Boost l2 t2) l3 t3
    (by rw [p3]; exact hl2) hreq3 hy3
  have k2 : ((s0.set_Boost l0 t0).set_Boost l1 t1).coilLoc 0 = s0.coilLoc 0 := by
    unfold Physics.coilLoc
    rw [c2, c1]
  have k3 : (((s0.set_Boost l0 t0).set_Boost l1 t1).set_Boost l2 t2).coilLoc 0
      = s0.coilLoc 0 := by
    unfold Physics.coilLoc
    rw [c3, c2, c1]
  refine ⟨b1, ?_, ?_, ?_, ?_, b4⟩
  · rw [b2, b1]
    rfl
  · rw [computeNextCommand_NN_plusX, commandX_plus_boosted _ _ _ (by rw [hreq1]; norm_num) d2,
      k2, b2, b1]
    rfl
  · rw [b3, b2, b1]
    rfl
  · rw [computeNextCommand_NN_plusX, commandX_plus_boosted _ _ _ (by rw [hreq2]; norm_num) d3,
      k3, b3, b2, b1]
    rfl

/-- Witness of C15 as the code has it: the particle held at `(22, 0)` for the initial
call and two ticks with the target at `(25, 0)`, then found at `(24, 0)`. -/
theorem C15_stagnation_boost_witness :
    ((exampleCoils.set_Boost ⟨22, 0⟩ ⟨25, 0⟩).set_Boost ⟨22, 0⟩ ⟨25, 0⟩).boost_X = 3 ∧
    (((exampleCoils.set_Boost ⟨22, 0⟩ ⟨25, 0⟩).set_Boost ⟨22, 0⟩ ⟨25, 0⟩).set_Boost
      ⟨22, 0⟩ ⟨25, 0⟩).boost_X = 6 ∧
    ((((exampleCoils.set_Boost ⟨22, 0⟩ ⟨25, 0⟩).set_Boost ⟨22, 0⟩ ⟨25, 0⟩).set_Boost
      ⟨22, 0⟩ ⟨25, 0⟩).set_Boost ⟨24, 0⟩ ⟨25, 0⟩).boost_X = 0 := by
  have h := C15_stagnation_boost_added_to_clamped_output exampleCoils
    ⟨22, 0⟩ ⟨25, 0⟩ ⟨22, 0⟩ ⟨25, 0⟩ ⟨22, 0⟩ ⟨25, 0⟩ ⟨24, 0⟩ ⟨25, 0⟩
    exampleCoils_start (by norm_num) (by norm_num) (by norm_num) (by norm_num) (by norm_num)
    (by rw [computeEuclideanDist_on_axis]; norm_num)
    (by rw [computeEuclideanDist_on_axis]; norm_num)
    (by norm_num) (by norm_num) (by norm_num [abs_of_pos]) (by norm_num)
  exact ⟨h.2.1, h.2.2.2.1, h.2.2.2.2.2⟩

/-- Counterexample to C15 as stated.  The particle is held at `(22, 0)`, 4.5 from the
plus X coil, with the target at `(25, 0)`.  On the first tick after the initial call
`boost_X` is 3 and the commanded plus X scale is 10, which is not the raw output of the
plus X network (at most 6 here) plus `boost_X`; on the second tick `boost_X` is 6 and the
scale is 13.  And with the target at `(25, 1)`, where 1 is required in plus Y too,
`boost_X` is 3 on the first tick and 3 again on the second, not 6. -/
theorem C15_scale_is_not_raw_output_plus_boost :
    ((exampleCoils.set_Boost ⟨22, 0⟩ ⟨25, 0⟩).set_Boost ⟨22, 0⟩ ⟨25, 0⟩).boost_X = 3 ∧
    (((exampleCoils.set_Boost ⟨22, 0⟩ ⟨25, 0⟩).set_Boost ⟨22, 0⟩ ⟨25, 0⟩).computeNextCommand_NN
      ⟨22, 0⟩ ⟨25, 0⟩).commandArray.getD 0 0 = 10 ∧
    Physics.movePlusX 22 0 25 0 (Point.computeEuclideanDist ⟨22, 0⟩
      (((exampleCoils.set_Boost ⟨22, 0⟩ ⟨25, 0⟩).set_Boost ⟨22, 0⟩ ⟨25, 0⟩).coilLoc 0))
      + ((exampleCoils.set_Boost ⟨22, 0⟩ ⟨25, 0⟩).set_Boost ⟨22, 0⟩ ⟨25, 0⟩).boost_X ≤ 9 ∧
    ((((exampleCoils.set_Boost ⟨22, 0⟩ ⟨25, 0⟩).set_Boost ⟨22, 0⟩ ⟨25, 0⟩).set_Boost
      ⟨22, 0⟩ ⟨25, 0⟩).computeNextCommand_NN ⟨22, 0⟩ ⟨25, 0⟩).commandArray.getD 0 0 = 13 ∧
    ((exampleCoils.set_Boost ⟨22, 0⟩ ⟨25, 1⟩).set_Boost ⟨22, 0⟩ ⟨25, 1⟩).boost_X = 3 ∧
    (((exampleCoils.set_Boost ⟨22, 0⟩ ⟨25, 1⟩).set_Boost ⟨22, 0⟩ ⟨25, 1⟩).set_Boost
      ⟨22, 0⟩ ⟨25, 1⟩).boost_X = 3 := by
  have s1 := exampleCoils_stagnant 1
  have k1 := exampleCoils_stagnant_scale 1 (le_refl 1)
  have k2 := exampleCoils_stagnant_scale 2 (by decide)
  have hc : ((exampleCoils.set_Boost ⟨22, 0⟩ ⟨25, 0⟩).set_Boost ⟨22, 0⟩ ⟨25, 0⟩).coilLoc 0
      = ⟨26.5, 0⟩ := by
    unfold Physics.coilLoc
    rw [show ((exampleCoils.set_Boost ⟨22, 0⟩ ⟨25, 0⟩).set_Boost ⟨22, 0⟩ ⟨25, 0⟩).coilLocs
      = exampleCoils.coilLocs from s1.2.2.1]
    rfl
  have hd : Point.computeEuclideanDist ⟨22, 0⟩ ⟨26.5, 0⟩ = 4.5 := by
    rw [computeEuclideanDist_on_axis, abs_of_neg (by norm_num)]
    norm_num
  have e1 := set_Boost_initial exampleCoils ⟨22, 0⟩ ⟨25, 1⟩ exampleCoils_start
  have p1 : (exampleCoils.set_Boost ⟨22, 0⟩ ⟨25, 1⟩).previousLoc = ⟨22, 0⟩ := by rw [e1]
  obtain ⟨o1, -, q1⟩ := set_Boost_override (exampleCoils.set_Boost ⟨22, 0⟩ ⟨25, 1⟩)
    ⟨22, 0⟩ ⟨25, 1⟩ (by rw [p1]; norm_num) (by rw [p1]; norm_num)
  obtain ⟨o2, -, -⟩ := set_Boost_override
    ((exampleCoils.set_Boost ⟨22, 0⟩ ⟨25, 1⟩).set_Boost ⟨22, 0⟩ ⟨25, 1⟩)
    ⟨22, 0⟩ ⟨25, 1⟩ (by rw [q1]; norm_num) (by rw [q1]; norm_num)
  refine ⟨s1.2.1, k1, ?_, k2, o1, o2⟩
  rw [hc, hd, show ((exampleCoils.set_Boost ⟨22, 0⟩ ⟨25, 0⟩).set_Boost ⟨22, 0⟩ ⟨25, 0⟩).boost_X
    = 3 from s1.2.1]
  have := movePlusX_example
  omega

/-! ## C20: the range of the commanded scales -/

theorem commandX_scale_bounds (s : Physics) (currentLoc nextLoc : Point) (hb : 0 ≤ s.boost_X) :
    (0 ≤ (s.commandX currentLoc nextLoc).1 ∧
      (s.commandX currentLoc nextLoc).1 ≤ 199 + s.boost_X) ∧
    (0 ≤ (s.commandX currentLoc nextLoc).2.2.1 ∧
      (s.commandX currentLoc nextLoc).2.2.1 ≤ 199 + s.boost_X) := by
  unfold Physics.commandX
  have hp := movePlusX_le currentLoc.x currentLoc.y nextLoc.x nextLoc.y
    (Point.computeEuclideanDist currentLoc (s.coilLoc 0))
  have hm := moveMinusX_le currentLoc.x currentLoc.y nextLoc.x nextLoc.y
    (Point.computeEuclideanDist currentLoc (s.coilLoc 1))
  have hp7 := le_max_right
    (Physics.movePlusX currentLoc.x currentLoc.y nextLoc.x nextLoc.y
      (Point.computeEuclideanDist currentLoc (s.coilLoc 0))) 7
  have hm7 := le_max_right
    (Physics.moveMinusX currentLoc.x currentLoc.y nextLoc.x nextLoc.y
      (Point.computeEuclideanDist currentLoc (s.coilLoc 1))) 7
  have hpu := max_le hp (show (7 : Int) ≤ 199 by decide)
  have hmu := max_le hm (show (7 : Int) ≤ 199 by decide)
  by_cases h1 : nextLoc.x - currentLoc.x > 0
  · simp only [h1, if_true]
    by_cases hf : s.xDirectioninNeedOfBoost = "+X"
    · simp only [hf, if_true]
      omega
    · simp only [hf, if_false]
      omega
  · by_cases h2 : nextLoc.x - currentLoc.x < 0
    · simp only [h1, if_false, h2, if_true]
      by_cases hf : s.xDirectioninNeedOfBoost = "-X"
      · simp only [hf, if_true]
        omega
      · simp only [hf, if_false]
        omega
    · simp only [h1, h2, if_false]
      omega

theorem commandY_scale_bounds (s : Physics) (currentLoc nextLoc : Point) (hb : 0 ≤ s.boost_Y) :
    (0 ≤ (s.commandY currentLoc nextLoc).1 ∧
      (s.commandY currentLoc nextLoc).1 ≤ 199 + s.boost_Y) ∧
    (0 ≤ (s.commandY currentLoc nextLoc).2.2.1 ∧
      (s.commandY currentLoc nextLoc).2.2.1 ≤ 199 + s.boost_Y) := by
  unfold Physics.commandY
  have hp := movePlusY_le currentLoc.x currentLoc.y nextLoc.x nextLoc.y
    (Point.computeEuclideanDist currentLoc (s.coilLoc 2))
  have hm := moveMinusY_le currentLoc.x currentLoc.y nextLoc.x nextLoc.y
    (Point.computeEuclideanDist currentLoc (s.coilLoc 3))
  have hp7 := le_max_right
    (Physics.movePlusY currentLoc.x currentLoc.y nextLoc.x nextLoc.y
      (Point.computeEuclideanDist currentLoc (s.coilLoc 2))) 7
  have hm7 := le_max_right
    (Physics.moveMinusY currentLoc.x currentLoc.y nextLoc.x nextLoc.y
      (Point.computeEuclideanDist currentLoc (s.coilLoc 3))) 7
  have hpu := max_le hp (show (7 : Int) ≤ 199 by decide)
  have hmu := max_le hm (show (7 : Int) ≤ 199 by decide)
  by_cases h1 : nextLoc.y - currentLoc.y > 0
  · simp only [h1, if_true]
    by_cases hf : s.yDirectioninNeedOfBoost = "+Y"
    · simp only [hf, if_true]
      omega
    · simp only [hf, if_false]
      omega
  · by_cases h2 : nextLoc.y - currentLoc.y < 0
    · simp only [h1, if_false, h2, if_true]
      by_cases hf : s.yDirectioninNeedOfBoost = "-Y"
      · simp only [hf, if_true]
        omega
      · simp only [hf, if_false]
        omega
    · simp only [h1, h2, if_false]
      omega

/-- C20 as the code has it.  In every state that the actuation model can reach, for every
current and target location, the command array written by `computeNextCommand_NN` is
`[sxp, dxp, sxm, dxm, syp, dyp, sym, dym]` where the two X scales lie between 0 and
`199 + boost_X` and the two Y scales between 0 and `199 + boost_Y`; so all four scales lie
in 0..255 when both boosts are at most 56. -/
theorem C20_scales_within_199_plus_boost (s : Physics) (hs : s.Reachable)
    (currentLoc nextLoc : Point) :
    ∃ sxp dxp sxm dxm syp dyp sym dym : Int,
      (s.computeNextCommand_NN currentLoc nextLoc).commandArray
        = [sxp, dxp, sxm, dxm, syp, dyp, sym, dym] ∧
      (0 ≤ sxp ∧ sxp ≤ 199 + s.boost_X) ∧ (0 ≤ sxm ∧ sxm ≤ 199 + s.boost_X) ∧
      (0 ≤ syp ∧ syp ≤ 199 + s.boost_Y) ∧ (0 ≤ sym ∧ sym ≤ 199 + s.boost_Y) ∧
      (s.boost_X ≤ 56 → s.boost_Y ≤ 56 →
        (0 ≤ sxp ∧ sxp ≤ 255) ∧ (0 ≤ sxm ∧ sxm ≤ 255) ∧
        (0 ≤ syp ∧ syp ≤ 255) ∧ (0 ≤ sym ∧ sym ≤ 255)) := by
  obtain ⟨hbx, hby⟩ := boost_nonneg_of_reachable s hs
  obtain ⟨x1, x2⟩ := commandX_scale_bounds s currentLoc nextLoc hbx
  obtain ⟨y1, y2⟩ := commandY_scale_bounds s currentLoc nextLoc hby
  refine ⟨_, _, _, _, _, _, _, _, rfl, x1, x2, y1, y2, fun h56x h56y => ?_⟩
  refine ⟨⟨x1.1, ?_⟩, ⟨x2.1, ?_⟩, ⟨y1.1, ?_⟩, ⟨y2.1, ?_⟩⟩
  · exact le_trans x1.2 (by omega)
  · exact le_trans x2.2 (by omega)
  · exact le_trans y1.2 (by omega)
  · exact le_trans y2.2 (by omega)

/-- Witness of C20 as the code has it: the particle held at `(22, 0)` for the initial
call and two ticks with the target at `(25, 0)`; the plus X scale is 13. -/
theorem C20_scales_witness :
    ∃ sxp dxp sxm dxm syp dyp sym dym : Int,
      ((exampleCoils.set_Boost_repeat ⟨22, 0⟩ ⟨25, 0⟩ 3).computeNextCommand_NN
        ⟨22, 0⟩ ⟨25, 0⟩).commandArray = [sxp, dxp, sxm, dxm, syp, dyp, sym, dym] ∧
      sxp = 13 ∧ sxp ≤ 199 + 6 := by
  obtain ⟨sxp, dxp, sxm, dxm, syp, dyp, sym, dym, harr, hxp, -⟩ :=
    C20_scales_within_199_plus_boost (exampleCoils.set_Boost_repeat ⟨22, 0⟩ ⟨25, 0⟩ 3)
      (exampleCoils_stagnant 2).2.2.2.2 ⟨22, 0⟩ ⟨25, 0⟩
  have hb : (exampleCoils.set_Boost_repeat ⟨22, 0⟩ ⟨25, 0⟩ 3).boost_X = 6 :=
    (exampleCoils_stagnant 2).2.1
  have hk := exampleCoils_stagnant_scale 2 (by decide)
  rw [harr] at hk
  rw [hb] at hxp
  exact ⟨sxp, dxp, sxm, dxm, syp, dyp, sym, dym, harr, hk, hxp.2⟩

/-- Counterexample to C20 as stated.  The particle is held at `(22, 0)` with the target
at `(25, 0)`; after the initial `set_Boost` call and 83 further calls (a state the
actuation model reaches) `boost_X` is 249 and the plus X scale written by
`computeNextCommand_NN` is 256, outside 0..255. -/
theorem C20_scale_256_after_84_stagnant_calls :
    (exampleCoils.set_Boost_repeat ⟨22, 0⟩ ⟨25, 0⟩ 84).Reachable ∧
    (exampleCoils.set_Boost_repeat ⟨22, 0⟩ ⟨25, 0⟩ 84).boost_X = 249 ∧
    ((exampleCoils.set_Boost_repeat ⟨22, 0⟩ ⟨25, 0⟩ 84).computeNextCommand_NN
      ⟨22, 0⟩ ⟨25, 0⟩).commandArray.getD 0 0 = 256 ∧
    ¬ ((exampleCoils.set_Boost_repeat ⟨22, 0⟩ ⟨25, 0⟩ 84).computeNextCommand_NN
      ⟨22, 0⟩ ⟨25, 0⟩).commandArray.getD 0 0 ≤ 255 := by
  have h := exampleCoils_stagnant 83
  have hk := exampleCoils_stagnant_scale 83 (by decide)
  refine ⟨h.2.2.2.2, h.2.1, hk, ?_⟩
  rw [hk]
  decide

/-! ## Calibration -/

theorem vectorAt_replicate {α : Type} (m : Nat) (a : α) (j : Nat) (h : j < m) :
    vectorAt (List.replicate m a) (j : Int) = Except.ok a := by
  unfold vectorAt
  simp [h]

theorem sumCoilPoints_replicate (m : Nat) (frame : List CvPoint) (i : Int) (p : CvPoint)
    (hp : vectorAt frame i = Except.ok p) (n : Nat) :
    ∀ (j : Nat) (averageX averageY : Int), j + n ≤ m →
      sumCoilPoints (List.replicate m frame) i n (j : Int) averageX averageY
        = Except.ok (averageX + n * p.x, averageY + n * p.y) := by
  induction n with
  | zero =>
    intro j averageX averageY _
    simp [sumCoilPoints]
  | succ n ih =>
    intro j averageX averageY hj
    have h := ih (j + 1) (averageX + p.x) (averageY + p.y) (by omega)
    simp only [sumCoilPoints, vectorAt_replicate m frame j (by omega), hp]
    push_cast at h ⊢
    rw [h]
    congr 2 <;> ring

theorem set_replicate_append {α : Type} (a b : α) (k n : Nat) :
    (List.replicate k a ++ List.replicate (n + 1) b).set k a
      = List.replicate (k + 1) a ++ List.replicate n b := by
  induction k with
  | zero => simp [List.replicate_succ]
  | succ k ih =>
    simp only [List.replicate_succ, List.cons_append, List.set_cons_succ]
    rw [← List.replicate_succ, ih]
    simp [List.replicate_succ]

theorem sumCoilPoints_same_frames (frame : List CvPoint) (i : Int) (p : CvPoint)
    (hp : vectorAt frame i = Except.ok p) :
    sumCoilPoints (List.replicate 20 frame) i calibrationStepLimit.toNat 0 0 0
      = Except.ok (20 * p.x, 20 * p.y) := by
  have h := sumCoilPoints_replicate 20 frame i p hp 20 0 0 0 (by decide)
  have h20 : calibrationStepLimit.toNat = 20 := rfl
  rw [h20]
  simpa using h

theorem tdiv_calibrationStepLimit (v : Int) : Int.tdiv (20 * v) calibrationStepLimit = v := by
  unfold calibrationStepLimit
  exact Int.mul_tdiv_cancel_left v (by decide)

/-- Averaging twenty frames that all hold the same four points gives these points. -/
theorem coilLocationsLoop_same_frames (p0 p1 p2 p3 : CvPoint) :
    ∃ boundingBoxTopLeft boundingBoxBottomRight : CvPoint,
      coilLocationsLoop (List.replicate 20 [p0, p1, p2, p3]) 4 0 [p0, p1, p2, p3]
          ⟨-1, -1⟩ ⟨-1, -1⟩
        = Except.ok ([p0, p1, p2, p3], boundingBoxTopLeft, boundingBoxBottomRight) := by
  have h0 := sumCoilPoints_same_frames [p0, p1, p2, p3] 0 p0 rfl
  have h1 := sumCoilPoints_same_frames [p0, p1, p2, p3] 1 p1 rfl
  have h2 := sumCoilPoints_same_frames [p0, p1, p2, p3] 2 p2 rfl
  have h3 := sumCoilPoints_same_frames [p0, p1, p2, p3] 3 p3 rfl
  have e1 : (0 : Int) + 1 = 1 := rfl
  have e2 : (1 : Int) + 1 = 2 := rfl
  have e3 : (2 : Int) + 1 = 3 := rfl
  have key : ∀ r, coilLocationsLoop (List.replicate 20 [p0, p1, p2, p3]) 4 0 [p0, p1, p2, p3]
      ⟨-1, -1⟩ ⟨-1, -1⟩ = r →
      ∃ boundingBoxTopLeft boundingBoxBottomRight : CvPoint,
        r = Except.ok ([p0, p1, p2, p3], boundingBoxTopLeft, boundingBoxBottomRight) := by
    intro r hr
    simp only [coilLocationsLoop, h0, h1, h2, h3, e1, e2, e3, tdiv_calibrationStepLimit,
      vectorAssignAt] at hr
    simp at hr
    rw [← hr]
    exact ⟨_, _, rfl⟩
  obtain ⟨tl, br, h⟩ := key _ rfl
  exact ⟨tl, br, h⟩

/-- A frame before the last calibration step: the four points are stored and the step
counter moves on. -/
theorem find_CoilsAruco_collect (p0 p1 p2 p3 : CvPoint) (cols rows : Int) (u : Int × Int)
    (coilLocs : List CvPoint) (k m : Nat) (hk : k + m = 18) :
    ({ Calibration.init with
        calibrationPoints := List.replicate k [p0, p1, p2, p3] ++ List.replicate (m + 1 + 1) []
        coilLocs := coilLocs
        calibrationStep := (k : Int) } : Calibration).find_CoilsAruco p0 p1 p2 p3 cols rows u
      = Except.ok ({ Calibration.init with
          calibrationPoints :=
            List.replicate (k + 1) [p0, p1, p2, p3] ++ List.replicate (m + 1) []
          coilLocs := [p0, p1, p2, p3]
          calibrationStep := ((k + 1 : Nat) : Int) }, []) := by
  have hlen : k < (List.replicate k [p0, p1, p2, p3]
      ++ List.replicate (m + 1 + 1) ([] : List CvPoint)).length := by
    simp
  have hstep : ¬ ((k : Int) ≥ calibrationStepLimit - 1) := by
    unfold calibrationStepLimit
    omega
  simp only [Calibration.find_CoilsAruco, Calibration.init, Bool.false_eq_true, if_false,
    vectorAssignAt, Int.natCast_nonneg, Int.toNat_ofNat, hlen, and_self, if_true,
    set_replicate_append, hstep]
  push_cast
  rfl

theorem find_CoilsAruco_frames_collect (p0 p1 p2 p3 : CvPoint) (cols rows : Int)
    (u : Int × Int) (k : Nat) :
    ∀ m : Nat, k + m = 18 →
      Calibration.init.find_CoilsAruco_frames p0 p1 p2 p3 cols rows u (k + 1)
        = Except.ok ({ Calibration.init with
            calibrationPoints :=
              List.replicate (k + 1) [p0, p1, p2, p3] ++ List.replicate (m + 1) []
            coilLocs := [p0, p1, p2, p3]
            calibrationStep := ((k + 1 : Nat) : Int) }, []) := by
  induction k with
  | zero =>
    intro m hm
    have h := find_CoilsAruco_collect p0 p1 p2 p3 cols rows u Calibration.init.coilLocs 0 m hm
    have h0 : ({ Calibration.init with
        calibrationPoints := List.replicate 0 [p0, p1, p2, p3] ++ List.replicate (m + 1 + 1) []
        coilLocs := Calibration.init.coilLocs
        calibrationStep := ((0 : Nat) : Int) } : Calibration) = Calibration.init := by
      have : m + 1 + 1 = 20 := by omega
      rw [this]
      rfl
    rw [h0] at h
    simp only [Calibration.find_CoilsAruco_frames, h, List.nil_append]
  | succ k ih =>
    intro m hm
    have h1 := ih (m + 1) (by omega)
    have h2 := find_CoilsAruco_collect p0 p1 p2 p3 cols rows u [p0, p1, p2, p3] (k + 1) m hm
    rw [Calibration.find_CoilsAruco_frames, h1]
    simp only [h2, List.nil_append]

theorem vectorAssignAt_last (p0 p1 p2 p3 : CvPoint) :
    vectorAssignAt (List.replicate 19 [p0, p1, p2, p3] ++ List.replicate 1 []) 19
        [p0, p1, p2, p3]
      = Except.ok (List.replicate 20 [p0, p1, p2, p3]) := by
  have hc : 0 ≤ (19 : Int) ∧ (19 : Int).toNat < (List.replicate 19 [p0, p1, p2, p3]
      ++ List.replicate 1 []).length := by
    constructor
    · decide
    · simp
  have h := set_replicate_append [p0, p1, p2, p3] [] 19 0
  simp only [List.replicate_zero, List.append_nil] at h
  have e : (19 : Int).toNat = 19 := rfl
  unfold vectorAssignAt
  rw [if_pos hc, e, h]

/-- What `calculate_DistancePerPixelAndFOV` does in a calibrated state. -/
theorem calculate_DistancePerPixelAndFOV_calibrated (s : Calibration) (imgWidth imgHeight : Int)
    (h : s.calibrated = true) :
    s.calculate_DistancePerPixelAndFOV imgWidth imgHeight
      = ({ s with
            distancePerPixel := distanceBetweenCoilPair /
              Real.sqrt ((((s.coilLoc 2).x - (s.coilLoc 3).x : Int) : ℝ) ^ 2
                + (((s.coilLoc 2).y - (s.coilLoc 3).y : Int) : ℝ) ^ 2)
            FOV := s.FOV ++ [(imgWidth : ℝ) * (distanceBetweenCoilPair /
                Real.sqrt ((((s.coilLoc 2).x - (s.coilLoc 3).x : Int) : ℝ) ^ 2
                  + (((s.coilLoc 2).y - (s.coilLoc 3).y : Int) : ℝ) ^ 2)),
              (imgHeight : ℝ) * (distanceBetweenCoilPair /
                Real.sqrt ((((s.coilLoc 2).x - (s.coilLoc 3).x : Int) : ℝ) ^ 2
                  + (((s.coilLoc 2).y - (s.coilLoc 3).y : Int) : ℝ) ^ 2))] },
          [CalibrationSignal.send_UpdatedFOV
            ((s.FOV ++ [(imgWidth : ℝ) * (distanceBetweenCoilPair /
                Real.sqrt ((((s.coilLoc 2).x - (s.coilLoc 3).x : Int) : ℝ) ^ 2
                  + (((s.coilLoc 2).y - (s.coilLoc 3).y : Int) : ℝ) ^ 2)),
              (imgHeight : ℝ) * (distanceBetweenCoilPair /
                Real.sqrt ((((s.coilLoc 2).x - (s.coilLoc 3).x : Int) : ℝ) ^ 2
                  + (((s.coilLoc 2).y - (s.coilLoc 3).y : Int) : ℝ) ^ 2))]).getD 0 0)
            ((s.FOV ++ [(imgWidth : ℝ) * (distanceBetweenCoilPair /
                Real.sqrt ((((s.coilLoc 2).x - (s.coilLoc 3).x : Int) : ℝ) ^ 2
                  + (((s.coilLoc 2).y - (s.coilLoc 3).y : Int) : ℝ) ^ 2)),
              (imgHeight : ℝ) * (distanceBetweenCoilPair /
                Real.sqrt ((((s.coilLoc 2).x - (s.coilLoc 3).x : Int) : ℝ) ^ 2
                  + (((s.coilLoc 2).y - (s.coilLoc 3).y : Int) : ℝ) ^ 2))]).getD 1 0)]) := by
  unfold Calibration.calculate_DistancePerPixelAndFOV
  rw [if_neg (by simp [h])]

/-- The last calibration step, in an uncalibrated state: if the call returns, the state is
calibrated, its origin is the one that `calibrate_Origin` computes from the averaged coil
points, and no log message is sent. -/
theorem find_CoilsAruco_last (s : Calibration) (p0 p1 p2 p3 : CvPoint) (cols rows : Int)
    (u : Int × Int) (hcal : s.calibrated = false)
    (hge : s.calibrationStep ≥ calibrationStepLimit - 1)
    (s' : Calibration) (signals : List CalibrationSignal)
    (h : s.find_CoilsAruco p0 p1 p2 p3 cols rows u = Except.ok (s', signals)) :
    s'.calibrated = true ∧ s'.origin = (s'.calibrate_Origin u).origin ∧
    s'.calibrationStep = s.calibrationStep ∧ s'.cleanImageIsSet = s.cleanImageIsSet ∧
    (∃ boundingBoxTopLeft boundingBoxBottomRight,
      coilLocationsLoop s'.calibrationPoints 4 0 [p0, p1, p2, p3] ⟨-1, -1⟩ ⟨-1, -1⟩
        = Except.ok (s'.coilLocs, boundingBoxTopLeft, boundingBoxBottomRight)) ∧
    s'.distancePerPixel = distanceBetweenCoilPair /
      Real.sqrt ((((s'.coilLoc 2).x - (s'.coilLoc 3).x : Int) : ℝ) ^ 2
        + (((s'.coilLoc 2).y - (s'.coilLoc 3).y : Int) : ℝ) ^ 2) ∧
    s'.angle_XAxis = Real.arccos (((|(s'.coilLoc 0).x - s'.origin.x| : Int) : ℝ) /
      Real.sqrt ((((s'.coilLoc 0).x - s'.origin.x : Int) : ℝ) ^ 2
        + (((s'.coilLoc 0).y - s'.origin.y : Int) : ℝ) ^ 2)) ∧
    ∃ a b : ℝ, signals = [CalibrationSignal.send_UpdatedFOV a b] := by
  unfold Calibration.find_CoilsAruco at h
  rw [hcal] at h
  simp only [Bool.false_eq_true, if_false] at h
  cases hassign : vectorAssignAt s.calibrationPoints s.calibrationStep [p0, p1, p2, p3] with
  | error e =>
    rw [hassign] at h
    simp at h
  | ok calibrationPoints =>
    rw [hassign] at h
    simp only [hge, if_true, Calibration.calibrate_CoilLocations, not_true_eq_false,
      if_false] at h
    cases hloop : coilLocationsLoop calibrationPoints 4 0 [p0, p1, p2, p3] ⟨-1, -1⟩ ⟨-1, -1⟩ with
    | error e =>
      rw [hloop] at h
      simp at h
    | ok result =>
      rw [hloop] at h
      simp only [] at h
      rw [calculate_DistancePerPixelAndFOV_calibrated _ _ _ rfl] at h
      have hco : ∀ t : Calibration, (t.calibrate_Origin u).coilLocs = t.coilLocs :=
        fun _ => rfl
      simp only [hco] at h
      cases hat : vectorAt result.1 0 with
      | error e =>
        simp only [hat] at h
        simp at h
      | ok coil0 =>
        have hcoil0 : result.1.getD 0 ⟨0, 0⟩ = coil0 := by
          unfold vectorAt at hat
          simp only [le_refl, if_true, Int.toNat_zero] at hat
          cases hget : result.1[0]? with
          | none => simp [hget] at hat
          | some a =>
            simp only [hget, Except.ok.injEq] at hat
            rw [List.getD_eq_getElem?_getD, hget, ← hat]
            rfl
        simp only [hat] at h
        injection h with h
        injection h with hs hsig
        subst hs
        subst hsig
        subst hcoil0
        refine ⟨rfl, rfl, rfl, rfl, ⟨result.2.1, result.2.2, hloop⟩, rfl, rfl, _, _, rfl⟩

/-- The last calibration step returns when no `at` throws. -/
theorem find_CoilsAruco_last_returns (s : Calibration) (p0 p1 p2 p3 : CvPoint)
    (cols rows : Int) (u : Int × Int) (hcal : s.calibrated = false)
    (hge : s.calibrationStep ≥ calibrationStepLimit - 1)
    (calibrationPoints : List (List CvPoint))
    (hassign : vectorAssignAt s.calibrationPoints s.calibrationStep [p0, p1, p2, p3]
      = Except.ok calibrationPoints)
    (result : List CvPoint × CvPoint × CvPoint)
    (hloop : coilLocationsLoop calibrationPoints 4 0 [p0, p1, p2, p3] ⟨-1, -1⟩ ⟨-1, -1⟩
      = Except.ok result)
    (coil0 : CvPoint) (hat : vectorAt result.1 0 = Except.ok coil0) :
    ∃ (s' : Calibration) (signals : List CalibrationSignal),
      s.find_CoilsAruco p0 p1 p2 p3 cols rows u = Except.ok (s', signals) ∧
      s'.calibrationPoints = calibrationPoints ∧ s'.coilLocs = result.1 ∧
      s'.FOV = s.FOV ++ [(cols : ℝ) * s'.distancePerPixel, (rows : ℝ) * s'.distancePerPixel] ∧
      signals = [CalibrationSignal.send_UpdatedFOV (s'.FOV.getD 0 0) (s'.FOV.getD 1 0)] := by
  have hco : ∀ t : Calibration, (t.calibrate_Origin u).coilLocs = t.coilLocs := fun _ => rfl
  unfold Calibration.find_CoilsAruco
  rw [hcal]
  simp only [Bool.false_eq_true, if_false, hassign, hge, if_true,
    Calibration.calibrate_CoilLocations, not_true_eq_false, hloop]
  rw [calculate_DistancePerPixelAndFOV_calibrated _ _ _ rfl]
  simp only [hco, hat]
  exact ⟨_, _, rfl, rfl, rfl, rfl, rfl⟩

theorem find_CoilsAruco_frames_succ (s : Calibration) (p0 p1 p2 p3 : CvPoint)
    (cols rows : Int) (u : Int × Int) (n : Nat) (s1 : Calibration)
    (h1 : s.find_CoilsAruco_frames p0 p1 p2 p3 cols rows u n = Except.ok (s1, [])) :
    s.find_CoilsAruco_frames p0 p1 p2 p3 cols rows u (n + 1)
      = match s1.find_CoilsAruco p0 p1 p2 p3 cols rows u with
        | Except.error e => Except.error e
        | Except.ok (s2, signals2) => Except.ok (s2, signals2) := by
  rw [Calibration.find_CoilsAruco_frames, h1]
  simp only [List.nil_append]

/-- Twenty frames that all show the four coil points at the same pixels, on a freshly
constructed object: the calibration completes, whatever the four points are. -/
theorem find_CoilsAruco_frames_complete (p0 p1 p2 p3 : CvPoint) (cols rows : Int)
    (u : Int × Int) :
    ∃ (s' : Calibration) (signals : List CalibrationSignal),
      Calibration.init.find_CoilsAruco_frames p0 p1 p2 p3 cols rows u 20
        = Except.ok (s', signals) ∧
      s'.calibrated = true ∧ s'.calibrationStep = 19 ∧ s'.coilLocs = [p0, p1, p2, p3] ∧
      s'.calibrationPoints = List.replicate 20 [p0, p1, p2, p3] ∧
      s'.origin = (s'.calibrate_Origin u).origin ∧
      s'.distancePerPixel = distanceBetweenCoilPair /
        Real.sqrt (((p2.x - p3.x : Int) : ℝ) ^ 2 + ((p2.y - p3.y : Int) : ℝ) ^ 2) ∧
      s'.angle_XAxis = Real.arccos (((|p0.x - s'.origin.x| : Int) : ℝ) /
        Real.sqrt (((p0.x - s'.origin.x : Int) : ℝ) ^ 2
          + ((p0.y - s'.origin.y : Int) : ℝ) ^ 2)) ∧
      s'.cleanImageIsSet = false ∧
      signals = [CalibrationSignal.send_UpdatedFOV ((cols : ℝ) * s'.distancePerPixel)
        ((rows : ℝ) * s'.distancePerPixel)] := by
  obtain ⟨tl, br, hloop⟩ := coilLocationsLoop_same_frames p0 p1 p2 p3
  have h19 := find_CoilsAruco_frames_collect p0 p1 p2 p3 cols rows u 18 0 rfl
  have hge : (((18 + 1 : Nat) : Int)) ≥ calibrationStepLimit - 1 := by
    unfold calibrationStepLimit
    norm_num
  obtain ⟨s', signals, hrun, hpts, hcoils, hFOV, hsig⟩ := find_CoilsAruco_last_returns
    ({ Calibration.init with
      calibrationPoints := List.replicate (18 + 1) [p0, p1, p2, p3] ++ List.replicate (0 + 1) []
      coilLocs := [p0, p1, p2, p3]
      calibrationStep := ((18 + 1 : Nat) : Int) } : Calibration)
    p0 p1 p2 p3 cols rows u rfl hge _ (vectorAssignAt_last p0 p1 p2 p3)
    ([p0, p1, p2, p3], tl, br) hloop p0 rfl
  obtain ⟨hcal, horigin, hstep, hclean, -, hdpp, hangle, -⟩ := find_CoilsAruco_last
    ({ Calibration.init with
      calibrationPoints := List.replicate (18 + 1) [p0, p1, p2, p3] ++ List.replicate (0 + 1) []
      coilLocs := [p0, p1, p2, p3]
      calibrationStep := ((18 + 1 : Nat) : Int) } : Calibration)
    p0 p1 p2 p3 cols rows u rfl hge s' signals hrun
  have hrun20 := find_CoilsAruco_frames_succ Calibration.init p0 p1 p2 p3 cols rows u 19 _ h19
  rw [hrun] at hrun20
  have hc : ∀ k, s'.coilLoc k = [p0, p1, p2, p3].getD k ⟨0, 0⟩ := by
    intro k
    unfold Calibration.coilLoc
    rw [hcoils]
  have c0 : s'.coilLoc 0 = p0 := hc 0
  have c2 : s'.coilLoc 2 = p2 := hc 2
  have c3 : s'.coilLoc 3 = p3 := hc 3
  rw [c2, c3] at hdpp
  rw [c0] at hangle
  refine ⟨s', signals, hrun20, hcal, hstep, hcoils, hpts, horigin, hdpp, hangle, hclean, ?_⟩
  rw [hsig, hFOV]
  rfl

/-! ## C17 and C18: parallel axes, and the reset of the calibration -/

theorem calibrate_Origin_parallel (s : Calibration) (u : Int × Int)
    (hdet : originDeterminant (s.coilLoc 0) (s.coilLoc 1) (s.coilLoc 2) (s.coilLoc 3) = 0) :
    (s.calibrate_Origin u).origin = ⟨u.1, u.2⟩ := by
  simp only [originDeterminant] at hdet
  simp only [Calibration.calibrate_Origin]
  rw [if_pos hdet, if_pos hdet]

/-- C17 at its failing input.  Twenty frames, 640 by 480, show the plus X marker at pixel
`(400, 100)`, the minus X marker at `(200, 100)`, the plus Y marker at `(400, 300)` and
the minus Y marker at `(200, 300)`: the line of the X coils and the line of the Y coils
are both horizontal, the determinant is zero.  On a freshly constructed object the twenty
calls of `find_CoilsAruco` all return, the object is then calibrated, no log message is
sent, and the stored origin is whatever the conversion to `int` of the quotients by zero
gives. -/
theorem C17_parallel_axes_are_not_rejected :
    originDeterminant ⟨400, 100⟩ ⟨200, 100⟩ ⟨400, 300⟩ ⟨200, 300⟩ = 0 ∧
    ∀ u : Int × Int, ∃ (s' : Calibration) (signals : List CalibrationSignal),
      Calibration.init.find_CoilsAruco_frames ⟨400, 100⟩ ⟨200, 100⟩ ⟨400, 300⟩ ⟨200, 300⟩
        640 480 u 20 = Except.ok (s', signals) ∧
      s'.calibrated = true ∧ s'.origin = ⟨u.1, u.2⟩ ∧
      ∀ msg : CalibrationLogMsg, CalibrationSignal.send_OperationLogMsg msg ∉ signals := by
  have hdet : originDeterminant ⟨400, 100⟩ ⟨200, 100⟩ ⟨400, 300⟩ ⟨200, 300⟩ = 0 := by
    simp [originDeterminant]
  refine ⟨hdet, fun u => ?_⟩
  obtain ⟨s', signals, hrun, hcal, -, hcoils, -, horigin, -, -, -, hsig⟩ :=
    find_CoilsAruco_frames_complete ⟨400, 100⟩ ⟨200, 100⟩ ⟨400, 300⟩ ⟨200, 300⟩ 640 480 u
  refine ⟨s', signals, hrun, hcal, ?_, ?_⟩
  · rw [horigin]
    apply calibrate_Origin_parallel
    unfold Calibration.coilLoc
    rw [hcoils]
    exact hdet
  · intro msg hmem
    rw [hsig] at hmem
    simp at hmem

/-- C18 as the code has it.  For every state, after `reset_Calibration`: `calibrated` is
false, the step counter is 0, the field of view is empty, the scale `distancePerPixel` is
0, the flags and the counter of the background image are cleared, `isCalibrated` is
false and the reset message is sent; the sample buffer `calibrationPoints`, the coil
points, the origin, the axis angle and the region of interest keep their values. -/
theorem C18_reset_Calibration_clears_and_keeps (s : Calibration) :
    (s.reset_Calibration).1.calibrated = false ∧
    (s.reset_Calibration).1.calibrationStep = 0 ∧
    (s.reset_Calibration).1.FOV = [] ∧
    (s.reset_Calibration).1.distancePerPixel = 0 ∧
    (s.reset_Calibration).1.cleanImageIsSet = false ∧
    (s.reset_Calibration).1.startedParticleDetectionCalibration = false ∧
    (s.reset_Calibration).1.synthesizeImageCounter = 0 ∧
    (s.reset_Calibration).1.isCalibrated = false ∧
    (s.reset_Calibration).1.calibrationPoints = s.calibrationPoints ∧
    (s.reset_Calibration).1.coilLocs = s.coilLocs ∧
    (s.reset_Calibration).1.origin = s.origin ∧
    (s.reset_Calibration).1.angle_XAxis = s.angle_XAxis ∧
    (s.reset_Calibration).1.boundingROI = s.boundingROI ∧
    (s.reset_Calibration).2
      = [CalibrationSignal.send_OperationLogMsg
          CalibrationLogMsg.calibrationResetSuccessful] := by
  refine ⟨rfl, rfl, rfl, ?_, rfl, rfl, rfl, rfl, rfl, rfl, rfl, rfl, rfl, rfl⟩
  simp only [Calibration.reset_Calibration]
  norm_num

/-- Counterexample to C18 as stated.  Twenty frames, 640 by 480, show the plus X marker
at pixel `(420, 140)`, the minus X marker at `(220, 340)`, the plus Y marker at
`(220, 140)` and the minus Y marker at `(420, 340)`.  The calibration completes with the
origin `(320, 240)`; after `reset_Calibration` the origin is still `(320, 240)`, not the
initial `(0, 0)`, the axis angle is not the initial 0, the sample buffer still holds the
twenty frames, and the scale is 0, not the initial 1.  (The determinant is not zero
here, so the last argument of `find_CoilsAruco_frames` plays no part.) -/
theorem C18_reset_keeps_origin_angle_and_samples :
    ∃ (s' : Calibration) (signals : List CalibrationSignal),
      Calibration.init.find_CoilsAruco_frames ⟨420, 140⟩ ⟨220, 340⟩ ⟨220, 140⟩ ⟨420, 340⟩
        640 480 (0, 0) 20 = Except.ok (s', signals) ∧
      (s'.reset_Calibration).1.origin = ⟨320, 240⟩ ∧
      (s'.reset_Calibration).1.origin ≠ Calibration.init.origin ∧
      (s'.reset_Calibration).1.angle_XAxis ≠ Calibration.init.angle_XAxis ∧
      (s'.reset_Calibration).1.calibrationPoints
        = List.replicate 20 [⟨420, 140⟩, ⟨220, 340⟩, ⟨220, 140⟩, ⟨420, 340⟩] ∧
      (s'.reset_Calibration).1.calibrationPoints ≠ Calibration.init.calibrationPoints ∧
      (s'.reset_Calibration).1.distancePerPixel = 0 ∧
      Calibration.init.distancePerPixel = 1 := by
  obtain ⟨s', signals, hrun, -, -, hcoils, hpts, horigin, -, hangle, -, -⟩ :=
    find_CoilsAruco_frames_complete ⟨420, 140⟩ ⟨220, 340⟩ ⟨220, 140⟩ ⟨420, 340⟩ 640 480 (0, 0)
  have ho : s'.origin = ⟨320, 240⟩ := by
    rw [horigin]
    simp only [Calibration.calibrate_Origin, Calibration.coilLoc, hcoils, List.getD_cons_zero,
      List.getD_cons_succ]
    norm_num
  have hreset : ∀ t : Calibration, (t.reset_Calibration).1.origin = t.origin ∧
      (t.reset_Calibration).1.angle_XAxis = t.angle_XAxis ∧
      (t.reset_Calibration).1.calibrationPoints = t.calibrationPoints :=
    fun _ => ⟨rfl, rfl, rfl⟩
  refine ⟨s', signals, hrun, ?_, ?_, ?_, ?_, ?_, ?_, ?_⟩
  · rw [(hreset s').1, ho]
  · rw [(hreset s').1, ho]
    simp [Calibration.init]
  · rw [(hreset s').2.1, hangle, ho]
    have h0 : Calibration.init.angle_XAxis = 0 := rfl
    rw [h0]
    intro h
    rw [Real.arccos_eq_zero] at h
    have hlt : (100 : ℝ) < Real.sqrt 20000 := by
      rw [Real.lt_sqrt (by norm_num)]
      norm_num
    have hpos : (0 : ℝ) < Real.sqrt 20000 := by linarith
    norm_num at h
    rw [le_div_iff₀ hpos] at h
    linarith
  · rw [(hreset s').2.2, hpts]
  · rw [(hreset s').2.2, hpts]
    simp [Calibration.init, calibrationStepLimit, List.replicate_succ]
  · simp only [Calibration.reset_Calibration]
    norm_num
  · simp only [Calibration.init]
    norm_num

/-! ## C27: the remaining distance -/

/-- One call of `allow_NextTranslation`, with the target-index invariant: the total
distance is kept, the remaining distance does not grow and stays non-negative. -/
theorem remaining_step (s : ControlModule) (hs : s.TargetInRange) (particleLoc : Point)
    (proceed : Bool) (s' : ControlModule) (signals : List Signal)
    (h : s.allow_NextTranslation particleLoc = Except.ok (proceed, s', signals)) :
    s'.totalPathDistance = s.totalPathDistance ∧
    (0 ≤ s.remainingPathDistance →
      s'.remainingPathDistance ≤ s.remainingPathDistance ∧ 0 ≤ s'.remainingPathDistance) := by
  obtain ⟨h1, h2, h3, h4⟩ := hs
  by_cases hdev : Point.computeEuclideanDist particleLoc s.targetPathPtData.physical
      ≤ s.deviationTolerance
  · by_cases hfinal : s.totalNumPathPts - s.targetPathPtIndex - 1 ≤ 0
    · rw [allow_NextTranslation_complete s particleLoc hfinal hdev] at h
      injection h with h
      injection h with _ h
      injection h with h _
      subst h
      exact ⟨rfl, fun h => ⟨le_refl _, h⟩⟩
    · have hlt : (s.targetPathPtIndex + 1).toNat < s.deliveryPath.length := by omega
      have h0 : 0 ≤ s.targetPathPtIndex + 1 := by omega
      have htarget : vectorAt s.deliveryPath (s.targetPathPtIndex + 1)
          = Except.ok (s.deliveryPath[(s.targetPathPtIndex + 1).toNat]) := by
        simp [vectorAt, h0, List.getElem?_eq_getElem hlt]
      rw [allow_NextTranslation_advance s particleLoc _ _ hfinal hdev htarget h4] at h
      injection h with h
      injection h with _ h
      injection h with h _
      subst h
      have hd := computeEuclideanDist_nonneg
        (s.deliveryPath[(s.targetPathPtIndex + 1).toNat]).physical s.targetPathPtData.physical
      refine ⟨rfl, fun hr => ⟨?_, ?_⟩⟩
      · show (if s.remainingPathDistance - _ < 0 then (0 : ℝ) else _) ≤ _
        split_ifs with hneg
        · linarith
        · linarith
      · show 0 ≤ (if s.remainingPathDistance - _ < 0 then (0 : ℝ) else _)
        split_ifs with hneg
        · exact le_refl _
        · exact not_lt.mp hneg
  · rw [allow_NextTranslation_retry s particleLoc (not_le.mp hdev)] at h
    split at h
    · injection h with h
      injection h with _ h
      injection h with h _
      subst h
      exact ⟨rfl, fun h => ⟨le_refl _, h⟩⟩
    · injection h with h
      injection h with _ h
      injection h with h _
      subst h
      exact ⟨rfl, fun h => ⟨le_refl _, h⟩⟩

theorem remaining_of_reachable (s1 s : ControlModule) (h1 : s1.TargetInRange)
    (hr : ControlModule.ReachableFrom s1 s) :
    s.totalPathDistance = s1.totalPathDistance ∧
    (0 ≤ s1.remainingPathDistance →
      s.remainingPathDistance ≤ s1.remainingPathDistance ∧ 0 ≤ s.remainingPathDistance) := by
  induction hr with
  | start => exact ⟨rfl, fun h => ⟨le_refl _, h⟩⟩
  | step loc proceed signals hprev hstep ih =>
    obtain ⟨hin, -, -⟩ := targetInRange_of_reachable s1 _ h1 hprev
    obtain ⟨a, b⟩ := remaining_step _ hin loc proceed _ signals hstep
    obtain ⟨a', b'⟩ := ih
    exact ⟨a.trans a', fun h => ⟨le_trans (b (b' h).2).1 (b' h).1, (b (b' h).2).2⟩⟩

theorem get_OperationProgress_bounds (s : ControlModule) (ht : 0 < s.totalPathDistance)
    (h0 : 0 ≤ s.remainingPathDistance) (h1 : s.remainingPathDistance ≤ s.totalPathDistance) :
    0 ≤ s.get_OperationProgress ∧ s.get_OperationProgress ≤ 100 := by
  unfold ControlModule.get_OperationProgress
  have hq0 : 0 ≤ s.remainingPathDistance / s.totalPathDistance := div_nonneg h0 (le_of_lt ht)
  have hq1 : s.remainingPathDistance / s.totalPathDistance ≤ 1 := (div_le_one ht).mpr h1
  constructor
  · norm_num
    linarith
  · norm_num
    linarith

theorem get_OperationProgress_mono (s s' : ControlModule) (ht : 0 < s.totalPathDistance)
    (htot : s'.totalPathDistance = s.totalPathDistance)
    (hle : s'.remainingPathDistance ≤ s.remainingPathDistance) :
    s.get_OperationProgress ≤ s'.get_OperationProgress := by
  unfold ControlModule.get_OperationProgress
  rw [htot]
  have hq : s'.remainingPathDistance / s.totalPathDistance
      ≤ s.remainingPathDistance / s.totalPathDistance :=
    div_le_div_of_nonneg_right hle (le_of_lt ht)
  norm_num
  linarith

/-- C27 (remaining-distance invariant).  Set up a path on a freshly reset controller with
`totalPathDistance >= 0`.  In every state reached from there by calls of
`allow_NextTranslation`, the total distance is the one given to the set-up and
`0 <= remainingPathDistance <= totalPathDistance`; every further call returns a result
and does not increase the remaining distance; and when the total distance is positive,
`get_OperationProgress` is within `[0, 100]` and is not decreased by a call. -/
theorem C27_remaining_distance_invariant (fuel : Nat) (s0 s1 : ControlModule)
    (pathCheckPoints : List PathPointMarker) (td tol D : ℝ) (signals : List Signal)
    (htd : 0 ≤ td)
    (hsetup : s0.reset_Data.setup_PathTraversal fuel pathCheckPoints td tol D
      = Except.ok (true, s1, signals))
    (s : ControlModule) (hreach : ControlModule.ReachableFrom s1 s) :
    s.totalPathDistance = td ∧
    0 ≤ s.remainingPathDistance ∧ s.remainingPathDistance ≤ s.totalPathDistance ∧
    (0 < td → 0 ≤ s.get_OperationProgress ∧ s.get_OperationProgress ≤ 100) ∧
    ∀ particleLoc : Point, ∃ (proceed : Bool) (s' : ControlModule) (signals' : List Signal),
      s.allow_NextTranslation particleLoc = Except.ok (proceed, s', signals') ∧
      s'.remainingPathDistance ≤ s.remainingPathDistance ∧
      (0 < td → s.get_OperationProgress ≤ s'.get_OperationProgress) := by
  obtain ⟨-, -, -, -, -, first, rest, out, -, hs1, -, -, hh, -⟩ :=
    setup_PathTraversal_ok_inv fuel _ s1 pathCheckPoints td tol D signals hsetup
  have h1 : s1.TargetInRange := by
    rw [hs1]
    exact targetInRange_afterSetup _ first out td tol D hh
  have hrem1 : s1.remainingPathDistance = td := by
    rw [hs1]
    simp only [ControlModule.afterSetup, ControlModule.reset_Data]
    rw [if_pos (by norm_num)]
  have htot1 : s1.totalPathDistance = td := by
    rw [hs1]
    rfl
  obtain ⟨hin, -, -⟩ := targetInRange_of_reachable s1 s h1 hreach
  obtain ⟨a, b⟩ := remaining_of_reachable s1 s h1 hreach
  have htot : s.totalPathDistance = td := a.trans htot1
  have hnn : 0 ≤ s.remainingPathDistance := (b (by rw [hrem1]; exact htd)).2
  have hle : s.remainingPathDistance ≤ s.totalPathDistance := by
    rw [htot, ← hrem1]
    exact (b (by rw [hrem1]; exact htd)).1
  refine ⟨htot, hnn, hle, fun hpos => ?_, fun loc => ?_⟩
  · exact get_OperationProgress_bounds s (by rw [htot]; exact hpos) hnn hle
  · obtain ⟨p, s', sig, he, -⟩ := targetInRange_step s hin loc
    obtain ⟨a', b'⟩ := remaining_step s hin loc p s' sig he
    exact ⟨p, s', sig, he, (b' hnn).1, fun hpos =>
      get_OperationProgress_mono s s' (by rw [htot]; exact hpos) a' (b' hnn).1⟩

/-- Witness of C27: the two checkpoints `(0, 0)` and `(1, 0)` set up on a fresh
controller with total distance 1, right after the set-up. -/
theorem C27_remaining_distance_witness :
    exampleSetupTwo.totalPathDistance = 1 ∧
    0 ≤ exampleSetupTwo.remainingPathDistance ∧
    exampleSetupTwo.remainingPathDistance ≤ exampleSetupTwo.totalPathDistance := by
  have h := C27_remaining_distance_invariant 5 ControlModule.init exampleSetupTwo
    [markerAt 0 0, markerAt 1 0] 1 0.5 2 [] (by norm_num)
    (by
      have h1 : ControlModule.init.reset_Data = ControlModule.init := rfl
      rw [h1]
      exact exampleSetupTwo_is_setup)
    exampleSetupTwo ControlModule.ReachableFrom.start
  exact ⟨h.1, h.2.1, h.2.2.1⟩

/-! ## C30: the checkpoint events of a complete traversal -/

/-- One call of `allow_NextTranslation`, with the target-index invariant: either no
checkpoint event and the same counter, or the one event carrying the counter and the
counter one higher. -/
theorem checkpoint_events_step (s : ControlModule) (hs : s.TargetInRange)
    (particleLoc : Point) (proceed : Bool) (s' : ControlModule) (signals : List Signal)
    (h : s.allow_NextTranslation particleLoc = Except.ok (proceed, s', signals)) :
    (checkpointEvents signals = [] ∧ s'.currentPathCheckpoint = s.currentPathCheckpoint) ∨
    (checkpointEvents signals = [s.currentPathCheckpoint] ∧
      s'.currentPathCheckpoint = s.currentPathCheckpoint + 1) := by
  obtain ⟨h1, h2, h3, h4⟩ := hs
  by_cases hdev : Point.computeEuclideanDist particleLoc s.targetPathPtData.physical
      ≤ s.deviationTolerance
  · by_cases hfinal : s.totalNumPathPts - s.targetPathPtIndex - 1 ≤ 0
    · rw [allow_NextTranslation_complete s particleLoc hfinal hdev] at h
      injection h with h
      injection h with _ h
      injection h with h hsig
      subst h
      subst hsig
      exact Or.inl ⟨rfl, rfl⟩
    · have hlt : (s.targetPathPtIndex + 1).toNat < s.deliveryPath.length := by omega
      have h0 : 0 ≤ s.targetPathPtIndex + 1 := by omega
      have htarget : vectorAt s.deliveryPath (s.targetPathPtIndex + 1)
          = Except.ok (s.deliveryPath[(s.targetPathPtIndex + 1).toNat]) := by
        simp [vectorAt, h0, List.getElem?_eq_getElem hlt]
      rw [allow_NextTranslation_advance s particleLoc _ _ hfinal hdev htarget h4] at h
      injection h with h
      injection h with _ h
      injection h with h hsig
      subst h
      subst hsig
      cases hc : s.targetPathPtData.isCheckpoint
      · left
        simp [hc, checkpointEvents]
      · right
        simp [hc, checkpointEvents]
  · rw [allow_NextTranslation_retry s particleLoc (not_le.mp hdev)] at h
    split at h
    · injection h with h
      injection h with _ h
      injection h with h hsig
      subst h
      subst hsig
      exact Or.inl ⟨rfl, rfl⟩
    · injection h with h
      injection h with _ h
      injection h with h hsig
      subst h
      subst hsig
      exact Or.inl ⟨rfl, rfl⟩

/-- A call that emits exactly the stop prompt and the completion message is a call at the
final target. -/
theorem completion_signals_step (s : ControlModule) (hs : s.TargetInRange)
    (particleLoc : Point) (proceed : Bool) (s' : ControlModule)
    (h : s.allow_NextTranslation particleLoc = Except.ok (proceed, s',
      [Signal.send_StopOpPrompt, Signal.send_OperationLogMsg LogMsg.operationComplete])) :
    s'.totalNumPathPts - s'.targetPathPtIndex - 1 ≤ 0 := by
  obtain ⟨h1, h2, h3, h4⟩ := hs
  by_cases hdev : Point.computeEuclideanDist particleLoc s.targetPathPtData.physical
      ≤ s.deviationTolerance
  · by_cases hfinal : s.totalNumPathPts - s.targetPathPtIndex - 1 ≤ 0
    · rw [allow_NextTranslation_complete s particleLoc hfinal hdev] at h
      injection h with h
      injection h with _ h
      injection h with h _
      subst h
      exact hfinal
    · have hlt : (s.targetPathPtIndex + 1).toNat < s.deliveryPath.length := by omega
      have h0 : 0 ≤ s.targetPathPtIndex + 1 := by omega
      have htarget : vectorAt s.deliveryPath (s.targetPathPtIndex + 1)
          = Except.ok (s.deliveryPath[(s.targetPathPtIndex + 1).toNat]) := by
        simp [vectorAt, h0, List.getElem?_eq_getElem hlt]
      rw [allow_NextTranslation_advance s particleLoc _ _ hfinal hdev htarget h4] at h
      injection h with h
      injection h with _ h
      injection h with _ hsig
      exfalso
      cases hc : s.targetPathPtData.isCheckpoint <;> simp [hc] at hsig
  · rw [allow_NextTranslation_retry s particleLoc (not_le.mp hdev)] at h
    exfalso
    split at h
    · injection h with h
      injection h with _ h
      injection h with _ hsig
      simp at hsig
    · injection h with h
      injection h with _ h
      injection h with _ hsig
      simp at hsig

theorem reachableFrom_after_step (s sm s' : ControlModule) (particleLoc : Point)
    (proceed : Bool) (signals : List Signal)
    (he : s.allow_NextTranslation particleLoc = Except.ok (proceed, sm, signals))
    (hreach : ControlModule.ReachableFrom sm s') : ControlModule.ReachableFrom s s' := by
  induction hreach with
  | start =>
    exact ControlModule.ReachableFrom.step particleLoc proceed signals
      ControlModule.ReachableFrom.start he
  | step l q sg _ hst ih => exact ControlModule.ReachableFrom.step l q sg ih hst

/-- Over a run of `allow_NextTranslation` calls the checkpoint events are the consecutive
values of the checkpoint counter, from its value at the start of the run to just below
its value at the end. -/
theorem ticks_checkpoint_events (locs : List Point) :
    ∀ (s s' : ControlModule) (results : List (Bool × List Signal)), s.TargetInRange →
      s.ticks locs = Except.ok (s', results) →
      ControlModule.ReachableFrom s s' ∧
      ∃ k : Nat, s'.currentPathCheckpoint = s.currentPathCheckpoint + k ∧
        runCheckpointEvents results
          = (List.range k).map (fun j : Nat => s.currentPathCheckpoint + (j : Int)) := by
  induction locs with
  | nil =>
    intro s s' results _ h
    simp only [ControlModule.ticks] at h
    injection h with h
    injection h with h1 h2
    subst h1
    subst h2
    exact ⟨ControlModule.ReachableFrom.start, 0, by simp, rfl⟩
  | cons loc locs ih =>
    intro s s' results hs h
    obtain ⟨p, sm, sig, he, hin, -, -⟩ := targetInRange_step s hs loc
    simp only [ControlModule.ticks, he] at h
    cases hrest : sm.ticks locs with
    | error e =>
      rw [hrest] at h
      simp at h
    | ok res =>
      obtain ⟨s'', results'⟩ := res
      rw [hrest] at h
      simp only [] at h
      injection h with h
      injection h with h1 h2
      subst h1
      subst h2
      obtain ⟨hreach, k, hk, hev⟩ := ih sm s'' results' hin hrest
      have hreach' : ControlModule.ReachableFrom s s'' :=
        reachableFrom_after_step s sm s'' loc p sig he hreach
      refine ⟨hreach', ?_⟩
      rcases checkpoint_events_step s hs loc p sm sig he with ⟨e0, c0⟩ | ⟨e1, c1⟩
      · refine ⟨k, by rw [hk, c0], ?_⟩
        simp only [runCheckpointEvents, e0, List.nil_append, hev, c0]
      · refine ⟨k + 1, by rw [hk, c1]; push_cast; ring, ?_⟩
        simp only [runCheckpointEvents, e1, hev, c1, List.range_succ_eq_map, List.map_cons,
          List.map_map, List.singleton_append]
        congr 1
        · simp
        · apply List.map_congr_left
          intro j _
          simp only [Function.comp, Nat.succ_eq_add_one]
          push_cast
          ring

/-- A run whose last call emits the completion signals ends at the final target. -/
theorem ticks_completion_final (locs : List Point) :
    ∀ (s s' : ControlModule) (results : List (Bool × List Signal)), s.TargetInRange →
      s.ticks locs = Except.ok (s', results) →
      results.getLast? = some (false,
        [Signal.send_StopOpPrompt, Signal.send_OperationLogMsg LogMsg.operationComplete]) →
      s'.totalNumPathPts - s'.targetPathPtIndex - 1 ≤ 0 := by
  induction locs with
  | nil =>
    intro s s' results _ h hlast
    simp only [ControlModule.ticks] at h
    injection h with h
    injection h with _ h2
    subst h2
    simp at hlast
  | cons loc locs ih =>
    intro s s' results hs h hlast
    obtain ⟨p, sm, sig, he, hin, -, -⟩ := targetInRange_step s hs loc
    simp only [ControlModule.ticks, he] at h
    cases hrest : sm.ticks locs with
    | error e =>
      rw [hrest] at h
      simp at h
    | ok res =>
      obtain ⟨s'', results'⟩ := res
      rw [hrest] at h
      simp only [] at h
      injection h with h
      injection h with h1 h2
      subst h1
      subst h2
      cases results' with
      | nil =>
        cases locs with
        | nil =>
          simp only [ControlModule.ticks] at hrest
          injection hrest with hrest
          injection hrest with h1 _
          subst h1
          simp only [List.getLast?_singleton, Option.some.injEq, Prod.mk.injEq] at hlast
          obtain ⟨hp, hsig⟩ := hlast
          subst hsig
          exact completion_signals_step s hs loc p sm he
        | cons l ls =>
          exfalso
          obtain ⟨q, sm2, sg, he2, -⟩ := targetInRange_step sm hin l
          simp only [ControlModule.ticks, he2] at hrest
          cases hr2 : sm2.ticks ls with
          | error e =>
            rw [hr2] at hrest
            simp at hrest
          | ok res2 =>
            rw [hr2] at hrest
            simp at hrest
      | cons r rs =>
        rw [List.getLast?_cons_cons] at hlast
        exact ih sm s'' (r :: rs) hin hrest hlast

/-- In a discretized path that ends with the last of its checkpoints, all checkpoints but
one lie before the last point. -/
theorem countP_before_last (base out : List PathPtStruct) (h : OnlyInserts base out)
    (hb : ∀ p ∈ base, p.isCheckpoint = true) (hne : base ≠ [])
    (hlast : out.getLast? = base.getLast?) :
    (out.take (out.length - 1)).countP (fun p => p.isCheckpoint) = base.length - 1 := by
  have hfilter := filter_isCheckpoint_of_onlyInserts h hb
  have hcount : out.countP (fun p => p.isCheckpoint) = base.length := by
    rw [List.countP_eq_length_filter, hfilter]
  have hone : out ≠ [] := by
    intro h0
    rw [h0] at hlast
    cases base with
    | nil => exact hne rfl
    | cons b bs => simp [List.getLast?_eq_getLast] at hlast
  have hsplit := List.dropLast_append_getLast hone
  have hmem : out.getLast hone ∈ base := by
    have h1 : out.getLast? = some (out.getLast hone) := List.getLast?_eq_getLast _ hone
    rw [hlast] at h1
    exact List.mem_of_getLast?_eq_some h1
  have hcp := hb _ hmem
  rw [← List.dropLast_eq_take]
  rw [← hsplit, List.countP_append] at hcount
  simp only [List.countP_cons, List.countP_nil, hcp, if_true] at hcount
  omega

/-- C30 (the final checkpoint is never signalled).  Set up `n` checkpoints on a freshly
reset controller and run any sequence of `allow_NextTranslation` calls whose last call
gives the completion result (`false` with the stop prompt and the completion message).
Then `n >= 1`, the checkpoint-passed events emitted over the whole run are exactly
`0, 1, ..., n - 2` in this order, each once, and the checkpoint counter ends at
`n - 1`: no event is emitted for the last checkpoint. -/
theorem C30_final_checkpoint_never_signalled (fuel : Nat) (s0 s1 : ControlModule)
    (pathCheckPoints : List PathPointMarker) (td tol D : ℝ) (signals : List Signal)
    (hsetup : s0.reset_Data.setup_PathTraversal fuel pathCheckPoints td tol D
      = Except.ok (true, s1, signals))
    (locs : List Point) (s2 : ControlModule) (results : List (Bool × List Signal))
    (hrun : s1.ticks locs = Except.ok (s2, results))
    (hlast : results.getLast? = some (false,
      [Signal.send_StopOpPrompt, Signal.send_OperationLogMsg LogMsg.operationComplete])) :
    1 ≤ pathCheckPoints.length ∧
    runCheckpointEvents results
      = (List.range (pathCheckPoints.length - 1)).map (fun j : Nat => (j : Int)) ∧
    s2.currentPathCheckpoint = (pathCheckPoints.length : Int) - 1 ∧
    (pathCheckPoints.length : Int) - 1 ∉ runCheckpointEvents results := by
  obtain ⟨-, -, -, hlt, -, first, rest, out, hp, hs1, ho, -, hh, hl⟩ :=
    setup_PathTraversal_ok_inv fuel _ s1 pathCheckPoints td tol D signals hsetup
  have hpend : s0.reset_Data.pendingCheckpoints pathCheckPoints
      = pathCheckPoints.map (fun m => m.data) := by
    simp [ControlModule.pendingCheckpoints, ControlModule.reset_Data]
  have hn : 1 ≤ pathCheckPoints.length := by
    have : (s0.reset_Data.pendingCheckpoints pathCheckPoints).length
        = pathCheckPoints.length := by rw [hpend, List.length_map]
    rw [hp] at this
    simp only [List.length_cons] at this
    omega
  have hbase : (first :: rest).length = pathCheckPoints.length := by
    rw [← hp, hpend, List.length_map]
  have hcheck : ∀ p ∈ first :: rest, p.isCheckpoint = true := by
    rw [← hp]
    exact pendingCheckpoints_isCheckpoint _ _
  have h1 : s1.TargetInRange := by
    rw [hs1]
    exact targetInRange_afterSetup _ first out td tol D hh
  have hcp1 : s1.currentPathCheckpoint = 0 := by
    rw [hs1]
    rfl
  have hidx1 : s1.targetPathPtIndex = 0 := by
    rw [hs1]
    rfl
  have hpath1 : s1.deliveryPath = out := by
    rw [hs1]
    rfl
  obtain ⟨hreach, k, hk, hev⟩ := ticks_checkpoint_events locs s1 s2 results h1 hrun
  have hfinal := ticks_completion_final locs s1 s2 results h1 hrun hlast
  obtain ⟨hin, hpath, -⟩ := targetInRange_of_reachable s1 s2 h1 hreach
  have hcount := checkpoint_count_of_reachable s1 s2 h1 hreach
  obtain ⟨a, b, c, -⟩ := hin
  have hidx : s2.targetPathPtIndex.toNat = out.length - 1 := by
    rw [hpath, hpath1] at a c
    omega
  have hbefore1 : s1.checkpointsBeforeTarget = 0 := by
    simp [ControlModule.checkpointsBeforeTarget, hidx1]
  have hbefore2 : s2.checkpointsBeforeTarget = pathCheckPoints.length - 1 := by
    unfold ControlModule.checkpointsBeforeTarget
    rw [hpath, hpath1, hidx, countP_before_last (first :: rest) out ho hcheck
      (List.cons_ne_nil _ _) hl, hbase]
  rw [hbefore1, hbefore2, hcp1] at hcount
  have hkn : k = pathCheckPoints.length - 1 := by
    rw [hcp1] at hk
    omega
  have hevents : runCheckpointEvents results
      = (List.range (pathCheckPoints.length - 1)).map (fun j : Nat => (j : Int)) := by
    rw [hev, hkn, hcp1]
    apply List.map_congr_left
    intro j _
    simp
  refine ⟨hn, hevents, by omega, ?_⟩
  rw [hevents]
  intro hmem
  simp only [List.mem_map, List.mem_range] at hmem
  obtain ⟨j, hj, hje⟩ := hmem
  omega

theorem getLast?_of_components (results : List (Bool × List Signal)) (l : List Bool)
    (signals : List Signal) (h1 : results.map (fun r => r.1) = l ++ [false])
    (h2 : results.getLast?.map (fun r => r.2) = some signals) :
    results.getLast? = some (false, signals) := by
  have h3 : (results.map (fun r => r.1)).getLast? = some false := by
    rw [h1]
    simp
  rw [List.getLast?_map] at h3
  cases hr : results.getLast? with
  | none => simp [hr] at h2
  | some r =>
    rw [hr] at h2 h3
    simp only [Option.map_some', Option.some.injEq] at h2 h3
    obtain ⟨r1, r2⟩ := r
    simp only at h2 h3
    rw [h2, h3]

/-- The run of the two-checkpoint example with the particle on the target at both ticks
ends with the completion result. -/
theorem exampleSetupTwo_run :
    ∃ (s2 : ControlModule) (results : List (Bool × List Signal)),
      exampleSetupTwo.ticks [⟨0, 0⟩, ⟨1, 0⟩] = Except.ok (s2, results) ∧
      results.getLast? = some (false,
        [Signal.send_StopOpPrompt, Signal.send_OperationLogMsg LogMsg.operationComplete]) := by
  obtain ⟨s2, results, hrun, hbools, hlast, -⟩ :=
    ticks_tracking_to_completion [pathPtAt 1 0 true] [] (pathPtAt 0 0 true) exampleSetupTwo
      [⟨0, 0⟩, ⟨1, 0⟩] rfl rfl rfl rfl
      (by
        simp only [exampleSetupTwo, ControlModule.afterSetup, ControlModule.init, pathLength,
          dist_pathPtAt_on_axis]
        norm_num)
      rfl exampleSetupTwo_tracking
  exact ⟨s2, results, hrun, getLast?_of_components results _ _ hbools hlast⟩

/-- Witness of C30: the two checkpoints `(0, 0)` and `(1, 0)` set up on a fresh
controller, the particle on the target at both ticks: the one event carries index 0. -/
theorem C30_final_checkpoint_witness :
    ∃ (s2 : ControlModule) (results : List (Bool × List Signal)),
      exampleSetupTwo.ticks [⟨0, 0⟩, ⟨1, 0⟩] = Except.ok (s2, results) ∧
      runCheckpointEvents results = [0] ∧ s2.currentPathCheckpoint = 1 := by
  obtain ⟨s2, results, hrun, hlast⟩ := exampleSetupTwo_run
  have h := C30_final_checkpoint_never_signalled 5 ControlModule.init exampleSetupTwo
    [markerAt 0 0, markerAt 1 0] _ 0.5 2 [] exampleSetupTwo_is_setup_after_reset
    [⟨0, 0⟩, ⟨1, 0⟩] s2 results hrun hlast
  refine ⟨s2, results, hrun, ?_, ?_⟩
  · rw [h.2.1]
    rfl
  · rw [h.2.2.1]
    rfl

/-! ## C22: the loop and recursive bisection -/

theorem specMidpoint_eq_intermediatePt (a b : PathPtStruct) :
    specMidpoint a b = intermediatePt b a := by
  simp only [specMidpoint, intermediatePt, add_comm]

/-- The relation `SpecBisect` is a function: it relates `a` and `b` to one list only. -/
theorem specBisect_unique (D : ℝ) (a b : PathPtStruct) (l : List PathPtStruct)
    (h : SpecBisect D a b l) : ∀ l', SpecBisect D a b l' → l' = l := by
  induction h with
  | within a b hle =>
    intro l' h'
    cases h' with
    | within _ _ _ => rfl
    | split _ _ l1 l2 hgt _ _ => exact absurd hle hgt
  | split a b l1 l2 hgt _ _ ih1 ih2 =>
    intro l' h'
    cases h' with
    | within _ _ hle => exact absurd hle hgt
    | split _ _ m1 m2 _ h1 h2 => rw [ih1 m1 h1, ih2 m2 h2]

/-- The relation `SpecBisectPath` is a function. -/
theorem specBisectPath_unique (D : ℝ) (path out : List PathPtStruct)
    (h : SpecBisectPath D path out) : ∀ out', SpecBisectPath D path out' → out' = out := by
  induction h with
  | last p =>
    intro out' h'
    cases h' with
    | last _ => rfl
  | cons a b rest l out hl _ ih =>
    intro out' h'
    cases h' with
    | cons _ _ _ l' o' hl' ho' => rw [specBisect_unique D a b l hl l' hl', ih o' ho']

/-- With enough levels, the bisection of the code is the `bisect(a, b)` of the
specification without its first point. -/
theorem specBisect_bisectBetween (D : ℝ) (k : Nat) :
    ∀ a b : PathPtStruct, Point.computeEuclideanDist b.physical a.physical ≤ 2 ^ k * D →
      SpecBisect D a b (a :: bisectBetween D k b a) := by
  induction k with
  | zero =>
    intro a b hd
    have hle : Point.computeEuclideanDist a.physical b.physical ≤ D := by
      rw [computeEuclideanDist_comm]
      simpa using hd
    exact SpecBisect.within a b hle
  | succ k ih =>
    intro a b hd
    by_cases hle : Point.computeEuclideanDist b.physical a.physical ≤ D
    · have hb : bisectBetween D (k + 1) b a = [] := by
        simp [bisectBetween, not_lt.mpr hle]
      rw [hb]
      exact SpecBisect.within a b (by rw [computeEuclideanDist_comm]; exact hle)
    · have hgt : Point.computeEuclideanDist b.physical a.physical > D := not_le.mp hle
      have hb : bisectBetween D (k + 1) b a
          = bisectBetween D k (intermediatePt b a) a
            ++ intermediatePt b a :: bisectBetween D k b (intermediatePt b a) := by
        simp [bisectBetween, hgt]
      have hhalf : Point.computeEuclideanDist b.physical a.physical / 2 ≤ 2 ^ k * D := by
        rw [pow_succ] at hd
        linarith
      have hm1 : Point.computeEuclideanDist (intermediatePt b a).physical a.physical
          ≤ 2 ^ k * D := by
        rw [dist_intermediatePt_previous]; exact hhalf
      have hm2 : Point.computeEuclideanDist b.physical (intermediatePt b a).physical
          ≤ 2 ^ k * D := by
        rw [dist_current_intermediatePt]; exact hhalf
      have h1 := ih a (intermediatePt b a) hm1
      have h2 := ih (intermediatePt b a) b hm2
      rw [← specMidpoint_eq_intermediatePt] at h1 h2
      have h := SpecBisect.split a b _ _
        (by rw [computeEuclideanDist_comm]; exact hle) h1 h2
      rw [hb, ← specMidpoint_eq_intermediatePt]
      simpa using h

theorem specBisectPath_bisectFrom (D : ℝ) (k : Nat) :
    ∀ (tail : List PathPtStruct) (prev : PathPtStruct), gapsWithin (2 ^ k * D) prev tail →
      SpecBisectPath D (prev :: tail) (prev :: bisectFrom D k prev tail) := by
  intro tail
  induction tail with
  | nil =>
    intro prev _
    exact SpecBisectPath.last prev
  | cons cur rest ih =>
    intro prev hg
    have h := SpecBisectPath.cons prev cur rest _ _
      (specBisect_bisectBetween D k prev cur hg.1) (ih cur hg.2)
    simpa [bisectFrom] using h

/-- C22 (the loop is recursive bisection).  For every non-empty delivery path and every
interpolation distance `D > 0` there is exactly one list `out` that the specification's
`bisect(p0, p1) ++ ... ++ bisect(p(n-1), pn) ++ [pn]` describes, and `discretize_Path`
returns it: from some fuel on it returns the state with the delivery path `out` and the
point count `out.length`, and no fuel gives another result. -/
theorem C22_discretize_Path_is_recursive_bisection (s : ControlModule)
    (hD : 0 < s.interpolationDistance) (hne : s.deliveryPath ≠ []) :
    ∃ out : List PathPtStruct,
      SpecBisectPath s.interpolationDistance s.deliveryPath out ∧
      (∀ out', SpecBisectPath s.interpolationDistance s.deliveryPath out' → out' = out) ∧
      (∃ n : Nat, ∀ fuel, n ≤ fuel → s.discretize_Path fuel
        = Except.ok { s with deliveryPath := out, totalNumPathPts := (out.length : Int) }) ∧
      (∀ fuel r, s.discretize_Path fuel = Except.ok r →
        r = { s with deliveryPath := out, totalNumPathPts := (out.length : Int) }) := by
  cases hpath : s.deliveryPath with
  | nil => exact absurd hpath hne
  | cons prev tail =>
    obtain ⟨k, hg⟩ := exists_gapsWithin s.interpolationDistance hD tail prev
    have hspec := specBisectPath_bisectFrom s.interpolationDistance k tail prev hg
    obtain ⟨n, hrun⟩ := discretize_DoWhile_bisect s.interpolationDistance k prev tail hg
    refine ⟨prev :: bisectFrom s.interpolationDistance k prev tail, hspec,
      specBisectPath_unique _ _ _ hspec, ⟨n, fun fuel hle => ?_⟩, fun fuel r hr => ?_⟩
    · have h := hrun (fuel - n)
      rw [Nat.sub_add_cancel hle] at h
      simp only [ControlModule.discretize_Path, hpath, h]
    · unfold ControlModule.discretize_Path at hr
      rw [hpath] at hr
      cases hdw : discretize_DoWhile s.interpolationDistance fuel (prev :: tail)
          ((prev :: tail).length : Int) with
      | error e =>
        rw [hdw] at hr
        simp at hr
      | ok res =>
        obtain ⟨o, t⟩ := res
        have h1 := discretize_DoWhile_fuel_le _ fuel (fuel + n) (Nat.le_add_right _ _) _ _ _ hdw
        rw [hrun fuel] at h1
        injection h1 with h1
        injection h1 with h2 h3
        rw [hdw] at hr
        simp only [] at hr
        injection hr with hr
        rw [← hr, ← h2, ← h3]

theorem specBisectPath_straightLine :
    SpecBisectPath 2 [pathPtAt 0 0 true, pathPtAt 10 0 true] straightLinePath := by
  have h := specBisectPath_bisectFrom 2 3 [pathPtAt 10 0 true] (pathPtAt 0 0 true)
    gapsWithin_straightLine
  rw [bisectFrom_straightLine] at h
  exact h

/-- Witness of C22: the straight line from `(0, 0)` to `(10, 0)` with `D = 2`; the list
of the specification and of the code is the nine points 1.25 apart. -/
theorem C22_recursive_bisection_witness :
    SpecBisectPath 2 [pathPtAt 0 0 true, pathPtAt 10 0 true] straightLinePath ∧
    ∃ n : Nat, ∀ fuel, n ≤ fuel → straightLineControl.discretize_Path fuel
      = Except.ok { straightLineControl with
          deliveryPath := straightLinePath, totalNumPathPts := 9 } := by
  obtain ⟨out, -, huniq, ⟨n, hrun⟩, -⟩ :=
    C22_discretize_Path_is_recursive_bisection straightLineControl
      (by simp [straightLineControl, exampleControl])
      (by simp [straightLineControl])
  have hout : straightLinePath = out := huniq _ specBisectPath_straightLine
  refine ⟨specBisectPath_straightLine, n, fun fuel hle => ?_⟩
  rw [hrun fuel hle, ← hout]
  rfl

/-! ## C28: the bound of the network outputs -/

theorem outputBound_XPlus : (W_HO_XPlus.map (fun w => |w|)).sum + |B_HO_XPlus| < 200 := by
  simp only [W_HO_XPlus, B_HO_XPlus, List.map_cons, List.map_nil, List.sum_cons, List.sum_nil]
  norm_num [abs_of_pos, abs_of_neg]

theorem outputBound_XMinus : (W_HO_XMinus.map (fun w => |w|)).sum + |B_HO_XMinus| < 200 := by
  simp only [W_HO_XMinus, B_HO_XMinus, List.map_cons, List.map_nil, List.sum_cons,
    List.sum_nil]
  norm_num [abs_of_pos, abs_of_neg]

theorem outputBound_YPlus : (W_HO_YPlus.map (fun w => |w|)).sum + |B_HO_YPlus| < 200 := by
  simp only [W_HO_YPlus, B_HO_YPlus, List.map_cons, List.map_nil, List.sum_cons, List.sum_nil]
  norm_num [abs_of_pos, abs_of_neg]

theorem outputBound_YMinus : (W_HO_YMinus.map (fun w => |w|)).sum + |B_HO_YMinus| < 200 := by
  simp only [W_HO_YMinus, B_HO_YMinus, List.map_cons, List.map_nil, List.sum_cons,
    List.sum_nil]
  norm_num [abs_of_pos, abs_of_neg]

theorem static_cast_unsigned_char_of_range (v : Int) (h0 : 0 ≤ v) (h1 : v ≤ 255) :
    ((static_cast_unsigned_char v : Nat) : Int) = v := by
  unfold static_cast_unsigned_char
  omega

/-- C28 (bound of the network outputs).  For every input the raw output of each of the
four coil networks is at most `|B_HO|` plus the sum of the `|W_HO|` entries in absolute
value, and this bound is below 200 for every coil.  So in a state with both boosts zero,
for every current and target location, every fired coil of the command written by
`computeNextCommand_NN` has a scale between 7 and 199, which the conversion to
`unsigned char` leaves as it is. -/
theorem C28_network_output_bounded (s : Physics) (hbx : s.boost_X = 0) (hby : s.boost_Y = 0)
    (currentLoc nextLoc : Point) :
    (∀ input : List ℝ,
      |networkOutput W_I_XPlus B_IH_XPlus W_HO_XPlus B_HO_XPlus input|
        ≤ (W_HO_XPlus.map (fun w => |w|)).sum + |B_HO_XPlus| ∧
      |networkOutput W_I_XMinus B_IH_XMinus W_HO_XMinus B_HO_XMinus input|
        ≤ (W_HO_XMinus.map (fun w => |w|)).sum + |B_HO_XMinus| ∧
      |networkOutput W_I_YPlus B_IH_YPlus W_HO_YPlus B_HO_YPlus input|
        ≤ (W_HO_YPlus.map (fun w => |w|)).sum + |B_HO_YPlus| ∧
      |networkOutput W_I_YMinus B_IH_YMinus W_HO_YMinus B_HO_YMinus input|
        ≤ (W_HO_YMinus.map (fun w => |w|)).sum + |B_HO_YMinus|) ∧
    (W_HO_XPlus.map (fun w => |w|)).sum + |B_HO_XPlus| < 200 ∧
    (W_HO_XMinus.map (fun w => |w|)).sum + |B_HO_XMinus| < 200 ∧
    (W_HO_YPlus.map (fun w => |w|)).sum + |B_HO_YPlus| < 200 ∧
    (W_HO_YMinus.map (fun w => |w|)).sum + |B_HO_YMinus| < 200 ∧
    ∀ c ∈ coilCommands (s.computeNextCommand_NN currentLoc nextLoc).commandArray,
      c.2 ≠ 0 → 7 ≤ c.1 ∧ c.1 ≤ 199 ∧ ((static_cast_unsigned_char c.1 : Nat) : Int) = c.1 := by
  refine ⟨fun input => ⟨networkOutput_abs_le _ _ _ _ _, networkOutput_abs_le _ _ _ _ _,
    networkOutput_abs_le _ _ _ _ _, networkOutput_abs_le _ _ _ _ _⟩,
    outputBound_XPlus, outputBound_XMinus, outputBound_YPlus, outputBound_YMinus, ?_⟩
  obtain ⟨m1, m2⟩ := commandX_fired_min s currentLoc nextLoc (by rw [hbx])
  obtain ⟨n1, n2⟩ := commandY_fired_min s currentLoc nextLoc (by rw [hby])
  obtain ⟨x1, x2⟩ := commandX_scale_bounds s currentLoc nextLoc (by rw [hbx])
  obtain ⟨y1, y2⟩ := commandY_scale_bounds s currentLoc nextLoc (by rw [hby])
  rw [hbx] at x1 x2
  rw [hby] at y1 y2
  have key : ∀ v : Int, 7 ≤ v → v ≤ 199 + 0 →
      7 ≤ v ∧ v ≤ 199 ∧ ((static_cast_unsigned_char v : Nat) : Int) = v :=
    fun v h7 h199 => ⟨h7, by omega,
      static_cast_unsigned_char_of_range v (by omega) (by omega)⟩
  intro c hc
  simp only [Physics.computeNextCommand_NN, coilCommands, List.getD_cons_zero,
    List.getD_cons_succ, List.mem_cons, List.mem_singleton, List.not_mem_nil, or_false] at hc
  rcases hc with h | h | h | h <;> subst h <;> intro hd
  · exact key _ (m1 hd) x1.2
  · exact key _ (m2 hd) x2.2
  · exact key _ (n1 hd) y1.2
  · exact key _ (n2 hd) y2.2

/-- Witness of C28: the constructed object with its coils set, no boost, asked for a move
from `(22, 0)` to `(25, 0)`. -/
theorem C28_network_output_witness :
    exampleCoils.boost_X = 0 ∧ exampleCoils.boost_Y = 0 ∧
    ∀ c ∈ coilCommands (exampleCoils.computeNextCommand_NN ⟨22, 0⟩ ⟨25, 0⟩).commandArray,
      c.2 ≠ 0 → 7 ≤ c.1 ∧ c.1 ≤ 199 ∧ ((static_cast_unsigned_char c.1 : Nat) : Int) = c.1 :=
  ⟨rfl, rfl, (C28_network_output_bounded exampleCoils rfl rfl ⟨22, 0⟩ ⟨25, 0⟩).2.2.2.2.2⟩

/-! ## C29: the conversion of the scales at dispatch -/

theorem static_cast_unsigned_char_eq_emod (v : Int) :
    ((static_cast_unsigned_char v : Nat) : Int) = v % 256 := by
  unfold static_cast_unsigned_char
  omega

theorem static_cast_unsigned_char_eq_iff (v : Int) :
    ((static_cast_unsigned_char v : Nat) : Int) = v ↔ 0 ≤ v ∧ v ≤ 255 := by
  unfold static_cast_unsigned_char
  omega

theorem static_cast_unsigned_char_multiple (k : Int) :
    static_cast_unsigned_char (256 * k) = 0 := by
  unfold static_cast_unsigned_char
  omega

/-- With a zero plus scale `moveRoboX` sends no command on channel 1, and with a zero
minus scale it sends no command with a non-zero speed on channel 2. -/
theorem moveRoboX_zero_scale (hw : Hardware) (isDone : Bool) :
    (∀ (dpx : Int) (mx : Nat) (dmx : Int), ∃ events : List RoboEvent,
      (Physics.moveRoboX hw 0 dpx mx dmx isDone).1.robo_x.sent
        = hw.robo_x.sent ++ events ∧
      ∀ e ∈ events, ∀ address speed : Nat, e ≠ RoboEvent.ForwardM1 address speed) ∧
    (∀ (px : Nat) (dpx dmx : Int), ∃ events : List RoboEvent,
      (Physics.moveRoboX hw px dpx 0 dmx isDone).1.robo_x.sent
        = hw.robo_x.sent ++ events ∧
      ∀ e ∈ events, ∀ address speed : Nat, e = RoboEvent.ForwardM2 address speed →
        speed = 0) := by
  constructor
  · intro dpx mx dmx
    by_cases hm : mx = 0
    · subst hm
      refine ⟨[RoboEvent.ForwardM2 ROBO_X_ADDRESS 0], ?_, ?_⟩
      · simp [Physics.moveRoboX, Roboclaw.ForwardM2]
      · intro e he
        simp only [List.mem_singleton] at he
        subst he
        intro a v h
        cases h
    · refine ⟨[RoboEvent.ForwardM2 ROBO_X_ADDRESS mx, RoboEvent.sleep_for dmx,
        RoboEvent.ForwardM2 ROBO_X_ADDRESS 0], ?_, ?_⟩
      · simp [Physics.moveRoboX, hm, Roboclaw.ForwardM2, Roboclaw.sleep_for]
      · intro e he a v h
        subst h
        simp at he
  · intro px dpx dmx
    by_cases hp : px = 0
    · subst hp
      refine ⟨[RoboEvent.ForwardM2 ROBO_X_ADDRESS 0], ?_, ?_⟩
      · simp [Physics.moveRoboX, Roboclaw.ForwardM2]
      · intro e he a v h
        subst h
        simp only [List.mem_singleton, RoboEvent.ForwardM2.injEq] at he
        exact he.2
    · refine ⟨[RoboEvent.ForwardM1 ROBO_X_ADDRESS px, RoboEvent.sleep_for dpx,
        RoboEvent.ForwardM1 ROBO_X_ADDRESS 0], ?_, ?_⟩
      · simp [Physics.moveRoboX, hp, Roboclaw.ForwardM1, Roboclaw.sleep_for]
      · intro e he a v h
        subst h
        simp at he

/-- The same for `moveRoboY`. -/
theorem moveRoboY_zero_scale (hw : Hardware) (isDone : Bool) :
    (∀ (dpy : Int) (my : Nat) (dmy : Int), ∃ events : List RoboEvent,
      (Physics.moveRoboY hw 0 dpy my dmy isDone).1.robo_y.sent
        = hw.robo_y.sent ++ events ∧
      ∀ e ∈ events, ∀ address speed : Nat, e ≠ RoboEvent.ForwardM1 address speed) ∧
    (∀ (py : Nat) (dpy dmy : Int), ∃ events : List RoboEvent,
      (Physics.moveRoboY hw py dpy 0 dmy isDone).1.robo_y.sent
        = hw.robo_y.sent ++ events ∧
      ∀ e ∈ events, ∀ address speed : Nat, e = RoboEvent.ForwardM2 address speed →
        speed = 0) := by
  constructor
  · intro dpy my dmy
    by_cases hm : my = 0
    · subst hm
      refine ⟨[RoboEvent.ForwardM2 ROBO_Y_ADDRESS 0], ?_, ?_⟩
      · simp [Physics.moveRoboY, Roboclaw.ForwardM2]
      · intro e he
        simp only [List.mem_singleton] at he
        subst he
        intro a v h
        cases h
    · refine ⟨[RoboEvent.ForwardM2 ROBO_Y_ADDRESS my, RoboEvent.sleep_for dmy,
        RoboEvent.ForwardM2 ROBO_Y_ADDRESS 0], ?_, ?_⟩
      · simp [Physics.moveRoboY, hm, Roboclaw.ForwardM2, Roboclaw.sleep_for]
      · intro e he a v h
        subst h
        simp at he
  · intro py dpy dmy
    by_cases hp : py = 0
    · subst hp
      refine ⟨[RoboEvent.ForwardM2 ROBO_Y_ADDRESS 0], ?_, ?_⟩
      · simp [Physics.moveRoboY, Roboclaw.ForwardM2]
      · intro e he a v h
        subst h
        simp only [List.mem_singleton, RoboEvent.ForwardM2.injEq] at he
        exact he.2
    · refine ⟨[RoboEvent.ForwardM1 ROBO_Y_ADDRESS py, RoboEvent.sleep_for dpy,
        RoboEvent.ForwardM1 ROBO_Y_ADDRESS 0], ?_, ?_⟩
      · simp [Physics.moveRoboY, hp, Roboclaw.ForwardM1, Roboclaw.sleep_for]
      · intro e he a v h
        subst h
        simp at he

/-- The whole command written for the particle held at `(22, 0)` with the target at
`(25, 0)`, after the initial call and `n ≥ 1` further calls of `set_Boost`. -/
theorem exampleCoils_stagnant_command (n : Nat) (hn : 1 ≤ n) :
    ((exampleCoils.set_Boost_repeat ⟨22, 0⟩ ⟨25, 0⟩ (n + 1)).computeNextCommand_NN
      ⟨22, 0⟩ ⟨25, 0⟩).commandArray = [7 + 3 * (n : Int), 100, 0, 0, 0, 0, 0, 0] := by
  have hk := exampleCoils_stagnant_scale n hn
  obtain ⟨-, -, -, hdir, -⟩ := exampleCoils_stagnant n
  have hx := commandX_plus_boosted (exampleCoils.set_Boost_repeat ⟨22, 0⟩ ⟨25, 0⟩ (n + 1))
    ⟨22, 0⟩ ⟨25, 0⟩ (by norm_num) (hdir hn)
  have hy := (commandY_sign (exampleCoils.set_Boost_repeat ⟨22, 0⟩ ⟨25, 0⟩ (n + 1))
    ⟨22, 0⟩ ⟨25, 0⟩).2.2 (by norm_num)
  rw [computeNextCommand_NN_plusX] at hk
  simp only [Physics.computeNextCommand_NN, hy]
  rw [hk]
  rw [hx]

/-- C29 (truncation at dispatch).  `translateParticle()` hands each stored scale `s` to
the dispatch as `s mod 256`; the dispatched scale is the stored one exactly when
`0 <= s <= 255`; a multiple of 256 is dispatched as 0, and with a zero scale the task of
the axis sends no command to the plus channel, respectively none with a non-zero speed
to the minus channel, so the coil is not activated.  Examples on two connected
controllers, with the particle held at `(22, 0)` and the target at `(25, 0)`: after 84
calls of `set_Boost` the computed plus X scale is 256 with duration 100, and all that the
X controller is sent is a zero speed on channel 2; after 85 calls the computed scale is
259, which is at least 7, and the plus X coil is driven with scale 3. -/
theorem C29_dispatch_truncates_scales :
    (∀ (s : Physics) (hw : Hardware),
      s.translateParticle_commandArray hw
        = Physics.translateParticle hw
            (s.commandArray.getD 0 0 % 256).toNat (s.commandArray.getD 1 0)
            (s.commandArray.getD 2 0 % 256).toNat (s.commandArray.getD 3 0)
            (s.commandArray.getD 4 0 % 256).toNat (s.commandArray.getD 5 0)
            (s.commandArray.getD 6 0 % 256).toNat (s.commandArray.getD 7 0)) ∧
    (∀ v : Int, ((static_cast_unsigned_char v : Nat) : Int) = v % 256) ∧
    (∀ v : Int, ((static_cast_unsigned_char v : Nat) : Int) = v ↔ 0 ≤ v ∧ v ≤ 255) ∧
    (∀ k : Int, static_cast_unsigned_char (256 * k) = 0) ∧
    (∀ (hw : Hardware) (isDone : Bool) (dpx : Int) (mx : Nat) (dmx : Int),
      ∃ events : List RoboEvent,
        (Physics.moveRoboX hw 0 dpx mx dmx isDone).1.robo_x.sent
          = hw.robo_x.sent ++ events ∧
        ∀ e ∈ events, ∀ address speed : Nat, e ≠ RoboEvent.ForwardM1 address speed) ∧
    (∀ (hw : Hardware) (isDone : Bool) (px : Nat) (dpx dmx : Int),
      ∃ events : List RoboEvent,
        (Physics.moveRoboX hw px dpx 0 dmx isDone).1.robo_x.sent
          = hw.robo_x.sent ++ events ∧
        ∀ e ∈ events, ∀ address speed : Nat, e = RoboEvent.ForwardM2 address speed →
          speed = 0) ∧
    (∀ (hw : Hardware) (isDone : Bool) (dpy : Int) (my : Nat) (dmy : Int),
      ∃ events : List RoboEvent,
        (Physics.moveRoboY hw 0 dpy my dmy isDone).1.robo_y.sent
          = hw.robo_y.sent ++ events ∧
        ∀ e ∈ events, ∀ address speed : Nat, e ≠ RoboEvent.ForwardM1 address speed) ∧
    (∀ (hw : Hardware) (isDone : Bool) (py : Nat) (dpy dmy : Int),
      ∃ events : List RoboEvent,
        (Physics.moveRoboY hw py dpy 0 dmy isDone).1.robo_y.sent
          = hw.robo_y.sent ++ events ∧
        ∀ e ∈ events, ∀ address speed : Nat, e = RoboEvent.ForwardM2 address speed →
          speed = 0) ∧
    ((exampleCoils.set_Boost_repeat ⟨22, 0⟩ ⟨25, 0⟩ 84).computeNextCommand_NN
      ⟨22, 0⟩ ⟨25, 0⟩).commandArray = [256, 100, 0, 0, 0, 0, 0, 0] ∧
    ((((exampleCoils.set_Boost_repeat ⟨22, 0⟩ ⟨25, 0⟩ 84).computeNextCommand_NN
      ⟨22, 0⟩ ⟨25, 0⟩).translateParticle_commandArray bothConnected).2.robo_x.sent
        = [RoboEvent.ForwardM2 128 0]) ∧
    ((exampleCoils.set_Boost_repeat ⟨22, 0⟩ ⟨25, 0⟩ 85).computeNextCommand_NN
      ⟨22, 0⟩ ⟨25, 0⟩).commandArray = [259, 100, 0, 0, 0, 0, 0, 0] ∧
    ((((exampleCoils.set_Boost_repeat ⟨22, 0⟩ ⟨25, 0⟩ 85).computeNextCommand_NN
      ⟨22, 0⟩ ⟨25, 0⟩).translateParticle_commandArray bothConnected).2.robo_x.sent
        = [RoboEvent.ForwardM1 128 3, RoboEvent.sleep_for 100, RoboEvent.ForwardM1 128 0]) := by
  have h256 := exampleCoils_stagnant_command 83 (by decide)
  have h259 := exampleCoils_stagnant_command 84 (by decide)
  have e256 : (7 : Int) + 3 * ((83 : Nat) : Int) = 256 := by decide
  have e259 : (7 : Int) + 3 * ((84 : Nat) : Int) = 259 := by decide
  rw [e256] at h256
  rw [e259] at h259
  have c256 : static_cast_unsigned_char 256 = 0 := by decide
  have c259 : static_cast_unsigned_char 259 = 3 := by decide
  have c0 : static_cast_unsigned_char 0 = 0 := by decide
  refine ⟨fun s hw => rfl, static_cast_unsigned_char_eq_emod, static_cast_unsigned_char_eq_iff,
    static_cast_unsigned_char_multiple,
    fun hw isDone => (moveRoboX_zero_scale hw isDone).1,
    fun hw isDone => (moveRoboX_zero_scale hw isDone).2,
    fun hw isDone => (moveRoboY_zero_scale hw isDone).1,
    fun hw isDone => (moveRoboY_zero_scale hw isDone).2, h256, ?_, h259, ?_⟩
  · simp only [Physics.translateParticle_commandArray, h256, List.getD_cons_zero,
      List.getD_cons_succ, c256, c0]
    simp [Physics.translateParticle, Physics.motorsAvailable, Physics.moveRoboX,
      Physics.moveRoboY, bothConnected, roboclawAnswering, Roboclaw.ForwardM2,
      ROBO_X_ADDRESS]
  · simp only [Physics.translateParticle_commandArray, h259, List.getD_cons_zero,
      List.getD_cons_succ, c259, c0]
    simp [Physics.translateParticle, Physics.motorsAvailable, Physics.moveRoboX,
      Physics.moveRoboY, bothConnected, roboclawAnswering, Roboclaw.ForwardM1,
      Roboclaw.ForwardM2, Roboclaw.sleep_for, ROBO_X_ADDRESS]

/-! ## C23 and C24: the rules of `set_Boost` -/

/-- What a non-initial `set_Boost` call on which the both-axes override does not apply
does to the two boosts: the boost of the X axis looks at the displacement in the y
coordinate, the boost of the Y axis at the displacement in the x coordinate. -/
theorem set_Boost_per_axis (s : Physics) (currentLoc targetLoc : Point)
    (h0 : ¬ (s.previousLoc.x = -1 ∧ s.previousLoc.y = -1))
    (hov : ¬ (|s.previousLoc.y - currentLoc.y| ≤ 0.1 ∧ targetLoc.x - currentLoc.x ≥ 0.5
      ∧ |s.previousLoc.x - currentLoc.x| ≤ 0.1 ∧ targetLoc.y - currentLoc.y ≥ 0.5)) :
    (s.set_Boost currentLoc targetLoc).boost_X
      = (if |targetLoc.x - currentLoc.x| ≥ 1.5 ∧ |s.previousLoc.y - currentLoc.y| ≤ 0.2
          then s.boost_X + 3 else 0) ∧
    (s.set_Boost currentLoc targetLoc).boost_Y
      = (if |targetLoc.y - currentLoc.y| ≥ 1.5 ∧ |s.previousLoc.x - currentLoc.x| ≤ 0.2
          then s.boost_Y + 3 else 0) := by
  unfold Physics.set_Boost
  simp only [h0, if_false, hov, apply_ite Physics.boost_X, apply_ite Physics.boost_Y,
    (chooseXDirection_boost _ _).1, (chooseXDirection_boost _ _).2,
    (chooseYDirection_boost _ _).1, (chooseYDirection_boost _ _).2]
  constructor
  · split_ifs <;> rfl
  · split_ifs <;> simp [(chooseXDirection_boost _ _).2, (chooseYDirection_boost _ _).2]

/-- C23 at its failing inputs.  On a non-initial `set_Boost` call on which the both-axes
override does not apply, `boost_X` is increased by 3 exactly when the required X travel
is at least 1.5 in magnitude and the particle's displacement in the y coordinate (not in
x) is at most 0.2, and is set to 0 otherwise; `boost_Y` looks at the displacement in the
x coordinate.  So, after the initial call at `(0, 0)`: a particle found at `(1, 0)` with
the target at `(4, 0)` has moved 1 along X, yet `boost_X` becomes 3; and a particle found
at `(0, 1)` with the target at `(3, 1)` has not moved along X and still needs 3 in X, yet
`boost_X` stays 0. -/
theorem C23_boost_X_reads_the_Y_displacement :
    (∀ (s : Physics) (currentLoc targetLoc : Point),
      ¬ (s.previousLoc.x = -1 ∧ s.previousLoc.y = -1) →
      ¬ (|s.previousLoc.y - currentLoc.y| ≤ 0.1 ∧ targetLoc.x - currentLoc.x ≥ 0.5
        ∧ |s.previousLoc.x - currentLoc.x| ≤ 0.1 ∧ targetLoc.y - currentLoc.y ≥ 0.5) →
      (s.set_Boost currentLoc targetLoc).boost_X
        = (if |targetLoc.x - currentLoc.x| ≥ 1.5 ∧ |s.previousLoc.y - currentLoc.y| ≤ 0.2
            then s.boost_X + 3 else 0) ∧
      (s.set_Boost currentLoc targetLoc).boost_Y
        = (if |targetLoc.y - currentLoc.y| ≥ 1.5 ∧ |s.previousLoc.x - currentLoc.x| ≤ 0.2
            then s.boost_Y + 3 else 0)) ∧
    (exampleCoils.set_Boost ⟨0, 0⟩ ⟨4, 0⟩).previousLoc = ⟨0, 0⟩ ∧
    (exampleCoils.set_Boost ⟨0, 0⟩ ⟨4, 0⟩).boost_X = 0 ∧
    ((exampleCoils.set_Boost ⟨0, 0⟩ ⟨4, 0⟩).set_Boost ⟨1, 0⟩ ⟨4, 0⟩).boost_X = 3 ∧
    (exampleCoils.set_Boost ⟨0, 0⟩ ⟨3, 1⟩).previousLoc = ⟨0, 0⟩ ∧
    ((exampleCoils.set_Boost ⟨0, 0⟩ ⟨3, 1⟩).set_Boost ⟨0, 1⟩ ⟨3, 1⟩).boost_X = 0 := by
  have e1 := set_Boost_initial exampleCoils ⟨0, 0⟩ ⟨4, 0⟩ exampleCoils_start
  have p1 : (exampleCoils.set_Boost ⟨0, 0⟩ ⟨4, 0⟩).previousLoc = ⟨0, 0⟩ := by rw [e1]
  have b1 : (exampleCoils.set_Boost ⟨0, 0⟩ ⟨4, 0⟩).boost_X = 0 := by rw [e1]
  have e2 := set_Boost_initial exampleCoils ⟨0, 0⟩ ⟨3, 1⟩ exampleCoils_start
  have p2 : (exampleCoils.set_Boost ⟨0, 0⟩ ⟨3, 1⟩).previousLoc = ⟨0, 0⟩ := by rw [e2]
  have b2 : (exampleCoils.set_Boost ⟨0, 0⟩ ⟨3, 1⟩).boost_X = 0 := by rw [e2]
  refine ⟨fun s c t h0 hov => set_Boost_per_axis s c t h0 hov, p1, b1, ?_, p2, ?_⟩
  · have h := (set_Boost_per_axis (exampleCoils.set_Boost ⟨0, 0⟩ ⟨4, 0⟩) ⟨1, 0⟩ ⟨4, 0⟩
      (by rw [p1]; norm_num) (by rw [p1]; norm_num)).1
    rw [h, p1, b1]
    norm_num
  · have h := (set_Boost_per_axis (exampleCoils.set_Boost ⟨0, 0⟩ ⟨3, 1⟩) ⟨0, 1⟩ ⟨3, 1⟩
      (by rw [p2]; norm_num) (by rw [p2]; norm_num)).1
    rw [h, p2, b2]
    norm_num

/-- The line of `lineCoefficients` passes through both coil points. -/
theorem lineCoefficients_through (p q : CvPoint) :
    (lineCoefficients p q).1 * (p.x : ℝ) + (lineCoefficients p q).2.1 * (p.y : ℝ)
      = (lineCoefficients p q).2.2 ∧
    (lineCoefficients p q).1 * (q.x : ℝ) + (lineCoefficients p q).2.1 * (q.y : ℝ)
      = (lineCoefficients p q).2.2 := by
  simp only [lineCoefficients]
  constructor
  · trivial
  · push_cast
    ring

theorem originDeterminant_eq (coil0 coil1 coil2 coil3 : CvPoint) :
    originDeterminant coil0 coil1 coil2 coil3
      = (lineCoefficients coil0 coil1).1 * (lineCoefficients coil2 coil3).2.1
        - (lineCoefficients coil2 coil3).1 * (lineCoefficients coil0 coil1).2.1 := rfl

/-- With a non-zero determinant the two quotients of `calibrate_Origin` are the
coordinates of the point where the two lines meet. -/
theorem lineIntersection_on_lines (coil0 coil1 coil2 coil3 : CvPoint)
    (hdet : originDeterminant coil0 coil1 coil2 coil3 ≠ 0) :
    (lineCoefficients coil0 coil1).1 * (lineIntersection coil0 coil1 coil2 coil3).1
      + (lineCoefficients coil0 coil1).2.1 * (lineIntersection coil0 coil1 coil2 coil3).2
      = (lineCoefficients coil0 coil1).2.2 ∧
    (lineCoefficients coil2 coil3).1 * (lineIntersection coil0 coil1 coil2 coil3).1
      + (lineCoefficients coil2 coil3).2.1 * (lineIntersection coil0 coil1 coil2 coil3).2
      = (lineCoefficients coil2 coil3).2.2 := by
  rw [originDeterminant_eq] at hdet
  simp only [lineIntersection]
  constructor
  · field_simp
    ring
  · field_simp
    ring

/-- With a non-zero determinant `calibrate_Origin` stores the floors of the two
quotients. -/
theorem calibrate_Origin_floor (s : Calibration) (u : Int × Int)
    (hdet : originDeterminant (s.coilLoc 0) (s.coilLoc 1) (s.coilLoc 2) (s.coilLoc 3) ≠ 0) :
    (s.calibrate_Origin u).origin
      = ⟨⌊(lineIntersection (s.coilLoc 0) (s.coilLoc 1) (s.coilLoc 2) (s.coilLoc 3)).1⌋,
         ⌊(lineIntersection (s.coilLoc 0) (s.coilLoc 1) (s.coilLoc 2) (s.coilLoc 3)).2⌋⟩ := by
  simp only [originDeterminant] at hdet
  simp only [Calibration.calibrate_Origin, lineIntersection, lineCoefficients]
  rw [if_neg hdet, if_neg hdet]

/-- C21 as the code has it.  For four averaged coil points whose two lines are not
parallel (non-zero determinant), the two quotients computed by `calibrate_Origin` are the
coordinates of the point on both lines, and the origin stored is that point with each
coordinate rounded down to an integer: it lies less than one pixel to the left of and
above the intersection, and it satisfies the two line equations when the intersection
has integer coordinates. -/
theorem C21_origin_is_floor_of_intersection (s : Calibration) (u : Int × Int)
    (hdet : originDeterminant (s.coilLoc 0) (s.coilLoc 1) (s.coilLoc 2) (s.coilLoc 3) ≠ 0) :
    (lineCoefficients (s.coilLoc 0) (s.coilLoc 1)).1
        * (lineIntersection (s.coilLoc 0) (s.coilLoc 1) (s.coilLoc 2) (s.coilLoc 3)).1
      + (lineCoefficients (s.coilLoc 0) (s.coilLoc 1)).2.1
        * (lineIntersection (s.coilLoc 0) (s.coilLoc 1) (s.coilLoc 2) (s.coilLoc 3)).2
      = (lineCoefficients (s.coilLoc 0) (s.coilLoc 1)).2.2 ∧
    (lineCoefficients (s.coilLoc 2) (s.coilLoc 3)).1
        * (lineIntersection (s.coilLoc 0) (s.coilLoc 1) (s.coilLoc 2) (s.coilLoc 3)).1
      + (lineCoefficients (s.coilLoc 2) (s.coilLoc 3)).2.1
        * (lineIntersection (s.coilLoc 0) (s.coilLoc 1) (s.coilLoc 2) (s.coilLoc 3)).2
      = (lineCoefficients (s.coilLoc 2) (s.coilLoc 3)).2.2 ∧
    (s.calibrate_Origin u).origin
      = ⟨⌊(lineIntersection (s.coilLoc 0) (s.coilLoc 1) (s.coilLoc 2) (s.coilLoc 3)).1⌋,
         ⌊(lineIntersection (s.coilLoc 0) (s.coilLoc 1) (s.coilLoc 2) (s.coilLoc 3)).2⌋⟩ ∧
    (((s.calibrate_Origin u).origin.x : ℝ)
        ≤ (lineIntersection (s.coilLoc 0) (s.coilLoc 1) (s.coilLoc 2) (s.coilLoc 3)).1 ∧
      (lineIntersection (s.coilLoc 0) (s.coilLoc 1) (s.coilLoc 2) (s.coilLoc 3)).1
        < ((s.calibrate_Origin u).origin.x : ℝ) + 1) ∧
    (((s.calibrate_Origin u).origin.y : ℝ)
        ≤ (lineIntersection (s.coilLoc 0) (s.coilLoc 1) (s.coilLoc 2) (s.coilLoc 3)).2 ∧
      (lineIntersection (s.coilLoc 0) (s.coilLoc 1) (s.coilLoc 2) (s.coilLoc 3)).2
        < ((s.calibrate_Origin u).origin.y : ℝ) + 1) ∧
    (∀ m n : Int,
      lineIntersection (s.coilLoc 0) (s.coilLoc 1) (s.coilLoc 2) (s.coilLoc 3)
        = ((m : ℝ), (n : ℝ)) →
      (s.calibrate_Origin u).origin = ⟨m, n⟩ ∧
      (lineCoefficients (s.coilLoc 0) (s.coilLoc 1)).1 * ((s.calibrate_Origin u).origin.x : ℝ)
        + (lineCoefficients (s.coilLoc 0) (s.coilLoc 1)).2.1
          * ((s.calibrate_Origin u).origin.y : ℝ)
        = (lineCoefficients (s.coilLoc 0) (s.coilLoc 1)).2.2 ∧
      (lineCoefficients (s.coilLoc 2) (s.coilLoc 3)).1 * ((s.calibrate_Origin u).origin.x : ℝ)
        + (lineCoefficients (s.coilLoc 2) (s.coilLoc 3)).2.1
          * ((s.calibrate_Origin u).origin.y : ℝ)
        = (lineCoefficients (s.coilLoc 2) (s.coilLoc 3)).2.2) := by
  obtain ⟨h1, h2⟩ := lineIntersection_on_lines _ _ _ _ hdet
  have ho := calibrate_Origin_floor s u hdet
  refine ⟨h1, h2, ho, ?_, ?_, ?_⟩
  · rw [ho]
    exact ⟨Int.floor_le _, Int.lt_floor_add_one _⟩
  · rw [ho]
    exact ⟨Int.floor_le _, Int.lt_floor_add_one _⟩
  · intro m n hmn
    have hm : (s.calibrate_Origin u).origin = ⟨m, n⟩ := by
      rw [ho, hmn]
      simp
    rw [hmn] at h1 h2
    rw [hm]
    exact ⟨rfl, h1, h2⟩

theorem offCentre_determinant :
    originDeterminant ⟨400, 240⟩ ⟨200, 240⟩ ⟨300, 140⟩ ⟨301, 340⟩ = -40000 := by
  simp only [originDeterminant]
  norm_num

theorem offCentre_intersection :
    lineIntersection ⟨400, 240⟩ ⟨200, 240⟩ ⟨300, 140⟩ ⟨301, 340⟩ = (300.5, 240) := by
  simp only [lineIntersection, lineCoefficients]
  norm_num

theorem offCentre_floor : ⌊(300.5 : ℝ)⌋ = 300 ∧ ⌊(240 : ℝ)⌋ = 240 := by
  constructor
  · rw [Int.floor_eq_iff]
    norm_num
  · rw [Int.floor_eq_iff]
    norm_num

/-- Witness of C21 as the code has it: the plus X and minus X coils at `(400, 240)` and
`(200, 240)`, the plus Y and minus Y coils at `(300, 140)` and `(301, 340)`; the lines
meet at `(300.5, 240)` and the origin stored is `(300, 240)`. -/
theorem C21_origin_witness :
    ((calibrationWithCoils [⟨400, 240⟩, ⟨200, 240⟩, ⟨300, 140⟩, ⟨301, 340⟩]).calibrate_Origin
      (0, 0)).origin = ⟨300, 240⟩ := by
  have h := (C21_origin_is_floor_of_intersection
    (calibrationWithCoils [⟨400, 240⟩, ⟨200, 240⟩, ⟨300, 140⟩, ⟨301, 340⟩]) (0, 0)
    (by
      have e : originDeterminant
          ((calibrationWithCoils [⟨400, 240⟩, ⟨200, 240⟩, ⟨300, 140⟩, ⟨301, 340⟩]).coilLoc 0)
          ((calibrationWithCoils [⟨400, 240⟩, ⟨200, 240⟩, ⟨300, 140⟩, ⟨301, 340⟩]).coilLoc 1)
          ((calibrationWithCoils [⟨400, 240⟩, ⟨200, 240⟩, ⟨300, 140⟩, ⟨301, 340⟩]).coilLoc 2)
          ((calibrationWithCoils [⟨400, 240⟩, ⟨200, 240⟩, ⟨300, 140⟩, ⟨301, 340⟩]).coilLoc 3)
          = -40000 := offCentre_determinant
      rw [e]
      norm_num)).2.2.1
  have e : lineIntersection
      ((calibrationWithCoils [⟨400, 240⟩, ⟨200, 240⟩, ⟨300, 140⟩, ⟨301, 340⟩]).coilLoc 0)
      ((calibrationWithCoils [⟨400, 240⟩, ⟨200, 240⟩, ⟨300, 140⟩, ⟨301, 340⟩]).coilLoc 1)
      ((calibrationWithCoils [⟨400, 240⟩, ⟨200, 240⟩, ⟨300, 140⟩, ⟨301, 340⟩]).coilLoc 2)
      ((calibrationWithCoils [⟨400, 240⟩, ⟨200, 240⟩, ⟨300, 140⟩, ⟨301, 340⟩]).coilLoc 3)
      = (300.5, 240) := offCentre_intersection
  rw [h, e, offCentre_floor.1, offCentre_floor.2]

/-- Counterexample to C21 as stated.  Twenty frames, 640 by 480, show the plus X marker
at pixel `(400, 240)`, the minus X marker at `(200, 240)`, the plus Y marker at
`(300, 140)` and the minus Y marker at `(301, 340)`.  The two lines are not parallel
(the determinant is -40000) and meet at `(300.5, 240)`; the origin stored by the
calibration is `(300, 240)`, which is not on the line of the Y coils:
`a2 * 300 + b2 * 240 = 59760`, while `c2 = 59860`. -/
theorem C21_origin_off_the_Y_line :
    originDeterminant ⟨400, 240⟩ ⟨200, 240⟩ ⟨300, 140⟩ ⟨301, 340⟩ ≠ 0 ∧
    lineIntersection ⟨400, 240⟩ ⟨200, 240⟩ ⟨300, 140⟩ ⟨301, 340⟩ = (300.5, 240) ∧
    ∃ (s' : Calibration) (signals : List CalibrationSignal),
      Calibration.init.find_CoilsAruco_frames ⟨400, 240⟩ ⟨200, 240⟩ ⟨300, 140⟩ ⟨301, 340⟩
        640 480 (0, 0) 20 = Except.ok (s', signals) ∧
      s'.coilLocs = [⟨400, 240⟩, ⟨200, 240⟩, ⟨300, 140⟩, ⟨301, 340⟩] ∧
      s'.origin = ⟨300, 240⟩ ∧
      (lineCoefficients ⟨300, 140⟩ ⟨301, 340⟩).1 * ((s'.origin.x : Int) : ℝ)
        + (lineCoefficients ⟨300, 140⟩ ⟨301, 340⟩).2.1 * ((s'.origin.y : Int) : ℝ) = 59760 ∧
      (lineCoefficients ⟨300, 140⟩ ⟨301, 340⟩).2.2 = 59860 := by
  have hdet : originDeterminant ⟨400, 240⟩ ⟨200, 240⟩ ⟨300, 140⟩ ⟨301, 340⟩ ≠ 0 := by
    rw [offCentre_determinant]
    norm_num
  refine ⟨hdet, offCentre_intersection, ?_⟩
  obtain ⟨s', signals, hrun, -, -, hcoils, -, horigin, -, -, -, -⟩ :=
    find_CoilsAruco_frames_complete ⟨400, 240⟩ ⟨200, 240⟩ ⟨300, 140⟩ ⟨301, 340⟩ 640 480 (0, 0)
  have hc : ∀ k, s'.coilLoc k
      = ([⟨400, 240⟩, ⟨200, 240⟩, ⟨300, 140⟩, ⟨301, 340⟩] : List CvPoint).getD k ⟨0, 0⟩ := by
    intro k
    unfold Calibration.coilLoc
    rw [hcoils]
  have ho : s'.origin = ⟨300, 240⟩ := by
    rw [horigin, calibrate_Origin_floor s' (0, 0) (by
      rw [hc 0, hc 1, hc 2, hc 3]
      exact hdet), hc 0, hc 1, hc 2, hc 3]
    show (⟨⌊(lineIntersection ⟨400, 240⟩ ⟨200, 240⟩ ⟨300, 140⟩ ⟨301, 340⟩).1⌋,
      ⌊(lineIntersection ⟨400, 240⟩ ⟨200, 240⟩ ⟨300, 140⟩ ⟨301, 340⟩).2⌋⟩ : CvPoint) = _
    rw [offCentre_intersection, offCentre_floor.1, offCentre_floor.2]
  refine ⟨s', signals, hrun, hcoils, ho, ?_, ?_⟩
  · rw [ho]
    simp only [lineCoefficients]
    norm_num
  · simp only [lineCoefficients]
    norm_num

/-! ## The angle of the X axis (C25) -/

/-- The cosine and the sine of the angle `acos(|dx| / sqrt(dx^2 + dy^2))`: both are
non-negative, whatever the signs of `dx` and `dy`. -/
theorem angle_XAxis_cos_sin (dx dy : ℝ) (hne : dx ≠ 0 ∨ dy ≠ 0) :
    Real.cos (Real.arccos (|dx| / Real.sqrt (dx ^ 2 + dy ^ 2)))
      = |dx| / Real.sqrt (dx ^ 2 + dy ^ 2) ∧
    Real.sin (Real.arccos (|dx| / Real.sqrt (dx ^ 2 + dy ^ 2)))
      = |dy| / Real.sqrt (dx ^ 2 + dy ^ 2) := by
  have hpos : 0 < dx ^ 2 + dy ^ 2 := by
    rcases hne with h | h
    · have := sq_pos_of_ne_zero h
      nlinarith [sq_nonneg dy]
    · have := sq_pos_of_ne_zero h
      nlinarith [sq_nonneg dx]
  have hh : 0 < Real.sqrt (dx ^ 2 + dy ^ 2) := Real.sqrt_pos.mpr hpos
  have hsq : Real.sqrt (dx ^ 2 + dy ^ 2) ^ 2 = dx ^ 2 + dy ^ 2 := Real.sq_sqrt hpos.le
  have hle : |dx| ≤ Real.sqrt (dx ^ 2 + dy ^ 2) :=
    Real.abs_le_sqrt (by nlinarith [sq_nonneg dy])
  have h0 : 0 ≤ |dx| / Real.sqrt (dx ^ 2 + dy ^ 2) := div_nonneg (abs_nonneg _) hh.le
  have h1 : |dx| / Real.sqrt (dx ^ 2 + dy ^ 2) ≤ 1 := (div_le_one hh).mpr hle
  constructor
  · exact Real.cos_arccos (by linarith) h1
  · rw [Real.sin_arccos]
    have e : 1 - (|dx| / Real.sqrt (dx ^ 2 + dy ^ 2)) ^ 2
        = (|dy| / Real.sqrt (dx ^ 2 + dy ^ 2)) ^ 2 := by
      rw [div_pow, div_pow, sq_abs, sq_abs, hsq]
      field_simp
    rw [e]
    exact Real.sqrt_sq (div_nonneg (abs_nonneg _) hh.le)

/-- The image of a coil pixel under `map_ToTrueCoordinates`, when the angle is the one
that `find_CoilsAruco` computes from the same pixel: with `dx` the pixel offset to the
right of the origin and `ey` the pixel offset above it, the point is
`((dx |dx| + ey |ey|) / h, (ey |dx| - dx |ey|) / h)`. -/
theorem map_ToTrueCoordinates_of_angle (s : ImageSegmentation) (p : CvPoint)
    (hcal : s.calibrated = true) (hne : p.x ≠ s.origin.x ∨ p.y ≠ s.origin.y)
    (hangle : s.angle_XAxis = Real.arccos (((|p.x - s.origin.x| : Int) : ℝ) /
      Real.sqrt (((p.x - s.origin.x : Int) : ℝ) ^ 2 + ((p.y - s.origin.y : Int) : ℝ) ^ 2))) :
    s.map_ToTrueCoordinates (Point.ofCvPoint p)
      = (⟨(((p.x : ℝ) - s.origin.x) * |(p.x : ℝ) - s.origin.x|
            + ((s.origin.y : ℝ) - p.y) * |(s.origin.y : ℝ) - p.y|)
            / Real.sqrt (((p.x : ℝ) - s.origin.x) ^ 2 + ((s.origin.y : ℝ) - p.y) ^ 2),
          (((s.origin.y : ℝ) - p.y) * |(p.x : ℝ) - s.origin.x|
            - ((p.x : ℝ) - s.origin.x) * |(s.origin.y : ℝ) - p.y|)
            / Real.sqrt (((p.x : ℝ) - s.origin.x) ^ 2 + ((s.origin.y : ℝ) - p.y) ^ 2)⟩, []) := by
  have hne2 : ((p.x : ℝ) - s.origin.x) ≠ 0 ∨ ((s.origin.y : ℝ) - p.y) ≠ 0 := by
    rcases hne with h | h
    · left
      intro h0
      apply h
      exact_mod_cast sub_eq_zero.mp h0
    · right
      intro h0
      apply h
      exact_mod_cast (sub_eq_zero.mp h0).symm
  obtain ⟨hc, hs⟩ := angle_XAxis_cos_sin ((p.x : ℝ) - s.origin.x) ((s.origin.y : ℝ) - p.y) hne2
  have ha : s.angle_XAxis = Real.arccos (|(p.x : ℝ) - s.origin.x| /
      Real.sqrt (((p.x : ℝ) - s.origin.x) ^ 2 + ((s.origin.y : ℝ) - p.y) ^ 2)) := by
    rw [hangle]
    push_cast
    have e : ((p.y : ℝ) - s.origin.y) ^ 2 = ((s.origin.y : ℝ) - p.y) ^ 2 := by ring
    rw [e]
  simp only [ImageSegmentation.map_ToTrueCoordinates, Point.ofCvPoint, hcal, ha, hc, hs]
  rw [if_neg (by simp)]
  refine Prod.ext ?_ rfl
  show Point.mk _ _ = Point.mk _ _
  congr 1 <;> ring

/-- Favourable position of the rig: the plus X coil is to the right of the origin and
not below it in the image.  Then the plus X coil is mapped onto the positive X axis, at
its pixel distance from the origin. -/
theorem map_ToTrueCoordinates_plusX_favourable (s : ImageSegmentation) (p : CvPoint)
    (hcal : s.calibrated = true) (hne : p.x ≠ s.origin.x ∨ p.y ≠ s.origin.y)
    (hangle : s.angle_XAxis = Real.arccos (((|p.x - s.origin.x| : Int) : ℝ) /
      Real.sqrt (((p.x - s.origin.x : Int) : ℝ) ^ 2 + ((p.y - s.origin.y : Int) : ℝ) ^ 2)))
    (hx : s.origin.x ≤ p.x) (hy : p.y ≤ s.origin.y) :
    s.map_ToTrueCoordinates (Point.ofCvPoint p)
      = (⟨Real.sqrt (((p.x : ℝ) - s.origin.x) ^ 2 + ((s.origin.y : ℝ) - p.y) ^ 2), 0⟩, []) := by
  rw [map_ToTrueCoordinates_of_angle s p hcal hne hangle]
  have hx0 : (0 : ℝ) ≤ (p.x : ℝ) - s.origin.x := by
    have : (s.origin.x : ℝ) ≤ p.x := by exact_mod_cast hx
    linarith
  have hy0 : (0 : ℝ) ≤ (s.origin.y : ℝ) - p.y := by
    have : (p.y : ℝ) ≤ s.origin.y := by exact_mod_cast hy
    linarith
  have hpos : 0 < ((p.x : ℝ) - s.origin.x) ^ 2 + ((s.origin.y : ℝ) - p.y) ^ 2 := by
    rcases hne with h | h
    · have h1 : ((p.x : ℝ) - s.origin.x) ≠ 0 := by
        intro h0
        apply h
        exact_mod_cast sub_eq_zero.mp h0
      have := sq_pos_of_ne_zero h1
      nlinarith [sq_nonneg ((s.origin.y : ℝ) - p.y)]
    · have h1 : ((s.origin.y : ℝ) - p.y) ≠ 0 := by
        intro h0
        apply h
        exact_mod_cast (sub_eq_zero.mp h0).symm
      have := sq_pos_of_ne_zero h1
      nlinarith [sq_nonneg ((p.x : ℝ) - s.origin.x)]
  have hh := Real.sqrt_pos.mpr hpos
  have hsq := Real.sq_sqrt hpos.le
  rw [abs_of_nonneg hx0, abs_of_nonneg hy0]
  simp only [Prod.mk.injEq, Point.mk.injEq, and_true]
  constructor
  · rw [div_eq_iff hh.ne']
    nlinarith [hsq]
  · rw [div_eq_iff hh.ne']
    ring

/-- Twenty identical frames whose two coil lines meet at a pixel with integer
coordinates `(m, n)`: the calibration completes with that pixel as origin. -/
theorem find_CoilsAruco_frames_origin (p0 p1 p2 p3 : CvPoint) (cols rows : Int)
    (u : Int × Int) (m n : Int) (hdet : originDeterminant p0 p1 p2 p3 ≠ 0)
    (hint : lineIntersection p0 p1 p2 p3 = ((m : ℝ), (n : ℝ))) :
    ∃ (s' : Calibration) (signals : List CalibrationSignal),
      Calibration.init.find_CoilsAruco_frames p0 p1 p2 p3 cols rows u 20
        = Except.ok (s', signals) ∧
      s'.calibrated = true ∧ s'.coilLocs = [p0, p1, p2, p3] ∧ s'.origin = ⟨m, n⟩ ∧
      s'.angle_XAxis = Real.arccos (((|p0.x - m| : Int) : ℝ) /
        Real.sqrt (((p0.x - m : Int) : ℝ) ^ 2 + ((p0.y - n : Int) : ℝ) ^ 2)) := by
  obtain ⟨s', signals, hrun, hcal, -, hcoils, -, horigin, -, hangle, -, -⟩ :=
    find_CoilsAruco_frames_complete p0 p1 p2 p3 cols rows u
  have hc : ∀ k, s'.coilLoc k = ([p0, p1, p2, p3] : List CvPoint).getD k ⟨0, 0⟩ := by
    intro k
    unfold Calibration.coilLoc
    rw [hcoils]
  have ho : s'.origin = ⟨m, n⟩ := by
    rw [horigin, calibrate_Origin_floor s' u (by
      rw [hc 0, hc 1, hc 2, hc 3]
      exact hdet), hc 0, hc 1, hc 2, hc 3]
    show (⟨⌊(lineIntersection p0 p1 p2 p3).1⌋, ⌊(lineIntersection p0 p1 p2 p3).2⌋⟩ : CvPoint)
      = _
    rw [hint]
    simp
  refine ⟨s', signals, hrun, hcal, hcoils, ho, ?_⟩
  rw [hangle, ho]

theorem sqrt_62500 : Real.sqrt 62500 = 250 := by
  rw [show (62500 : ℝ) = 250 ^ 2 by norm_num]
  exact Real.sqrt_sq (by norm_num)

theorem sqrt_10000 : Real.sqrt 10000 = 100 := by
  rw [show (10000 : ℝ) = 100 ^ 2 by norm_num]
  exact Real.sqrt_sq (by norm_num)

/-- C25, where the code departs from its own comment ("consistent coordinate system
mapping regardless of the rotation of coil structure", lines 181 and 182).  The angle
`acos(|dx| / hypotenuse)` lies between 0 and a quarter turn, so the mapping is right only
for a rig whose plus X coil is to the right of the origin and not below it.

First rig, turned clockwise on the screen: plus X coil at pixel `(470, 440)`, minus X
coil at `(170, 40)`, plus Y coil at `(520, 90)`, minus Y coil at `(120, 390)`.  The
calibration over twenty frames stores the origin `(320, 240)`; the plus X coil, 250
pixels away from it, is mapped to `(-70, -240)` instead of `(250, 0)`.

Second rig, turned by half a turn: plus X coil at `(200, 240)`, minus X coil at
`(400, 240)`, plus Y coil at `(300, 340)`, minus Y coil at `(300, 140)`.  The origin is
`(300, 240)`, the angle is 0, and the plus X coil is mapped to `(-100, 0)` instead of
`(100, 0)`. -/
theorem C25_rotated_rig_plusX_off_the_axis :
    (∃ (s' : Calibration) (signals : List CalibrationSignal),
      Calibration.init.find_CoilsAruco_frames ⟨470, 440⟩ ⟨170, 40⟩ ⟨520, 90⟩ ⟨120, 390⟩
        640 480 (0, 0) 20 = Except.ok (s', signals) ∧
      s'.calibrated = true ∧ s'.origin = ⟨320, 240⟩ ∧ s'.coilLoc 0 = ⟨470, 440⟩ ∧
      s'.toImageSegmentation.map_ToTrueCoordinates (Point.ofCvPoint (s'.coilLoc 0))
        = (⟨-70, -240⟩, [])) ∧
    (∃ (s' : Calibration) (signals : List CalibrationSignal),
      Calibration.init.find_CoilsAruco_frames ⟨200, 240⟩ ⟨400, 240⟩ ⟨300, 340⟩ ⟨300, 140⟩
        640 480 (0, 0) 20 = Except.ok (s', signals) ∧
      s'.calibrated = true ∧ s'.origin = ⟨300, 240⟩ ∧ s'.coilLoc 0 = ⟨200, 240⟩ ∧
      s'.angle_XAxis = 0 ∧
      s'.toImageSegmentation.map_ToTrueCoordinates (Point.ofCvPoint (s'.coilLoc 0))
        = (⟨-100, 0⟩, [])) := by
  constructor
  · obtain ⟨s', signals, hrun, hcal, hcoils, ho, hangle⟩ :=
      find_CoilsAruco_frames_origin ⟨470, 440⟩ ⟨170, 40⟩ ⟨520, 90⟩ ⟨120, 390⟩ 640 480 (0, 0)
        320 240
        (by
          simp only [originDeterminant]
          norm_num)
        (by
          simp only [lineIntersection, lineCoefficients]
          norm_num)
    have hc0 : s'.coilLoc 0 = ⟨470, 440⟩ := by
      unfold Calibration.coilLoc
      rw [hcoils]
      rfl
    refine ⟨s', signals, hrun, hcal, ho, hc0, ?_⟩
    rw [hc0, map_ToTrueCoordinates_of_angle s'.toImageSegmentation ⟨470, 440⟩ hcal
      (by
        left
        rw [ho]
        decide)
      (by
        rw [hangle, ho])]
    rw [ho]
    refine Prod.ext ?_ rfl
    show Point.mk _ _ = Point.mk _ _
    have e : (((470 : Int) : ℝ) - ((320 : Int) : ℝ)) ^ 2
        + (((240 : Int) : ℝ) - ((440 : Int) : ℝ)) ^ 2 = 62500 := by norm_num
    have a1 : |((470 : Int) : ℝ) - ((320 : Int) : ℝ)| = 150 := by
      rw [abs_of_nonneg (by norm_num)]
      norm_num
    have a2 : |((240 : Int) : ℝ) - ((440 : Int) : ℝ)| = 200 := by
      rw [abs_of_nonpos (by norm_num)]
      norm_num
    rw [e, a1, a2, sqrt_62500]
    congr 1 <;> norm_num
  · obtain ⟨s', signals, hrun, hcal, hcoils, ho, hangle⟩ :=
      find_CoilsAruco_frames_origin ⟨200, 240⟩ ⟨400, 240⟩ ⟨300, 340⟩ ⟨300, 140⟩ 640 480 (0, 0)
        300 240
        (by
          simp only [originDeterminant]
          norm_num)
        (by
          simp only [lineIntersection, lineCoefficients]
          norm_num)
    have hc0 : s'.coilLoc 0 = ⟨200, 240⟩ := by
      unfold Calibration.coilLoc
      rw [hcoils]
      rfl
    have hzero : s'.angle_XAxis = 0 := by
      rw [hangle]
      have e : (((200 - 300 : Int) : Int) : ℝ) ^ 2 + (((240 - 240 : Int) : Int) : ℝ) ^ 2
          = 10000 := by norm_num
      have a : (((|200 - 300| : Int) : Int) : ℝ) = 100 := by norm_num
      rw [e, a, sqrt_10000, div_self (by norm_num), Real.arccos_one]
    refine ⟨s', signals, hrun, hcal, ho, hc0, hzero, ?_⟩
    rw [hc0]
    simp only [ImageSegmentation.map_ToTrueCoordinates, Point.ofCvPoint]
    rw [if_neg (by simp [hcal]), hzero, ho]
    refine Prod.ext ?_ rfl
    show Point.mk _ _ = Point.mk _ _
    congr 1
    · simp
      norm_num
    · simp

/-! ## The detection of the particle (C26) -/

/-- No contour within the size bounds has a larger box than the current one: the loop
keeps the current box. -/
theorem particleBoxLoop_keep (boundingRect : List CvPoint → CvRect) (lo hi : Int)
    (contours : List (List CvPoint)) (b : CvRect)
    (h : ∀ d ∈ contours, (lo < (d.length : Int) ∧ (d.length : Int) < hi) →
      (boundingRect d).area ≤ b.area) :
    particleBoxLoop boundingRect lo hi contours b = b := by
  induction contours with
  | nil => rfl
  | cons c cs ih =>
    have ihc := ih (fun d hd => h d (List.mem_cons_of_mem _ hd))
    simp only [particleBoxLoop]
    by_cases hq : (c.length : Int) > lo ∧ (c.length : Int) < hi
    · rw [if_pos hq]
      have hle := h c (List.mem_cons_self _ _) ⟨hq.1, hq.2⟩
      rw [if_neg (by omega)]
      exact ihc
    · rw [if_neg hq]
      exact ihc

/-- The loop selects the first contour with the largest box among the contours within
the size bounds, when that box is larger than the starting one. -/
theorem particleBoxLoop_first_largest (boundingRect : List CvPoint → CvRect) (lo hi : Int)
    (pre : List (List CvPoint)) (c : List CvPoint) (post : List (List CvPoint))
    (hq : lo < (c.length : Int) ∧ (c.length : Int) < hi)
    (hpre : ∀ d ∈ pre, (lo < (d.length : Int) ∧ (d.length : Int) < hi) →
      (boundingRect d).area < (boundingRect c).area)
    (hpost : ∀ d ∈ post, (lo < (d.length : Int) ∧ (d.length : Int) < hi) →
      (boundingRect d).area ≤ (boundingRect c).area) :
    ∀ b : CvRect, b.area < (boundingRect c).area →
      particleBoxLoop boundingRect lo hi (pre ++ c :: post) b = boundingRect c := by
  induction pre with
  | nil =>
    intro b hb
    simp only [List.nil_append, particleBoxLoop]
    rw [if_pos ⟨hq.1, hq.2⟩, if_pos hb]
    exact particleBoxLoop_keep boundingRect lo hi post _ hpost
  | cons d ds ih =>
    intro b hb
    have ihd := ih (fun e he => hpre e (List.mem_cons_of_mem _ he))
    simp only [List.cons_append, particleBoxLoop]
    by_cases hqd : (d.length : Int) > lo ∧ (d.length : Int) < hi
    · rw [if_pos hqd]
      by_cases hgt : (boundingRect d).area > b.area
      · rw [if_pos hgt]
        exact ihd _ (hpre d (List.mem_cons_self _ _) ⟨hqd.1, hqd.2⟩)
      · rw [if_neg hgt]
        exact ihd b hb
    · rw [if_neg hqd]
      exact ihd b hb

/-- What the loop returns: the starting box, when no contour within the size bounds has
a larger box, and otherwise the box of the first contour with the largest box among the
contours within the size bounds. -/
theorem particleBoxLoop_spec (boundingRect : List CvPoint → CvRect) (lo hi : Int)
    (contours : List (List CvPoint)) :
    ∀ b : CvRect,
      (particleBoxLoop boundingRect lo hi contours b = b ∧
        ∀ d ∈ contours, (lo < (d.length : Int) ∧ (d.length : Int) < hi) →
          (boundingRect d).area ≤ b.area) ∨
      (∃ (pre : List (List CvPoint)) (c : List CvPoint) (post : List (List CvPoint)),
        contours = pre ++ c :: post ∧
        (lo < (c.length : Int) ∧ (c.length : Int) < hi) ∧
        b.area < (boundingRect c).area ∧
        (∀ d ∈ pre, (lo < (d.length : Int) ∧ (d.length : Int) < hi) →
          (boundingRect d).area < (boundingRect c).area) ∧
        (∀ d ∈ post, (lo < (d.length : Int) ∧ (d.length : Int) < hi) →
          (boundingRect d).area ≤ (boundingRect c).area)) := by
  induction contours with
  | nil =>
    intro b
    left
    exact ⟨rfl, fun d hd => absurd hd (List.not_mem_nil d)⟩
  | cons c cs ih =>
    intro b
    by_cases hq : lo < (c.length : Int) ∧ (c.length : Int) < hi
    · by_cases hgt : b.area < (boundingRect c).area
      · rcases ih (boundingRect c) with ⟨-, hall⟩ | ⟨pre, e, post, hsplit, hqe, hlt, hpre, hpost⟩
        · right
          exact ⟨[], c, cs, rfl, hq, hgt,
            fun d hd => absurd hd (List.not_mem_nil d), hall⟩
        · right
          refine ⟨c :: pre, e, post, by rw [hsplit]; rfl, hqe, by omega, ?_, hpost⟩
          intro d hd hqd
          rcases List.mem_cons.mp hd with rfl | hd
          · exact hlt
          · exact hpre d hd hqd
      · rcases ih b with ⟨hkeep, hall⟩ | ⟨pre, e, post, hsplit, hqe, hlt, hpre, hpost⟩
        · left
          refine ⟨?_, ?_⟩
          · simp only [particleBoxLoop]
            rw [if_pos ⟨hq.1, hq.2⟩, if_neg (by omega)]
            exact hkeep
          · intro d hd hqd
            rcases List.mem_cons.mp hd with rfl | hd
            · omega
            · exact hall d hd hqd
        · right
          refine ⟨c :: pre, e, post, by rw [hsplit]; rfl, hqe, hlt, ?_, hpost⟩
          intro d hd hqd
          rcases List.mem_cons.mp hd with rfl | hd
          · omega
          · exact hpre d hd hqd
    · rcases ih b with ⟨hkeep, hall⟩ | ⟨pre, e, post, hsplit, hqe, hlt, hpre, hpost⟩
      · left
        refine ⟨?_, ?_⟩
        · simp only [particleBoxLoop]
          rw [if_neg (by
            intro h
            exact hq ⟨h.1, h.2⟩)]
          exact hkeep
        · intro d hd hqd
          rcases List.mem_cons.mp hd with rfl | hd
          · exact absurd hqd hq
          · exact hall d hd hqd
      · right
        refine ⟨c :: pre, e, post, by rw [hsplit]; rfl, hqe, hlt, ?_, hpost⟩
        intro d hd hqd
        rcases List.mem_cons.mp hd with rfl | hd
        · exact absurd hqd hq
        · exact hpre d hd hqd

/-- Line 296 on a box of non-negative width and height: the box moved by the top left
corner of the operating area. -/
theorem ofCorners_shift (box roi : CvRect) (hw : 0 ≤ box.width) (hh : 0 ≤ box.height) :
    CvRect.ofCorners (box.tl.add roi.tl) (box.br.add roi.tl)
      = ⟨box.x + roi.x, box.y + roi.y, box.width, box.height⟩ := by
  simp only [CvRect.ofCorners, CvRect.tl, CvRect.br, CvPoint.add]
  have h1 : min (box.x + roi.x) (box.x + box.width + roi.x) = box.x + roi.x := by
    rw [min_eq_left (by omega)]
  have h2 : max (box.x + roi.x) (box.x + box.width + roi.x) = box.x + box.width + roi.x := by
    rw [max_eq_right (by omega)]
  have h3 : min (box.y + roi.y) (box.y + box.height + roi.y) = box.y + roi.y := by
    rw [min_eq_left (by omega)]
  have h4 : max (box.y + roi.y) (box.y + box.height + roi.y)
      = box.y + box.height + roi.y := by
    rw [max_eq_right (by omega)]
  rw [h1, h2, h3, h4]
  congr 1 <;> omega

/-- The location after `detect_Particle` on a non-empty clean image and a non-empty
frame, and the members it leaves alone. -/
theorem detect_Particle_location (s : ParticleDetection)
    (boundingRect : List CvPoint → CvRect) (cleanCrop_empty : Bool)
    (contours : List (List CvPoint)) (hclean : s.cleanImage_empty = false) :
    (s.detect_Particle boundingRect false cleanCrop_empty contours).1.currentParticleLoc_Pixel
      = (if (CvRect.ofCorners
            ((particleBoxLoop boundingRect s.particleSizeMin s.particleSizeMax contours
              ⟨0, 0, 0, 0⟩).tl.add s.boundingROI.tl)
            ((particleBoxLoop boundingRect s.particleSizeMin s.particleSizeMax contours
              ⟨0, 0, 0, 0⟩).br.add s.boundingROI.tl)).area ≠ 0
        then
          ⟨(CvRect.ofCorners
              ((particleBoxLoop boundingRect s.particleSizeMin s.particleSizeMax contours
                ⟨0, 0, 0, 0⟩).tl.add s.boundingROI.tl)
              ((particleBoxLoop boundingRect s.particleSizeMin s.particleSizeMax contours
                ⟨0, 0, 0, 0⟩).br.add s.boundingROI.tl)).x
            + Int.tdiv (CvRect.ofCorners
              ((particleBoxLoop boundingRect s.particleSizeMin s.particleSizeMax contours
                ⟨0, 0, 0, 0⟩).tl.add s.boundingROI.tl)
              ((particleBoxLoop boundingRect s.particleSizeMin s.particleSizeMax contours
                ⟨0, 0, 0, 0⟩).br.add s.boundingROI.tl)).width 2,
           (CvRect.ofCorners
              ((particleBoxLoop boundingRect s.particleSizeMin s.particleSizeMax contours
                ⟨0, 0, 0, 0⟩).tl.add s.boundingROI.tl)
              ((particleBoxLoop boundingRect s.particleSizeMin s.particleSizeMax contours
                ⟨0, 0, 0, 0⟩).br.add s.boundingROI.tl)).y
            + Int.tdiv (CvRect.ofCorners
              ((particleBoxLoop boundingRect s.particleSizeMin s.particleSizeMax contours
                ⟨0, 0, 0, 0⟩).tl.add s.boundingROI.tl)
              ((particleBoxLoop boundingRect s.particleSizeMin s.particleSizeMax contours
                ⟨0, 0, 0, 0⟩).br.add s.boundingROI.tl)).height 2⟩
        else s.currentParticleLoc_Pixel) ∧
    (s.detect_Particle boundingRect false cleanCrop_empty contours).1.particleSizeMin
      = s.particleSizeMin ∧
    (s.detect_Particle boundingRect false cleanCrop_empty contours).1.particleSizeMax
      = s.particleSizeMax ∧
    (s.detect_Particle boundingRect false cleanCrop_empty contours).1.boundingROI
      = s.boundingROI ∧
    (s.detect_Particle boundingRect false cleanCrop_empty contours).1.cleanImage_empty
      = false ∧
    (s.detect_Particle boundingRect false cleanCrop_empty contours).2 = [] := by
  unfold ParticleDetection.detect_Particle
  simp only [hclean, Bool.or_false, Bool.false_eq_true, if_false]
  by_cases hsub : s.cleanSubImage_empty = true
  · simp only [hsub, if_true]
    split_ifs <;> simp [hclean]
  · simp only [hsub, Bool.false_eq_true, if_false]
    split_ifs <;> simp [hclean]

/-- C26 as the code has it.  On a non-empty clean image and a non-empty frame, with
bounding boxes of positive width and height, `detect_Particle` looks only at the
contours whose number of points is strictly between `particleSizeMin` and
`particleSizeMax` (both bounds excluded).  Whenever a contour `c` is within these bounds,
every earlier contour within the bounds has a strictly smaller bounding-box area and
every later one an area that is not larger, the location reported is the centre of the
bounding box of `c` in frame coordinates: its top left corner moved by the top left
corner of the operating area, plus half the width and half the height, rounded down.
Such a contour exists as soon as one contour is within the bounds.  When no contour is
within the bounds the location is unchanged, and a second call on the same contours
reports the same location as the first. -/
theorem C26_detect_Particle_first_largest_strictly_within_bounds (s : ParticleDetection)
    (boundingRect : List CvPoint → CvRect) (cleanCrop_empty : Bool)
    (contours : List (List CvPoint)) (hclean : s.cleanImage_empty = false)
    (hbox : ∀ c ∈ contours, 0 < (boundingRect c).width ∧ 0 < (boundingRect c).height) :
    (∀ (pre : List (List CvPoint)) (c : List CvPoint) (post : List (List CvPoint)),
      contours = pre ++ c :: post →
      (s.particleSizeMin < (c.length : Int) ∧ (c.length : Int) < s.particleSizeMax) →
      (∀ d ∈ pre, (s.particleSizeMin < (d.length : Int) ∧ (d.length : Int) < s.particleSizeMax) →
        (boundingRect d).area < (boundingRect c).area) →
      (∀ d ∈ post, (s.particleSizeMin < (d.length : Int) ∧ (d.length : Int) < s.particleSizeMax) →
        (boundingRect d).area ≤ (boundingRect c).area) →
      (s.detect_Particle boundingRect false cleanCrop_empty contours).1.currentParticleLoc_Pixel
        = ⟨(boundingRect c).x + s.boundingROI.x + Int.tdiv (boundingRect c).width 2,
           (boundingRect c).y + s.boundingROI.y + Int.tdiv (boundingRect c).height 2⟩) ∧
    ((∃ c ∈ contours, s.particleSizeMin < (c.length : Int) ∧ (c.length : Int) < s.particleSizeMax) →
      ∃ (pre : List (List CvPoint)) (c : List CvPoint) (post : List (List CvPoint)),
        contours = pre ++ c :: post ∧
        (s.particleSizeMin < (c.length : Int) ∧ (c.length : Int) < s.particleSizeMax) ∧
        (∀ d ∈ pre,
          (s.particleSizeMin < (d.length : Int) ∧ (d.length : Int) < s.particleSizeMax) →
          (boundingRect d).area < (boundingRect c).area) ∧
        (∀ d ∈ post,
          (s.particleSizeMin < (d.length : Int) ∧ (d.length : Int) < s.particleSizeMax) →
          (boundingRect d).area ≤ (boundingRect c).area)) ∧
    ((∀ c ∈ contours,
        ¬ (s.particleSizeMin < (c.length : Int) ∧ (c.length : Int) < s.particleSizeMax)) →
      (s.detect_Particle boundingRect false cleanCrop_empty contours).1.currentParticleLoc_Pixel
        = s.currentParticleLoc_Pixel) ∧
    (∀ cleanCrop_empty2 : Bool,
      ((s.detect_Particle boundingRect false cleanCrop_empty contours).1.detect_Particle
          boundingRect false cleanCrop_empty2 contours).1.currentParticleLoc_Pixel
        = (s.detect_Particle boundingRect false cleanCrop_empty
            contours).1.currentParticleLoc_Pixel) := by
  obtain ⟨hloc, hmin, hmax, hroi, hcl, -⟩ :=
    detect_Particle_location s boundingRect cleanCrop_empty contours hclean
  have harea : ∀ c ∈ contours, 0 < (boundingRect c).area := by
    intro c hc
    exact mul_pos (hbox c hc).1 (hbox c hc).2
  refine ⟨?_, ?_, ?_, ?_⟩
  · intro pre c post hsplit hq hpre hpost
    have hc : c ∈ contours := by
      rw [hsplit]
      simp
    have hloop := particleBoxLoop_first_largest boundingRect s.particleSizeMin
      s.particleSizeMax pre c post hq hpre hpost ⟨0, 0, 0, 0⟩ (by
        have h0 : (⟨0, 0, 0, 0⟩ : CvRect).area = 0 := rfl
        rw [h0]
        exact harea c hc)
    rw [← hsplit] at hloop
    rw [hloc, hloop,
      ofCorners_shift (boundingRect c) s.boundingROI (hbox c hc).1.le (hbox c hc).2.le]
    have hne : (⟨(boundingRect c).x + s.boundingROI.x, (boundingRect c).y + s.boundingROI.y,
        (boundingRect c).width, (boundingRect c).height⟩ : CvRect).area ≠ 0 := by
      have := harea c hc
      show (boundingRect c).width * (boundingRect c).height ≠ 0
      unfold CvRect.area at this
      omega
    rw [if_pos hne]
  · rintro ⟨c, hc, hq⟩
    rcases particleBoxLoop_spec boundingRect s.particleSizeMin s.particleSizeMax contours
      ⟨0, 0, 0, 0⟩ with ⟨-, hall⟩ | ⟨pre, e, post, hsplit, hqe, -, hpre, hpost⟩
    · have h1 := hall c hc hq
      have h2 := harea c hc
      have h0 : (⟨0, 0, 0, 0⟩ : CvRect).area = 0 := rfl
      rw [h0] at h1
      omega
    · exact ⟨pre, e, post, hsplit, hqe, hpre, hpost⟩
  · intro hnone
    have hloop := particleBoxLoop_keep boundingRect s.particleSizeMin s.particleSizeMax
      contours ⟨0, 0, 0, 0⟩ (fun d hd hq => absurd hq (hnone d hd))
    rw [hloc, hloop, ofCorners_shift ⟨0, 0, 0, 0⟩ s.boundingROI (le_refl _) (le_refl _)]
    rw [if_neg (by
      intro h
      apply h
      simp [CvRect.area])]
  · intro crop2
    obtain ⟨hloc2, -, -, -, -, -⟩ :=
      detect_Particle_location
        (s.detect_Particle boundingRect false cleanCrop_empty contours).1 boundingRect crop2
        contours hcl
    rw [hloc2, hmin, hmax, hroi]
    split_ifs with hA
    · rw [hloc, if_pos hA]
    · rfl

theorem uprightBoundingRect_squareContour :
    uprightBoundingRect squareContour = ⟨10, 10, 6, 6⟩ := by
  rfl

/-- Witness of C26 as the code has it: the size bounds 19 and 21, the operating area at
`(100, 100)`, and one contour of 20 points with the bounding box `(10, 10, 6, 6)`; the
location reported is `(113, 113)`. -/
theorem C26_detect_Particle_witness :
    ((readyDetection.receive_ParticleDetectionParams 70 19 21).detect_Particle
      uprightBoundingRect false false [squareContour]).1.currentParticleLoc_Pixel
      = ⟨113, 113⟩ :=
  (C26_detect_Particle_first_largest_strictly_within_bounds
    (readyDetection.receive_ParticleDetectionParams 70 19 21) uprightBoundingRect false
    [squareContour] rfl
    (by
      intro c hc
      rw [List.mem_singleton.mp hc, uprightBoundingRect_squareContour]
      exact ⟨by decide, by decide⟩)).1
    [] squareContour [] rfl ⟨by decide, by decide⟩
    (fun d hd => absurd hd (List.not_mem_nil d))
    (fun d hd => absurd hd (List.not_mem_nil d))

/-- Counterexample to C26 as stated.  The object is as constructed (`particleSizeMin` is
20, `particleSizeMax` is 100, the location is `(-1, -1)`), with a clean image and the
operating area `(100, 100, 200, 200)`.  The frame has one contour, of exactly 20 points,
with the bounding box `(10, 10, 6, 6)`.  Its size is within `[20, 100]`, yet
`detect_Particle` does not report the centre `(113, 113)` of its box: the location stays
`(-1, -1)`.  The same happens at the upper bound, after
`receive_ParticleDetectionParams(70, 10, 20)`. -/
theorem C26_contour_size_on_a_bound_is_skipped :
    squareContour.length = 20 ∧
    readyDetection.particleSizeMin = 20 ∧ readyDetection.particleSizeMax = 100 ∧
    readyDetection.cleanImage_empty = false ∧
    readyDetection.boundingROI = ⟨100, 100, 200, 200⟩ ∧
    readyDetection.currentParticleLoc_Pixel = ⟨-1, -1⟩ ∧
    uprightBoundingRect squareContour = ⟨10, 10, 6, 6⟩ ∧
    (readyDetection.detect_Particle uprightBoundingRect false false
      [squareContour]).1.currentParticleLoc_Pixel = ⟨-1, -1⟩ ∧
    (readyDetection.detect_Particle uprightBoundingRect false false [squareContour]).2 = [] ∧
    (readyDetection.receive_ParticleDetectionParams 70 10 20).particleSizeMax = 20 ∧
    ((readyDetection.receive_ParticleDetectionParams 70 10 20).detect_Particle
      uprightBoundingRect false false [squareContour]).1.currentParticleLoc_Pixel
      = ⟨-1, -1⟩ := by
  refine ⟨rfl, rfl, rfl, rfl, rfl, rfl, rfl, ?_, ?_, rfl, ?_⟩
  · exact ((detect_Particle_location readyDetection uprightBoundingRect false
      [squareContour] rfl).1).trans rfl
  · exact (detect_Particle_location readyDetection uprightBoundingRect false
      [squareContour] rfl).2.2.2.2.2
  · exact ((detect_Particle_location (readyDetection.receive_ParticleDetectionParams 70 10 20)
      uprightBoundingRect false [squareContour] rfl).1).trans rfl

end

end MagnetoSuture
